import Mathlib

/-!
# The ONNX graph serializer of `torch/csrc/jit/serialization/export.cpp`

A shallow embedding of the graph validator (`validateBlock`, `validateGraph`),
the scalar-type mappers (`ATenTypeToOnnxType`, `ONNXTypeToATenType`), the
tensor encoder (`GraphEncoder::EncodeTensor` with its helpers), the encoder of
value types (`EncodeValueInfoType`, `EncodeValueInfo`), the encoder of graphs,
blocks, nodes, attributes and local functions (`EncodeGraph`, `EncodeBlock`,
`EncodeNode`, `AddAttribute`, `EncodeLocalFunction`), the constructor of
`GraphEncoder` and the entry point `export_onnx`, with the scalar-type mapper
of `torch/csrc/jit/passes/onnx/helper.cpp`, followed by the theorems that
settle the specification's statements about them.

Conventions of the embedding:

* C++ exceptions are values of `Failure`; a function that can throw returns
  `Except Failure _`.
* Mutable objects are passed in and returned explicitly (the graph for the
  validator; the encoder members, the records being filled and the file system
  for the encoders).
* Byte strings holding binary data are lists of natural numbers below 256.
* Tensor extents are natural numbers: they are non-negative `int64_t` values
  whose product is the element count of a tensor that exists in memory, so no
  arithmetic on them wraps.
* The counters of the encoder (`num_blocks_`, `num_op_nodes_`,
  `num_external_data_`) are natural numbers: each counts records that the
  session holds in memory, so no `size_t` arithmetic on them wraps.
* A pointer comparison of the source is a comparison of the objects pointed at,
  or, for the graph that owns a node, a flag that the caller passes down.
* A `double` and a `float` are the bits of their IEEE 754 encodings; the
  conversion from `double` to `float` rounds to nearest, ties to even, which is
  the rounding of the default floating-point environment.
-/

namespace TorchJit

/-! ## Failures -/

/-- The ways in which the embedded code aborts. -/
inductive Failure where
  /-- A `throw std::runtime_error(what)`. -/
  | runtime_error (what : String)
  /-- A failed `TORCH_CHECK` or an `AT_ERROR`, with its message. -/
  | torch_check (msg : String)
  /-- A failed `AT_ASSERT`, with the text of the asserted expression. -/
  | at_assert (cond : String)
  /-- An `IRAttributeError` of an attribute accessor of a node (`Node::g`,
  `Node::s`, `Node::ss`, defined outside the sources): the node has no
  attribute of that name, or one of another kind. -/
  | ir_attribute_error (name : String)
deriving DecidableEq, Repr

/-- Whether a computation threw. -/
def threw {α : Type} : Except Failure α → Bool
  | .error _ => true
  | .ok _ => false

/-! ## Symbols, export policies, scalar types -/

/-- Modelled from the spec: the namespace part of a qualified operator
identifier (`c10::Symbol`, whose header is not among the sources). The five
namespaces the sources test for are listed; `custom` is any other one. -/
inductive Namespace where
  | aten
  | prim
  | onnx
  | attr
  | caffe2
  | custom (name : String)
deriving DecidableEq, Repr

/-- Modelled from the spec: a qualified operator identifier, namespace plus
unqualified name (`c10::Symbol`). -/
structure Symbol where
  ns : Namespace
  unqual : String
deriving DecidableEq, Repr

/-- The unqualified name of a namespace symbol. -/
def Namespace.toUnqualString : Namespace → String
  | .aten => "aten"
  | .prim => "prim"
  | .onnx => "onnx"
  | .attr => "attr"
  | .caffe2 => "_caffe2"
  | .custom name => name

namespace Symbol

def is_aten (s : Symbol) : Bool := s.ns = Namespace.aten
def is_prim (s : Symbol) : Bool := s.ns = Namespace.prim
def is_onnx (s : Symbol) : Bool := s.ns = Namespace.onnx
def is_attr (s : Symbol) : Bool := s.ns = Namespace.attr
def is_caffe2 (s : Symbol) : Bool := s.ns = Namespace.caffe2

def toUnqualString (s : Symbol) : String := s.unqual

/-- The qualified string `ns::name`. -/
def toQualString (s : Symbol) : String := s.ns.toUnqualString ++ "::" ++ s.unqual

/-- The display string of a symbol is its qualified string. -/
def toDisplayString (s : Symbol) : String := s.toQualString

/-- Modelled from the spec: the domain string `Symbol::domainString()` (defined
outside the sources), the prefix `org.pytorch.` followed by the name of the
namespace. -/
def domainString (s : Symbol) : String := "org.pytorch." ++ s.ns.toUnqualString

end Symbol

/-- The symbol `prim::PythonOp`. -/
def prim_PythonOp : Symbol := ⟨.prim, "PythonOp"⟩
/-- The symbol `prim::PackPadded`. -/
def prim_PackPadded : Symbol := ⟨.prim, "PackPadded"⟩
/-- The symbol `prim::PadPacked`. -/
def prim_PadPacked : Symbol := ⟨.prim, "PadPacked"⟩
/-- The symbol `aten::expand`. -/
def aten_expand : Symbol := ⟨.aten, "expand"⟩
/-- The symbol `onnx::ATen`. -/
def onnx_ATen : Symbol := ⟨.onnx, "ATen"⟩
/-- The symbol `onnx::Loop`. -/
def onnx_Loop : Symbol := ⟨.onnx, "Loop"⟩
/-- The symbol `onnx::If`. -/
def onnx_If : Symbol := ⟨.onnx, "If"⟩
/-- The symbol `onnx::LocalFunctionDef`. -/
def onnx_LocalFunctionDef : Symbol := ⟨.onnx, "LocalFunctionDef"⟩
/-- The symbol `attr::operator`. -/
def attr_operator : Symbol := ⟨.attr, "operator"⟩
/-- The symbol `attr::graph`. -/
def attr_graph : Symbol := ⟨.attr, "graph"⟩

/-- The export policy `onnx_torch::OperatorExportTypes`. Its declaration is not
among the sources: the four enumerators the sources name are listed, and
`other` stands for any further enumerator. -/
inductive OperatorExportTypes where
  | ONNX
  | ONNX_ATEN
  | ONNX_ATEN_FALLBACK
  | ONNX_FALLTHROUGH
  | other (tag : Nat)
deriving DecidableEq, Repr

/-- The element types `at::ScalarType`. Its declaration is not among the
sources: the enumerators the sources name are listed, and `other` stands for any
further enumerator. -/
inductive ScalarType where
  | Double
  | Float
  | Half
  | Byte
  | Char
  | Short
  | Int
  | Long
  | Bool
  | QInt8
  | QUInt8
  | QInt32
  | Undefined
  | ComplexFloat
  | ComplexDouble
  | BFloat16
  | other (tag : Nat)
deriving DecidableEq, Repr

/-- The external data-type codes `onnx::TensorProto_DataType` that the sources
name. -/
inductive TensorProto_DataType where
  | UNDEFINED
  | FLOAT
  | UINT8
  | INT8
  | INT16
  | INT32
  | INT64
  | BOOL
  | FLOAT16
  | DOUBLE
  | COMPLEX64
  | COMPLEX128
  | BFLOAT16
deriving DecidableEq, Repr

/-- The numeric value of an external data-type code, as fixed by the ONNX
protocol-buffer schema (a third-party constant table). -/
def TensorProto_DataType.toInt : TensorProto_DataType → Int
  | .UNDEFINED => 0
  | .FLOAT => 1
  | .UINT8 => 2
  | .INT8 => 3
  | .INT16 => 5
  | .INT32 => 6
  | .INT64 => 7
  | .BOOL => 9
  | .FLOAT16 => 10
  | .DOUBLE => 11
  | .COMPLEX64 => 14
  | .COMPLEX128 => 15
  | .BFLOAT16 => 16

/-- The data location of a tensor record, `onnx::TensorProto_DataLocation`. -/
inductive TensorProto_DataLocation where
  | DEFAULT
  | EXTERNAL
deriving DecidableEq, Repr

/-! ## Tensors -/

/-- A tensor payload. `bytes k` is byte `k` of the elements laid out
contiguously in row-major order, that is, what `data_ptr()` of the tensor's
contiguous copy points at; `element_size` is what `element_size()` returns. -/
structure Tensor where
  sizes : List Nat
  scalar_type : ScalarType
  element_size : Nat
  is_quantized : Bool := false
  is_contiguous : Bool := true
  is_cpu : Bool := true
  bytes : Nat → Nat := fun _ => 0

/-- The product of a range of integers, `c10::multiply_integers`. -/
def multiply_integers (xs : List Nat) : Nat := xs.foldl (fun acc x => acc * x) 1

namespace Tensor

/-- The element count of a tensor. -/
def numel (t : Tensor) : Nat := multiply_integers t.sizes

/-- The contiguous copy of a tensor: same elements, contiguous layout. -/
def contiguous (t : Tensor) : Tensor := { t with is_contiguous := true }

/-- The host-resident copy of a tensor. -/
def cpu (t : Tensor) : Tensor := { t with is_cpu := true }

/-- The first `n` bytes at `data_ptr()`, as `std::string(data_ptr, n)` reads
them. -/
def data_ptr (t : Tensor) (n : Nat) : List Nat := (List.range n).map t.bytes

end Tensor

/-! ## Floating-point values -/

/-- A `double`: the 64 bits of its IEEE 754 binary64 encoding, the sign bit
first, then 11 bits of biased exponent and 52 bits of fraction, read as a
number below `2^64`. -/
structure Float64 where
  bits : Nat
deriving DecidableEq, Repr

/-- A `float`: the 32 bits of its IEEE 754 binary32 encoding, the sign bit
first, then 8 bits of biased exponent and 23 bits of fraction, read as a number
below `2^32`. -/
structure Float32 where
  bits : Nat
deriving DecidableEq, Repr

/-- The quotient of `m` by `2^shift`, rounded to the nearest integer, a tie
going to the even one. -/
def roundNearestEven (m shift : Nat) : Nat :=
  let q := m / 2 ^ shift
  let r := m % 2 ^ shift
  let half := 2 ^ (shift - 1)
  if r > half || (r == half && q % 2 == 1) then q + 1 else q

/-- The conversion of a `double` to `float`, which a call such as
`set_f(node->f(name))` applies to its argument (the parameter is a `float`, the
argument a `double`): the nearest `float`, a tie going to the one with an even
fraction; infinity from `2^128 - 2^103` on; a quiet NaN for a NaN. A finite
`double` is `m * 2^(x - 1075)` with `m` below `2^53`; the `float` keeps 24 bits
of `m` where it is normal, and its exponent and fraction are written as one
number, so that a fraction that rounds up to `2^24` carries into the exponent. -/
def Float64.toFloat32 (d : Float64) : Float32 :=
  let sign := d.bits / 2 ^ 63 % 2
  let e := d.bits / 2 ^ 52 % 2048
  let f := d.bits % 2 ^ 52
  let magnitude :=
    if e = 2047 then
      if f = 0 then 255 * 2 ^ 23
      else
        let payload := f / 2 ^ 29
        255 * 2 ^ 23 + (if payload / 2 ^ 22 % 2 = 1 then payload else payload + 2 ^ 22)
    else
      let m := if e = 0 then f else 2 ^ 52 + f
      let x := if e = 0 then 1 else e
      let q := x - 897
      let r := q * 2 ^ 23 + roundNearestEven m (q + 926 - x)
      if r ≥ 255 * 2 ^ 23 then 255 * 2 ^ 23 else r
  { bits := sign * 2 ^ 31 + magnitude }

/-! ## Graphs -/

/-- The symbol `prim::Param`, the kind of the node whose outputs are the inputs
of a block. -/
def prim_Param : Symbol := ⟨.prim, "Param"⟩

/-- Modelled from the spec: one extent of a tensor type, `c10::ShapeSymbol`
(defined outside the sources): either a known constant, for which `is_static()`
holds and `static_size()` is the constant, or a symbolic dimension with its
identity. -/
inductive ShapeSymbol where
  | static (size : Nat)
  | symbolic (id : Nat)
deriving DecidableEq, Repr

namespace ShapeSymbol

def is_static : ShapeSymbol → Bool
  | .static _ => true
  | .symbolic _ => false

def static_size : ShapeSymbol → Nat
  | .static size => size
  | .symbolic _ => 0

end ShapeSymbol

/-- Modelled from the spec: the static type annotation of a value (the type
classes are defined outside the sources). A tensor type has an optional list of
extents (present when `dim()` is, one per axis) and an optional element type;
`other` is any type that `EncodeValueInfoType` casts to none of its five
cases. -/
inductive JitType where
  | TensorType (sizes : Option (List ShapeSymbol)) (scalarType : Option ScalarType)
  | BoolType
  | IntType
  | FloatType
  | ListType (elementType : JitType)
  | NoneType
  | other (name : String)
deriving DecidableEq, Repr

/-- What the encoder reads of the node that produces a value, `Value::node()`:
its kind, which is `prim::Param` for the inputs of a block, and the result of
its `mustBeNone()`. -/
structure Producer where
  kind : Symbol := prim_Param
  mustBeNone : Bool := false
deriving DecidableEq, Repr

/-- A value of the graph, identified by its unique number; with the name it has
been given (empty when it has none), its type annotation (a tensor type with
no shape and no element type unless set) and its producing node. -/
structure Value where
  unique : Nat
  unique_name_ : String := ""
  type : JitType := .TensorType none none
  node : Producer := {}
deriving DecidableEq, Repr

/-- The name `Value::debugName()` (defined outside the sources): the name given
to the value, or the decimal of its unique number when it has none. -/
def Value.debugName (v : Value) : String :=
  if v.unique_name_ = "" then toString v.unique else v.unique_name_

mutual
/-- A node: operator, inputs, outputs, nested blocks, attributes in declaration
order, the result of `mustBeNone()` (defined outside the sources), the string
of its source range and, for a `prim::PythonOp`, the name of the callback. -/
inductive Node where
  | mk (kind : Symbol) (inputs outputs : List Value) (blocks : List Block)
      (attributes : List (Symbol × AttributeValue)) (mustBeNone : Bool)
      (sourceRange : String) (pythonOpName : String)
/-- A block: inputs, outputs (the inputs of its return node) and nodes. -/
inductive Block where
  | mk (inputs outputs : List Value) (nodes : List Node)
/-- An attribute value, tagged with its `AttributeKind`; `other` is any kind
that `AddAttribute` does not handle, with the kind's printed name. -/
inductive AttributeValue where
  | f (v : Float64)
  | fs (vs : List Float64)
  | i (v : Int)
  | is (vs : List Int)
  | s (v : String)
  | ss (vs : List String)
  | t (v : Tensor)
  | ts (vs : List Tensor)
  | g (v : Graph)
  | gs (vs : List Graph)
  | other (kindName : String)
/-- A graph: its root block and the counter from which fresh values are numbered. -/
inductive Graph where
  | mk (block : Block) (next_unique : Nat)
end

namespace Node

def kind : Node → Symbol
  | .mk k _ _ _ _ _ _ _ => k
def inputs : Node → List Value
  | .mk _ i _ _ _ _ _ _ => i
def outputs : Node → List Value
  | .mk _ _ o _ _ _ _ _ => o
def blocks : Node → List Block
  | .mk _ _ _ b _ _ _ _ => b
def attributes : Node → List (Symbol × AttributeValue)
  | .mk _ _ _ _ a _ _ _ => a
def mustBeNone : Node → Bool
  | .mk _ _ _ _ _ m _ _ => m
def sourceRange : Node → String
  | .mk _ _ _ _ _ _ s _ => s
def pythonOpName : Node → String
  | .mk _ _ _ _ _ _ _ p => p

end Node

namespace Block

def inputs : Block → List Value
  | .mk i _ _ => i
def outputs : Block → List Value
  | .mk _ o _ => o
def nodes : Block → List Node
  | .mk _ _ n => n

end Block

namespace Graph

def block : Graph → Block
  | .mk b _ => b
def next_unique : Graph → Nat
  | .mk _ n => n

end Graph

/-- The string of a node's source range, `getNodeStackTraceString`. -/
def getNodeStackTraceString (n : Node) : String := n.sourceRange

/-! ## Graph mutation used by the validator

`validateBlock` calls three mutators of the graph interface, which is defined
outside the sources: `Graph::create` followed by `insertNode` at an insertion
point, `Value::replaceAllUsesWith`, and `Node::s_`. Their effect on the tree
representation is spelled out here. -/

/-- One call `old->replaceAllUsesWith(new)`, as the pair `(old, new)`. -/
abbrev Replacement := Value × Value

/-- The value found at a use of `v` after the replacements `rs` have been
carried out one after the other. -/
def Value.afterReplacements (rs : List Replacement) (v : Value) : Value :=
  rs.foldl (fun cur r => if cur = r.1 then r.2 else cur) v

mutual
/-- Carry out the replacements `rs` on every use inside a node: its inputs and
the uses inside its nested blocks. -/
def Node.replaceUses (rs : List Replacement) : Node → Node
  | .mk kind inputs outputs blocks attributes isNone sr py =>
    .mk kind (inputs.map (Value.afterReplacements rs)) outputs
      (replaceUsesBlocks rs blocks) attributes isNone sr py
/-- Carry out the replacements `rs` on every use inside a block: the inputs of
its return node (the block outputs) and the uses inside its nodes. -/
def Block.replaceUses (rs : List Replacement) : Block → Block
  | .mk inputs outputs nodes =>
    .mk inputs (outputs.map (Value.afterReplacements rs)) (replaceUsesNodes rs nodes)
/-- Carry out the replacements on a sequence of nodes. -/
def replaceUsesNodes (rs : List Replacement) : List Node → List Node
  | [] => []
  | n :: rest => Node.replaceUses rs n :: replaceUsesNodes rs rest
/-- Carry out the replacements on a sequence of blocks. -/
def replaceUsesBlocks (rs : List Replacement) : List Block → List Block
  | [] => []
  | b :: rest => Block.replaceUses rs b :: replaceUsesBlocks rs rest
end

/-- The outputs `Graph::create` gives a new node of the given kind with `n`
outputs when the graph's counter stands at `next_unique`. -/
def freshOutputs (kind : Symbol) (next_unique n : Nat) : List Value :=
  (List.range n).map (fun i => { unique := next_unique + i, node := { kind := kind } })

/-- The node built by lines 83-91 of `validateBlock`: kind `onnx::ATen`, the
given inputs, fresh outputs, and the string attribute `operator = "expand"`. A
created node has no nested blocks, no source range, and outputs of tensor type,
so it is not a `None` node. -/
def createATenExpand (inputs outputs : List Value) : Node :=
  .mk onnx_ATen inputs outputs [] [(attr_operator, .s "expand")] false "" ""

/-! ## The graph validator (`export.cpp`, lines 60-121) -/

/-- The state of the graph walk when `validateBlock` returns or throws.

* `out` is the visited part of the graph as it then stands in memory;
* `next_unique` is the graph's counter for fresh values;
* `replaced` lists the calls of `replaceAllUsesWith` made during the walk, in
  order; they act on every use in the graph, so the caller carries them out on
  the parts of the graph it holds;
* `failure` is the argument of `FAIL_EXPORT` when the walk threw. -/
structure Walk (α : Type) where
  out : α
  next_unique : Nat
  replaced : List Replacement
  failure : Option String

/-- The macro `FAIL_EXPORT` (lines 68-71): the text of the `std::runtime_error`
it throws for `name` when the graph prints as `dump`. -/
def failExportWhat (name dump : String) : String :=
  "ONNX export failed: " ++ name ++ "\n\nGraph we tried to export:\n" ++ dump

/-- The argument of `FAIL_EXPORT` on line 75. -/
def pythonOpMessage (n : Node) : String :=
  "Couldn't export Python operator " ++ n.pythonOpName ++
    "\n\nDefined at:\n" ++ getNodeStackTraceString n

/-- The argument of `FAIL_EXPORT` on line 97. -/
def packPaddedMessage (n : Node) : String :=
  "Cannot export individual pack_padded_sequence or pad_packed_sequence; these operations must occur in pairs.\n\nUsage of this operation occurred at:\n" ++
    getNodeStackTraceString n

/-- The argument of `FAIL_EXPORT` on line 108. -/
def atenMessage (n : Node) : String :=
  "Couldn't export operator " ++ n.kind.toDisplayString ++
    "\n\nDefined at:\n" ++ getNodeStackTraceString n

/-- The flag `is_aten_enabled` of lines 102-106. -/
def is_aten_enabled (operator_export_type : OperatorExportTypes) : Bool :=
  operator_export_type = .ONNX_ATEN_FALLBACK ||
    operator_export_type = .ONNX_ATEN ||
    operator_export_type = .ONNX_FALLTHROUGH

mutual
/-- The function `validateBlock`. The block is given as it stood when the walk
of the graph began, together with `pending`, the replacements made since then:
the block in memory is the given one with `pending` carried out. -/
def validateBlock (operator_export_type : OperatorExportTypes)
    (pending : List Replacement) (next_unique : Nat) : Block → Walk Block
  | .mk inputs outputs nodes =>
    let w := validateNodes operator_export_type pending next_unique nodes
    { out := .mk inputs (outputs.map (Value.afterReplacements (pending ++ w.replaced))) w.out
      next_unique := w.next_unique
      replaced := w.replaced
      failure := w.failure }
/-- The loop `for (auto node : b->nodes())` of `validateBlock`, from the given
node onwards. -/
def validateNodes (operator_export_type : OperatorExportTypes)
    (pending : List Replacement) (next_unique : Nat) : List Node → Walk (List Node)
  | [] => { out := [], next_unique := next_unique, replaced := [], failure := none }
  | .mk kind inputs outputs blocks attributes isNone sr py :: rest =>
    -- lines 64-66: the nested blocks first
    let wb := validateBlocks operator_export_type pending next_unique blocks
    let done := pending ++ wb.replaced
    let node : Node := .mk kind (inputs.map (Value.afterReplacements done)) outputs wb.out
      attributes isNone sr py
    let stop (msg : String) : Walk (List Node) :=
      { out := node :: replaceUsesNodes done rest
        next_unique := wb.next_unique
        replaced := wb.replaced
        failure := some msg }
    match wb.failure with
    | some msg => stop msg
    | none =>
      if kind = prim_PythonOp then
        stop (pythonOpMessage node)
      else
        -- lines 79-93: an ATen node takes over the outputs of aten::expand
        let fire : Bool := kind = aten_expand && operator_export_type = .ONNX_ATEN_FALLBACK
        let new_outputs := freshOutputs onnx_ATen wb.next_unique outputs.length
        let swaps : List Replacement := if fire then outputs.zip new_outputs else []
        let next_unique2 := if fire then wb.next_unique + outputs.length else wb.next_unique
        let new_node := Node.replaceUses swaps (createATenExpand node.inputs new_outputs)
        let here : List Node :=
          if fire then [new_node, Node.replaceUses swaps node] else [Node.replaceUses swaps node]
        let stop2 (msg : String) : Walk (List Node) :=
          { out := here ++ replaceUsesNodes (done ++ swaps) rest
            next_unique := next_unique2
            replaced := wb.replaced ++ swaps
            failure := some msg }
        if (kind = prim_PackPadded || kind = prim_PadPacked) &&
            operator_export_type ≠ .ONNX_FALLTHROUGH then
          stop2 (packPaddedMessage node)
        else if kind.is_aten && !is_aten_enabled operator_export_type && !isNone then
          stop2 (atenMessage node)
        else
          let wr := validateNodes operator_export_type (done ++ swaps) next_unique2 rest
          { out := replaceUsesNodes wr.replaced here ++ wr.out
            next_unique := wr.next_unique
            replaced := wb.replaced ++ swaps ++ wr.replaced
            failure := wr.failure }
/-- The loop `for (Block* sub_block : node->blocks())` of `validateBlock`. -/
def validateBlocks (operator_export_type : OperatorExportTypes)
    (pending : List Replacement) (next_unique : Nat) : List Block → Walk (List Block)
  | [] => { out := [], next_unique := next_unique, replaced := [], failure := none }
  | b :: rest =>
    let w := validateBlock operator_export_type pending next_unique b
    match w.failure with
    | some msg =>
      { out := w.out :: replaceUsesBlocks (pending ++ w.replaced) rest
        next_unique := w.next_unique
        replaced := w.replaced
        failure := some msg }
    | none =>
      let wr := validateBlocks operator_export_type (pending ++ w.replaced) w.next_unique rest
      { out := Block.replaceUses wr.replaced w.out :: wr.out
        next_unique := wr.next_unique
        replaced := w.replaced ++ wr.replaced
        failure := wr.failure }
end

/-- The outcome of `validateGraph`: the graph as it stands afterwards, and
whether the call returned or threw. -/
structure Validated where
  graph : Graph
  result : Except Failure Unit

/-- The function `validateGraph`, with the `std::runtime_error` that the macro
`FAIL_EXPORT` throws. `toString` is `Graph::toString`, which is defined outside
the sources; it is applied to the graph as it stands when the error is thrown. -/
def validateGraph (toString : Graph → String) (graph : Graph)
    (operator_export_type : OperatorExportTypes) : Validated :=
  let w := validateBlock operator_export_type [] graph.next_unique graph.block
  let after : Graph := .mk w.out w.next_unique
  { graph := after
    result :=
      match w.failure with
      | some name =>
        .error (.runtime_error (failExportWhat name (toString after)))
      | none => .ok () }

mutual
/-- Every node of a block, at any nesting depth of sub-blocks, in the order in
which `validateBlock` checks them: the nodes of a node's nested blocks come
before the node itself. -/
def Block.allNodes : Block → List Node
  | .mk _ _ nodes => allNodesOfNodes nodes
def Node.allNodes : Node → List Node
  | .mk kind inputs outputs blocks attributes isNone sr py =>
    allNodesOfBlocks blocks ++ [.mk kind inputs outputs blocks attributes isNone sr py]
def allNodesOfNodes : List Node → List Node
  | [] => []
  | n :: rest => Node.allNodes n ++ allNodesOfNodes rest
def allNodesOfBlocks : List Block → List Node
  | [] => []
  | b :: rest => Block.allNodes b ++ allNodesOfBlocks rest
end

/-! ## The scalar-type mappers -/

/-- The function `ATenTypeToOnnxType` of `export.cpp` (lines 344-373). -/
def ATenTypeToOnnxType (at_type : ScalarType) : Except Failure TensorProto_DataType :=
  match at_type with
  | .Double => .ok .DOUBLE
  | .Float => .ok .FLOAT
  | .Half => .ok .FLOAT16
  | .Byte => .ok .UINT8
  | .Char => .ok .INT8
  | .Short => .ok .INT16
  | .Int => .ok .INT32
  | .Long => .ok .INT64
  | .Bool => .ok .BOOL
  | .QInt8 => .ok .INT8
  | .QUInt8 => .ok .UINT8
  | .QInt32 => .ok .INT32
  | _ => .error (.torch_check "unexpected tensor scalar type")

namespace Helper

/-- The function `ONNXTypeToATenType` of `helper.cpp` (lines 55-87). -/
def ONNXTypeToATenType (onnx_type : Int) : Except Failure (Option ScalarType) :=
  if onnx_type = TensorProto_DataType.UNDEFINED.toInt then .ok (some .Undefined)
  else if onnx_type = TensorProto_DataType.FLOAT.toInt then .ok (some .Float)
  else if onnx_type = TensorProto_DataType.UINT8.toInt then .ok (some .Byte)
  else if onnx_type = TensorProto_DataType.INT8.toInt then .ok (some .Char)
  else if onnx_type = TensorProto_DataType.INT16.toInt then .ok (some .Short)
  else if onnx_type = TensorProto_DataType.INT32.toInt then .ok (some .Int)
  else if onnx_type = TensorProto_DataType.INT64.toInt then .ok (some .Long)
  else if onnx_type = TensorProto_DataType.BOOL.toInt then .ok (some .Bool)
  else if onnx_type = TensorProto_DataType.FLOAT16.toInt then .ok (some .Half)
  else if onnx_type = TensorProto_DataType.DOUBLE.toInt then .ok (some .Double)
  else if onnx_type = TensorProto_DataType.COMPLEX64.toInt then .ok (some .ComplexFloat)
  else if onnx_type = TensorProto_DataType.COMPLEX128.toInt then .ok (some .ComplexDouble)
  else if onnx_type = TensorProto_DataType.BFLOAT16.toInt then .ok (some .BFloat16)
  else .error (.torch_check "unexpected tensor scalar type")

/-- The function `ATenTypeToOnnxType_aux` of `helper.cpp` (lines 103-133). -/
def ATenTypeToOnnxType_aux (at_type : ScalarType) : Except Failure TensorProto_DataType :=
  match at_type with
  | .Double => .ok .DOUBLE
  | .Float => .ok .FLOAT
  | .Half => .ok .FLOAT16
  | .Byte => .ok .UINT8
  | .Char => .ok .INT8
  | .Short => .ok .INT16
  | .Int => .ok .INT32
  | .Long => .ok .INT64
  | .Bool => .ok .BOOL
  | .QInt8 => .ok .INT8
  | .QUInt8 => .ok .UINT8
  | .QInt32 => .ok .INT32
  | _ => .error (.torch_check "unexpected tensor scalar type")

/-- The function `ATenTypeToOnnxType` of `helper.cpp` (lines 136-138). -/
def ATenTypeToOnnxType (at_type : ScalarType) : Except Failure Int :=
  (ATenTypeToOnnxType_aux at_type).map TensorProto_DataType.toInt

end Helper

/-! ## External files (`export.cpp`, lines 123-167) -/

/-- The position of the last occurrence of `c`, `std::string::find_last_of`;
`none` is `npos`. -/
def find_last_of (s : List Char) (c : Char) : Option Nat :=
  let k := s.reverse.indexOf c
  if k < s.length then some (s.length - 1 - k) else none

/-- The function `GetFileRootPath`. The regular expression `/+$` is read as in
the source's comment: it matches the slashes that end the string. -/
def GetFileRootPath (rootPath : String) : String :=
  let rootPath_ : List Char := rootPath.data.map (fun c => if c = '\\' then '/' else c)
  let root : List Char := (rootPath_.reverse.dropWhile (fun c => c = '/')).reverse
  let folder : List Char :=
    match find_last_of root '/' with
    | some k => root.take k
    | none => root
  if folder = rootPath_ then "." else String.mk folder

/-- The function `GetExternalFileName`; `value()` of an absent name throws. -/
def GetExternalFileName (external_ref : Option String) : Except Failure String :=
  match external_ref with
  | none => .error (.runtime_error "bad optional access")
  | some tensorName =>
    let illegalChars : List Char := "\\/:?\"<>|".data
    .ok (String.mk (tensorName.data.map (fun i => if i ∈ illegalChars then '_' else i)))

/-- The file system as the encoder sees it: whether `fopen(path, "wb")`
succeeds, and the bytes of the files written so far. -/
structure FileSystem where
  canOpen : String → Bool := fun _ => true
  files : String → Option (List Nat) := fun _ => none

/-- The function `CreateExternalFile`. -/
def CreateExternalFile (fs : FileSystem) (tensor : Tensor) (tensorName : String)
    (onnx_file_path : String) : Except Failure FileSystem :=
  let folder := GetFileRootPath onnx_file_path
  let fullFilePath := folder ++ "/" ++ tensorName
  if fs.canOpen fullFilePath then
    .ok { fs with
      files := fun path =>
        if path = fullFilePath then some (tensor.data_ptr (tensor.element_size * tensor.numel))
        else fs.files path }
  else
    .error (.runtime_error
      ("ONNX export failed. Could not open file or directory: " ++ fullFilePath))

/-! ## The tensor encoder (`export.cpp`, lines 1032-1088) -/

/-- A key-value entry of a record, `onnx::StringStringEntryProto`. -/
structure StringStringEntryProto where
  key : Option String := none
  value : Option String := none
deriving DecidableEq, Repr

/-- The fields of the tensor record `onnx::TensorProto` that the encoder
writes. An optional field that is not set is `none`; a new record is
`{}`. -/
structure TensorProto where
  name : Option String := none
  dims : List Nat := []
  data_type : Option TensorProto_DataType := none
  raw_data : Option (List Nat) := none
  external_data : List StringStringEntryProto := []
  data_location : Option TensorProto_DataLocation := none
deriving DecidableEq, Repr

/-- One extent of a shape record, `onnx::TensorShapeProto_Dimension`: not set,
a literal size, or the name of a symbolic dimension. -/
inductive TensorShapeProto_Dimension where
  | unset
  | dim_value (v : Nat)
  | dim_param (s : String)
deriving DecidableEq, Repr

/-- A shape record, `onnx::TensorShapeProto`. -/
structure TensorShapeProto where
  dim : List TensorShapeProto_Dimension := []
deriving DecidableEq, Repr

/-- A tensor-type descriptor, `onnx::TypeProto_Tensor`; both fields are
optional fields of the record. -/
structure TypeProto_Tensor where
  elem_type : Option TensorProto_DataType := none
  shape : Option TensorShapeProto := none
deriving DecidableEq, Repr

/-- A type descriptor, `onnx::TypeProto`: no value set, a tensor type, or a
sequence type with its optional element type. -/
inductive TypeProto where
  | unset
  | tensor_type (t : TypeProto_Tensor)
  | sequence_type (elem_type : Option TypeProto)
deriving Repr

namespace TypeProto

/-- The record `mutable_tensor_type()` returns: the tensor type already set, or
a new one. -/
def mutable_tensor_type : TypeProto → TypeProto_Tensor
  | .tensor_type t => t
  | _ => {}

/-- The record `mutable_sequence_type()->mutable_elem_type()` returns: the
element type already set, or a new one. -/
def mutable_sequence_elem_type : TypeProto → TypeProto
  | .sequence_type (some e) => e
  | _ => .unset

end TypeProto

/-- A value-info record, `onnx::ValueInfoProto`; both fields are optional
fields of the record. -/
structure ValueInfoProto where
  name : Option String := none
  type : Option TypeProto := none
deriving Repr

/-- The type tags of an attribute record that `AddAttribute` writes. -/
inductive AttributeProto_AttributeType where
  | FLOAT
  | INT
  | STRING
  | TENSOR
  | GRAPH
  | FLOATS
  | INTS
  | STRINGS
  | TENSORS
  | GRAPHS
deriving DecidableEq, Repr

/-- An attribute record, `onnx::AttributeProto`, over the type `G` of graph
records. -/
structure AttributeProtoOf (G : Type) where
  name : Option String := none
  type : Option AttributeProto_AttributeType := none
  f : Option Float32 := none
  floats : List Float32 := []
  i : Option Int := none
  ints : List Int := []
  s : Option String := none
  strings : List String := []
  t : Option TensorProto := none
  tensors : List TensorProto := []
  g : Option G := none
  graphs : List G := []
  ref_attr_name : Option String := none

/-- An operator record, `onnx::NodeProto`, over the type `G` of graph records;
`attribute_` is its repeated field `attribute`. -/
structure NodeProtoOf (G : Type) where
  input : List String := []
  output : List String := []
  name : Option String := none
  op_type : Option String := none
  domain : Option String := none
  doc_string : Option String := none
  attribute_ : List (AttributeProtoOf G) := []

/-- A graph record, `onnx::GraphProto`. -/
inductive GraphProto where
  | mk (name : Option String) (input output value_info : List ValueInfoProto)
      (node : List (NodeProtoOf GraphProto)) (initializer : List TensorProto)

/-- An attribute record. -/
abbrev AttributeProto := AttributeProtoOf GraphProto

/-- An operator record. -/
abbrev NodeProto := NodeProtoOf GraphProto

namespace GraphProto

/-- A new graph record. -/
def empty : GraphProto := .mk none [] [] [] [] []

def name : GraphProto → Option String
  | .mk n _ _ _ _ _ => n
def input : GraphProto → List ValueInfoProto
  | .mk _ i _ _ _ _ => i
def output : GraphProto → List ValueInfoProto
  | .mk _ _ o _ _ _ => o
def value_info : GraphProto → List ValueInfoProto
  | .mk _ _ _ v _ _ => v
def node : GraphProto → List NodeProto
  | .mk _ _ _ _ n _ => n
def initializer : GraphProto → List TensorProto
  | .mk _ _ _ _ _ i => i

/-- The graph record with one more tensor record at the end of its field
`initializer`. -/
def add_initializer : GraphProto → TensorProto → GraphProto
  | .mk n i o v nodes inits, p => .mk n i o v nodes (inits ++ [p])

/-- The graph record after `set_name`. -/
def set_name : GraphProto → String → GraphProto
  | .mk _ i o v nodes inits, name => .mk (some name) i o v nodes inits

/-- The graph record with one more value-info record at the end of `input`. -/
def add_input : GraphProto → ValueInfoProto → GraphProto
  | .mk n i o v nodes inits, p => .mk n (i ++ [p]) o v nodes inits

/-- The graph record with one more value-info record at the end of `output`. -/
def add_output : GraphProto → ValueInfoProto → GraphProto
  | .mk n i o v nodes inits, p => .mk n i (o ++ [p]) v nodes inits

/-- The graph record with one more value-info record at the end of
`value_info`. -/
def add_value_info : GraphProto → ValueInfoProto → GraphProto
  | .mk n i o v nodes inits, p => .mk n i o (v ++ [p]) nodes inits

/-- The graph record with one more operator record at the end of `node`. -/
def add_node : GraphProto → NodeProtoOf GraphProto → GraphProto
  | .mk n i o v nodes inits, p => .mk n i o v (nodes ++ [p]) inits

end GraphProto

/-- An operator-set import, `onnx::OperatorSetIdProto`. -/
structure OperatorSetIdProto where
  domain : Option String := none
  version : Option Int := none
deriving DecidableEq, Repr

/-- A function record, `onnx::FunctionProto`; `attribute_` is its repeated
field `attribute`. -/
structure FunctionProto where
  name : Option String := none
  input : List String := []
  output : List String := []
  attribute_ : List String := []
  node : List NodeProto := []
  opset_import : List OperatorSetIdProto := []
  domain : Option String := none

/-- A model record, `onnx::ModelProto`. -/
structure ModelProto where
  producer_name : Option String := none
  ir_version : Option Int := none
  producer_version : Option String := none
  opset_import : List OperatorSetIdProto := []
  graph : Option GraphProto := none
  functions : List FunctionProto := []

/-- The symbolic-dimension map `SymbolDimMap`, from symbolic dimensions to
their names. -/
abbrev SymbolDimMap := ShapeSymbol → Option String

/-- The map after the assignment `symbol_dim_map_[key] = name`. -/
def setSymbolDim (m : SymbolDimMap) (key : ShapeSymbol) (name : String) : SymbolDimMap :=
  fun k => if k = key then some name else m k

/-- The caller's dynamic-axes overrides: for a value name, a map from axis
index to dimension name. -/
abbrev DynamicAxes := String → Option (Nat → Option String)

/-- The override for axis `i` of the value `name`: present when
`dynamic_axes.find(name)` and `dynamic_axes.at(name).find(i)` both succeed
(lines 487-488), and then `dynamic_axes.at(name).at(i)`. -/
def dynamicAxis (dynamic_axes : DynamicAxes) (name : String) (i : Nat) : Option String :=
  match dynamic_axes name with
  | some axes => axes i
  | none => none

/-- The initializers, `std::map<std::string, at::Tensor>`, as the list of their
entries. -/
abbrev Initializers := List (String × Tensor)

/-- The entry `initializers.find(name)` points at, if any. -/
def findInitializer : Initializers → String → Option (String × Tensor)
  | [], _ => none
  | (key, tensor) :: rest, name =>
    if key = name then some (key, tensor) else findInitializer rest name

/-- The bytes of a character string. -/
def stringBytes (s : String) : List Nat := s.data.map Char.toNat

/-- The set `domains_` after `domains_.insert(domain)`: a `std::set` of strings,
kept as the list of its elements in ascending order. -/
def insertDomain (domain : String) : List String → List String
  | [] => [domain]
  | d :: rest =>
    if domain < d then domain :: d :: rest
    else if domain = d then d :: rest
    else d :: insertDomain domain rest

/-- The members of `GraphEncoder` that the embedded methods read or write. The
export map `raw_data_export_map_` is a finite map from names to tensors. The
override maps `val_attr_to_name_` and `node_attr_to_name_` are keyed by
pointers to values and nodes; here they are keyed by the value and the node
pointed at. -/
structure GraphEncoder where
  symbol_dim_map_ : SymbolDimMap := fun _ => none
  model_proto_ : ModelProto := {}
  num_blocks_ : Nat := 0
  num_op_nodes_ : Nat := 0
  num_external_data_ : Nat := 0
  operator_export_type_ : OperatorExportTypes := .ONNX
  strip_doc_ : Bool := false
  raw_data_export_map_ : String → Option Tensor := fun _ => none
  defer_weight_export_ : Bool := false
  use_external_data_format_ : Bool := false
  onnx_opset_version_ : Int := 0
  custom_opsets_ : List (String × Int) := []
  domains_ : List String := []
  graph_ : Graph := .mk (.mk [] [] []) 0
  val_attr_to_name_ : Value → Option String := fun _ => none
  node_attr_to_name_ : Node → Option (String → Option String) := fun _ => none

/-- The member constant `ParamSizeThresholdForExternalStorage`. -/
def ParamSizeThresholdForExternalStorage : Nat := 1024

/-- What a call of `EncodeTensor` that returns leaves behind: the tensor
record, the encoder and the file system. -/
structure EncodedTensor where
  tensor_proto : TensorProto
  encoder : GraphEncoder
  fs : FileSystem

/-- The method `GraphEncoder::EncodeTensor`. -/
def EncodeTensor (enc : GraphEncoder) (fs : FileSystem) (tensor_proto : TensorProto)
    (tensor : Tensor) (external_ref : Option String) (use_external_data_format : Bool)
    (onnx_file_path : String) : Except Failure EncodedTensor := do
  let tensor_proto := { tensor_proto with dims := tensor_proto.dims ++ tensor.sizes }
  let data_type ← ATenTypeToOnnxType tensor.scalar_type
  let tensor_proto := { tensor_proto with data_type := some data_type }
  let t : Tensor := if tensor.is_quantized then tensor.contiguous else tensor.contiguous.cpu
  if (enc.defer_weight_export_ && external_ref.isSome) && use_external_data_format then
    throw (.at_assert "!((defer_weight_export_ && external_ref) && use_external_data_format)")
  match enc.defer_weight_export_, external_ref with
  | true, some ref =>
    if ref ≠ tensor_proto.name.getD "" then
      throw (.at_assert "external_ref.value() == tensor_proto->name()")
    if (enc.raw_data_export_map_ ref).isSome then
      throw (.at_assert "raw_data_export_map_.count(external_ref.value()) == 0")
    let enc := { enc with
      raw_data_export_map_ := fun k => if k = ref then some t else enc.raw_data_export_map_ k }
    let tensor_proto := { tensor_proto with raw_data := some (stringBytes "__EXTERNAL") }
    return { tensor_proto := tensor_proto, encoder := enc, fs := fs }
  | _, _ =>
    if !t.is_contiguous then
      throw (.at_assert "t.is_contiguous()")
    let tensorSize := multiply_integers tensor.sizes
    if use_external_data_format && decide (tensorSize > ParamSizeThresholdForExternalStorage) then
      if onnx_file_path = "" then
        throw (.at_assert "!onnx_file_path.empty()")
      if tensor_proto.name.isNone then
        throw (.at_assert "tensor_proto->has_name()")
      let tensorName ← GetExternalFileName (some (tensor_proto.name.getD ""))
      let fs ← CreateExternalFile fs t tensorName onnx_file_path
      let location : StringStringEntryProto := { key := some "location", value := some tensorName }
      let tensor_proto := { tensor_proto with
        external_data := tensor_proto.external_data ++ [location]
        data_location := some .EXTERNAL }
      return { tensor_proto := tensor_proto, encoder := enc, fs := fs }
    else
      let tensor_proto := { tensor_proto with
        raw_data := some (t.data_ptr (t.element_size * t.numel)) }
      return { tensor_proto := tensor_proto, encoder := enc, fs := fs }

/-! ## The operator check of the node encoder -/

/-- The assertion of `GraphEncoder::EncodeNode` on lines 748-752: whether it
holds for a node under the encoder's export policy. -/
def EncodeNode_operatorCheck (operator_export_type_ : OperatorExportTypes) (node : Node) : Bool :=
  if operator_export_type_ = .ONNX then
    !node.kind.is_aten && !node.kind.is_prim && !node.kind.is_attr
  else true

mutual
/-- The nodes that `EncodeBlock` hands to `EncodeNode`, directly or through the
recursion, in call order, in a session in which no step throws and no
attribute is overridden by `node_attr_to_name_` (lines 621-647). -/
def EncodeBlock_calls : Block → List Node
  | .mk _ _ nodes => EncodeBlock_loop nodes
/-- The loop over the nodes of a block in `EncodeBlock`. -/
def EncodeBlock_loop : List Node → List Node
  | [] => []
  | .mk kind inputs outputs blocks attributes isNone sr py :: rest =>
    (if isNone then []
     else if kind = onnx_LocalFunctionDef then EncodeLocalFunction_calls attributes
     else EncodeNode_calls (.mk kind inputs outputs blocks attributes isNone sr py))
      ++ EncodeBlock_loop rest
/-- The nodes reached from `EncodeNode` (lines 711-819): the node itself, then
the graphs among its attributes, then the body of a Loop or the two branches of
an If. -/
def EncodeNode_calls : Node → List Node
  | .mk kind inputs outputs blocks attributes isNone sr py =>
    [.mk kind inputs outputs blocks attributes isNone sr py]
      ++ AddAttribute_calls attributes
      ++ (if kind = onnx_Loop then EncodeLoopBody_calls blocks else [])
      ++ (if kind = onnx_If then EncodeIfBranches_calls blocks else [])
/-- The nodes reached from the body of a Loop node (lines 771-787), which has
exactly one nested block. -/
def EncodeLoopBody_calls : List Block → List Node
  | [body] => EncodeBlock_calls body
  | _ => []
/-- The nodes reached from the branches of an If node (lines 788-818), which
has exactly two nested blocks. -/
def EncodeIfBranches_calls : List Block → List Node
  | [then_branch, else_branch] => EncodeBlock_calls then_branch ++ EncodeBlock_calls else_branch
  | _ => []
/-- The nodes reached from `AddAttribute` over the attributes of a node: those
of the graphs of kind `g` and `gs` (lines 908-928). -/
def AddAttribute_calls : List (Symbol × AttributeValue) → List Node
  | [] => []
  | (_, .g (.mk block _)) :: rest => EncodeBlock_calls block ++ AddAttribute_calls rest
  | (_, .gs graphs) :: rest => EncodeGraphs_calls graphs ++ AddAttribute_calls rest
  | _ :: rest => AddAttribute_calls rest
/-- The nodes reached from `EncodeGraph` over a list of graphs. -/
def EncodeGraphs_calls : List Graph → List Node
  | [] => []
  | .mk block _ :: rest => EncodeBlock_calls block ++ EncodeGraphs_calls rest
/-- The nodes reached from `EncodeLocalFunction` (lines 979-1030): the nodes
of the graph held by the attribute `graph`, `None` nodes skipped. -/
def EncodeLocalFunction_calls : List (Symbol × AttributeValue) → List Node
  | [] => []
  | (name, .g (.mk (.mk _ _ nodes) _)) :: rest =>
    if name = attr_graph then EncodeLocalFunction_loop nodes
    else EncodeLocalFunction_calls rest
  | (name, _) :: rest =>
    if name = attr_graph then [] else EncodeLocalFunction_calls rest
/-- The loop over the nodes of a local function's graph. -/
def EncodeLocalFunction_loop : List Node → List Node
  | [] => []
  | .mk kind inputs outputs blocks attributes isNone sr py :: rest =>
    (if isNone then []
     else EncodeNode_calls (.mk kind inputs outputs blocks attributes isNone sr py))
      ++ EncodeLocalFunction_loop rest
end

/-! ## The value and type encoder (`export.cpp`, lines 471-550) -/

/-- The branches of the loop body in the lambda `tensorTypeToONNXType` (lines
487-506) for axis `i` of extent `size` of the value `n` named `name`: the
descriptor that `shape->mutable_dim(i)` receives, by `set_dim_param` or
`set_dim_value`, and the symbolic-dimension map afterwards. -/
def tensorTypeToONNXType_dim (dynamic_axes : DynamicAxes) (n : Value) (name : String)
    (i : Nat) (size : ShapeSymbol) (symbol_dim_map_ : SymbolDimMap) :
    TensorShapeProto_Dimension × SymbolDimMap :=
  match dynamicAxis dynamic_axes name i with
  | some dim_param =>
    (.dim_param dim_param,
      if !size.is_static then setSymbolDim symbol_dim_map_ size dim_param
      else symbol_dim_map_)
  | none =>
    if size.is_static then
      (.dim_value size.static_size, symbol_dim_map_)
    else
      let symbol_dim_map_ :=
        if symbol_dim_map_ size = none then
          if n.node.kind = prim_Param then
            setSymbolDim symbol_dim_map_ size (name ++ "_dim_" ++ toString i)
          else
            setSymbolDim symbol_dim_map_ size
              (n.node.kind.toUnqualString ++ name ++ "_dim_" ++ toString i)
        else symbol_dim_map_
      (.dim_param ((symbol_dim_map_ size).getD ""), symbol_dim_map_)

/-- The body of the loop over the axes (lines 486-506): `shape->add_dim()`
appends an extent to the shape record, then the extent at index `i` receives
its descriptor. -/
def tensorTypeToONNXType_axis (dynamic_axes : DynamicAxes) (n : Value) (name : String)
    (i : Nat) (size : ShapeSymbol) (shape : TensorShapeProto)
    (symbol_dim_map_ : SymbolDimMap) : TensorShapeProto × SymbolDimMap :=
  let shape : TensorShapeProto := { dim := shape.dim ++ [.unset] }
  let written := tensorTypeToONNXType_dim dynamic_axes n name i size symbol_dim_map_
  ({ dim := shape.dim.set i written.1 }, written.2)

/-- The loop `for (const auto i : c10::irange(sizes.size()))` of the lambda
`tensorTypeToONNXType`, from axis `i` on; `sizes` are the extents of the axes
still to come. -/
def tensorTypeToONNXType_axes (dynamic_axes : DynamicAxes) (n : Value) (name : String) :
    Nat → List ShapeSymbol → TensorShapeProto → SymbolDimMap → TensorShapeProto × SymbolDimMap
  | _, [], shape, symbol_dim_map_ => (shape, symbol_dim_map_)
  | i, size :: rest, shape, symbol_dim_map_ =>
    let step := tensorTypeToONNXType_axis dynamic_axes n name i size shape symbol_dim_map_
    tensorTypeToONNXType_axes dynamic_axes n name (i + 1) rest step.1 step.2

/-- The lambda `tensorTypeToONNXType` (lines 478-513) on a tensor type with the
given optional extents and element type. -/
def tensorTypeToONNXType (enc : GraphEncoder) (dynamic_axes : DynamicAxes) (n : Value)
    (sizes : Option (List ShapeSymbol)) (scalarType : Option ScalarType)
    (onnx_tensor_type : TypeProto_Tensor) : Except Failure (TypeProto_Tensor × GraphEncoder) := do
  let name := n.debugName
  let (onnx_tensor_type, enc) :=
    match sizes with
    | some sizes =>
      let r := tensorTypeToONNXType_axes dynamic_axes n name 0 sizes
        (onnx_tensor_type.shape.getD {}) enc.symbol_dim_map_
      ({ onnx_tensor_type with shape := some r.1 }, { enc with symbol_dim_map_ := r.2 })
    | none => (onnx_tensor_type, enc)
  match scalarType with
  | some scalarType =>
    let elem_type ← ATenTypeToOnnxType scalarType
    return ({ onnx_tensor_type with elem_type := some elem_type }, enc)
  | none => return (onnx_tensor_type, enc)

/-- The method `GraphEncoder::EncodeValueInfoType` (lines 471-538): the type
descriptor `onnx_type` after the call, and the encoder. -/
def EncodeValueInfoType (enc : GraphEncoder) (onnx_type : TypeProto) :
    JitType → Value → DynamicAxes → Except Failure (TypeProto × GraphEncoder)
  | .TensorType sizes scalarType, n, dynamic_axes =>
    if sizes.isSome || scalarType.isSome then do
      let r ← tensorTypeToONNXType enc dynamic_axes n sizes scalarType
        onnx_type.mutable_tensor_type
      return (.tensor_type r.1, r.2)
    else return (onnx_type, enc)
  | .BoolType, _, _ => do
    let elem_type ← ATenTypeToOnnxType .Bool
    return (.tensor_type { onnx_type.mutable_tensor_type with elem_type := some elem_type }, enc)
  | .IntType, _, _ => do
    let elem_type ← ATenTypeToOnnxType .Long
    return (.tensor_type { onnx_type.mutable_tensor_type with elem_type := some elem_type }, enc)
  | .FloatType, _, _ => do
    let elem_type ← ATenTypeToOnnxType .Float
    return (.tensor_type { onnx_type.mutable_tensor_type with elem_type := some elem_type }, enc)
  | .ListType list_elem_type, n, dynamic_axes => do
    let r ← EncodeValueInfoType enc onnx_type.mutable_sequence_elem_type list_elem_type n
      dynamic_axes
    return (.sequence_type (some r.1), r.2)
  | _, _, _ => return (onnx_type, enc)

/-- The method `GraphEncoder::EncodeValueInfo` (lines 540-550) on the
value-info record `v`; its argument `graph_proto` is not used. The call
`v->mutable_type()` sets the field `type` of the record to a new type
descriptor when it has none. -/
def EncodeValueInfo (enc : GraphEncoder) (v : ValueInfoProto) (n : Value)
    (dynamic_axes : DynamicAxes) : Except Failure (ValueInfoProto × GraphEncoder) := do
  let name := n.debugName
  let v := { v with name := some name }
  let r ← EncodeValueInfoType enc (v.type.getD .unset) n.type n dynamic_axes
  return ({ v with type := some r.1 }, r.2)

/-- The descriptors that the loop over the axes hands out from axis `i` on, in
order, and the symbolic-dimension map it leaves: `tensorTypeToONNXType_axes`
with the shape record left aside. -/
def tensorTypeToONNXType_dims (dynamic_axes : DynamicAxes) (n : Value) (name : String) :
    Nat → List ShapeSymbol → SymbolDimMap → List TensorShapeProto_Dimension × SymbolDimMap
  | _, [], symbol_dim_map_ => ([], symbol_dim_map_)
  | i, size :: rest, symbol_dim_map_ =>
    let written := tensorTypeToONNXType_dim dynamic_axes n name i size symbol_dim_map_
    let after := tensorTypeToONNXType_dims dynamic_axes n name (i + 1) rest written.2
    (written.1 :: after.1, after.2)

/-! ## Initializers and attribute tensors -/

/-- What an encoding step that returns leaves behind: its result, the encoder
and the file system. -/
structure Encoded (α : Type) where
  value : α
  encoder : GraphEncoder
  fs : FileSystem

/-- The loop of `AddInitializersIntoGraphProto` (lines 663-676) over the block
inputs still to come. -/
def AddInitializersIntoGraphProto_loop (initializers : Initializers)
    (use_external_data_format : Bool) (onnx_file_path : String) :
    List Value → GraphEncoder → FileSystem → GraphProto → Except Failure (Encoded GraphProto)
  | [], enc, fs, graph_proto => .ok { value := graph_proto, encoder := enc, fs := fs }
  | input :: rest, enc, fs, graph_proto =>
    match findInitializer initializers input.debugName with
    | none =>
      AddInitializersIntoGraphProto_loop initializers use_external_data_format onnx_file_path
        rest enc fs graph_proto
    | some name_tensor_pair => do
      let p : TensorProto := { name := some name_tensor_pair.1 }
      let r ← EncodeTensor enc fs p name_tensor_pair.2 (some name_tensor_pair.1)
        use_external_data_format onnx_file_path
      AddInitializersIntoGraphProto_loop initializers use_external_data_format onnx_file_path
        rest r.encoder r.fs (graph_proto.add_initializer r.tensor_proto)

/-- The method `GraphEncoder::AddInitializersIntoGraphProto` (lines 656-677). -/
def AddInitializersIntoGraphProto (enc : GraphEncoder) (fs : FileSystem)
    (graph_proto : GraphProto) (block : Block) (initializers : Initializers)
    (use_external_data_format : Bool) (onnx_file_path : String) :
    Except Failure (Encoded GraphProto) :=
  if block.inputs.length < initializers.length then
    .error (.at_assert "block->inputs().size() >= initializers.size()")
  else
    AddInitializersIntoGraphProto_loop initializers use_external_data_format onnx_file_path
      block.inputs enc fs graph_proto

/-- The lambda `createAttributeTensorName` of `AddAttribute` (lines 837-853):
the name, and the counter `num_external_data` after the call. -/
def createAttributeTensorName (node_proto : NodeProto) (tensor_proto : TensorProto)
    (attr_name : Symbol) (num_external_data : Nat) : String × Nat :=
  match tensor_proto.name with
  | some name => (name, num_external_data)
  | none =>
    match node_proto.name with
    | none =>
      (node_proto.op_type.getD "" ++ "_" ++ attr_name.toDisplayString ++ "_" ++
        toString num_external_data, num_external_data + 1)
    | some name => (name ++ "_" ++ attr_name.toDisplayString, num_external_data)

/-- The encoding of one tensor of an attribute in `AddAttribute`: lines 889-895
for the kind `t` and lines 900-905 for each tensor of the kind `ts`. The tensor
record `t` is the new one that `mutable_t()` or `add_tensors()` returns, and
`EncodeTensor` is called with no name (`{}`). -/
def AddAttribute_tensor (enc : GraphEncoder) (fs : FileSystem) (node_proto : NodeProto)
    (name : Symbol) (tensor : Tensor) (use_external_data_format : Bool)
    (onnx_file_path : String) : Except Failure EncodedTensor :=
  let t : TensorProto := {}
  if use_external_data_format && t.name.isNone then
    let r := createAttributeTensorName node_proto t name enc.num_external_data_
    EncodeTensor { enc with num_external_data_ := r.2 } fs { t with name := some r.1 } tensor
      none use_external_data_format onnx_file_path
  else
    EncodeTensor enc fs t tensor none use_external_data_format onnx_file_path

/-! ## The node encoder (`export.cpp`, lines 711-819 and 1090-1111) -/

/-- The name that the loop of lines 721-732 adds to the operator record for one
input of the node. -/
def EncodeNode_input (enc : GraphEncoder) (input : Value) : String :=
  if input.node.mustBeNone then ""
  else
    match enc.val_attr_to_name_ input with
    | some name => name
    | none => input.debugName

/-- The method `GraphEncoder::EncodeIntermediateValueInfo` (lines 1090-1111).
The test `n->owningGraph() != graph_.get()` compares pointers to graphs; in the
tree of the embedding a node belongs to the session's graph `graph_` exactly
when it is reached from the root block through nested blocks only, which the
caller records in `in_graph_`. The graph outputs are compared with the value as
the values they point at. -/
def EncodeIntermediateValueInfo (enc : GraphEncoder) (in_graph_ : Bool)
    (graph_proto : GraphProto) (v : Value) : Except Failure (GraphProto × GraphEncoder) :=
  if v.node.kind.is_onnx then .ok (graph_proto, enc)
  else if !in_graph_ then .ok (graph_proto, enc)
  else if enc.graph_.block.outputs.any (fun o => o = v) then .ok (graph_proto, enc)
  else do
    let r ← EncodeValueInfo enc {} v (fun _ => none)
    return (graph_proto.add_value_info r.1, r.2)

/-- What the first part of `EncodeNode` leaves behind: the operator record, the
graph record and the encoder. -/
structure EncodedHeader where
  node_proto : NodeProto
  graph_proto : GraphProto
  encoder : GraphEncoder

/-- The loop over the outputs of the node in `EncodeNode` (lines 733-736). -/
def EncodeNode_outputs (in_graph_ : Bool) :
    List Value → GraphEncoder → GraphProto → NodeProto → Except Failure EncodedHeader
  | [], enc, graph_proto, node_proto =>
    .ok { node_proto := node_proto, graph_proto := graph_proto, encoder := enc }
  | output :: rest, enc, graph_proto, node_proto => do
    let node_proto := { node_proto with output := node_proto.output ++ [output.debugName] }
    let r ← EncodeIntermediateValueInfo enc in_graph_ graph_proto output
    EncodeNode_outputs in_graph_ rest r.2 r.1 node_proto

/-- The domain that lines 738-743 of `EncodeNode` compute for an operator
outside the `onnx` namespace. -/
def EncodeNode_domain (kind : Symbol) : String :=
  if kind.is_aten || kind.is_caffe2 then kind.domainString
  else kind.ns.toUnqualString

/-- The first part of `EncodeNode` (lines 718-758), everything before the
attributes: the documentation string, the inputs, the outputs with their
intermediate value infos, the domain, the operator check, the operator type
and the display name. -/
def EncodeNode_header (in_graph_ add_node_names : Bool) (node : Node) (enc : GraphEncoder)
    (graph_proto : GraphProto) (node_proto : NodeProto) : Except Failure EncodedHeader := do
  let node_proto :=
    if !enc.strip_doc_ then { node_proto with doc_string := some node.sourceRange }
    else node_proto
  let node_proto :=
    { node_proto with input := node_proto.input ++ node.inputs.map (EncodeNode_input enc) }
  let r ← EncodeNode_outputs in_graph_ node.outputs enc graph_proto node_proto
  let node_proto := r.node_proto
  let graph_proto := r.graph_proto
  let enc := r.encoder
  let (node_proto, enc) :=
    if !node.kind.is_onnx then
      let domain := EncodeNode_domain node.kind
      ({ node_proto with domain := some domain },
        { enc with domains_ := insertDomain domain enc.domains_ })
    else (node_proto, enc)
  if enc.operator_export_type_ = .ONNX then
    if !(!node.kind.is_aten && !node.kind.is_prim && !node.kind.is_attr) then
      throw (.at_assert "!node->kind().is_aten() && !node->kind().is_prim() && !node->kind().is_attr()")
  let node_proto := { node_proto with op_type := some node.kind.toUnqualString }
  let (node_proto, enc) :=
    if add_node_names then
      ({ node_proto with
          name := some (node_proto.op_type.getD "" ++ "_" ++ toString enc.num_op_nodes_) },
        { enc with num_op_nodes_ := enc.num_op_nodes_ + 1 })
    else (node_proto, enc)
  return { node_proto := node_proto, graph_proto := graph_proto, encoder := enc }

/-- The method `GraphEncoder::AddAttribute` for an attribute that the caller's
map renames to a reference (lines 821-829). -/
def AddAttribute_ref (node_proto : NodeProto) (name : Symbol) (ref_attr_name : String) :
    Except Failure NodeProto :=
  if !name.is_attr then .error (.at_assert "name.is_attr()")
  else
    let attr : AttributeProto :=
      { name := some name.toUnqualString, ref_attr_name := some ref_attr_name }
    .ok { node_proto with attribute_ := node_proto.attribute_ ++ [attr] }

/-- The first lines of `AddAttribute` for an attribute encoded by kind (lines
855-857): the new attribute record with its name. -/
def AddAttribute_new (name : Symbol) : Except Failure AttributeProto :=
  if !name.is_attr then .error (.at_assert "name.is_attr()")
  else .ok { name := some name.toUnqualString }

/-- The operator record with one more attribute record at the end of its
field `attribute`. -/
def NodeProtoOf.add_attribute {G : Type} (node_proto : NodeProtoOf G)
    (attr : AttributeProtoOf G) : NodeProtoOf G :=
  { node_proto with attribute_ := node_proto.attribute_ ++ [attr] }

/-- What the loop over the tensors of an attribute of kind `ts` leaves behind. -/
structure EncodedTensors where
  tensors : List TensorProto
  encoder : GraphEncoder
  fs : FileSystem

/-- The loop of `AddAttribute` over the tensors of an attribute of kind `ts`
(lines 899-906); `tensors` are the records added so far. -/
def AddAttribute_tensors (node_proto : NodeProto) (name : Symbol)
    (use_external_data_format : Bool) (onnx_file_path : String) :
    List Tensor → GraphEncoder → FileSystem → List TensorProto → Except Failure EncodedTensors
  | [], enc, fs, tensors => .ok { tensors := tensors, encoder := enc, fs := fs }
  | v :: rest, enc, fs, tensors => do
    let r ← AddAttribute_tensor enc fs node_proto name v use_external_data_format onnx_file_path
    AddAttribute_tensors node_proto name use_external_data_format onnx_file_path rest
      r.encoder r.fs (tensors ++ [r.tensor_proto])

/-! ## Local functions: the operator-set imports (`export.cpp`, lines 944-977) -/

/-- What `EncodeLocalFunctionOpsetImport` works on: the function record, the
set `custom_domains` of the caller, and the encoder. -/
structure OpsetImports where
  func_proto : FunctionProto
  custom_domains : List String
  encoder : GraphEncoder

/-- The part of `EncodeLocalFunctionOpsetImport` that looks at the node itself
(lines 948-970). -/
def EncodeLocalFunctionOpsetImport_node (kind : Symbol) (st : OpsetImports) : OpsetImports :=
  if !kind.is_onnx then
    let domain := EncodeNode_domain kind
    let enc := { st.encoder with domains_ := insertDomain domain st.encoder.domains_ }
    if !st.custom_domains.contains domain then
      let version : Int :=
        match enc.custom_opsets_.lookup domain with
        | none => 1
        | some v => v
      let custom_imp : OperatorSetIdProto := { domain := some domain, version := some version }
      { func_proto := { st.func_proto with
          opset_import := st.func_proto.opset_import ++ [custom_imp] }
        custom_domains := st.custom_domains ++ [domain]
        encoder := enc }
    else { st with encoder := enc }
  else st

mutual
/-- The method `GraphEncoder::EncodeLocalFunctionOpsetImport` (lines 944-977). -/
def EncodeLocalFunctionOpsetImport : Node → OpsetImports → OpsetImports
  | .mk kind _ _ blocks _ _ _ _, st =>
    EncodeLocalFunctionOpsetImport_blocks blocks (EncodeLocalFunctionOpsetImport_node kind st)
/-- The loop over the nested blocks of the node (line 972). -/
def EncodeLocalFunctionOpsetImport_blocks : List Block → OpsetImports → OpsetImports
  | [], st => st
  | .mk _ _ nodes :: rest, st =>
    EncodeLocalFunctionOpsetImport_blocks rest (EncodeLocalFunctionOpsetImport_nodes nodes st)
/-- The loop over the nodes of a nested block (line 973). -/
def EncodeLocalFunctionOpsetImport_nodes : List Node → OpsetImports → OpsetImports
  | [], st => st
  | n :: rest, st =>
    EncodeLocalFunctionOpsetImport_nodes rest (EncodeLocalFunctionOpsetImport n st)
end

/-! ## The block encoder (`export.cpp`, lines 552-654, 711-819, 831-935, 979-1030) -/

/-- The loops of `EncodeBlock` that encode every value of a list (lines
604-607 for the inputs, lines 617-620 for the outputs); `add` is `add_input`
or `add_output`. -/
def EncodeBlock_values (add : GraphProto → ValueInfoProto → GraphProto)
    (dynamic_axes : DynamicAxes) :
    List Value → GraphEncoder → GraphProto → Except Failure (GraphProto × GraphEncoder)
  | [], enc, graph_proto => .ok (graph_proto, enc)
  | value :: rest, enc, graph_proto => do
    let r ← EncodeValueInfo enc {} value dynamic_axes
    EncodeBlock_values add dynamic_axes rest r.2 (add graph_proto r.1)

/-- The loop of `EncodeBlock` over the inputs when initializers are not kept as
inputs (lines 609-615): an input is encoded when its name is not a key of the
initializers. -/
def EncodeBlock_inputs (initializers : Initializers) (dynamic_axes : DynamicAxes) :
    List Value → GraphEncoder → GraphProto → Except Failure (GraphProto × GraphEncoder)
  | [], enc, graph_proto => .ok (graph_proto, enc)
  | input :: rest, enc, graph_proto =>
    match findInitializer initializers input.debugName with
    | none => do
      let r ← EncodeValueInfo enc {} input dynamic_axes
      EncodeBlock_inputs initializers dynamic_axes rest r.2 (graph_proto.add_input r.1)
    | some _ => EncodeBlock_inputs initializers dynamic_axes rest enc graph_proto

/-- The first part of `EncodeBlock` (lines 586-620), everything before the
loop over the nodes: the name of the graph record, its inputs and its
outputs. -/
def EncodeBlock_header (initializers : Initializers) (dynamic_axes : DynamicAxes)
    (keep_initializers_as_inputs : Bool) (inputs outputs : List Value) (enc : GraphEncoder)
    (graph_proto : GraphProto) : Except Failure (GraphProto × GraphEncoder) := do
  let block_name :=
    if enc.num_blocks_ ≠ 0 then "torch-jit-export" ++ toString enc.num_blocks_
    else "torch-jit-export"
  let enc := { enc with num_blocks_ := enc.num_blocks_ + 1 }
  let graph_proto := graph_proto.set_name block_name
  let r ←
    if keep_initializers_as_inputs then
      EncodeBlock_values GraphProto.add_input dynamic_axes inputs enc graph_proto
    else EncodeBlock_inputs initializers dynamic_axes inputs enc graph_proto
  EncodeBlock_values GraphProto.add_output dynamic_axes outputs r.2 r.1

/-- The attribute accessor `Node::s` (defined outside the sources): the string
held by the attribute `name`, an `IRAttributeError` when the node has no such
attribute or one of another kind. -/
def getAttr_s (name : Symbol) : List (Symbol × AttributeValue) → Except Failure String
  | [] => .error (.ir_attribute_error name.toUnqualString)
  | (key, .s v) :: rest => if key = name then .ok v else getAttr_s name rest
  | (key, _) :: rest =>
    if key = name then .error (.ir_attribute_error name.toUnqualString)
    else getAttr_s name rest

/-- The attribute accessor `Node::ss` (defined outside the sources). -/
def getAttr_ss (name : Symbol) : List (Symbol × AttributeValue) → Except Failure (List String)
  | [] => .error (.ir_attribute_error name.toUnqualString)
  | (key, .ss vs) :: rest => if key = name then .ok vs else getAttr_ss name rest
  | (key, _) :: rest =>
    if key = name then .error (.ir_attribute_error name.toUnqualString)
    else getAttr_ss name rest

/-- The test `Node::hasAttribute` (defined outside the sources). -/
def hasAttribute (name : Symbol) : List (Symbol × AttributeValue) → Bool
  | [] => false
  | (key, _) :: rest => key = name || hasAttribute name rest

/-- The symbol `attr::name`. -/
def attr_name : Symbol := ⟨.attr, "name"⟩
/-- The symbol `attr::attributes`. -/
def attr_attributes : Symbol := ⟨.attr, "attributes"⟩
/-- The symbol `attr::domain`. -/
def attr_domain : Symbol := ⟨.attr, "domain"⟩

/-- The part of `EncodeLocalFunction` between the lookup of the graph and the
loop over its nodes (lines 987-1011): the name, the inputs and outputs of the
graph, the attribute names, the import of the default operator set and the
domain of the function record. -/
def EncodeLocalFunction_header (attributes : List (Symbol × AttributeValue))
    (inputs outputs : List Value) (enc : GraphEncoder) (func_proto : FunctionProto) :
    Except Failure (FunctionProto × GraphEncoder) := do
  let name ← getAttr_s attr_name attributes
  let func_proto := { func_proto with name := some name }
  let func_proto :=
    { func_proto with input := func_proto.input ++ inputs.map Value.debugName }
  let func_proto :=
    { func_proto with output := func_proto.output ++ outputs.map Value.debugName }
  let func_proto ←
    if hasAttribute attr_attributes attributes then do
      let names ← getAttr_ss attr_attributes attributes
      pure { func_proto with attribute_ := func_proto.attribute_ ++ names }
    else pure func_proto
  let imp : OperatorSetIdProto := { version := some enc.onnx_opset_version_ }
  let func_proto := { func_proto with opset_import := func_proto.opset_import ++ [imp] }
  let domain ← getAttr_s attr_domain attributes
  let func_proto := { func_proto with domain := some domain }
  let enc := { enc with domains_ := insertDomain domain enc.domains_ }
  return (func_proto, enc)

/-- What `EncodeNode` leaves behind when it returns: the operator record, the
graph record that received the intermediate value infos, the encoder and the
file system. -/
structure EncodedNode where
  node_proto : NodeProto
  graph_proto : GraphProto
  encoder : GraphEncoder
  fs : FileSystem

/-- What `EncodeLocalFunction` leaves behind when it returns. -/
structure EncodedFunction where
  func_proto : FunctionProto
  graph_proto : GraphProto
  encoder : GraphEncoder
  fs : FileSystem

mutual
/-- The method `GraphEncoder::EncodeBlock` (lines 574-654). The flag
`in_graph_` records whether the block belongs to the session's graph, see
`EncodeIntermediateValueInfo`. -/
def EncodeBlock (use_external_data_format : Bool) (onnx_file_path : String) :
    Bool → Initializers → DynamicAxes → Bool → Bool → Block → GraphEncoder → FileSystem →
      GraphProto → Except Failure (Encoded GraphProto)
  | in_graph_, initializers, dynamic_axes, keep_initializers_as_inputs, add_node_names,
      .mk inputs outputs nodes, enc, fs, graph_proto => do
    let h ← EncodeBlock_header initializers dynamic_axes keep_initializers_as_inputs inputs
      outputs enc graph_proto
    let r ← EncodeBlock_nodes use_external_data_format onnx_file_path in_graph_ add_node_names
      nodes h.2 fs h.1
    AddInitializersIntoGraphProto r.encoder r.fs r.value (.mk inputs outputs nodes) initializers
      use_external_data_format onnx_file_path
/-- The loop of `EncodeBlock` over the nodes of the block (lines 621-647). A
function record is the new last element of `model_proto_.functions` while
`EncodeLocalFunction` fills it. -/
def EncodeBlock_nodes (use_external_data_format : Bool) (onnx_file_path : String) :
    Bool → Bool → List Node → GraphEncoder → FileSystem → GraphProto →
      Except Failure (Encoded GraphProto)
  | _, _, [], enc, fs, graph_proto => .ok { value := graph_proto, encoder := enc, fs := fs }
  | in_graph_, add_node_names, .mk kind inputs outputs blocks attributes isNone sr py :: rest,
      enc, fs, graph_proto =>
    if isNone then
      EncodeBlock_nodes use_external_data_format onnx_file_path in_graph_ add_node_names rest
        enc fs graph_proto
    else if kind = onnx_LocalFunctionDef then do
      let index := enc.model_proto_.functions.length
      let enc := { enc with
        model_proto_ := { enc.model_proto_ with
          functions := enc.model_proto_.functions ++ [{}] } }
      let r ← EncodeLocalFunction use_external_data_format onnx_file_path add_node_names
        attributes attributes enc fs graph_proto {}
      let enc := { r.encoder with
        model_proto_ := { r.encoder.model_proto_ with
          functions := r.encoder.model_proto_.functions.set index r.func_proto } }
      EncodeBlock_nodes use_external_data_format onnx_file_path in_graph_ add_node_names rest
        enc r.fs r.graph_proto
    else do
      let r ← EncodeNode use_external_data_format onnx_file_path in_graph_ add_node_names
        (.mk kind inputs outputs blocks attributes isNone sr py) enc fs graph_proto {}
      EncodeBlock_nodes use_external_data_format onnx_file_path in_graph_ add_node_names rest
        r.encoder r.fs (r.graph_proto.add_node r.node_proto)
/-- The method `GraphEncoder::EncodeNode` (lines 711-819). -/
def EncodeNode (use_external_data_format : Bool) (onnx_file_path : String) :
    Bool → Bool → Node → GraphEncoder → FileSystem → GraphProto → NodeProto →
      Except Failure EncodedNode
  | in_graph_, add_node_names, .mk kind inputs outputs blocks attributes isNone sr py, enc, fs,
      graph_proto, node_proto => do
    let h ← EncodeNode_header in_graph_ add_node_names
      (.mk kind inputs outputs blocks attributes isNone sr py) enc graph_proto node_proto
    let attrs_it := h.encoder.node_attr_to_name_
      (.mk kind inputs outputs blocks attributes isNone sr py)
    let a ← EncodeNode_attributes use_external_data_format onnx_file_path attrs_it attributes
      h.encoder fs h.node_proto
    let l ←
      if kind = onnx_Loop then
        EncodeNode_Loop use_external_data_format onnx_file_path in_graph_ blocks a.encoder a.fs
          a.value
      else pure a
    let i ←
      if kind = onnx_If then
        EncodeNode_If use_external_data_format onnx_file_path in_graph_ blocks l.encoder l.fs
          l.value
      else pure l
    return { node_proto := i.value, graph_proto := h.graph_proto, encoder := i.encoder,
             fs := i.fs }
/-- The loop of `EncodeNode` over the attribute names of the node (lines
760-770); `attrs_it` is the entry of the node in `node_attr_to_name_`. -/
def EncodeNode_attributes (use_external_data_format : Bool) (onnx_file_path : String) :
    Option (String → Option String) → List (Symbol × AttributeValue) → GraphEncoder →
      FileSystem → NodeProto → Except Failure (Encoded NodeProto)
  | _, [], enc, fs, node_proto => .ok { value := node_proto, encoder := enc, fs := fs }
  | attrs_it, (attr_name, value) :: rest, enc, fs, node_proto =>
    match attrs_it.bind (fun names => names attr_name.toUnqualString) with
    | some ref_attr_name => do
      let node_proto ← AddAttribute_ref node_proto attr_name ref_attr_name
      EncodeNode_attributes use_external_data_format onnx_file_path attrs_it rest enc fs
        node_proto
    | none => do
      let r ← AddAttribute use_external_data_format onnx_file_path attr_name value enc fs
        node_proto
      EncodeNode_attributes use_external_data_format onnx_file_path attrs_it rest r.encoder
        r.fs r.value
/-- The method `GraphEncoder::AddAttribute` for an attribute encoded by kind
(lines 831-935); `node->kindOf(name)` is the tag of the attribute value. The
accessors `node->f(name)` and `node->fs(name)` give `double` values and the
setters `set_f` and `add_floats` take a `float`, so each value is converted on
the way (lines 859-868). -/
def AddAttribute (use_external_data_format : Bool) (onnx_file_path : String) :
    Symbol → AttributeValue → GraphEncoder → FileSystem → NodeProto →
      Except Failure (Encoded NodeProto)
  | name, .f v, enc, fs, node_proto => do
    let attr ← AddAttribute_new name
    return { value := node_proto.add_attribute
               { attr with f := some v.toFloat32, type := some .FLOAT },
             encoder := enc, fs := fs }
  | name, .fs vs, enc, fs, node_proto => do
    let attr ← AddAttribute_new name
    return { value := node_proto.add_attribute
               { attr with type := some .FLOATS,
                           floats := attr.floats ++ vs.map Float64.toFloat32 },
             encoder := enc, fs := fs }
  | name, .i v, enc, fs, node_proto => do
    let attr ← AddAttribute_new name
    return { value := node_proto.add_attribute { attr with type := some .INT, i := some v },
             encoder := enc, fs := fs }
  | name, .is vs, enc, fs, node_proto => do
    let attr ← AddAttribute_new name
    return { value := node_proto.add_attribute
               { attr with type := some .INTS, ints := attr.ints ++ vs },
             encoder := enc, fs := fs }
  | name, .s v, enc, fs, node_proto => do
    let attr ← AddAttribute_new name
    return { value := node_proto.add_attribute { attr with type := some .STRING, s := some v },
             encoder := enc, fs := fs }
  | name, .ss vs, enc, fs, node_proto => do
    let attr ← AddAttribute_new name
    return { value := node_proto.add_attribute
               { attr with type := some .STRINGS, strings := attr.strings ++ vs },
             encoder := enc, fs := fs }
  | name, .t v, enc, fs, node_proto => do
    let attr ← AddAttribute_new name
    let r ← AddAttribute_tensor enc fs (node_proto.add_attribute attr) name v
      use_external_data_format onnx_file_path
    return { value := node_proto.add_attribute
               { attr with type := some .TENSOR, t := some r.tensor_proto },
             encoder := r.encoder, fs := r.fs }
  | name, .ts vs, enc, fs, node_proto => do
    let attr ← AddAttribute_new name
    let r ← AddAttribute_tensors (node_proto.add_attribute attr) name use_external_data_format
      onnx_file_path vs enc fs attr.tensors
    return { value := node_proto.add_attribute
               { attr with type := some .TENSORS, tensors := r.tensors },
             encoder := r.encoder, fs := r.fs }
  | name, .g v, enc, fs, node_proto => do
    let attr ← AddAttribute_new name
    let r ← EncodeGraph use_external_data_format onnx_file_path false [] (fun _ => none) true
      true v enc fs GraphProto.empty
    return { value := node_proto.add_attribute
               { attr with type := some .GRAPH, g := some r.value },
             encoder := r.encoder, fs := r.fs }
  | name, .gs vs, enc, fs, node_proto => do
    let attr ← AddAttribute_new name
    let r ← AddAttribute_graphs use_external_data_format onnx_file_path vs enc fs attr.graphs
    return { value := node_proto.add_attribute
               { attr with type := some .GRAPHS, graphs := r.value },
             encoder := r.encoder, fs := r.fs }
  | name, .other kindName, _, _, _ => do
    let _ ← AddAttribute_new name
    throw (.runtime_error
      ("attribute \"" ++ name.toDisplayString ++ "\" has unexpected kind: " ++ kindName))
/-- The loop of `AddAttribute` over the graphs of an attribute of kind `gs`
(lines 923-927); `graphs` are the records added so far. -/
def AddAttribute_graphs (use_external_data_format : Bool) (onnx_file_path : String) :
    List Graph → GraphEncoder → FileSystem → List GraphProto →
      Except Failure (Encoded (List GraphProto))
  | [], enc, fs, graphs => .ok { value := graphs, encoder := enc, fs := fs }
  | v :: rest, enc, fs, graphs => do
    let r ← EncodeGraph use_external_data_format onnx_file_path false [] (fun _ => none) true
      true v enc fs GraphProto.empty
    AddAttribute_graphs use_external_data_format onnx_file_path rest r.encoder r.fs
      (graphs ++ [r.value])
/-- The method `GraphEncoder::EncodeGraph` (lines 552-572). -/
def EncodeGraph (use_external_data_format : Bool) (onnx_file_path : String) :
    Bool → Initializers → DynamicAxes → Bool → Bool → Graph → GraphEncoder → FileSystem →
      GraphProto → Except Failure (Encoded GraphProto)
  | in_graph_, initializers, dynamic_axes, keep_initializers_as_inputs, add_node_names,
      .mk block _, enc, fs, graph_proto =>
    EncodeBlock use_external_data_format onnx_file_path in_graph_ initializers dynamic_axes
      keep_initializers_as_inputs add_node_names block enc fs graph_proto
/-- The part of `EncodeNode` for a Loop node (lines 772-786). -/
def EncodeNode_Loop (use_external_data_format : Bool) (onnx_file_path : String) :
    Bool → List Block → GraphEncoder → FileSystem → NodeProto →
      Except Failure (Encoded NodeProto)
  | in_graph_, [body_block], enc, fs, node_proto => do
    let body : AttributeProto := { name := some "body", type := some .GRAPH }
    let r ← EncodeBlock use_external_data_format onnx_file_path in_graph_ [] (fun _ => none)
      true true body_block enc fs GraphProto.empty
    return { value := node_proto.add_attribute { body with g := some r.value },
             encoder := r.encoder, fs := r.fs }
  | _, _, _, _, _ => .error (.at_assert "node->blocks().size() == 1")
/-- The part of `EncodeNode` for an If node (lines 789-817). -/
def EncodeNode_If (use_external_data_format : Bool) (onnx_file_path : String) :
    Bool → List Block → GraphEncoder → FileSystem → NodeProto →
      Except Failure (Encoded NodeProto)
  | in_graph_, [then_block, else_block], enc, fs, node_proto => do
    let then_branch : AttributeProto := { name := some "then_branch", type := some .GRAPH }
    let t ← EncodeBlock use_external_data_format onnx_file_path in_graph_ [] (fun _ => none)
      true true then_block enc fs GraphProto.empty
    let node_proto := node_proto.add_attribute { then_branch with g := some t.value }
    let else_branch : AttributeProto := { name := some "else_branch", type := some .GRAPH }
    let e ← EncodeBlock use_external_data_format onnx_file_path in_graph_ [] (fun _ => none)
      true true else_block t.encoder t.fs GraphProto.empty
    return { value := node_proto.add_attribute { else_branch with g := some e.value },
             encoder := e.encoder, fs := e.fs }
  | _, _, _, _, _ => .error (.at_assert "node->blocks().size() == 2")
/-- The method `GraphEncoder::EncodeLocalFunction` (lines 979-1030). The second
list is walked for the attribute `graph` that `n->g(Symbol::attr("graph"))`
returns; the first list holds all attributes of the node. The nodes of that
graph do not belong to the session's graph. -/
def EncodeLocalFunction (use_external_data_format : Bool) (onnx_file_path : String) :
    Bool → List (Symbol × AttributeValue) → List (Symbol × AttributeValue) → GraphEncoder →
      FileSystem → GraphProto → FunctionProto → Except Failure EncodedFunction
  | _, _, [], _, _, _, _ => .error (.ir_attribute_error attr_graph.toUnqualString)
  | add_node_names, attributes, (key, .g (.mk (.mk inputs outputs nodes) _)) :: rest, enc, fs,
      graph_proto, func_proto =>
    if key = attr_graph then do
      let h ← EncodeLocalFunction_header attributes inputs outputs enc func_proto
      EncodeLocalFunction_nodes use_external_data_format onnx_file_path add_node_names nodes
        h.2 fs graph_proto h.1 []
    else
      EncodeLocalFunction use_external_data_format onnx_file_path add_node_names attributes
        rest enc fs graph_proto func_proto
  | add_node_names, attributes, (key, _) :: rest, enc, fs, graph_proto, func_proto =>
    if key = attr_graph then .error (.ir_attribute_error attr_graph.toUnqualString)
    else
      EncodeLocalFunction use_external_data_format onnx_file_path add_node_names attributes
        rest enc fs graph_proto func_proto
/-- The loop of `EncodeLocalFunction` over the nodes of the function's graph
(lines 1013-1029). -/
def EncodeLocalFunction_nodes (use_external_data_format : Bool) (onnx_file_path : String) :
    Bool → List Node → GraphEncoder → FileSystem → GraphProto → FunctionProto → List String →
      Except Failure EncodedFunction
  | _, [], enc, fs, graph_proto, func_proto, _ =>
    .ok { func_proto := func_proto, graph_proto := graph_proto, encoder := enc, fs := fs }
  | add_node_names, .mk kind inputs outputs blocks attributes isNone sr py :: rest, enc, fs,
      graph_proto, func_proto, custom_domains =>
    if isNone then
      EncodeLocalFunction_nodes use_external_data_format onnx_file_path add_node_names rest enc
        fs graph_proto func_proto custom_domains
    else do
      let r ← EncodeNode use_external_data_format onnx_file_path false add_node_names
        (.mk kind inputs outputs blocks attributes isNone sr py) enc fs graph_proto {}
      let func_proto := { func_proto with node := func_proto.node ++ [r.node_proto] }
      let st := EncodeLocalFunctionOpsetImport
        (.mk kind inputs outputs blocks attributes isNone sr py)
        { func_proto := func_proto, custom_domains := custom_domains, encoder := r.encoder }
      EncodeLocalFunction_nodes use_external_data_format onnx_file_path add_node_names rest
        st.encoder r.fs r.graph_proto st.func_proto st.custom_domains
end

/-! ## The start of an encoding session (`export.cpp`, lines 375-436) -/

/-- The functions and constants that the constructor of `GraphEncoder` takes
from outside the sources: `Graph::toString`, the serialized size
`ByteSizeLong()` of a tensor record, and the version constants of
`torch/csrc/onnx/onnx.h`. -/
structure Externals where
  toString : Graph → String
  ByteSizeLong : TensorProto → Nat
  IR_VERSION : Int
  PRODUCER_VERSION : String

/-- The constant `INT_MAX`. -/
def INT_MAX : Nat := 2147483647

/-- The loop of `GetGraphProtoSize` (lines 684-707) over the graph inputs still
to come; `sizes` is an `unsigned long long`. -/
def GetGraphProtoSize_loop (ByteSizeLong : TensorProto → Nat) (initializers : Initializers) :
    List Value → Nat → Except Failure Nat
  | [], sizes => .ok sizes
  | input :: rest, sizes =>
    match findInitializer initializers input.debugName with
    | none => GetGraphProtoSize_loop ByteSizeLong initializers rest sizes
    | some name_tensor_pair => do
      let tensor := name_tensor_pair.2
      let tensor_proto : TensorProto := { dims := tensor.sizes }
      let data_type ← ATenTypeToOnnxType tensor.scalar_type
      let tensor_proto := { tensor_proto with data_type := some data_type }
      let t : Tensor := if tensor.is_quantized then tensor.contiguous else tensor.contiguous.cpu
      let tensor_proto := { tensor_proto with
        raw_data := some (t.data_ptr (t.element_size * t.numel)) }
      GetGraphProtoSize_loop ByteSizeLong initializers rest
        ((sizes + ByteSizeLong tensor_proto) % 2 ^ 64)

/-- The method `GraphEncoder::GetGraphProtoSize` (lines 679-709). -/
def GetGraphProtoSize (ByteSizeLong : TensorProto → Nat) (graph : Graph)
    (initializers : Initializers) : Except Failure Nat :=
  GetGraphProtoSize_loop ByteSizeLong initializers graph.block.inputs 0

/-- What the constructor of `GraphEncoder` has reached when it is about to call
`EncodeGraph`: the encoder and the value of its local
`use_external_data_format`. -/
structure Prepared where
  encoder : GraphEncoder
  use_external_data_format : Bool

/-- The outcome of the first part of the constructor: the caller's graph as
`validateGraph` leaves it, and either the state reached or the failure. -/
structure Started where
  graph : Graph
  result : Except Failure Prepared

/-- The constructor `GraphEncoder::GraphEncoder` up to its call of
`EncodeGraph` (lines 375-436): the members are initialised, the graph is
validated, the size of the initializers is probed, the target location is
checked, and the import of the default operator set is added. Everything the
constructor encodes comes after this part. The member `graph_` points at the
caller's graph, which `validateGraph` rewrites in place, so it stands for the
graph as validation leaves it. -/
def GraphEncoder.prepare (ext : Externals) (graph : Graph) (onnx_opset_version : Int)
    (operator_export_type : OperatorExportTypes) (initializers : Initializers)
    (defer_weight_export strip_doc : Bool) (custom_opsets : List (String × Int))
    (use_external_data_format : Bool) (onnx_file_path : String)
    (val_attr_to_name : Value → Option String)
    (node_attr_to_name : Node → Option (String → Option String)) : Started :=
  let validated := validateGraph ext.toString graph operator_export_type
  let enc : GraphEncoder :=
    { num_blocks_ := 0
      num_op_nodes_ := 0
      num_external_data_ := 0
      operator_export_type_ := operator_export_type
      strip_doc_ := strip_doc
      defer_weight_export_ := defer_weight_export
      use_external_data_format_ := use_external_data_format
      onnx_opset_version_ := onnx_opset_version
      custom_opsets_ := custom_opsets
      graph_ := validated.graph
      val_attr_to_name_ := val_attr_to_name
      node_attr_to_name_ := node_attr_to_name
      model_proto_ :=
        { producer_name := some "pytorch"
          ir_version := some ext.IR_VERSION
          producer_version := some ext.PRODUCER_VERSION } }
  { graph := validated.graph
    result := do
      validated.result
      let probe : Bool ←
        if !use_external_data_format && onnx_file_path ≠ "" then do
          let size ← GetGraphProtoSize ext.ByteSizeLong validated.graph initializers
          pure (decide (size > INT_MAX))
        else pure false
      let use_external_data_format := if probe then true else use_external_data_format
      let enc := if probe then { enc with use_external_data_format_ := true } else enc
      if use_external_data_format then
        if onnx_file_path = "" then
          throw (.torch_check
            "For large model export, f in torch.onnx.export must be a non-empty string specifying the location of the model.")
      let imp : OperatorSetIdProto := { version := some onnx_opset_version }
      let enc := { enc with
        model_proto_ := { enc.model_proto_ with
          opset_import := enc.model_proto_.opset_import ++ [imp] } }
      return { encoder := enc, use_external_data_format := use_external_data_format } }

/-! ## The constructor of `GraphEncoder` (`export.cpp`, lines 375-469) -/

/-- The loop of the constructor over the set `domains_` (lines 447-457): one
operator-set import per domain, at the version that `custom_opsets` holds for
the domain, or at version 1. -/
def addDomainImports (custom_opsets : List (String × Int)) : List String → ModelProto → ModelProto
  | [], model_proto => model_proto
  | domain :: rest, model_proto =>
    let version : Int :=
      match custom_opsets.lookup domain with
      | none => 1
      | some v => v
    let opset : OperatorSetIdProto := { domain := some domain, version := some version }
    addDomainImports custom_opsets rest
      { model_proto with opset_import := model_proto.opset_import ++ [opset] }

/-- What the constructor of `GraphEncoder` leaves when it returns: the encoder
and the file system. -/
structure Session where
  encoder : GraphEncoder
  fs : FileSystem

/-- The outcome of the constructor: the caller's graph as `validateGraph`
leaves it, and either the session or the failure. -/
structure Constructed where
  graph : Graph
  result : Except Failure Session

/-- The constructor `GraphEncoder::GraphEncoder` (lines 375-469) in the file
system `fs`: the part before `EncodeGraph`, the encoding of the graph into the
graph record of the model, and the operator-set imports of the domains met. The
warnings of lines 459-467 leave no trace in the state. -/
def GraphEncoder.construct (ext : Externals) (graph : Graph) (onnx_opset_version : Int)
    (operator_export_type : OperatorExportTypes) (initializers : Initializers)
    (dynamic_axes : DynamicAxes) (defer_weight_export strip_doc : Bool)
    (keep_initializers_as_inputs : Bool) (custom_opsets : List (String × Int))
    (add_node_names use_external_data_format : Bool) (onnx_file_path : String)
    (val_attr_to_name : Value → Option String)
    (node_attr_to_name : Node → Option (String → Option String)) (fs : FileSystem) :
    Constructed :=
  let started := GraphEncoder.prepare ext graph onnx_opset_version operator_export_type
    initializers defer_weight_export strip_doc custom_opsets use_external_data_format
    onnx_file_path val_attr_to_name node_attr_to_name
  { graph := started.graph
    result := do
      let p ← started.result
      let r ← EncodeGraph p.use_external_data_format onnx_file_path true initializers
        dynamic_axes keep_initializers_as_inputs add_node_names started.graph p.encoder fs
        (p.encoder.model_proto_.graph.getD GraphProto.empty)
      let model_proto := { r.encoder.model_proto_ with graph := some r.value }
      let model_proto := addDomainImports custom_opsets r.encoder.domains_ model_proto
      return { encoder := { r.encoder with model_proto_ := model_proto }, fs := r.fs } }

/-! ## The nodes that receive a display name -/

mutual
/-- The number of calls of `EncodeNode` with `add_node_names` set that a call
of `EncodeBlock` makes, directly or through the recursion, when no step throws;
`names` is the map `node_attr_to_name_`. Every such call gives one node its
display name. -/
def EncodeBlock_named (names : Node → Option (String → Option String)) : Bool → Block → Nat
  | add_node_names, .mk _ _ nodes => EncodeBlock_nodes_named names add_node_names nodes
/-- The same number for the loop of `EncodeBlock` over the nodes. -/
def EncodeBlock_nodes_named (names : Node → Option (String → Option String)) :
    Bool → List Node → Nat
  | _, [] => 0
  | add_node_names, .mk kind inputs outputs blocks attributes isNone sr py :: rest =>
    (if isNone then 0
     else if kind = onnx_LocalFunctionDef then
       EncodeLocalFunction_named names add_node_names attributes
     else
       EncodeNode_named names add_node_names
         (.mk kind inputs outputs blocks attributes isNone sr py))
      + EncodeBlock_nodes_named names add_node_names rest
/-- The same number for `EncodeNode`: the node itself when `add_node_names` is
set, then the graphs among its attributes that are not overridden, then the
body of a Loop or the branches of an If. -/
def EncodeNode_named (names : Node → Option (String → Option String)) : Bool → Node → Nat
  | add_node_names, .mk kind inputs outputs blocks attributes isNone sr py =>
    (if add_node_names then 1 else 0)
      + EncodeNode_attributes_named names
          (names (.mk kind inputs outputs blocks attributes isNone sr py)) attributes
      + (if kind = onnx_Loop then EncodeNode_Loop_named names blocks else 0)
      + (if kind = onnx_If then EncodeNode_If_named names blocks else 0)
/-- The same number for the loop of `EncodeNode` over the attributes. -/
def EncodeNode_attributes_named (names : Node → Option (String → Option String)) :
    Option (String → Option String) → List (Symbol × AttributeValue) → Nat
  | _, [] => 0
  | attrs_it, (attr_name, value) :: rest =>
    (match attrs_it.bind (fun entry => entry attr_name.toUnqualString) with
     | some _ => 0
     | none => AddAttribute_named names value)
      + EncodeNode_attributes_named names attrs_it rest
/-- The same number for `AddAttribute`: the nodes of the graphs it encodes. -/
def AddAttribute_named (names : Node → Option (String → Option String)) : AttributeValue → Nat
  | .g (.mk block _) => EncodeBlock_named names true block
  | .gs graphs => AddAttribute_graphs_named names graphs
  | _ => 0
/-- The same number for the loop of `AddAttribute` over a list of graphs. -/
def AddAttribute_graphs_named (names : Node → Option (String → Option String)) :
    List Graph → Nat
  | [] => 0
  | .mk block _ :: rest =>
    EncodeBlock_named names true block + AddAttribute_graphs_named names rest
/-- The same number for the body of a Loop node. -/
def EncodeNode_Loop_named (names : Node → Option (String → Option String)) : List Block → Nat
  | [body_block] => EncodeBlock_named names true body_block
  | _ => 0
/-- The same number for the branches of an If node. -/
def EncodeNode_If_named (names : Node → Option (String → Option String)) : List Block → Nat
  | [then_block, else_block] =>
    EncodeBlock_named names true then_block + EncodeBlock_named names true else_block
  | _ => 0
/-- The same number for `EncodeLocalFunction`, which walks the attributes for
the graph of the function. -/
def EncodeLocalFunction_named (names : Node → Option (String → Option String)) :
    Bool → List (Symbol × AttributeValue) → Nat
  | _, [] => 0
  | add_node_names, (key, .g (.mk (.mk _ _ nodes) _)) :: rest =>
    if key = attr_graph then EncodeLocalFunction_nodes_named names add_node_names nodes
    else EncodeLocalFunction_named names add_node_names rest
  | add_node_names, (key, _) :: rest =>
    if key = attr_graph then 0 else EncodeLocalFunction_named names add_node_names rest
/-- The same number for the loop over the nodes of a local function. -/
def EncodeLocalFunction_nodes_named (names : Node → Option (String → Option String)) :
    Bool → List Node → Nat
  | _, [] => 0
  | add_node_names, .mk kind inputs outputs blocks attributes isNone sr py :: rest =>
    (if isNone then 0
     else
       EncodeNode_named names add_node_names
         (.mk kind inputs outputs blocks attributes isNone sr py))
      + EncodeLocalFunction_nodes_named names add_node_names rest
end

/-- The members of the encoder that a session never writes after the
constructor has set them are the same in two states of the encoder. -/
def GraphEncoder.sameSettings (a b : GraphEncoder) : Prop :=
  a.operator_export_type_ = b.operator_export_type_ ∧ a.strip_doc_ = b.strip_doc_ ∧
  a.defer_weight_export_ = b.defer_weight_export_ ∧
  a.use_external_data_format_ = b.use_external_data_format_ ∧
  a.onnx_opset_version_ = b.onnx_opset_version_ ∧ a.custom_opsets_ = b.custom_opsets_ ∧
  a.graph_ = b.graph_ ∧ a.val_attr_to_name_ = b.val_attr_to_name_ ∧
  a.node_attr_to_name_ = b.node_attr_to_name_

/-- From the state `before` to the state `after` of the encoder, the settings
are kept and the counter `num_op_nodes_` has grown by `k`. -/
def GraphEncoder.named (before after : GraphEncoder) (k : Nat) : Prop :=
  after.sameSettings before ∧ after.num_op_nodes_ = before.num_op_nodes_ + k

/-! ## Node-local view of the validator's checks -/

/-- The argument of `FAIL_EXPORT` with which the checks of lines 73-111 stop at
a node under a policy, or `none` when the node passes them. -/
def nodeFailure (operator_export_type : OperatorExportTypes) (n : Node) : Option String :=
  if n.kind = prim_PythonOp then some (pythonOpMessage n)
  else if (n.kind = prim_PackPadded || n.kind = prim_PadPacked) &&
      operator_export_type ≠ .ONNX_FALLTHROUGH then some (packPaddedMessage n)
  else if n.kind.is_aten && !is_aten_enabled operator_export_type && !n.mustBeNone then
    some (atenMessage n)
  else none

/-- The walk changed nothing: the visited part, the counter and the list of
replacements are as before. -/
def Walk.unchanged {α : Type} (w : Walk α) (before : α) (nu : Nat) : Prop :=
  w.out = before ∧ w.next_unique = nu ∧ w.replaced = []

/-! ## Example inputs -/

/-- The value numbered `unique` among the outputs of a node of the given kind. -/
def producedBy (kind : Symbol) (unique : Nat) : Value :=
  { unique := unique, node := { kind := kind } }

/-- An `aten` node that `mustBeNone()` reports as a `None` node. -/
def exampleNoneAtenNode : Node :=
  .mk ⟨.aten, "noop"⟩ [] [producedBy ⟨.aten, "noop"⟩ 0] [] [] true "" ""

/-- A graph whose only node is `exampleNoneAtenNode`. -/
def exampleNoneAtenGraph : Graph := .mk (.mk [] [] [exampleNoneAtenNode]) 1

/-- An `aten::add` node with source range `model.py:3`. -/
def exampleAddNode : Node :=
  .mk ⟨.aten, "add"⟩ [{ unique := 0 }, { unique := 1 }] [producedBy ⟨.aten, "add"⟩ 2] [] []
    false "model.py:3" ""

/-- A graph whose only node is `exampleAddNode`. -/
def exampleAddGraph : Graph :=
  .mk (.mk [{ unique := 0 }, { unique := 1 }] [producedBy ⟨.aten, "add"⟩ 2] [exampleAddNode]) 3

/-- A Python callback `MyFn` with source range `model.py:7`. -/
def examplePythonNode : Node :=
  .mk prim_PythonOp [{ unique := 0 }] [producedBy prim_PythonOp 1] [] [] false "model.py:7" "MyFn"

/-- An `onnx::Loop` node whose body holds `examplePythonNode`. -/
def exampleLoopNode : Node :=
  .mk onnx_Loop [{ unique := 3 }] [producedBy onnx_Loop 2]
    [.mk [{ unique := 0 }] [producedBy prim_PythonOp 1] [examplePythonNode]] [] false "" ""

/-- A graph whose only top-level node is `exampleLoopNode`. -/
def examplePythonGraph : Graph :=
  .mk (.mk [{ unique := 3 }] [producedBy onnx_Loop 2] [exampleLoopNode]) 4

/-- A `prim::PackPadded` node. -/
def examplePackNode : Node :=
  .mk prim_PackPadded [{ unique := 0 }, { unique := 1 }]
    [producedBy prim_PackPadded 2, producedBy prim_PackPadded 3] [] [] false "rnn.py:5" ""

/-- An `onnx::Relu` node. -/
def exampleReluNode : Node :=
  .mk ⟨.onnx, "Relu"⟩ [{ unique := 0 }] [producedBy ⟨.onnx, "Relu"⟩ 4] [] [] false "" ""

/-- A graph with `exampleReluNode` followed by `examplePackNode`. -/
def examplePackGraph : Graph :=
  .mk (.mk [{ unique := 0 }, { unique := 1 }]
    [producedBy prim_PackPadded 2, producedBy prim_PackPadded 3]
    [exampleReluNode, examplePackNode]) 5

/-- A graph in which `aten::expand` feeds an `onnx::Relu` node. -/
def exampleExpandGraph : Graph :=
  .mk (.mk [{ unique := 0 }, { unique := 1 }] [producedBy ⟨.onnx, "Relu"⟩ 3]
    [.mk aten_expand [{ unique := 0 }, { unique := 1 }] [producedBy aten_expand 2] [] []
       false "" "",
     .mk ⟨.onnx, "Relu"⟩ [producedBy aten_expand 2] [producedBy ⟨.onnx, "Relu"⟩ 3] [] []
       false "" ""]) 4

/-- A `prim::ListConstruct` node. -/
def exampleListConstructNode : Node :=
  .mk ⟨.prim, "ListConstruct"⟩ [{ unique := 0 }] [producedBy ⟨.prim, "ListConstruct"⟩ 1] [] []
    false "" ""

/-- A graph whose only node is `exampleListConstructNode`. -/
def exampleListConstructGraph : Graph :=
  .mk (.mk [{ unique := 0 }] [producedBy ⟨.prim, "ListConstruct"⟩ 1]
    [exampleListConstructNode]) 2

/-- A graph whose only node carries, as an attribute of kind `g`, a graph that
holds `exampleAddNode`. -/
def exampleAttributeGraph : Graph :=
  .mk (.mk [{ unique := 0 }] [producedBy ⟨.onnx, "Scan"⟩ 1]
    [.mk ⟨.onnx, "Scan"⟩ [{ unique := 0 }] [producedBy ⟨.onnx, "Scan"⟩ 1] []
      [(⟨.attr, "body"⟩, .g exampleAddGraph)] false "" ""]) 2

/-- An `onnx::Add` node. -/
def exampleOnnxAddNode : Node :=
  .mk ⟨.onnx, "Add"⟩ [{ unique := 0 }, { unique := 1 }] [producedBy ⟨.onnx, "Add"⟩ 2] [] []
    false "" ""

/-- A graph whose only node is `exampleOnnxAddNode`. -/
def exampleOnnxAddGraph : Graph :=
  .mk (.mk [{ unique := 0 }, { unique := 1 }] [producedBy ⟨.onnx, "Add"⟩ 2]
    [exampleOnnxAddNode]) 3

/-- A float tensor with one element. -/
def exampleScalarTensor : Tensor := { sizes := [1], scalar_type := .Float, element_size := 4 }

/-- A float tensor with 2000 elements. -/
def exampleLargeTensor : Tensor := { sizes := [2000], scalar_type := .Float, element_size := 4 }

/-- A complex tensor with 2000 elements. -/
def exampleComplexTensor : Tensor :=
  { sizes := [2000], scalar_type := .ComplexFloat, element_size := 8 }

/-- The tensor record of a call of `EncodeTensor` that returned. -/
def recordOf : Except Failure EncodedTensor → Option TensorProto
  | .ok r => some r.tensor_proto
  | .error _ => none

/-- Externals for the examples: an empty graph dump, a serialized size of 16
bytes more than the raw data, and the version constants 7 and `1.11`. -/
def exampleExternals : Externals :=
  { toString := fun _ => ""
    ByteSizeLong := fun p => (p.raw_data.getD []).length + 16
    IR_VERSION := 7
    PRODUCER_VERSION := "1.11" }

/-- A block with the inputs `x` and `w`. -/
def exampleInitializerBlock : Block :=
  .mk [{ unique := 0, unique_name_ := "x" }, { unique := 1, unique_name_ := "w" }] [] []

/-- The type descriptor of a call of `EncodeValueInfoType` that returned. -/
def typeOf : Except Failure (TypeProto × GraphEncoder) → Option TypeProto
  | .ok r => some r.1
  | .error _ => none

/-- The value-info record of a call of `EncodeValueInfo` that returned. -/
def valueInfoOf : Except Failure (ValueInfoProto × GraphEncoder) → Option ValueInfoProto
  | .ok r => some r.1
  | .error _ => none

/-- No dynamic-axes override at all. -/
def noDynamicAxes : DynamicAxes := fun _ => none

/-- A value `x` of a float tensor type with the extents 2, the symbolic
dimension 0 and the symbolic dimension 1, produced by an `onnx::Add` node. -/
def exampleTensorValue : Value :=
  { unique := 5, unique_name_ := "x"
    type := .TensorType (some [.static 2, .symbolic 0, .symbolic 1]) (some .Float)
    node := { kind := ⟨.onnx, "Add"⟩ } }

/-- The override that names axis 1 of the value `x` `batch`. -/
def exampleDynamicAxes : DynamicAxes :=
  fun name => if name = "x" then some (fun i => if i = 1 then some "batch" else none) else none

/-- A block input `a` of a tensor type whose only extent is the symbolic
dimension 0. -/
def exampleInputA : Value :=
  { unique := 0, unique_name_ := "a", type := .TensorType (some [.symbolic 0]) none }

/-- A block input `b` of a tensor type whose only extent is the symbolic
dimension 0. -/
def exampleInputB : Value :=
  { unique := 1, unique_name_ := "b", type := .TensorType (some [.symbolic 0]) none }

/-- The override that names axis 0 of the value `b` `batch`. -/
def exampleDynamicAxesB : DynamicAxes :=
  fun name => if name = "b" then some (fun i => if i = 0 then some "batch" else none) else none

/-- A value of a complex tensor type of rank 1. -/
def exampleComplexValue : Value :=
  { unique := 6, unique_name_ := "z", type := .TensorType (some [.static 4]) (some .ComplexFloat) }

/-- A value whose type annotation is `NoneType`. -/
def exampleNoneValue : Value := { unique := 9, unique_name_ := "opt", type := .NoneType }

/-- Two values encoded one after the other in one session, each on a new type
descriptor: the two descriptors. -/
def encodeTwoValueTypes (enc : GraphEncoder) (a b : Value) (dynamic_axes : DynamicAxes) :
    Except Failure (TypeProto × TypeProto) := do
  let first ← EncodeValueInfoType enc .unset a.type a dynamic_axes
  let second ← EncodeValueInfoType first.2 .unset b.type b dynamic_axes
  return (first.1, second.1)

/-- The graph record with the value-info records `added` at the end of
`value_info`: what several calls of `add_value_info` leave. -/
def GraphProto.add_value_infos (graph_proto : GraphProto) (added : List ValueInfoProto) :
    GraphProto :=
  .mk graph_proto.name graph_proto.input graph_proto.output (graph_proto.value_info ++ added)
    graph_proto.node graph_proto.initializer

/-- Whether `EncodeIntermediateValueInfo` adds a value-info record for the
value `v`: the producing operator is outside the `onnx` namespace, the node
belongs to the session's graph, and `v` is not an output of that graph. -/
def needsIntermediateValueInfo (enc : GraphEncoder) (in_graph_ : Bool) (v : Value) : Bool :=
  !v.node.kind.is_onnx && in_graph_ && !enc.graph_.block.outputs.any (fun o => o = v)

/-- The type tag that `AddAttribute` writes for an attribute value of each
kind it handles. -/
def AttributeValue.attributeType : AttributeValue → Option AttributeProto_AttributeType
  | .f _ => some .FLOAT
  | .fs _ => some .FLOATS
  | .i _ => some .INT
  | .is _ => some .INTS
  | .s _ => some .STRING
  | .ss _ => some .STRINGS
  | .t _ => some .TENSOR
  | .ts _ => some .TENSORS
  | .g _ => some .GRAPH
  | .gs _ => some .GRAPHS
  | .other _ => none

/-- The override of an attribute name in the entry of a node in
`node_attr_to_name_` (lines 761-763). -/
def attributeOverride (attrs_it : Option (String → Option String)) (attr_name : Symbol) :
    Option String :=
  attrs_it.bind (fun names => names attr_name.toUnqualString)

/-- How the record `attr` that `EncodeNode` adds for a declared attribute
relates to the attribute: a reference-only record when the attribute is
overridden, a record with the type tag of the kind otherwise. -/
def encodesAttribute (attrs_it : Option (String → Option String))
    (declared : Symbol × AttributeValue) (attr : AttributeProto) : Prop :=
  match attributeOverride attrs_it declared.1 with
  | some ref_attr_name =>
    attr = { name := some declared.1.toUnqualString, ref_attr_name := some ref_attr_name }
  | none =>
    attr.name = some declared.1.toUnqualString ∧ attr.type = declared.2.attributeType ∧
      attr.ref_attr_name = none

/-- A value `x` of a float tensor type of shape `[2, 3]`, an input of the root
block. -/
def exampleValueX : Value :=
  { unique := 0, unique_name_ := "x"
    type := .TensorType (some [.static 2, .static 3]) (some .Float) }

/-- A value produced by a `None` node. -/
def exampleAbsentValue : Value :=
  { unique := 1, unique_name_ := "none", type := .NoneType
    node := { kind := ⟨.prim, "Constant"⟩, mustBeNone := true } }

/-- A value `w`, an input of the root block. -/
def exampleValueW : Value := { unique := 2, unique_name_ := "w" }

/-- The outputs `y` and `z` of a node `my::Gather`. -/
def exampleValueY : Value :=
  { unique := 3, unique_name_ := "y", type := .TensorType none (some .Float)
    node := { kind := ⟨.custom "my", "Gather"⟩ } }
def exampleValueZ : Value :=
  { unique := 4, unique_name_ := "z", type := .TensorType none (some .Long)
    node := { kind := ⟨.custom "my", "Gather"⟩ } }

/-- A node `my::Gather` with the inputs `x`, an absent value and `w`, the
outputs `y` and `z`, and the attributes `axis = 1` and `mode = "clip"`. -/
def exampleGatherNode : Node :=
  .mk ⟨.custom "my", "Gather"⟩ [exampleValueX, exampleAbsentValue, exampleValueW]
    [exampleValueY, exampleValueZ] []
    [(⟨.attr, "axis"⟩, .i 1), (⟨.attr, "mode"⟩, .s "clip")] false "model.py:9" ""

/-- A graph whose only node is `exampleGatherNode` and whose only output is
`y`. -/
def exampleGatherGraph : Graph :=
  .mk (.mk [exampleValueX, exampleValueW] [exampleValueY] [exampleGatherNode]) 5

/-- An encoder at the start of a session on `exampleGatherGraph` in which the
caller renames the value `w` to `weight_ref` and the attribute `mode` of the
node to `mode_ref`. -/
def exampleGatherEncoder : GraphEncoder :=
  { graph_ := exampleGatherGraph
    val_attr_to_name_ := fun v => if v = exampleValueW then some "weight_ref" else none
    node_attr_to_name_ := fun n =>
      if n.kind = ⟨.custom "my", "Gather"⟩ then
        some (fun name => if name = "mode" then some "mode_ref" else none)
      else none }

/-- The operator record of a call of `EncodeNode` that returned. -/
def nodeRecordOf : Except Failure EncodedNode → Option NodeProto
  | .ok r => some r.node_proto
  | .error _ => none

/-- A node `onnx::Scan` with the input `x`, the output `s`, no attribute and
one nested block, which holds an `onnx::Relu` node. -/
def exampleScanNode : Node :=
  .mk ⟨.onnx, "Scan"⟩ [exampleValueX]
    [{ unique := 6, unique_name_ := "s", node := { kind := ⟨.onnx, "Scan"⟩ } }]
    [.mk [{ unique := 0 }] [producedBy ⟨.onnx, "Relu"⟩ 4] [exampleReluNode]] [] false "" ""

/-- Whether the loop of `EncodeBlock` hands a node of the block to
`EncodeNode`: the node is not a `None` node and not the definition of a local
function. -/
def reachesEncodeNode (n : Node) : Bool :=
  !n.mustBeNone && decide (n.kind ≠ onnx_LocalFunctionDef)

/-- The operator record `node_proto` is what a call of `EncodeNode` on the
node, with a new operator record, returned in some state of the session. -/
def encodedByEncodeNode (use_external_data_format : Bool) (onnx_file_path : String)
    (in_graph_ add_node_names : Bool) (n : Node) (node_proto : NodeProto) : Prop :=
  ∃ enc fs graph_proto q,
    EncodeNode use_external_data_format onnx_file_path in_graph_ add_node_names n enc fs
      graph_proto {} = .ok q ∧ q.node_proto = node_proto

/-- A `None` node. -/
def exampleNoneNode : Node :=
  .mk ⟨.prim, "Constant"⟩ [] [exampleAbsentValue] [] [] true "" ""

/-- An `onnx::Loop` node with the attribute `unroll = 0` whose body holds a
`None` node and an `onnx::Relu` node. -/
def exampleReluLoopNode : Node :=
  .mk onnx_Loop [exampleValueX] [producedBy onnx_Loop 7]
    [.mk [{ unique := 0 }] [producedBy ⟨.onnx, "Relu"⟩ 4] [exampleNoneNode, exampleReluNode]]
    [(⟨.attr, "unroll"⟩, .i 0)] false "" ""

/-- An `onnx::If` node whose branches hold an `onnx::Relu` node and a `None`
node. -/
def exampleIfNode : Node :=
  .mk onnx_If [exampleValueX] [producedBy onnx_If 8]
    [.mk [] [producedBy ⟨.onnx, "Relu"⟩ 4] [exampleReluNode],
     .mk [] [exampleAbsentValue] [exampleNoneNode]]
    [] false "" ""

/-- The type of the values of scenario A: a float tensor of shape `[2, 3]`. -/
def scenarioType : JitType := .TensorType (some [.static 2, .static 3]) (some .Float)

/-- The inputs `a` and `b` of scenario A. -/
def scenarioA : Value := { unique := 0, unique_name_ := "a", type := scenarioType }
def scenarioB : Value := { unique := 1, unique_name_ := "b", type := scenarioType }

/-- The output `c` of the node `Add` of scenario A, for an operator `kind`. -/
def scenarioC (kind : Symbol) : Value :=
  { unique := 2, unique_name_ := "c", type := scenarioType, node := { kind := kind } }

/-- The graph of scenario A for an operator `kind` named `Add`: the inputs `a`
and `b`, the single node `Add(a, b)` with the output `c`, and the given graph
outputs. -/
def scenarioGraph (kind : Symbol) (outputs : List Value) : Graph :=
  .mk (.mk [scenarioA, scenarioB] outputs
    [.mk kind [scenarioA, scenarioB] [scenarioC kind] [] [] false "model.py:1" ""]) 3

/-- The graph record of the model after a session on a graph with no
initializers, no overrides and the policy ONNX, when the session returned. -/
def encodedGraphOf (graph : Graph) (add_node_names : Bool) : Option GraphProto :=
  match (GraphEncoder.construct exampleExternals graph 13 .ONNX [] (fun _ => none) false false
      true [] add_node_names false "" (fun _ => none) (fun _ => none) {}).result with
  | .ok session => session.encoder.model_proto_.graph
  | .error _ => none

/-- The tensor-type descriptor of a value-info record, when it holds one. -/
def ValueInfoProto.tensorType (v : ValueInfoProto) : Option TypeProto_Tensor :=
  match v.type with
  | some (.tensor_type t) => some t
  | _ => none

/-- Type, inputs and outputs of the operator records of a graph record. -/
def operatorView (g : GraphProto) : List (Option String × List String × List String) :=
  g.node.map (fun n => (n.op_type, n.input, n.output))

/-- Name and tensor type of the value-info records of a list. -/
def valueInfoView (vs : List ValueInfoProto) : List (Option String × Option TypeProto_Tensor) :=
  vs.map (fun v => (v.name, v.tensorType))

/-- A block with the nodes `onnx::Relu`, `onnx::Loop` (whose body holds a
`None` node and an `onnx::Relu` node) and `onnx::Relu`. -/
def exampleNamedBlock : Block :=
  .mk [exampleValueX] [producedBy ⟨.onnx, "Relu"⟩ 4]
    [exampleReluNode, exampleReluLoopNode, exampleReluNode]

/-- The display names of the operator records of a graph record that an
encoding returned, each followed by the display names of the operator records
in the graphs of its attributes. -/
def displayNamesOf : Except Failure (Encoded GraphProto) → List (Option String)
  | .error _ => []
  | .ok r =>
    r.value.node.flatMap (fun n =>
      n.name :: n.attribute_.flatMap (fun a =>
        match a.g with
        | some g => g.node.map (fun m => m.name)
        | none => []))

/-- The tuple that `export_onnx` returns: the model record, the export map,
the map of the symbolic dimensions and the external-storage flag. -/
structure Exported where
  model_proto : ModelProto
  raw_data_export_map : String → Option Tensor
  symbol_dim_param_map : SymbolDimMap
  use_external_data_format : Bool

/-- The outcome of `export_onnx`: the caller's graph as the call leaves it, and
either the returned tuple with the file system or the failure. -/
structure ExportOutcome where
  graph : Graph
  result : Except Failure (Exported × FileSystem)

/-- The function `export_onnx` (lines 1146-1191) in the file system `fs`: it
constructs a `GraphEncoder` and returns what its four getters return. -/
def export_onnx (ext : Externals) (graph : Graph) (initializers : Initializers)
    (onnx_opset_version : Int) (dynamic_axes : DynamicAxes) (defer_weight_export : Bool)
    (operator_export_type : OperatorExportTypes) (strip_doc_string : Bool)
    (keep_initializers_as_inputs : Bool) (custom_opsets : List (String × Int))
    (add_node_names use_external_data_format : Bool) (onnx_file_path : String)
    (val_attr_to_name : Value → Option String)
    (node_attr_to_name : Node → Option (String → Option String)) (fs : FileSystem) :
    ExportOutcome :=
  let graph_encoder := GraphEncoder.construct ext graph onnx_opset_version operator_export_type
    initializers dynamic_axes defer_weight_export strip_doc_string keep_initializers_as_inputs
    custom_opsets add_node_names use_external_data_format onnx_file_path val_attr_to_name
    node_attr_to_name fs
  { graph := graph_encoder.graph
    result := do
      let session ← graph_encoder.result
      return ({ model_proto := session.encoder.model_proto_
                raw_data_export_map := session.encoder.raw_data_export_map_
                symbol_dim_param_map := session.encoder.symbol_dim_map_
                use_external_data_format := session.encoder.use_external_data_format_ },
              session.fs) }

/-- A graph with the inputs `x` and `w` and no node. -/
def exampleInitializerGraph : Graph := .mk exampleInitializerBlock 2

/-- The graph record `after` is the graph record `before` with the given
records added at the end of its fields `input`, `output`, `value_info`, `node`
and `initializer`. -/
def GraphProto.grows (before after : GraphProto) (ins outs vis : List ValueInfoProto)
    (nodes : List NodeProto) (inits : List TensorProto) : Prop :=
  after.input = before.input ++ ins ∧ after.output = before.output ++ outs ∧
  after.value_info = before.value_info ++ vis ∧ after.node = before.node ++ nodes ∧
  after.initializer = before.initializer ++ inits

/-- The value-info record `p` is what `EncodeValueInfo` returned for the value
`v`, in some state of the session: it has the name of the value and its type
descriptor. -/
def encodedByEncodeValueInfo (dynamic_axes : DynamicAxes) (v : Value) (p : ValueInfoProto) :
    Prop :=
  ∃ enc q, EncodeValueInfo enc {} v dynamic_axes = .ok q ∧ q.1 = p

/-- The tensor record `p` is what `EncodeTensor` returned for the entry `e` of
the initializers, in some state of the session, on a record named by the key of
the entry. -/
def encodedInitializer (use_external_data_format : Bool) (onnx_file_path : String)
    (e : String × Tensor) (p : TensorProto) : Prop :=
  ∃ enc fs q, EncodeTensor enc fs { name := some e.1 } e.2 (some e.1) use_external_data_format
    onnx_file_path = .ok q ∧ q.tensor_proto = p

/-- The inputs of a block that `EncodeBlock` encodes as inputs of the graph
record: all of them when initializers are kept as inputs, otherwise those whose
name is not a key of the initializers. -/
def EncodeBlock_graphInputs (initializers : Initializers) (keep_initializers_as_inputs : Bool)
    (inputs : List Value) : List Value :=
  if keep_initializers_as_inputs then inputs
  else inputs.filter (fun v => (findInitializer initializers v.debugName).isNone)

/-- A relation between two states of the encoder that holds between a state
and itself, along chains, and across every single write that the encoding
methods make to a member of the encoder: the symbolic-dimension map, the three
counters, an insertion into the set of domains, the export map, and the
function records of the model. -/
structure GraphEncoder.StepClosed (R : GraphEncoder → GraphEncoder → Prop) : Prop where
  refl : ∀ a, R a a
  trans : ∀ a b c, R a b → R b c → R a c
  dims : ∀ (a : GraphEncoder) (m : SymbolDimMap), R a { a with symbol_dim_map_ := m }
  blocks : ∀ (a : GraphEncoder) (k : Nat), R a { a with num_blocks_ := k }
  nodes : ∀ (a : GraphEncoder) (k : Nat), R a { a with num_op_nodes_ := k }
  external : ∀ (a : GraphEncoder) (k : Nat), R a { a with num_external_data_ := k }
  domain : ∀ (a : GraphEncoder) (d : String),
    R a { a with domains_ := insertDomain d a.domains_ }
  raw : ∀ (a : GraphEncoder) (m : String → Option Tensor),
    R a { a with raw_data_export_map_ := m }
  functions : ∀ (a : GraphEncoder) (fs : List FunctionProto),
    R a { a with model_proto_ := { a.model_proto_ with functions := fs } }

/-- From the state `before` to the state `after` of the encoder, the imports
and the graph record of the model record are kept, the set of domains has kept
its elements, and it is in ascending order if it was. -/
def GraphEncoder.registryGrows (before after : GraphEncoder) : Prop :=
  after.model_proto_.opset_import = before.model_proto_.opset_import ∧
  after.model_proto_.graph = before.model_proto_.graph ∧
  (before.domains_.Pairwise (· < ·) → after.domains_.Pairwise (· < ·)) ∧
  (∀ d ∈ before.domains_, d ∈ after.domains_)

/-- A graph whose nodes `zeta::Op` and `alpha::Op` are outside the `onnx`
namespace, the domain that comes later in the order first. -/
def exampleTwoDomainsGraph : Graph :=
  .mk (.mk [scenarioA] []
    [.mk ⟨.custom "zeta", "Op"⟩ [scenarioA] [producedBy ⟨.custom "zeta", "Op"⟩ 1] [] [] false
        "" "",
     .mk ⟨.custom "alpha", "Op"⟩ [scenarioA] [producedBy ⟨.custom "alpha", "Op"⟩ 2] [] []
        false "" ""]) 3

/-- The operator-set imports of the model after a session under the policy
`ONNX_FALLTHROUGH` with the given custom operator sets, when the session
returned. -/
def importsOf (graph : Graph) (custom_opsets : List (String × Int)) :
    Option (List OperatorSetIdProto) :=
  match (GraphEncoder.construct exampleExternals graph 13 .ONNX_FALLTHROUGH [] (fun _ => none)
      false false true custom_opsets false false "" (fun _ => none) (fun _ => none) {}).result
    with
  | .ok session => some session.encoder.model_proto_.opset_import
  | .error _ => none

mutual
/-- The domains that a call of `EncodeLocalFunctionOpsetImport` on a node looks
at, in order: the domain of the node when its operator is outside the `onnx`
namespace, then those of the nodes of its nested blocks. -/
def EncodeLocalFunctionOpsetImport_domains : Node → List String
  | .mk kind _ _ blocks _ _ _ _ =>
    (if !kind.is_onnx then [EncodeNode_domain kind] else []) ++
      EncodeLocalFunctionOpsetImport_blocks_domains blocks
/-- The same list for the loop over the nested blocks. -/
def EncodeLocalFunctionOpsetImport_blocks_domains : List Block → List String
  | [] => []
  | .mk _ _ nodes :: rest =>
    EncodeLocalFunctionOpsetImport_nodes_domains nodes ++
      EncodeLocalFunctionOpsetImport_blocks_domains rest
/-- The same list for the loop over the nodes of a nested block. -/
def EncodeLocalFunctionOpsetImport_nodes_domains : List Node → List String
  | [] => []
  | n :: rest =>
    EncodeLocalFunctionOpsetImport_domains n ++
      EncodeLocalFunctionOpsetImport_nodes_domains rest
end

/-- The domains that the loop of `EncodeLocalFunction` over the nodes of the
body hands to `EncodeLocalFunctionOpsetImport`, in order: `None` nodes are
skipped. -/
def EncodeLocalFunction_domains : List Node → List String
  | [] => []
  | n :: rest =>
    (if n.mustBeNone then [] else EncodeLocalFunctionOpsetImport_domains n) ++
      EncodeLocalFunction_domains rest

/-- The nodes of the graph that `n->g(Symbol::attr("graph"))` returns in
`EncodeLocalFunction` (line 983), over the attributes of the node. -/
def EncodeLocalFunction_body : List (Symbol × AttributeValue) → List Node
  | [] => []
  | (key, .g (.mk (.mk _ _ nodes) _)) :: rest =>
    if key = attr_graph then nodes else EncodeLocalFunction_body rest
  | (key, _) :: rest =>
    if key = attr_graph then [] else EncodeLocalFunction_body rest

/-- What lines 956-968 of `EncodeLocalFunctionOpsetImport` do to the imports of
the function record and to the set `custom_domains` for one domain: a domain
not yet in the set is added to it and gets an import, at the version of the
custom operator sets or at version 1. -/
def addFunctionImport (custom_opsets : List (String × Int))
    (acc : List OperatorSetIdProto × List String) (domain : String) :
    List OperatorSetIdProto × List String :=
  if !acc.2.contains domain then
    (acc.1 ++ [{ domain := some domain
                 version := some ((custom_opsets.lookup domain).getD 1) }],
      acc.2 ++ [domain])
  else acc

/-- The attributes of the definition of a local function `f` in the domain
`fdom`, whose body holds the node `my::Op`. -/
def exampleFunctionAttributes : List (Symbol × AttributeValue) :=
  [(attr_name, .s "f"), (attr_domain, .s "fdom"),
   (attr_graph, .g (.mk (.mk [scenarioA] []
      [.mk ⟨.custom "my", "Op"⟩ [scenarioA] [producedBy ⟨.custom "my", "Op"⟩ 1] [] []
        false "" ""]) 2))]

/-- A graph with the definition of the local function `f` and no other node. -/
def exampleFunctionGraph : Graph :=
  .mk (.mk [scenarioA] []
    [.mk onnx_LocalFunctionDef [] [] [] exampleFunctionAttributes false "" ""]) 3

/-- The operator-set imports of the function records of the model after a
session under the policy `ONNX_FALLTHROUGH`, when the session returned. -/
def functionImportsOf (graph : Graph) (custom_opsets : List (String × Int)) :
    Option (List (List OperatorSetIdProto)) :=
  match (GraphEncoder.construct exampleExternals graph 13 .ONNX_FALLTHROUGH [] (fun _ => none)
      false false true custom_opsets false false "" (fun _ => none) (fun _ => none) {}).result
    with
  | .ok session => some (session.encoder.model_proto_.functions.map (fun f => f.opset_import))
  | .error _ => none

/-- The imports of the function record and the set `custom_domains` of a state
of `EncodeLocalFunctionOpsetImport`. -/
def OpsetImports.view (st : OpsetImports) : List OperatorSetIdProto × List String :=
  (st.func_proto.opset_import, st.custom_domains)

/-- From the state `before` to the state `after` of
`EncodeLocalFunctionOpsetImport`, the domains `ds` were looked at in order:
the imports and the set `custom_domains` took them in, every one of them is in
the set of domains of the encoder, which kept its elements, and nothing else of
the function record and no setting of the encoder changed. -/
def OpsetImports.visited (before after : OpsetImports) (ds : List String) : Prop :=
  after.view = ds.foldl (addFunctionImport before.encoder.custom_opsets_) before.view ∧
  after.encoder.custom_opsets_ = before.encoder.custom_opsets_ ∧
  after.func_proto.node = before.func_proto.node ∧
  (∀ d ∈ ds, d ∈ after.encoder.domains_) ∧
  (∀ d ∈ before.encoder.domains_, d ∈ after.encoder.domains_)

/-- A float tensor with 2000 elements whose bytes are all 1. -/
def exampleLargeTensorB : Tensor :=
  { sizes := [2000], scalar_type := .Float, element_size := 4, bytes := fun _ => 1 }

/-- A graph whose only node, `onnx::Foo`, carries the attribute `values` of
kind `ts` with the two tensors `exampleLargeTensor` and `exampleLargeTensorB`. -/
def exampleTensorsGraph : Graph :=
  .mk (.mk [{ unique := 0 }] [producedBy ⟨.onnx, "Foo"⟩ 1]
    [.mk ⟨.onnx, "Foo"⟩ [{ unique := 0 }] [producedBy ⟨.onnx, "Foo"⟩ 1] []
      [(⟨.attr, "values"⟩, .ts [exampleLargeTensor, exampleLargeTensorB])] false "" ""]) 2

/-- The names and the external-data entries of the tensor records of the
attributes of kind `ts` in the graph record of the model, and the first byte of
the file at `path`, after a session in external-storage mode with the model
file `m/model.onnx`, when the session returned. -/
def attributeTensorsOf (graph : Graph) (add_node_names : Bool) (path : String) :
    Option (List (List (Option String × List StringStringEntryProto)) × Option (Option Nat)) :=
  match (GraphEncoder.construct exampleExternals graph 13 .ONNX [] (fun _ => none)
      false false true [] add_node_names true "m/model.onnx" (fun _ => none) (fun _ => none)
      {}).result with
  | .ok session =>
    some (((session.encoder.model_proto_.graph.getD GraphProto.empty).node.flatMap
        (fun n => n.attribute_.map
          (fun a => a.tensors.map (fun t => (t.name, t.external_data))))),
      (session.fs.files path).map List.head?)
  | .error _ => none

mutual
/-- The display names of the operator records of a graph record, those in the
graphs of their attributes included. -/
def GraphProto.displayNames : GraphProto → List String
  | .mk _ _ _ _ node _ => displayNames_nodes node
/-- The display names in a list of operator records. -/
def displayNames_nodes : List (NodeProtoOf GraphProto) → List String
  | [] => []
  | n :: rest => displayNames_node n ++ displayNames_nodes rest
/-- The display name of an operator record, when it has one, and those in the
graphs of its attributes. -/
def displayNames_node : NodeProtoOf GraphProto → List String
  | ⟨_, _, name, _, _, _, attribute_⟩ => name.toList ++ displayNames_attributes attribute_
/-- The display names in the graphs of a list of attribute records. -/
def displayNames_attributes : List (AttributeProtoOf GraphProto) → List String
  | [] => []
  | a :: rest => displayNames_attribute a ++ displayNames_attributes rest
/-- The display names in the graphs of an attribute record. -/
def displayNames_attribute : AttributeProtoOf GraphProto → List String
  | ⟨_, _, _, _, _, _, _, _, _, _, g, graphs, _⟩ =>
    displayNames_option g ++ displayNames_graphs graphs
/-- The display names in an optional graph record. -/
def displayNames_option : Option GraphProto → List String
  | none => []
  | some g => GraphProto.displayNames g
/-- The display names in a list of graph records. -/
def displayNames_graphs : List GraphProto → List String
  | [] => []
  | g :: rest => GraphProto.displayNames g ++ displayNames_graphs rest
end


/-- The number that a list of decimal digits stands for, from the value `acc`
of the digits read before. -/
def readDigits (acc : Nat) (digits : List Char) : Nat :=
  digits.foldl (fun a c => a * 10 + (c.toNat - 48)) acc

/-- The display names in the operator records of the function records. -/
def displayNames_functions (functions : List FunctionProto) : List String :=
  functions.flatMap (fun f => displayNames_nodes f.node)

/-- The display names in a model record: those of its graph record, then those
of its function records. -/
def ModelProto.displayNames (m : ModelProto) : List String :=
  displayNames_option m.graph ++ displayNames_functions m.functions

/-- The names of the list are pairwise distinct, and each is
`<operator type>_<counter>` for a counter from `lo` up to, not including,
`hi`. -/
def namedWithin (lo hi : Nat) (names : List String) : Prop :=
  lo ≤ hi ∧ names.Nodup ∧
  ∀ n ∈ names, ∃ (op : String) (k : Nat), n = op ++ "_" ++ toString k ∧ lo ≤ k ∧ k < hi

/-- From the state `before` to the state `after` of the encoder, function
records were added at the end of those of the model, the display names `fresh`
were added to the names `old` of the record being filled, and the names added
at either place are pairwise distinct and numbered by the values that the
counter `num_op_nodes_` took in between. -/
def GraphEncoder.namesAdded (before after : GraphEncoder) (old new_ : List String) : Prop :=
  ∃ (added : List FunctionProto) (fresh : List String),
    after.model_proto_.functions = before.model_proto_.functions ++ added ∧
    new_ = old ++ fresh ∧
    namedWithin before.num_op_nodes_ after.num_op_nodes_
      (fresh ++ displayNames_functions added)

/-- From the state `before` to the state `after` of the encoder, the function
records of the model and the counter `num_op_nodes_` are kept. -/
def GraphEncoder.sameNames (before after : GraphEncoder) : Prop :=
  after.model_proto_.functions = before.model_proto_.functions ∧
  after.num_op_nodes_ = before.num_op_nodes_

/-- A graph with the nodes `onnx::Relu_1`, `onnx::Relu`, `onnx::Loop` (whose
body holds a `None` node and an `onnx::Relu` node) and `onnx::Relu`: the first
operator type ends in an underscore and a digit. -/
def exampleUnderscoreGraph : Graph :=
  .mk (.mk [exampleValueX] [producedBy ⟨.onnx, "Relu"⟩ 4]
    [.mk ⟨.onnx, "Relu_1"⟩ [exampleValueX] [producedBy ⟨.onnx, "Relu_1"⟩ 3] [] [] false "" "",
     exampleReluNode, exampleReluLoopNode, exampleReluNode]) 9

/-- The display names in the model record after a session under the policy
`ONNX` on a graph, with `add_node_names` as given; `none` when the session
threw. -/
def sessionNamesOf (graph : Graph) (add_node_names : Bool) : Option (List String) :=
  match (GraphEncoder.construct exampleExternals graph 13 .ONNX [] (fun _ => none) false false
      true [] add_node_names false "" (fun _ => none) (fun _ => none) {}).result with
  | .ok session => some session.encoder.model_proto_.displayNames
  | .error _ => none

/-- A file system in which the file `m/Foo_attr__values_0` exists already. -/
def exampleFileSystem : FileSystem :=
  { files := fun path => if path = "m/Foo_attr__values_0" then some [7] else none }

/-- The tensor record whose serialized size the size probe takes for an
initializer tensor: its extents, its element type and its bytes. -/
def probedInitializerRecord (tensor : Tensor) : TensorProto :=
  let t : Tensor := if tensor.is_quantized then tensor.contiguous else tensor.contiguous.cpu
  { dims := tensor.sizes
    data_type := (ATenTypeToOnnxType tensor.scalar_type).toOption
    raw_data := some (t.data_ptr (t.element_size * t.numel)) }

/-- The summed serialized size of the initializer tensor records of a graph:
one record for each graph input whose name is a key of the initializers. -/
def summedInitializerSize (ByteSizeLong : TensorProto → Nat) (graph : Graph)
    (initializers : Initializers) : Nat :=
  ((graph.block.inputs.filterMap (fun v => findInitializer initializers v.debugName)).map
    (fun e => ByteSizeLong (probedInitializerRecord e.2))).sum

/-- Externals whose serialized size of a tensor record is four bytes for each
element that its extents announce, and 16 bytes more. -/
def exampleSizedExternals : Externals :=
  { toString := fun _ => ""
    ByteSizeLong := fun p => 4 * multiply_integers p.dims + 16
    IR_VERSION := 7
    PRODUCER_VERSION := "1.11" }

/-- A float tensor with `2^28` elements, one GiB of data. -/
def exampleGiBTensor : Tensor := { sizes := [2 ^ 28], scalar_type := .Float, element_size := 4 }

/-- A graph with the inputs `x`, `w` and `v` and no node. -/
def exampleTwoInitializersGraph : Graph :=
  .mk (.mk [{ unique := 0, unique_name_ := "x" }, { unique := 1, unique_name_ := "w" },
    { unique := 2, unique_name_ := "v" }] [] []) 3

/-- A value `s` of a tensor type whose axes 0 and 2 carry the symbolic
dimension 0. -/
def exampleSharedValue : Value :=
  { unique := 3, unique_name_ := "s"
    type := .TensorType (some [.symbolic 0, .static 3, .symbolic 0]) none }

/-- A value `c` of a tensor type whose axis 1 carries the symbolic
dimension 0. -/
def exampleLaterValue : Value :=
  { unique := 4, unique_name_ := "c", type := .TensorType (some [.static 5, .symbolic 0]) none }

/-! # Theorems -/

/-! ## The validator: which node stops the walk -/

theorem findSome?_append_general {α β : Type} (f : α → Option β) (xs ys : List α) :
    (xs ++ ys).findSome? f = (xs.findSome? f).or (ys.findSome? f) := by
  induction xs with
  | nil => simp
  | cons x xs ih =>
    simp only [List.cons_append, List.findSome?_cons]
    cases f x <;> simp [ih]

mutual
theorem validateBlock_failure (p : OperatorExportTypes) :
    ∀ (b : Block) (pending : List Replacement) (nu : Nat),
      (validateBlock p pending nu b).failure = b.allNodes.findSome? (nodeFailure p)
  | .mk inputs outputs nodes, pending, nu => by
    simp only [validateBlock, Block.allNodes]
    exact validateNodes_failure p nodes pending nu
theorem validateNodes_failure (p : OperatorExportTypes) :
    ∀ (ns : List Node) (pending : List Replacement) (nu : Nat),
      (validateNodes p pending nu ns).failure = (allNodesOfNodes ns).findSome? (nodeFailure p)
  | [], pending, nu => by simp [validateNodes, allNodesOfNodes]
  | .mk kind inputs outputs blocks attributes isNone sr py :: rest, pending, nu => by
    have hb := validateBlocks_failure p blocks pending nu
    simp only [validateNodes, allNodesOfNodes, Node.allNodes, findSome?_append_general,
      List.findSome?_cons, List.findSome?_nil]
    rw [← hb]
    cases hwb : (validateBlocks p pending nu blocks).failure with
    | some msg => simp
    | none =>
      simp only [Option.none_or, Option.or_none]
      have hrest := fun pend k => validateNodes_failure p rest pend k
      by_cases h1 : kind = prim_PythonOp
      · simp [h1, nodeFailure, Node.kind, pythonOpMessage, Node.pythonOpName,
          getNodeStackTraceString, Node.sourceRange]
      · by_cases h2 : ((kind = prim_PackPadded || kind = prim_PadPacked) &&
            p ≠ .ONNX_FALLTHROUGH) = true
        · simp only [h1, h2, if_true, if_false, nodeFailure, Node.kind]
          simp [packPaddedMessage, getNodeStackTraceString, Node.sourceRange]
        · by_cases h3 : (kind.is_aten && !is_aten_enabled p && !isNone) = true
          · simp only [h1, h2, h3, if_true, if_false, nodeFailure, Node.kind, Node.mustBeNone]
            simp [atenMessage, getNodeStackTraceString, Node.sourceRange, Node.kind]
          · simp only [h1, h2, h3, if_true, if_false, nodeFailure, Node.kind, Node.mustBeNone]
            exact hrest _ _
theorem validateBlocks_failure (p : OperatorExportTypes) :
    ∀ (bs : List Block) (pending : List Replacement) (nu : Nat),
      (validateBlocks p pending nu bs).failure = (allNodesOfBlocks bs).findSome? (nodeFailure p)
  | [], pending, nu => by simp [validateBlocks, allNodesOfBlocks]
  | b :: rest, pending, nu => by
    have hb := validateBlock_failure p b pending nu
    simp only [validateBlocks, allNodesOfBlocks, findSome?_append_general]
    rw [← hb]
    cases hwb : (validateBlock p pending nu b).failure with
    | some msg => simp
    | none =>
      simp only [Option.none_or]
      exact validateBlocks_failure p rest _ _
end

/-! ## The validator: when the graph is left as it was -/

theorem afterReplacements_nil (v : Value) : Value.afterReplacements [] v = v := rfl

theorem map_afterReplacements_nil (vs : List Value) :
    vs.map (Value.afterReplacements []) = vs := by
  induction vs with
  | nil => rfl
  | cons v vs ih => simp [afterReplacements_nil, ih]

mutual
theorem replaceUsesNode_nil : ∀ n : Node, Node.replaceUses [] n = n
  | .mk kind inputs outputs blocks attributes isNone sr py => by
    simp only [Node.replaceUses, map_afterReplacements_nil, replaceUsesBlocks_nil blocks]
theorem replaceUsesBlock_nil : ∀ b : Block, Block.replaceUses [] b = b
  | .mk inputs outputs nodes => by
    simp only [Block.replaceUses, map_afterReplacements_nil, replaceUsesNodes_nil nodes]
theorem replaceUsesNodes_nil : ∀ ns : List Node, replaceUsesNodes [] ns = ns
  | [] => by simp [replaceUsesNodes]
  | n :: rest => by
    simp only [replaceUsesNodes, replaceUsesNode_nil n, replaceUsesNodes_nil rest]
theorem replaceUsesBlocks_nil : ∀ bs : List Block, replaceUsesBlocks [] bs = bs
  | [] => by simp [replaceUsesBlocks]
  | b :: rest => by
    simp only [replaceUsesBlocks, replaceUsesBlock_nil b, replaceUsesBlocks_nil rest]
end

mutual
theorem validateBlock_unchanged (p : OperatorExportTypes) :
    ∀ (b : Block) (nu : Nat),
      (p = .ONNX_ATEN_FALLBACK → ∀ n ∈ b.allNodes, n.kind ≠ aten_expand) →
      (validateBlock p [] nu b).unchanged b nu
  | .mk inputs outputs nodes, nu, h => by
    obtain ⟨ho, hn, hr⟩ := validateNodes_unchanged p nodes nu (by simpa [Block.allNodes] using h)
    simp only [Walk.unchanged, validateBlock, ho, hn, hr, List.append_nil,
      map_afterReplacements_nil, and_self]
theorem validateNodes_unchanged (p : OperatorExportTypes) :
    ∀ (ns : List Node) (nu : Nat),
      (p = .ONNX_ATEN_FALLBACK → ∀ n ∈ allNodesOfNodes ns, n.kind ≠ aten_expand) →
      (validateNodes p [] nu ns).unchanged ns nu
  | [], nu, _ => by simp [Walk.unchanged, validateNodes]
  | .mk kind inputs outputs blocks attributes isNone sr py :: rest, nu, h => by
    have hblocks : p = .ONNX_ATEN_FALLBACK → ∀ n ∈ allNodesOfBlocks blocks, n.kind ≠ aten_expand :=
      fun hp n hn => h hp n (by simp [allNodesOfNodes, Node.allNodes, hn])
    have hrest : p = .ONNX_ATEN_FALLBACK → ∀ n ∈ allNodesOfNodes rest, n.kind ≠ aten_expand :=
      fun hp n hn => h hp n (by simp [allNodesOfNodes, hn])
    have hfire : (decide (kind = aten_expand) && decide (p = .ONNX_ATEN_FALLBACK)) = false := by
      by_cases hp : p = .ONNX_ATEN_FALLBACK
      · have := h hp (.mk kind inputs outputs blocks attributes isNone sr py)
          (by simp [allNodesOfNodes, Node.allNodes])
        simp only [Node.kind] at this
        simp [this]
      · simp [hp]
    obtain ⟨ho, hn, hr⟩ := validateBlocks_unchanged p blocks nu hblocks
    obtain ⟨ho2, hn2, hr2⟩ := validateNodes_unchanged p rest nu hrest
    simp only [Walk.unchanged, validateNodes, ho, hn, hr, hfire, List.append_nil,
      map_afterReplacements_nil, replaceUsesNodes_nil, replaceUsesNode_nil]
    cases (validateBlocks p [] nu blocks).failure with
    | some msg => simp
    | none =>
      simp only []
      split
      · simp
      · split
        · simp [replaceUsesNodes_nil, replaceUsesNode_nil]
        · split
          · simp [replaceUsesNodes_nil, replaceUsesNode_nil]
          · simp [ho2, hn2, hr2, replaceUsesNodes, replaceUsesNode_nil]
theorem validateBlocks_unchanged (p : OperatorExportTypes) :
    ∀ (bs : List Block) (nu : Nat),
      (p = .ONNX_ATEN_FALLBACK → ∀ n ∈ allNodesOfBlocks bs, n.kind ≠ aten_expand) →
      (validateBlocks p [] nu bs).unchanged bs nu
  | [], nu, _ => by simp [Walk.unchanged, validateBlocks]
  | b :: rest, nu, h => by
    have hb : p = .ONNX_ATEN_FALLBACK → ∀ n ∈ b.allNodes, n.kind ≠ aten_expand :=
      fun hp n hn => h hp n (by simp [allNodesOfBlocks, hn])
    have hrest : p = .ONNX_ATEN_FALLBACK → ∀ n ∈ allNodesOfBlocks rest, n.kind ≠ aten_expand :=
      fun hp n hn => h hp n (by simp [allNodesOfBlocks, hn])
    obtain ⟨ho, hn, hr⟩ := validateBlock_unchanged p b nu hb
    obtain ⟨ho2, hn2, hr2⟩ := validateBlocks_unchanged p rest nu hrest
    simp only [Walk.unchanged, validateBlocks, ho, hn, hr, List.append_nil]
    cases (validateBlock p [] nu b).failure with
    | some msg => simp [replaceUsesBlocks_nil]
    | none => simp [ho2, hn2, hr2, replaceUsesBlock_nil]
end

/-! ## The validator: the outcome of `validateGraph` -/

theorem Graph.mk_block_next_unique (g : Graph) : Graph.mk g.block g.next_unique = g := by
  cases g; rfl

theorem validateGraph_graph_eq (toString : Graph → String) (g : Graph) (p : OperatorExportTypes)
    (h : p = .ONNX_ATEN_FALLBACK → ∀ n ∈ g.block.allNodes, n.kind ≠ aten_expand) :
    (validateGraph toString g p).graph = g := by
  obtain ⟨ho, hn, _⟩ := validateBlock_unchanged p g.block g.next_unique h
  simp only [validateGraph, ho, hn, Graph.mk_block_next_unique]

theorem validateGraph_result (toString : Graph → String) (g : Graph) (p : OperatorExportTypes) :
    (validateGraph toString g p).result =
      match g.block.allNodes.findSome? (nodeFailure p) with
      | some name =>
        .error (.runtime_error (failExportWhat name (toString (validateGraph toString g p).graph)))
      | none => .ok () := by
  simp only [validateGraph, validateBlock_failure, failExportWhat]

theorem findSome?_first {α β : Type} (f : α → Option β) (pre post : List α) (x : α) (y : β)
    (hpre : ∀ m ∈ pre, f m = none) (hx : f x = some y) :
    (pre ++ x :: post).findSome? f = some y := by
  induction pre with
  | nil => simp [hx]
  | cons m pre ih =>
    have hm : f m = none := hpre m (by simp)
    simp only [List.cons_append, List.findSome?_cons, hm]
    exact ih (fun k hk => hpre k (by simp [hk]))

theorem findSome?_only {α β : Type} (f : α → Option β) (l : List α) (x : α) (y : β)
    (hmem : x ∈ l) (honly : ∀ m ∈ l, f m ≠ none → m = x) (hx : f x = some y) :
    l.findSome? f = some y := by
  induction l with
  | nil => simp at hmem
  | cons m l ih =>
    simp only [List.findSome?_cons]
    cases hfm : f m with
    | some z =>
      have : m = x := honly m (by simp) (by simp [hfm])
      subst this
      simpa [hfm] using hx
    | none =>
      simp only []
      have hxl : x ∈ l := by
        rcases List.mem_cons.mp hmem with h | h
        · subst h; rw [hx] at hfm; cases hfm
        · exact h
      exact ih hxl (fun k hk => honly k (by simp [hk]))

theorem findSome?_isSome_of_mem {α β : Type} (f : α → Option β) (l : List α) (x : α)
    (hmem : x ∈ l) (hx : f x ≠ none) : l.findSome? f ≠ none := by
  induction l with
  | nil => simp at hmem
  | cons m l ih =>
    simp only [List.findSome?_cons]
    cases hfm : f m with
    | some z => simp
    | none =>
      simp only []
      rcases List.mem_cons.mp hmem with h | h
      · subst h; exact absurd hfm hx
      · exact ih h

theorem findSome?_eq_none_of_forall {α β : Type} (f : α → Option β) (l : List α)
    (h : ∀ m ∈ l, f m = none) : l.findSome? f = none := by
  induction l with
  | nil => rfl
  | cons m l ih =>
    simp only [List.findSome?_cons, h m (by simp)]
    exact ih (fun k hk => h k (by simp [hk]))

theorem forall_none_of_findSome?_eq_none {α β : Type} (f : α → Option β) (l : List α)
    (h : l.findSome? f = none) : ∀ m ∈ l, f m = none := by
  induction l with
  | nil => intro m hm; simp at hm
  | cons x l ih =>
    simp only [List.findSome?_cons] at h
    cases hfx : f x with
    | some z => simp [hfx] at h
    | none =>
      simp only [hfx] at h
      intro m hm
      rcases List.mem_cons.mp hm with h1 | h1
      · subst h1; exact hfx
      · exact ih h m h1

theorem threw_validateGraph_iff (toString : Graph → String) (g : Graph) (p : OperatorExportTypes) :
    threw (validateGraph toString g p).result = true ↔
      g.block.allNodes.findSome? (nodeFailure p) ≠ none := by
  rw [validateGraph_result]
  cases g.block.allNodes.findSome? (nodeFailure p) <;> simp [threw]

/-! ## Claims about the validator -/

theorem nodeFailure_aten (p : OperatorExportTypes) (n : Node)
    (haten : n.kind.is_aten = true) (hnone : n.mustBeNone = false)
    (h1 : p ≠ .ONNX_ATEN) (h2 : p ≠ .ONNX_ATEN_FALLBACK) (h3 : p ≠ .ONNX_FALLTHROUGH) :
    nodeFailure p n = some (atenMessage n) := by
  have hk1 : n.kind ≠ prim_PythonOp := by
    intro h; rw [h] at haten; exact absurd haten (by decide)
  have hk2 : n.kind ≠ prim_PackPadded := by
    intro h; rw [h] at haten; exact absurd haten (by decide)
  have hk3 : n.kind ≠ prim_PadPacked := by
    intro h; rw [h] at haten; exact absurd haten (by decide)
  simp [nodeFailure, hk1, hk2, hk3, haten, hnone, is_aten_enabled, h1, h2, h3]

/-- C1 (as amended): a node of the aten namespace that is not a `None` node
makes `validateGraph` fail under every policy other than ONNX_ATEN,
ONNX_ATEN_FALLBACK and ONNX_FALLTHROUGH, wherever it sits in the nesting of
blocks; and when no node checked before it offends, the error text is the one
built from its qualified operator and its source range. -/
theorem C1_aten_node_rejected (toString : Graph → String) (g : Graph)
    (p : OperatorExportTypes) (n : Node)
    (hmem : n ∈ g.block.allNodes) (haten : n.kind.is_aten = true)
    (hnone : n.mustBeNone = false)
    (h1 : p ≠ .ONNX_ATEN) (h2 : p ≠ .ONNX_ATEN_FALLBACK) (h3 : p ≠ .ONNX_FALLTHROUGH) :
    threw (validateGraph toString g p).result = true ∧
    ∀ pre post : List Node, g.block.allNodes = pre ++ n :: post →
      (∀ m ∈ pre, nodeFailure p m = none) →
      (validateGraph toString g p).result =
        .error (.runtime_error
          ("ONNX export failed: " ++
            ("Couldn't export operator " ++ n.kind.toQualString ++
              "\n\nDefined at:\n" ++ n.sourceRange) ++
            "\n\nGraph we tried to export:\n" ++ toString g)) := by
  have hf := nodeFailure_aten p n haten hnone h1 h2 h3
  refine ⟨?_, ?_⟩
  · rw [threw_validateGraph_iff]
    exact findSome?_isSome_of_mem _ _ n hmem (by simp [hf])
  · intro pre post hsplit hpre
    have hgraph := validateGraph_graph_eq toString g p (fun hp => absurd hp h2)
    rw [validateGraph_result, hgraph, hsplit, findSome?_first _ pre post n _ hpre hf]
    rfl

/-- C1, witness: the graph with the single node `aten::add` under policy ONNX;
the node is the first to offend, and the error text names `aten::add`. -/
theorem C1_aten_node_rejected_witness :
    threw (validateGraph (fun _ => "") exampleAddGraph .ONNX).result = true ∧
    (validateGraph (fun _ => "") exampleAddGraph .ONNX).result =
      .error (.runtime_error
        ("ONNX export failed: " ++
          ("Couldn't export operator " ++ "aten::add" ++ "\n\nDefined at:\n" ++ "model.py:3") ++
          "\n\nGraph we tried to export:\n" ++ "")) :=
  have h := C1_aten_node_rejected (fun _ => "") exampleAddGraph .ONNX exampleAddNode
    (List.mem_singleton.mpr rfl) (by decide) (by decide) (by decide) (by decide) (by decide)
  ⟨h.1, h.2 [] [] rfl (fun _ hm => absurd hm (List.not_mem_nil _))⟩

/-- C1, counterexample: the only node of `exampleNoneAtenGraph` is in the aten
namespace and the policy is ONNX, yet `validateGraph` returns, because
`mustBeNone()` holds of the node. -/
theorem C1_counterexample :
    exampleNoneAtenGraph.block.allNodes = [exampleNoneAtenNode] ∧
    exampleNoneAtenNode.kind.is_aten = true ∧
    threw (validateGraph (fun _ => "") exampleNoneAtenGraph .ONNX).result = false :=
  ⟨rfl, by decide, by decide⟩

/-- C2: a graph that holds a `prim::PythonOp` node at any nesting depth makes
`validateGraph` fail under every policy; and when it is the only offending node
the error text holds the callback's name and the node's source range. -/
theorem C2_python_op_rejected (toString : Graph → String) (g : Graph)
    (p : OperatorExportTypes) (n : Node)
    (hmem : n ∈ g.block.allNodes) (hkind : n.kind = prim_PythonOp) :
    threw (validateGraph toString g p).result = true ∧
    ((∀ m ∈ g.block.allNodes, nodeFailure p m ≠ none → m = n) →
      (validateGraph toString g p).result =
        .error (.runtime_error
          ("ONNX export failed: " ++
            ("Couldn't export Python operator " ++ n.pythonOpName ++
              "\n\nDefined at:\n" ++ n.sourceRange) ++
            "\n\nGraph we tried to export:\n" ++
            toString (validateGraph toString g p).graph))) := by
  have hf : nodeFailure p n = some (pythonOpMessage n) := by simp [nodeFailure, hkind]
  refine ⟨?_, ?_⟩
  · rw [threw_validateGraph_iff]
    exact findSome?_isSome_of_mem _ _ n hmem (by simp [hf])
  · intro honly
    rw [validateGraph_result, findSome?_only _ _ n _ hmem honly hf]
    rfl

/-- C2, witness: the callback `MyFn` inside the body of a Loop node, under
policy ONNX_FALLTHROUGH; it is the only offending node, and the error text
holds `MyFn` and `model.py:7`. -/
theorem C2_python_op_rejected_witness :
    threw (validateGraph (fun _ => "") examplePythonGraph .ONNX_FALLTHROUGH).result = true ∧
    (validateGraph (fun _ => "") examplePythonGraph .ONNX_FALLTHROUGH).result =
      .error (.runtime_error
        ("ONNX export failed: " ++
          ("Couldn't export Python operator " ++ "MyFn" ++ "\n\nDefined at:\n" ++ "model.py:7") ++
          "\n\nGraph we tried to export:\n" ++ "")) :=
  have hall : examplePythonGraph.block.allNodes =
      [examplePythonNode, exampleLoopNode] := rfl
  have h := C2_python_op_rejected (fun _ => "") examplePythonGraph .ONNX_FALLTHROUGH
    examplePythonNode (by rw [hall]; simp) rfl
  ⟨h.1, h.2 (by
    intro m hm
    rw [hall] at hm
    rcases List.mem_cons.mp hm with h1 | h1
    · intro _; exact h1
    · rw [List.mem_singleton.mp h1]
      intro hq
      exact absurd (by decide) hq)⟩

/-- C3: when a sequence-packing node (`prim::PackPadded` or `prim::PadPacked`)
is the only node of the graph that offends under any policy, `validateGraph`
fails exactly when the policy is not ONNX_FALLTHROUGH. -/
theorem C3_pack_padded_rejected_iff (toString : Graph → String) (g : Graph)
    (p : OperatorExportTypes) (n : Node)
    (hmem : n ∈ g.block.allNodes)
    (hkind : n.kind = prim_PackPadded ∨ n.kind = prim_PadPacked)
    (honly : ∀ m ∈ g.block.allNodes, (∃ q, nodeFailure q m ≠ none) → m = n) :
    threw (validateGraph toString g p).result = true ↔ p ≠ .ONNX_FALLTHROUGH := by
  have hk1 : n.kind ≠ prim_PythonOp := by
    rcases hkind with h | h <;> rw [h] <;> decide
  have haten : n.kind.is_aten = false := by
    rcases hkind with h | h <;> rw [h] <;> decide
  have hpack : (decide (n.kind = prim_PackPadded) || decide (n.kind = prim_PadPacked)) = true := by
    rcases hkind with h | h <;> simp [h]
  rw [threw_validateGraph_iff]
  constructor
  · intro hfail hp
    apply hfail
    apply findSome?_eq_none_of_forall
    intro m hm
    by_contra hne
    have hmn : m = n := honly m hm ⟨p, hne⟩
    subst hmn
    apply hne
    simp [nodeFailure, hk1, hp, haten]
  · intro hp
    apply findSome?_isSome_of_mem _ _ n hmem
    simp [nodeFailure, hk1, hpack, hp]

/-- C3, witness: `examplePackGraph`, whose other node is `onnx::Relu`, under
policy ONNX. -/
theorem C3_pack_padded_rejected_iff_witness :
    threw (validateGraph (fun _ => "") examplePackGraph .ONNX).result = true ↔
      OperatorExportTypes.ONNX ≠ .ONNX_FALLTHROUGH :=
  C3_pack_padded_rejected_iff (fun _ => "") examplePackGraph .ONNX examplePackNode
    (by
      rw [show examplePackGraph.block.allNodes =
        [exampleReluNode, examplePackNode] from rfl]
      simp)
    (Or.inl rfl)
    (by
      intro m hm
      have hall : examplePackGraph.block.allNodes =
          [exampleReluNode, examplePackNode] := rfl
      have hm2 : m = exampleReluNode ∨ m = examplePackNode := by
        simpa [hall] using hm
      rcases hm2 with h | h
      · subst h
        rintro ⟨q, hq⟩
        exact absurd (by simp [nodeFailure, exampleReluNode, Node.kind, prim_PythonOp,
          prim_PackPadded, prim_PadPacked, Symbol.is_aten]) hq
      · intro _; exact h)

/-- C4 (as amended): `validateGraph` leaves the graph as it was, whether it
returns or throws, whenever the policy is not ONNX_ATEN_FALLBACK or the graph
holds no `aten::expand` node at any nesting depth. -/
theorem C4_validation_leaves_graph (toString : Graph → String) (g : Graph)
    (p : OperatorExportTypes)
    (h : p = .ONNX_ATEN_FALLBACK → ∀ n ∈ g.block.allNodes, n.kind ≠ aten_expand) :
    (validateGraph toString g p).graph = g :=
  validateGraph_graph_eq toString g p h

/-- C4, witness: `exampleExpandGraph` under policy ONNX_ATEN. -/
theorem C4_validation_leaves_graph_witness :
    (validateGraph (fun _ => "") exampleExpandGraph .ONNX_ATEN).graph = exampleExpandGraph :=
  C4_validation_leaves_graph (fun _ => "") exampleExpandGraph .ONNX_ATEN
    (fun hp => absurd hp (by decide))

/-- C4, counterexample: under policy ONNX_ATEN_FALLBACK the validation of
`exampleExpandGraph` returns and leaves a graph with a new `onnx::ATen` node in
front of `aten::expand`, whose fresh output 4 has replaced value 2 as the input
of the Relu node. -/
theorem C4_counterexample :
    threw (validateGraph (fun _ => "") exampleExpandGraph .ONNX_ATEN_FALLBACK).result = false ∧
    (validateGraph (fun _ => "") exampleExpandGraph .ONNX_ATEN_FALLBACK).graph.block.nodes.map
        Node.kind = [onnx_ATen, aten_expand, ⟨.onnx, "Relu"⟩] ∧
    (validateGraph (fun _ => "") exampleExpandGraph .ONNX_ATEN_FALLBACK).graph.block.nodes.map
        Node.inputs =
      [[{ unique := 0 }, { unique := 1 }], [{ unique := 0 }, { unique := 1 }],
        [producedBy onnx_ATen 4]] ∧
    exampleExpandGraph.block.nodes.map Node.inputs =
      [[{ unique := 0 }, { unique := 1 }], [producedBy aten_expand 2]] ∧
    (validateGraph (fun _ => "") exampleExpandGraph .ONNX_ATEN_FALLBACK).graph ≠
      exampleExpandGraph :=
  ⟨by decide, by decide, by decide, by decide,
    fun h => absurd (congrArg (fun g => g.block.nodes.length) h) (by decide)⟩

/-! ## The validator and the operator check of the node encoder -/

mutual
theorem EncodeBlock_calls_not_none (n : Node) : ∀ (b : Block),
    n ∈ EncodeBlock_calls b → n.mustBeNone = false
  | .mk _ _ nodes, h => by
    simp only [EncodeBlock_calls] at h
    exact EncodeBlock_loop_not_none n nodes h
theorem EncodeBlock_loop_not_none (n : Node) : ∀ (ns : List Node),
    n ∈ EncodeBlock_loop ns → n.mustBeNone = false
  | [], h => by simp [EncodeBlock_loop] at h
  | .mk kind inputs outputs blocks attributes isNone sr py :: rest, h => by
    simp only [EncodeBlock_loop, List.mem_append] at h
    rcases h with h | h
    · split at h
      · simp at h
      · split at h
        · exact EncodeLocalFunction_calls_not_none n attributes h
        · exact EncodeNode_calls_not_none n _ (by simpa using ‹¬isNone = true›) h
    · exact EncodeBlock_loop_not_none n rest h
theorem EncodeNode_calls_not_none (n : Node) : ∀ (m : Node),
    m.mustBeNone = false → n ∈ EncodeNode_calls m → n.mustBeNone = false
  | .mk kind inputs outputs blocks attributes isNone sr py, hm, h => by
    simp only [EncodeNode_calls, List.mem_append, List.mem_singleton] at h
    rcases h with ((h | h) | h) | h
    · rw [h]; exact hm
    · exact AddAttribute_calls_not_none n attributes h
    · split at h
      · exact EncodeLoopBody_calls_not_none n blocks h
      · simp at h
    · split at h
      · exact EncodeIfBranches_calls_not_none n blocks h
      · simp at h
theorem EncodeLoopBody_calls_not_none (n : Node) : ∀ (bs : List Block),
    n ∈ EncodeLoopBody_calls bs → n.mustBeNone = false
  | [], h => by simp [EncodeLoopBody_calls] at h
  | [body], h => by
    simp only [EncodeLoopBody_calls] at h
    exact EncodeBlock_calls_not_none n body h
  | _ :: _ :: _, h => by simp [EncodeLoopBody_calls] at h
theorem EncodeIfBranches_calls_not_none (n : Node) : ∀ (bs : List Block),
    n ∈ EncodeIfBranches_calls bs → n.mustBeNone = false
  | [], h => by simp [EncodeIfBranches_calls] at h
  | [_], h => by simp [EncodeIfBranches_calls] at h
  | [then_branch, else_branch], h => by
    simp only [EncodeIfBranches_calls, List.mem_append] at h
    rcases h with h | h
    · exact EncodeBlock_calls_not_none n then_branch h
    · exact EncodeBlock_calls_not_none n else_branch h
  | _ :: _ :: _ :: _, h => by simp [EncodeIfBranches_calls] at h
theorem AddAttribute_calls_not_none (n : Node) : ∀ (attrs : List (Symbol × AttributeValue)),
    n ∈ AddAttribute_calls attrs → n.mustBeNone = false
  | [], h => by simp [AddAttribute_calls] at h
  | (_, .g (.mk block _)) :: rest, h => by
    simp only [AddAttribute_calls, List.mem_append] at h
    rcases h with h | h
    · exact EncodeBlock_calls_not_none n block h
    · exact AddAttribute_calls_not_none n rest h
  | (_, .gs graphs) :: rest, h => by
    simp only [AddAttribute_calls, List.mem_append] at h
    rcases h with h | h
    · exact EncodeGraphs_calls_not_none n graphs h
    · exact AddAttribute_calls_not_none n rest h
  | (_, .f _) :: rest, h => by
    simp only [AddAttribute_calls] at h; exact AddAttribute_calls_not_none n rest h
  | (_, .fs _) :: rest, h => by
    simp only [AddAttribute_calls] at h; exact AddAttribute_calls_not_none n rest h
  | (_, .i _) :: rest, h => by
    simp only [AddAttribute_calls] at h; exact AddAttribute_calls_not_none n rest h
  | (_, .is _) :: rest, h => by
    simp only [AddAttribute_calls] at h; exact AddAttribute_calls_not_none n rest h
  | (_, .s _) :: rest, h => by
    simp only [AddAttribute_calls] at h; exact AddAttribute_calls_not_none n rest h
  | (_, .ss _) :: rest, h => by
    simp only [AddAttribute_calls] at h; exact AddAttribute_calls_not_none n rest h
  | (_, .t _) :: rest, h => by
    simp only [AddAttribute_calls] at h; exact AddAttribute_calls_not_none n rest h
  | (_, .ts _) :: rest, h => by
    simp only [AddAttribute_calls] at h; exact AddAttribute_calls_not_none n rest h
  | (_, .other _) :: rest, h => by
    simp only [AddAttribute_calls] at h; exact AddAttribute_calls_not_none n rest h
theorem EncodeGraphs_calls_not_none (n : Node) : ∀ (gs : List Graph),
    n ∈ EncodeGraphs_calls gs → n.mustBeNone = false
  | [], h => by simp [EncodeGraphs_calls] at h
  | .mk block _ :: rest, h => by
    simp only [EncodeGraphs_calls, List.mem_append] at h
    rcases h with h | h
    · exact EncodeBlock_calls_not_none n block h
    · exact EncodeGraphs_calls_not_none n rest h
theorem EncodeLocalFunction_calls_not_none (n : Node) : ∀ (attrs : List (Symbol × AttributeValue)),
    n ∈ EncodeLocalFunction_calls attrs → n.mustBeNone = false
  | [], h => by simp [EncodeLocalFunction_calls] at h
  | (name, .g (.mk (.mk _ _ nodes) _)) :: rest, h => by
    simp only [EncodeLocalFunction_calls] at h
    split at h
    · exact EncodeLocalFunction_loop_not_none n nodes h
    · exact EncodeLocalFunction_calls_not_none n rest h
  | (name, .gs _) :: rest, h => by
    simp only [EncodeLocalFunction_calls] at h
    split at h
    · simp at h
    · exact EncodeLocalFunction_calls_not_none n rest h
  | (name, .f _) :: rest, h => by
    simp only [EncodeLocalFunction_calls] at h
    split at h
    · simp at h
    · exact EncodeLocalFunction_calls_not_none n rest h
  | (name, .fs _) :: rest, h => by
    simp only [EncodeLocalFunction_calls] at h
    split at h
    · simp at h
    · exact EncodeLocalFunction_calls_not_none n rest h
  | (name, .i _) :: rest, h => by
    simp only [EncodeLocalFunction_calls] at h
    split at h
    · simp at h
    · exact EncodeLocalFunction_calls_not_none n rest h
  | (name, .is _) :: rest, h => by
    simp only [EncodeLocalFunction_calls] at h
    split at h
    · simp at h
    · exact EncodeLocalFunction_calls_not_none n rest h
  | (name, .s _) :: rest, h => by
    simp only [EncodeLocalFunction_calls] at h
    split at h
    · simp at h
    · exact EncodeLocalFunction_calls_not_none n rest h
  | (name, .ss _) :: rest, h => by
    simp only [EncodeLocalFunction_calls] at h
    split at h
    · simp at h
    · exact EncodeLocalFunction_calls_not_none n rest h
  | (name, .t _) :: rest, h => by
    simp only [EncodeLocalFunction_calls] at h
    split at h
    · simp at h
    · exact EncodeLocalFunction_calls_not_none n rest h
  | (name, .ts _) :: rest, h => by
    simp only [EncodeLocalFunction_calls] at h
    split at h
    · simp at h
    · exact EncodeLocalFunction_calls_not_none n rest h
  | (name, .other _) :: rest, h => by
    simp only [EncodeLocalFunction_calls] at h
    split at h
    · simp at h
    · exact EncodeLocalFunction_calls_not_none n rest h
theorem EncodeLocalFunction_loop_not_none (n : Node) : ∀ (ns : List Node),
    n ∈ EncodeLocalFunction_loop ns → n.mustBeNone = false
  | [], h => by simp [EncodeLocalFunction_loop] at h
  | .mk kind inputs outputs blocks attributes isNone sr py :: rest, h => by
    simp only [EncodeLocalFunction_loop, List.mem_append] at h
    rcases h with h | h
    · split at h
      · simp at h
      · exact EncodeNode_calls_not_none n _ (by simpa using ‹¬isNone = true›) h
    · exact EncodeLocalFunction_loop_not_none n rest h
end

theorem nodeFailure_ONNX_none (n : Node) (hnone : n.mustBeNone = false)
    (h : nodeFailure .ONNX n = none) :
    n.kind.is_aten = false ∧ n.kind ≠ prim_PythonOp ∧ n.kind ≠ prim_PackPadded ∧
      n.kind ≠ prim_PadPacked := by
  unfold nodeFailure at h
  split at h
  · cases h
  · rename_i h1
    split at h
    · cases h
    · rename_i h2
      split at h
      · cases h
      · rename_i h3
        have h2a : n.kind ≠ prim_PackPadded := by
          intro hk; apply h2; simp [hk]
        have h2b : n.kind ≠ prim_PadPacked := by
          intro hk; apply h2; simp [hk]
        refine ⟨?_, h1, h2a, h2b⟩
        cases hat : n.kind.is_aten with
        | false => rfl
        | true => exact absurd (by simp [hat, hnone, is_aten_enabled]) h3

/-- C5 (as amended): when `validateGraph` returns under policy ONNX, every
node that the encoder hands to `EncodeNode` and that belongs to the validated
tree of blocks is outside the aten namespace, and is none of `prim::PythonOp`,
`prim::PackPadded` and `prim::PadPacked`. -/
theorem C5_validated_node_not_aten (toString : Graph → String) (g : Graph) (n : Node)
    (hvalid : threw (validateGraph toString g .ONNX).result = false)
    (hcall : n ∈ EncodeBlock_calls g.block)
    (hmem : n ∈ g.block.allNodes) :
    n.kind.is_aten = false ∧ n.kind ≠ prim_PythonOp ∧ n.kind ≠ prim_PackPadded ∧
      n.kind ≠ prim_PadPacked := by
  have hnone := EncodeBlock_calls_not_none n g.block hcall
  have hall : g.block.allNodes.findSome? (nodeFailure .ONNX) = none := by
    by_contra hne
    have := (threw_validateGraph_iff toString g .ONNX).mpr hne
    rw [hvalid] at this
    cases this
  exact nodeFailure_ONNX_none n hnone
    (forall_none_of_findSome?_eq_none _ _ hall n hmem)

/-- C5, witness: the graph with the single node `onnx::Add`. -/
theorem C5_validated_node_not_aten_witness :
    exampleOnnxAddNode.kind.is_aten = false ∧ exampleOnnxAddNode.kind ≠ prim_PythonOp ∧
      exampleOnnxAddNode.kind ≠ prim_PackPadded ∧ exampleOnnxAddNode.kind ≠ prim_PadPacked :=
  C5_validated_node_not_aten (fun _ => "") exampleOnnxAddGraph exampleOnnxAddNode
    (by decide)
    (by rw [show EncodeBlock_calls exampleOnnxAddGraph.block = [exampleOnnxAddNode] from rfl]; simp)
    (by rw [show exampleOnnxAddGraph.block.allNodes = [exampleOnnxAddNode] from rfl]; simp)

/-- C5, counterexample: `validateGraph` returns under policy ONNX on a graph
whose only node is `prim::ListConstruct`; `EncodeBlock` hands that node to
`EncodeNode`, whose operator assertion fails on it. The same happens with the
`aten::add` node held by a graph-valued attribute, which the validator never
visits. -/
theorem C5_counterexample :
    (threw (validateGraph (fun _ => "") exampleListConstructGraph .ONNX).result = false ∧
      EncodeBlock_calls exampleListConstructGraph.block = [exampleListConstructNode] ∧
      EncodeNode_operatorCheck .ONNX exampleListConstructNode = false) ∧
    (threw (validateGraph (fun _ => "") exampleAttributeGraph .ONNX).result = false ∧
      (EncodeBlock_calls exampleAttributeGraph.block).map Node.kind =
        [⟨.onnx, "Scan"⟩, ⟨.aten, "add"⟩] ∧
      EncodeNode_operatorCheck .ONNX exampleAddNode = false) :=
  ⟨⟨by decide, rfl, by decide⟩, ⟨by decide, by decide, by decide⟩⟩

/-! ## Claims about the scalar-type mappers -/

/-- C6: `ATenTypeToOnnxType` returns DOUBLE for Double, FLOAT for Float,
FLOAT16 for Half, UINT8 for Byte, INT8 for Char, INT16 for Short, INT32 for
Int, INT64 for Long, BOOL for Bool, INT8 for QInt8, UINT8 for QUInt8 and INT32
for QInt32, and it fails for every other scalar type. -/
theorem C6_ATenTypeToOnnxType_table :
    ATenTypeToOnnxType .Double = .ok .DOUBLE ∧
    ATenTypeToOnnxType .Float = .ok .FLOAT ∧
    ATenTypeToOnnxType .Half = .ok .FLOAT16 ∧
    ATenTypeToOnnxType .Byte = .ok .UINT8 ∧
    ATenTypeToOnnxType .Char = .ok .INT8 ∧
    ATenTypeToOnnxType .Short = .ok .INT16 ∧
    ATenTypeToOnnxType .Int = .ok .INT32 ∧
    ATenTypeToOnnxType .Long = .ok .INT64 ∧
    ATenTypeToOnnxType .Bool = .ok .BOOL ∧
    ATenTypeToOnnxType .QInt8 = .ok .INT8 ∧
    ATenTypeToOnnxType .QUInt8 = .ok .UINT8 ∧
    ATenTypeToOnnxType .QInt32 = .ok .INT32 ∧
    ∀ t : ScalarType,
      threw (ATenTypeToOnnxType t) = false ↔
        t ∈ [ScalarType.Double, .Float, .Half, .Byte, .Char, .Short, .Int, .Long, .Bool,
          .QInt8, .QUInt8, .QInt32] := by
  refine ⟨rfl, rfl, rfl, rfl, rfl, rfl, rfl, rfl, rfl, rfl, rfl, rfl, ?_⟩
  intro t
  cases t <;> simp [ATenTypeToOnnxType, threw]

/-- C7 (as amended): when `ATenTypeToOnnxType` of `helper.cpp` maps a scalar
type to a code, `ONNXTypeToATenType` succeeds on that code; it returns the
scalar type itself unless the type is quantized, and Char, Byte and Int for
QInt8, QUInt8 and QInt32. -/
theorem C7_type_mapping_back (t : ScalarType) (code : Int)
    (h : Helper.ATenTypeToOnnxType t = .ok code) :
    (t ≠ .QInt8 → t ≠ .QUInt8 → t ≠ .QInt32 →
      Helper.ONNXTypeToATenType code = .ok (some t)) ∧
    (t = .QInt8 → Helper.ONNXTypeToATenType code = .ok (some .Char)) ∧
    (t = .QUInt8 → Helper.ONNXTypeToATenType code = .ok (some .Byte)) ∧
    (t = .QInt32 → Helper.ONNXTypeToATenType code = .ok (some .Int)) := by
  cases t <;>
    simp [Helper.ATenTypeToOnnxType, Helper.ATenTypeToOnnxType_aux, Except.map,
      TensorProto_DataType.toInt] at h <;>
    subst h <;>
    simp [Helper.ONNXTypeToATenType, TensorProto_DataType.toInt]

/-- C7, witness: Float is mapped to code 1 and back to Float. -/
theorem C7_type_mapping_back_witness :
    (ScalarType.Float ≠ .QInt8 → ScalarType.Float ≠ .QUInt8 → ScalarType.Float ≠ .QInt32 →
      Helper.ONNXTypeToATenType 1 = .ok (some .Float)) ∧
    (ScalarType.Float = .QInt8 → Helper.ONNXTypeToATenType 1 = .ok (some .Char)) ∧
    (ScalarType.Float = .QUInt8 → Helper.ONNXTypeToATenType 1 = .ok (some .Byte)) ∧
    (ScalarType.Float = .QInt32 → Helper.ONNXTypeToATenType 1 = .ok (some .Int)) :=
  C7_type_mapping_back .Float 1 rfl

/-- C7, counterexample: QInt8 is mapped to code 3 (INT8), and code 3 is mapped
back to Char, not to QInt8. -/
theorem C7_counterexample :
    Helper.ATenTypeToOnnxType .QInt8 = .ok 3 ∧
    Helper.ONNXTypeToATenType 3 = .ok (some .Char) ∧
    ScalarType.Char ≠ ScalarType.QInt8 :=
  ⟨rfl, rfl, by decide⟩

/-! ## Claims about the tensor encoder -/

theorem data_ptr_length (t : Tensor) (n : Nat) : (t.data_ptr n).length = n := by
  simp [Tensor.data_ptr]

/-- C8 (as amended): for a tensor of a supported element type with at most
1024 elements, in every export mode in which deferred export does not apply to
it (deferred mode is off or no name is supplied), `EncodeTensor` returns, and
the new record holds inline raw bytes of length element count times element
size and the tensor's dimension sizes in order. -/
theorem C8_small_tensor_inline (enc : GraphEncoder) (fs : FileSystem) (name : Option String)
    (tensor : Tensor) (external_ref : Option String) (use_external_data_format : Bool)
    (onnx_file_path : String) (data_type : TensorProto_DataType)
    (htype : ATenTypeToOnnxType tensor.scalar_type = .ok data_type)
    (hcount : tensor.numel ≤ 1024)
    (hdefer : enc.defer_weight_export_ = false ∨ external_ref = none) :
    ∃ r bytes,
      EncodeTensor enc fs { name := name } tensor external_ref use_external_data_format
        onnx_file_path = .ok r ∧
      r.tensor_proto.raw_data = some bytes ∧
      bytes.length = tensor.numel * tensor.element_size ∧
      r.tensor_proto.dims = tensor.sizes := by
  have hsmall : ¬ multiply_integers tensor.sizes > ParamSizeThresholdForExternalStorage := by
    simpa [Tensor.numel, ParamSizeThresholdForExternalStorage] using hcount
  have hnumel : ∀ t : Tensor, t.sizes = tensor.sizes → t.numel = tensor.numel := by
    intro t ht; simp [Tensor.numel, ht]
  rcases hdefer with hd | hr
  · cases hq : tensor.is_quantized <;>
      simp [EncodeTensor, htype, hd, hq, hsmall, bind, Except.bind, pure, Except.pure,
        Tensor.contiguous, Tensor.cpu, Tensor.numel, data_ptr_length, Nat.mul_comm]
  · subst hr
    cases hd : enc.defer_weight_export_ <;> cases hq : tensor.is_quantized <;>
      simp [EncodeTensor, htype, hd, hq, hsmall, bind, Except.bind, pure, Except.pure,
        Tensor.contiguous, Tensor.cpu, Tensor.numel, data_ptr_length, Nat.mul_comm]

/-- C8, witness: a one-element float tensor encoded in external-file mode. -/
theorem C8_small_tensor_inline_witness :
    ∃ r bytes,
      EncodeTensor {} {} { name := some "w" } exampleScalarTensor (some "w") true
        "/tmp/model/m.onnx" = .ok r ∧
      r.tensor_proto.raw_data = some bytes ∧
      bytes.length = exampleScalarTensor.numel * exampleScalarTensor.element_size ∧
      r.tensor_proto.dims = exampleScalarTensor.sizes :=
  C8_small_tensor_inline {} {} (some "w") exampleScalarTensor (some "w") true
    "/tmp/model/m.onnx" .FLOAT rfl (by decide) (Or.inl rfl)

/-- C8, counterexample: in deferred-export mode, with the name `w` supplied, the
record of a one-element float tensor (4 bytes) holds the 10 bytes of
`__EXTERNAL` as its raw data. -/
theorem C8_counterexample :
    ATenTypeToOnnxType exampleScalarTensor.scalar_type = .ok .FLOAT ∧
    exampleScalarTensor.numel = 1 ∧
    exampleScalarTensor.numel * exampleScalarTensor.element_size = 4 ∧
    recordOf (EncodeTensor { defer_weight_export_ := true } {} { name := some "w" }
        exampleScalarTensor (some "w") false "") =
      some { name := some "w", dims := [1], data_type := some .FLOAT,
             raw_data := some [95, 95, 69, 88, 84, 69, 82, 78, 65, 76] } :=
  ⟨rfl, by decide, by decide, by decide⟩

theorem EncodeTensor_external (enc : GraphEncoder) (fs : FileSystem) (tensor_proto : TensorProto)
    (name : String) (tensor : Tensor) (external_ref : Option String) (onnx_file_path : String)
    (data_type : TensorProto_DataType) (tensorName : String)
    (htype : ATenTypeToOnnxType tensor.scalar_type = .ok data_type)
    (hdefer : enc.defer_weight_export_ = false ∨ external_ref = none)
    (hbig : multiply_integers tensor.sizes > ParamSizeThresholdForExternalStorage)
    (hpath : onnx_file_path ≠ "")
    (hname : tensor_proto.name = some name)
    (htn : GetExternalFileName (some name) = .ok tensorName)
    (hopen : fs.canOpen (GetFileRootPath onnx_file_path ++ "/" ++ tensorName) = true) :
    EncodeTensor enc fs tensor_proto tensor external_ref true onnx_file_path =
      .ok
        { tensor_proto :=
            { tensor_proto with
              dims := tensor_proto.dims ++ tensor.sizes
              data_type := some data_type
              external_data := tensor_proto.external_data ++
                [{ key := some "location", value := some tensorName }]
              data_location := some .EXTERNAL }
          encoder := enc
          fs :=
            { fs with
              files := fun path =>
                if path = GetFileRootPath onnx_file_path ++ "/" ++ tensorName then
                  some ((if tensor.is_quantized then tensor.contiguous
                    else tensor.contiguous.cpu).data_ptr
                      (tensor.element_size * tensor.numel))
                else fs.files path } } := by
  rcases hdefer with hd | hr
  · cases hq : tensor.is_quantized <;>
      simp [EncodeTensor, htype, hd, hq, hbig, hpath, hname, htn, hopen, CreateExternalFile,
        bind, Except.bind, pure, Except.pure, Tensor.contiguous, Tensor.cpu, Tensor.numel]
  · subst hr
    cases hd : enc.defer_weight_export_ <;> cases hq : tensor.is_quantized <;>
      simp [EncodeTensor, htype, hd, hq, hbig, hpath, hname, htn, hopen, CreateExternalFile,
        bind, Except.bind, pure, Except.pure, Tensor.contiguous, Tensor.cpu, Tensor.numel]

theorem EncodeTensor_inline (enc : GraphEncoder) (fs : FileSystem) (tensor_proto : TensorProto)
    (tensor : Tensor) (external_ref : Option String) (use_external_data_format : Bool)
    (onnx_file_path : String) (data_type : TensorProto_DataType)
    (htype : ATenTypeToOnnxType tensor.scalar_type = .ok data_type)
    (hdefer : enc.defer_weight_export_ = false ∨ external_ref = none)
    (hsmall : use_external_data_format = false ∨
      ¬ multiply_integers tensor.sizes > ParamSizeThresholdForExternalStorage) :
    EncodeTensor enc fs tensor_proto tensor external_ref use_external_data_format
        onnx_file_path =
      .ok
        { tensor_proto :=
            { tensor_proto with
              dims := tensor_proto.dims ++ tensor.sizes
              data_type := some data_type
              raw_data := some ((if tensor.is_quantized then tensor.contiguous
                else tensor.contiguous.cpu).data_ptr (tensor.element_size * tensor.numel)) }
          encoder := enc
          fs := fs } := by
  have hs : (use_external_data_format &&
      decide (multiply_integers tensor.sizes > ParamSizeThresholdForExternalStorage)) = false := by
    rcases hsmall with h | h <;> simp [h]
  rcases hdefer with hd | hr
  · cases hq : tensor.is_quantized <;>
      simp [EncodeTensor, htype, hd, hq, hs, bind, Except.bind, pure, Except.pure,
        Tensor.contiguous, Tensor.cpu, Tensor.numel]
  · subst hr
    cases hd : enc.defer_weight_export_ <;> cases hq : tensor.is_quantized <;>
      simp [EncodeTensor, htype, hd, hq, hs, bind, Except.bind, pure, Except.pure,
        Tensor.contiguous, Tensor.cpu, Tensor.numel]

theorem EncodeTensor_deferred (enc : GraphEncoder) (fs : FileSystem) (tensor_proto : TensorProto)
    (name : String) (tensor : Tensor) (onnx_file_path : String)
    (data_type : TensorProto_DataType)
    (htype : ATenTypeToOnnxType tensor.scalar_type = .ok data_type)
    (hdefer : enc.defer_weight_export_ = true)
    (hname : tensor_proto.name.getD "" = name)
    (hfree : enc.raw_data_export_map_ name = none) :
    EncodeTensor enc fs tensor_proto tensor (some name) false onnx_file_path =
      .ok
        { tensor_proto :=
            { tensor_proto with
              dims := tensor_proto.dims ++ tensor.sizes
              data_type := some data_type
              raw_data := some (stringBytes "__EXTERNAL") }
          encoder :=
            { enc with
              raw_data_export_map_ := fun k =>
                if k = name then
                  some (if tensor.is_quantized then tensor.contiguous
                    else tensor.contiguous.cpu)
                else enc.raw_data_export_map_ k }
          fs := fs } := by
  cases hq : tensor.is_quantized <;>
    simp [EncodeTensor, htype, hdefer, hq, hname, hfree, bind, Except.bind, pure, Except.pure,
      Tensor.contiguous, Tensor.cpu]

/-- C9 (as amended): in external-file mode, when deferred export does not
apply, the target path is not empty, the new record carries a name, the element
type is supported and the external file can be opened, `EncodeTensor` returns,
and it stores the tensor externally exactly when the element count exceeds
1024. Stored externally, the record has no raw data, its data location is
EXTERNAL, its external data is the one entry `location` with the name returned
by `GetExternalFileName`, and the file in the root folder of the target path
holds the tensor's bytes; otherwise the record holds the raw data inline. -/
theorem C9_external_iff_large (enc : GraphEncoder) (fs : FileSystem) (name : String)
    (tensor : Tensor) (external_ref : Option String) (onnx_file_path : String)
    (data_type : TensorProto_DataType)
    (htype : ATenTypeToOnnxType tensor.scalar_type = .ok data_type)
    (hdefer : enc.defer_weight_export_ = false ∨ external_ref = none)
    (hpath : onnx_file_path ≠ "")
    (hopen : ∀ tensorName, GetExternalFileName (some name) = .ok tensorName →
      fs.canOpen (GetFileRootPath onnx_file_path ++ "/" ++ tensorName) = true) :
    ∃ r tensorName,
      EncodeTensor enc fs { name := some name } tensor external_ref true onnx_file_path = .ok r ∧
      GetExternalFileName (some name) = .ok tensorName ∧
      (r.tensor_proto.data_location = some .EXTERNAL ↔ tensor.numel > 1024) ∧
      (tensor.numel > 1024 →
        r.tensor_proto.raw_data = none ∧
        r.tensor_proto.external_data =
          [{ key := some "location", value := some tensorName }] ∧
        ∃ bytes, r.fs.files (GetFileRootPath onnx_file_path ++ "/" ++ tensorName) = some bytes ∧
          bytes.length = tensor.element_size * tensor.numel) ∧
      (tensor.numel ≤ 1024 →
        r.tensor_proto.external_data = [] ∧
        ∃ bytes, r.tensor_proto.raw_data = some bytes ∧
          bytes.length = tensor.element_size * tensor.numel) := by
  have hname : ∃ tensorName, GetExternalFileName (some name) = .ok tensorName :=
    ⟨_, rfl⟩
  obtain ⟨tensorName, htn⟩ := hname
  have hop := hopen tensorName htn
  have hd : (enc.defer_weight_export_ && external_ref.isSome) = false := by
    rcases hdefer with h | h <;> simp [h]
  by_cases hbig : tensor.numel > 1024
  · have hbig2 : multiply_integers tensor.sizes > ParamSizeThresholdForExternalStorage := by
      simpa [Tensor.numel, ParamSizeThresholdForExternalStorage] using hbig
    have heq := EncodeTensor_external enc fs { name := some name } name tensor external_ref
      onnx_file_path data_type tensorName htype hdefer hbig2 hpath rfl htn hop
    refine ⟨_, tensorName, heq, htn, ?_, ?_, ?_⟩
    · simp [hbig]
    · intro _
      exact ⟨rfl, rfl, _, if_pos rfl, data_ptr_length _ _⟩
    · intro hle
      omega
  · have hsmall : ¬ multiply_integers tensor.sizes > ParamSizeThresholdForExternalStorage := by
      simpa [Tensor.numel, ParamSizeThresholdForExternalStorage] using hbig
    have heq := EncodeTensor_inline enc fs { name := some name } tensor external_ref true
      onnx_file_path data_type htype hdefer (Or.inr hsmall)
    refine ⟨_, tensorName, heq, htn, ?_, ?_, ?_⟩
    · simp [hbig]
    · intro h
      exact absurd h hbig
    · intro _
      exact ⟨rfl, _, rfl, data_ptr_length _ _⟩

/-- C9, witness: a float tensor of 2000 elements named `fc/weight`, encoded
for the target `/tmp/model/m.onnx` on a file system where every file opens. -/
theorem C9_external_iff_large_witness :
    ∃ r tensorName,
      EncodeTensor {} {} { name := some "fc/weight" } exampleLargeTensor none true
        "/tmp/model/m.onnx" = .ok r ∧
      GetExternalFileName (some "fc/weight") = .ok tensorName ∧
      (r.tensor_proto.data_location = some .EXTERNAL ↔ exampleLargeTensor.numel > 1024) ∧
      (exampleLargeTensor.numel > 1024 →
        r.tensor_proto.raw_data = none ∧
        r.tensor_proto.external_data =
          [{ key := some "location", value := some tensorName }] ∧
        ∃ bytes, r.fs.files (GetFileRootPath "/tmp/model/m.onnx" ++ "/" ++ tensorName) =
            some bytes ∧
          bytes.length = exampleLargeTensor.element_size * exampleLargeTensor.numel) ∧
      (exampleLargeTensor.numel ≤ 1024 →
        r.tensor_proto.external_data = [] ∧
        ∃ bytes, r.tensor_proto.raw_data = some bytes ∧
          bytes.length = exampleLargeTensor.element_size * exampleLargeTensor.numel) :=
  C9_external_iff_large {} {} "fc/weight" exampleLargeTensor none "/tmp/model/m.onnx" .FLOAT
    rfl (Or.inl rfl) (by decide) (fun _ _ => rfl)

/-- C9, counterexample: in external-file mode, with deferred export off, the
target path `/tmp/model/m.onnx` and the record named `w`, a tensor of 2000
elements is not stored externally, because `EncodeTensor` throws: once for a
complex tensor, whose element type has no external code, and once for a float
tensor when the external file cannot be opened. -/
theorem C9_counterexample :
    exampleComplexTensor.numel = 2000 ∧
    EncodeTensor {} {} { name := some "w" } exampleComplexTensor none true "/tmp/model/m.onnx" =
      .error (.torch_check "unexpected tensor scalar type") ∧
    exampleLargeTensor.numel = 2000 ∧
    EncodeTensor {} { canOpen := fun _ => false } { name := some "w" } exampleLargeTensor none
        true "/tmp/model/m.onnx" =
      .error (.runtime_error
        "ONNX export failed. Could not open file or directory: /tmp/model/w") :=
  ⟨by decide, rfl, by decide, rfl⟩

/-- C10 (as amended): for a tensor of a supported element type, when
deferred-export mode is active, the name supplied equals the record's name and
is not yet in the export map, and external-file mode is off, `EncodeTensor`
returns; the record's raw data is the string `__EXTERNAL` and not the tensor's
bytes, the export map sends the name to the tensor's contiguous host copy, every
other entry of the export map is as before, and no file is written. -/
theorem C10_deferred_export (enc : GraphEncoder) (fs : FileSystem) (tensor_proto : TensorProto)
    (name : String) (tensor : Tensor) (onnx_file_path : String)
    (data_type : TensorProto_DataType)
    (htype : ATenTypeToOnnxType tensor.scalar_type = .ok data_type)
    (hdefer : enc.defer_weight_export_ = true)
    (hname : tensor_proto.name.getD "" = name)
    (hfree : enc.raw_data_export_map_ name = none) :
    ∃ r,
      EncodeTensor enc fs tensor_proto tensor (some name) false onnx_file_path = .ok r ∧
      r.tensor_proto.raw_data = some (stringBytes "__EXTERNAL") ∧
      r.encoder.raw_data_export_map_ name =
        some (if tensor.is_quantized then tensor.contiguous else tensor.contiguous.cpu) ∧
      (∀ k, k ≠ name → r.encoder.raw_data_export_map_ k = enc.raw_data_export_map_ k) ∧
      r.tensor_proto.external_data = tensor_proto.external_data ∧
      r.fs.files = fs.files :=
  ⟨_, EncodeTensor_deferred enc fs tensor_proto name tensor onnx_file_path data_type htype
      hdefer hname hfree,
    rfl, if_pos rfl, fun _ hk => if_neg hk, rfl, rfl⟩

/-- C10, witness: a one-element float tensor named `w`, with an empty export
map. -/
theorem C10_deferred_export_witness :
    ∃ r,
      EncodeTensor { defer_weight_export_ := true } {} { name := some "w" } exampleScalarTensor
        (some "w") false "" = .ok r ∧
      r.tensor_proto.raw_data = some (stringBytes "__EXTERNAL") ∧
      r.encoder.raw_data_export_map_ "w" =
        some (if exampleScalarTensor.is_quantized then exampleScalarTensor.contiguous
          else exampleScalarTensor.contiguous.cpu) ∧
      (∀ k, k ≠ "w" → r.encoder.raw_data_export_map_ k =
        ({ defer_weight_export_ := true } : GraphEncoder).raw_data_export_map_ k) ∧
      r.tensor_proto.external_data = ({ name := some "w" } : TensorProto).external_data ∧
      r.fs.files = ({} : FileSystem).files :=
  C10_deferred_export { defer_weight_export_ := true } {} { name := some "w" } "w"
    exampleScalarTensor "" .FLOAT rfl rfl rfl rfl

/-- C10, counterexample: in deferred-export mode, with the name `w` equal to
the record's name and absent from the export map and external-file mode off,
`EncodeTensor` throws on a complex tensor, whose element type has no external
code; no payload is set and no entry is added. -/
theorem C10_counterexample :
    ({ defer_weight_export_ := true } : GraphEncoder).raw_data_export_map_ "w" = none ∧
    EncodeTensor { defer_weight_export_ := true } {} { name := some "w" } exampleComplexTensor
        (some "w") false "" =
      .error (.torch_check "unexpected tensor scalar type") :=
  ⟨rfl, rfl⟩

/-! ## Claims about conflicting modes, the target location and external files -/

theorem EncodeTensor_conflict (enc : GraphEncoder) (fs : FileSystem) (tensor_proto : TensorProto)
    (tensor : Tensor) (name : String) (onnx_file_path : String)
    (hdefer : enc.defer_weight_export_ = true) :
    threw (EncodeTensor enc fs tensor_proto tensor (some name) true onnx_file_path) = true := by
  cases htype : ATenTypeToOnnxType tensor.scalar_type <;>
    simp [EncodeTensor, htype, hdefer, bind, Except.bind, threw, throw, throwThe,
      MonadExceptOf.throw]

theorem AddInitializersIntoGraphProto_loop_conflict (initializers : Initializers)
    (onnx_file_path : String) (inputs : List Value) (enc : GraphEncoder) (fs : FileSystem)
    (graph_proto : GraphProto) (hdefer : enc.defer_weight_export_ = true)
    (hbacked : ∃ input ∈ inputs, findInitializer initializers input.debugName ≠ none) :
    threw (AddInitializersIntoGraphProto_loop initializers true onnx_file_path inputs enc fs
      graph_proto) = true := by
  induction inputs with
  | nil => obtain ⟨input, hin, _⟩ := hbacked; simp at hin
  | cons input rest ih =>
    unfold AddInitializersIntoGraphProto_loop
    cases hfind : findInitializer initializers input.debugName with
    | none =>
      simp only []
      apply ih
      obtain ⟨x, hx, hxf⟩ := hbacked
      rcases List.mem_cons.mp hx with h | h
      · subst h; exact absurd hfind hxf
      · exact ⟨x, h, hxf⟩
    | some pair =>
      simp only []
      have hthrew := EncodeTensor_conflict enc fs { name := some pair.1 } pair.2 pair.1
        onnx_file_path hdefer
      cases hres : EncodeTensor enc fs { name := some pair.1 } pair.2 (some pair.1) true
          onnx_file_path with
      | error e => simp [bind, Except.bind, threw]
      | ok r => rw [hres] at hthrew; simp [threw] at hthrew

/-- C11 (as amended): when deferred-export mode and external-file mode are both
requested, `EncodeTensor` fails for every tensor that is encoded with a name
supplied, and so `AddInitializersIntoGraphProto` fails as soon as one block
input is backed by an initializer; no record is produced. -/
theorem C11_conflicting_modes_named (enc : GraphEncoder) (fs : FileSystem)
    (hdefer : enc.defer_weight_export_ = true) :
    (∀ (tensor_proto : TensorProto) (tensor : Tensor) (name onnx_file_path : String),
      threw (EncodeTensor enc fs tensor_proto tensor (some name) true onnx_file_path) = true) ∧
    (∀ (graph_proto : GraphProto) (block : Block) (initializers : Initializers)
        (onnx_file_path : String),
      (∃ input ∈ block.inputs, findInitializer initializers input.debugName ≠ none) →
      threw (AddInitializersIntoGraphProto enc fs graph_proto block initializers true
        onnx_file_path) = true) := by
  refine ⟨fun tensor_proto tensor name path =>
    EncodeTensor_conflict enc fs tensor_proto tensor name path hdefer, ?_⟩
  intro graph_proto block initializers path hbacked
  unfold AddInitializersIntoGraphProto
  split
  · rfl
  · exact AddInitializersIntoGraphProto_loop_conflict initializers path block.inputs enc fs
      graph_proto hdefer hbacked

/-- C11, witness: the initializer `w`, a one-element float tensor, with both
modes requested. -/
theorem C11_conflicting_modes_named_witness :
    threw (EncodeTensor { defer_weight_export_ := true } {} { name := some "w" }
      exampleScalarTensor (some "w") true "/tmp/model/m.onnx") = true ∧
    threw (AddInitializersIntoGraphProto { defer_weight_export_ := true } {} GraphProto.empty
      exampleInitializerBlock [("w", exampleScalarTensor)] true "/tmp/model/m.onnx") = true :=
  have h := C11_conflicting_modes_named { defer_weight_export_ := true } {} rfl
  ⟨h.1 { name := some "w" } exampleScalarTensor "w" "/tmp/model/m.onnx",
    h.2 GraphProto.empty exampleInitializerBlock [("w", exampleScalarTensor)]
      "/tmp/model/m.onnx"
      ⟨{ unique := 1, unique_name_ := "w" }, by simp [exampleInitializerBlock, Block.inputs],
        by simp [findInitializer, Value.debugName]⟩⟩

/-- C11, counterexample: with both modes requested, the tensor of an attribute
`value` of a node `Constant` is encoded all the same, because `AddAttribute`
calls `EncodeTensor` with no name: a one-element float tensor is embedded
inline and a float tensor of 2000 elements is stored in an external file. -/
theorem C11_counterexample :
    recordOf (AddAttribute_tensor { defer_weight_export_ := true } {}
        { op_type := some "Constant" } ⟨.attr, "value"⟩ exampleScalarTensor true
        "/tmp/model/m.onnx") =
      some { name := some "Constant_attr::value_0", dims := [1], data_type := some .FLOAT,
             raw_data := some [0, 0, 0, 0] } ∧
    recordOf (AddAttribute_tensor { defer_weight_export_ := true } {}
        { op_type := some "Constant" } ⟨.attr, "value"⟩ exampleLargeTensor true
        "/tmp/model/m.onnx") =
      some { name := some "Constant_attr::value_0", dims := [2000], data_type := some .FLOAT,
             external_data := [{ key := some "location", value := some "Constant_attr__value_0" }],
             data_location := some .EXTERNAL } :=
  ⟨by decide, by decide⟩

/-- C12: when the graph passes validation, a session started with
external-storage mode on and an empty target location fails in the part of the
constructor that precedes `EncodeGraph`, whatever the initializers are; no
encoder, hence no model, is returned. -/
theorem C12_empty_location_rejected (ext : Externals) (graph : Graph) (onnx_opset_version : Int)
    (operator_export_type : OperatorExportTypes) (initializers : Initializers)
    (defer_weight_export strip_doc : Bool) (custom_opsets : List (String × Int))
    (val_attr_to_name : Value → Option String)
    (node_attr_to_name : Node → Option (String → Option String))
    (hvalid : threw (validateGraph ext.toString graph operator_export_type).result = false) :
    (GraphEncoder.prepare ext graph onnx_opset_version operator_export_type initializers
        defer_weight_export strip_doc custom_opsets true "" val_attr_to_name
        node_attr_to_name).result =
      .error (.torch_check
        "For large model export, f in torch.onnx.export must be a non-empty string specifying the location of the model.") := by
  cases hres : (validateGraph ext.toString graph operator_export_type).result with
  | error e => rw [hres] at hvalid; simp [threw] at hvalid
  | ok u =>
    simp [GraphEncoder.prepare, hres, bind, Except.bind, pure, Except.pure, throw, throwThe,
      MonadExceptOf.throw]

/-- C12, witness: the graph with the single node `onnx::Add` and a float
initializer of 2000 elements. -/
theorem C12_empty_location_rejected_witness :
    (GraphEncoder.prepare exampleExternals exampleOnnxAddGraph 13 .ONNX
        [("0", exampleLargeTensor)] false false [] true "" (fun _ => none)
        (fun _ => none)).result =
      .error (.torch_check
        "For large model export, f in torch.onnx.export must be a non-empty string specifying the location of the model.") :=
  C12_empty_location_rejected exampleExternals exampleOnnxAddGraph 13 .ONNX
    [("0", exampleLargeTensor)] false false [] (fun _ => none) (fun _ => none) (by decide)

/-- C14: for a present name `s`, `GetExternalFileName` returns a string of the
same length in which every backslash, slash, colon, question mark, double
quote, less-than, greater-than and vertical bar of `s` is replaced by an
underscore and every other character stands unchanged at its position; the
result holds none of the eight characters. -/
theorem C14_GetExternalFileName_sanitizes (s : String) :
    ∃ r,
      GetExternalFileName (some s) = .ok r ∧
      r.length = s.length ∧
      (∀ (i : Nat) (c : Char), s.data[i]? = some c →
        r.data[i]? =
          some (if c ∈ ['\\', '/', ':', '?', Char.ofNat 34, '<', '>', '|'] then '_' else c)) ∧
      ∀ c ∈ ['\\', '/', ':', '?', Char.ofNat 34, '<', '>', '|'], c ∉ r.data := by
  have hchars : "\\/:?\"<>|".data = ['\\', '/', ':', '?', Char.ofNat 34, '<', '>', '|'] := by
    decide
  refine ⟨_, rfl, ?_, ?_, ?_⟩
  · exact List.length_map _ _
  · intro i c hc
    rw [hchars]
    simp only [List.getElem?_map, hc, Option.map_some']
  · intro c hc hmem
    simp only [hchars, List.mem_map] at hmem
    obtain ⟨x, _, hx⟩ := hmem
    split at hx
    · subst hx
      revert hc
      decide
    · subst hx
      contradiction

/-! ## The loop over the axes of a tensor type -/

theorem set_length_append_singleton {α : Type} (l : List α) (a x : α) :
    (l ++ [a]).set l.length x = l ++ [x] := by
  induction l with
  | nil => rfl
  | cons b l ih => simp [ih]

theorem tensorTypeToONNXType_axes_eq (dynamic_axes : DynamicAxes) (n : Value) (name : String) :
    ∀ (sizes : List ShapeSymbol) (i : Nat) (shape : TensorShapeProto) (m : SymbolDimMap),
      shape.dim.length = i →
      tensorTypeToONNXType_axes dynamic_axes n name i sizes shape m =
        ({ dim := shape.dim ++ (tensorTypeToONNXType_dims dynamic_axes n name i sizes m).1 },
          (tensorTypeToONNXType_dims dynamic_axes n name i sizes m).2)
  | [], i, shape, m, _ => by
    simp [tensorTypeToONNXType_axes, tensorTypeToONNXType_dims]
  | size :: rest, i, shape, m, hlen => by
    simp only [tensorTypeToONNXType_axes, tensorTypeToONNXType_dims, tensorTypeToONNXType_axis]
    rw [← hlen, set_length_append_singleton]
    rw [tensorTypeToONNXType_axes_eq dynamic_axes n name rest (shape.dim.length + 1) _ _
      (by simp)]
    simp

theorem tensorTypeToONNXType_dims_length (dynamic_axes : DynamicAxes) (n : Value)
    (name : String) :
    ∀ (sizes : List ShapeSymbol) (i : Nat) (m : SymbolDimMap),
      (tensorTypeToONNXType_dims dynamic_axes n name i sizes m).1.length = sizes.length
  | [], _, _ => rfl
  | _ :: rest, i, m => by
    simp [tensorTypeToONNXType_dims, tensorTypeToONNXType_dims_length dynamic_axes n name rest]

/-- The descriptor of axis `i + k` is the one the loop body hands out in the
state that the first `k` axes leave. -/
theorem tensorTypeToONNXType_dims_getElem? (dynamic_axes : DynamicAxes) (n : Value)
    (name : String) :
    ∀ (sizes : List ShapeSymbol) (i : Nat) (m : SymbolDimMap) (k : Nat) (size : ShapeSymbol),
      sizes[k]? = some size →
      (tensorTypeToONNXType_dims dynamic_axes n name i sizes m).1[k]? =
        some (tensorTypeToONNXType_dim dynamic_axes n name (i + k) size
          (tensorTypeToONNXType_dims dynamic_axes n name i (sizes.take k) m).2).1
  | [], _, _, _, _, h => by simp at h
  | first :: rest, i, m, 0, size, h => by
    simp at h
    subst h
    simp [tensorTypeToONNXType_dims]
  | first :: rest, i, m, k + 1, size, h => by
    simp only [List.getElem?_cons_succ] at h
    have ih := tensorTypeToONNXType_dims_getElem? dynamic_axes n name rest (i + 1)
      (tensorTypeToONNXType_dim dynamic_axes n name i first m).2 k size h
    simp only [tensorTypeToONNXType_dims, List.getElem?_cons_succ, List.take_succ_cons]
    rw [ih]
    congr 3
    omega

/-- The map the loop leaves is the one the axes after axis `k` leave, started
from the state of the loop body at axis `k`. -/
theorem tensorTypeToONNXType_dims_split (dynamic_axes : DynamicAxes) (n : Value)
    (name : String) :
    ∀ (sizes : List ShapeSymbol) (i : Nat) (m : SymbolDimMap) (k : Nat) (size : ShapeSymbol),
      sizes[k]? = some size →
      (tensorTypeToONNXType_dims dynamic_axes n name i sizes m).2 =
        (tensorTypeToONNXType_dims dynamic_axes n name (i + k + 1) (sizes.drop (k + 1))
          (tensorTypeToONNXType_dim dynamic_axes n name (i + k) size
            (tensorTypeToONNXType_dims dynamic_axes n name i (sizes.take k) m).2).2).2
  | [], _, _, _, _, h => by simp at h
  | first :: rest, i, m, 0, size, h => by
    simp at h
    subst h
    simp [tensorTypeToONNXType_dims]
  | first :: rest, i, m, k + 1, size, h => by
    simp only [List.getElem?_cons_succ] at h
    have ih := tensorTypeToONNXType_dims_split dynamic_axes n name rest (i + 1)
      (tensorTypeToONNXType_dim dynamic_axes n name i first m).2 k size h
    simp only [tensorTypeToONNXType_dims, List.take_succ_cons, List.drop_succ_cons]
    rw [ih]
    have e1 : i + 1 + k + 1 = i + (k + 1) + 1 := by omega
    have e2 : i + 1 + k = i + (k + 1) := by omega
    rw [e1, e2]

theorem tensorTypeToONNXType_dim_static (dynamic_axes : DynamicAxes) (n : Value) (name : String)
    (i : Nat) (size : ShapeSymbol) (m : SymbolDimMap) (v : Nat) :
    (tensorTypeToONNXType_dim dynamic_axes n name i size m).2 (.static v) = m (.static v) := by
  cases size with
  | static w =>
    cases h : dynamicAxis dynamic_axes name i <;>
      simp [tensorTypeToONNXType_dim, h, ShapeSymbol.is_static]
  | symbolic s =>
    cases h : dynamicAxis dynamic_axes name i with
    | some o => simp [tensorTypeToONNXType_dim, h, ShapeSymbol.is_static, setSymbolDim]
    | none =>
      by_cases hm : m (.symbolic s) = none <;> by_cases hk : n.node.kind = prim_Param <;>
        simp [tensorTypeToONNXType_dim, h, ShapeSymbol.is_static, hm, hk, setSymbolDim]

theorem tensorTypeToONNXType_dims_static (dynamic_axes : DynamicAxes) (n : Value)
    (name : String) (v : Nat) :
    ∀ (sizes : List ShapeSymbol) (i : Nat) (m : SymbolDimMap),
      (tensorTypeToONNXType_dims dynamic_axes n name i sizes m).2 (.static v) = m (.static v)
  | [], _, _ => rfl
  | size :: rest, i, m => by
    simp only [tensorTypeToONNXType_dims]
    rw [tensorTypeToONNXType_dims_static dynamic_axes n name v rest,
      tensorTypeToONNXType_dim_static]

/-- An axis with an override emits the override name. -/
theorem tensorTypeToONNXType_dim_override (dynamic_axes : DynamicAxes) (n : Value)
    (name : String) (i : Nat) (size : ShapeSymbol) (m : SymbolDimMap) (o : String)
    (h : dynamicAxis dynamic_axes name i = some o) :
    (tensorTypeToONNXType_dim dynamic_axes n name i size m).1 = .dim_param o := by
  simp [tensorTypeToONNXType_dim, h]

/-- An axis of known size without override emits the size. -/
theorem tensorTypeToONNXType_dim_literal (dynamic_axes : DynamicAxes) (n : Value)
    (name : String) (i : Nat) (v : Nat) (m : SymbolDimMap)
    (h : dynamicAxis dynamic_axes name i = none) :
    tensorTypeToONNXType_dim dynamic_axes n name i (.static v) m = (.dim_value v, m) := by
  simp [tensorTypeToONNXType_dim, h, ShapeSymbol.is_static, ShapeSymbol.static_size]

/-- A symbolic axis emits a name, and the map binds the symbolic dimension to
that name afterwards. -/
theorem tensorTypeToONNXType_dim_binds (dynamic_axes : DynamicAxes) (n : Value)
    (name : String) (i : Nat) (s : Nat) (m : SymbolDimMap) :
    ∃ y, (tensorTypeToONNXType_dim dynamic_axes n name i (.symbolic s) m).1 = .dim_param y ∧
      (tensorTypeToONNXType_dim dynamic_axes n name i (.symbolic s) m).2 (.symbolic s) =
        some y := by
  cases h : dynamicAxis dynamic_axes name i with
  | some o =>
    exact ⟨o, by simp [tensorTypeToONNXType_dim, h],
      by simp [tensorTypeToONNXType_dim, h, ShapeSymbol.is_static, setSymbolDim]⟩
  | none =>
    cases hm : m (.symbolic s) with
    | some x =>
      exact ⟨x, by simp [tensorTypeToONNXType_dim, h, ShapeSymbol.is_static, hm],
        by simp [tensorTypeToONNXType_dim, h, ShapeSymbol.is_static, hm]⟩
    | none =>
      by_cases hk : n.node.kind = prim_Param
      · exact ⟨name ++ "_dim_" ++ toString i,
          by simp [tensorTypeToONNXType_dim, h, ShapeSymbol.is_static, hm, hk, setSymbolDim],
          by simp [tensorTypeToONNXType_dim, h, ShapeSymbol.is_static, hm, hk, setSymbolDim]⟩
      · exact ⟨n.node.kind.toUnqualString ++ name ++ "_dim_" ++ toString i,
          by simp [tensorTypeToONNXType_dim, h, ShapeSymbol.is_static, hm, hk, setSymbolDim],
          by simp [tensorTypeToONNXType_dim, h, ShapeSymbol.is_static, hm, hk, setSymbolDim]⟩

/-- A symbolic axis without override whose symbolic dimension is bound emits
the bound name and leaves the map as it was. -/
theorem tensorTypeToONNXType_dim_bound (dynamic_axes : DynamicAxes) (n : Value)
    (name : String) (i : Nat) (s : Nat) (m : SymbolDimMap) (x : String)
    (h : dynamicAxis dynamic_axes name i = none) (hm : m (.symbolic s) = some x) :
    tensorTypeToONNXType_dim dynamic_axes n name i (.symbolic s) m = (.dim_param x, m) := by
  simp [tensorTypeToONNXType_dim, h, ShapeSymbol.is_static, hm]

/-- The binding of a symbolic dimension survives an axis that does not carry it
under an override. -/
theorem tensorTypeToONNXType_dim_keeps (dynamic_axes : DynamicAxes) (n : Value)
    (name : String) (i : Nat) (size : ShapeSymbol) (s : Nat) (m : SymbolDimMap) (x : String)
    (hm : m (.symbolic s) = some x)
    (hfree : size = .symbolic s → dynamicAxis dynamic_axes name i = none) :
    (tensorTypeToONNXType_dim dynamic_axes n name i size m).2 (.symbolic s) = some x := by
  by_cases hsize : size = .symbolic s
  · subst hsize
    rw [tensorTypeToONNXType_dim_bound dynamic_axes n name i s m x (hfree rfl) hm]
    exact hm
  · have hne : ShapeSymbol.symbolic s ≠ size := fun h => hsize h.symm
    cases hd : dynamicAxis dynamic_axes name i with
    | some o =>
      simp only [tensorTypeToONNXType_dim, hd]
      split <;> simp [setSymbolDim, hne, hm]
    | none =>
      simp only [tensorTypeToONNXType_dim, hd]
      split
      · exact hm
      · simp only []
        split
        · split <;> simp [setSymbolDim, hne, hm]
        · exact hm

theorem tensorTypeToONNXType_dims_keeps (dynamic_axes : DynamicAxes) (n : Value)
    (name : String) (s : Nat) (x : String) :
    ∀ (sizes : List ShapeSymbol) (i : Nat) (m : SymbolDimMap),
      m (.symbolic s) = some x →
      (∀ k, sizes[k]? = some (.symbolic s) → dynamicAxis dynamic_axes name (i + k) = none) →
      (tensorTypeToONNXType_dims dynamic_axes n name i sizes m).2 (.symbolic s) = some x
  | [], _, _, hm, _ => hm
  | size :: rest, i, m, hm, hfree => by
    simp only [tensorTypeToONNXType_dims]
    apply tensorTypeToONNXType_dims_keeps dynamic_axes n name s x rest (i + 1)
    · apply tensorTypeToONNXType_dim_keeps dynamic_axes n name i size s m x hm
      intro hsize
      have := hfree 0 (by simp [hsize])
      simpa using this
    · intro k hk
      have := hfree (k + 1) (by simpa using hk)
      rw [← this]
      congr 1
      omega

/-! ## Claims about the value and type encoder -/

theorem EncodeValueInfoType_known_rank (enc : GraphEncoder) (dynamic_axes : DynamicAxes)
    (n : Value) (sizes : List ShapeSymbol) (scalarType : Option ScalarType)
    (hsupported : ∀ st, scalarType = some st → threw (ATenTypeToOnnxType st) = false) :
    ∃ elem_type,
      EncodeValueInfoType enc .unset (.TensorType (some sizes) scalarType) n dynamic_axes =
        .ok (.tensor_type
          { elem_type := elem_type
            shape := some
              { dim := (tensorTypeToONNXType_dims dynamic_axes n n.debugName 0 sizes
                  enc.symbol_dim_map_).1 } },
          { enc with
            symbol_dim_map_ := (tensorTypeToONNXType_dims dynamic_axes n n.debugName 0 sizes
              enc.symbol_dim_map_).2 }) := by
  have haxes := tensorTypeToONNXType_axes_eq dynamic_axes n n.debugName sizes 0 {}
    enc.symbol_dim_map_ rfl
  cases scalarType with
  | none =>
    exact ⟨none, by
      simp [EncodeValueInfoType, tensorTypeToONNXType, TypeProto.mutable_tensor_type, haxes,
        bind, Except.bind, pure, Except.pure]⟩
  | some st =>
    have h := hsupported st rfl
    cases hst : ATenTypeToOnnxType st with
    | error e => rw [hst] at h; simp [threw] at h
    | ok c =>
      exact ⟨some c, by
        simp [EncodeValueInfoType, tensorTypeToONNXType, TypeProto.mutable_tensor_type, haxes,
          hst, bind, Except.bind, pure, Except.pure]⟩

/-- An axis with an override that carries a symbolic dimension binds the
symbolic dimension to the override name. -/
theorem tensorTypeToONNXType_dim_override_binds (dynamic_axes : DynamicAxes) (n : Value)
    (name : String) (i : Nat) (s : Nat) (m : SymbolDimMap) (o : String)
    (h : dynamicAxis dynamic_axes name i = some o) :
    (tensorTypeToONNXType_dim dynamic_axes n name i (.symbolic s) m).2 (.symbolic s) =
      some o := by
  simp [tensorTypeToONNXType_dim, h, ShapeSymbol.is_static, setSymbolDim]

/-- The map the loop leaves binds the symbolic dimension of axis `k` to the
name `y` that the axis left bound, when no later axis carries the same symbolic
dimension under an override. -/
theorem tensorTypeToONNXType_dims_last (dynamic_axes : DynamicAxes) (n : Value)
    (name : String) (sizes : List ShapeSymbol) (m : SymbolDimMap) (k s : Nat) (y : String)
    (hk : sizes[k]? = some (.symbolic s))
    (hy : (tensorTypeToONNXType_dim dynamic_axes n name k (.symbolic s)
      (tensorTypeToONNXType_dims dynamic_axes n name 0 (sizes.take k) m).2).2 (.symbolic s) =
        some y)
    (hlater : ∀ j, k < j → sizes[j]? = some (.symbolic s) →
      dynamicAxis dynamic_axes name j = none) :
    (tensorTypeToONNXType_dims dynamic_axes n name 0 sizes m).2 (.symbolic s) = some y := by
  rw [tensorTypeToONNXType_dims_split dynamic_axes n name sizes 0 m k _ hk]
  simp only [Nat.zero_add]
  apply tensorTypeToONNXType_dims_keeps dynamic_axes n name s y _ _ _ hy
  intro j hj
  rw [List.getElem?_drop] at hj
  have := hlater (k + 1 + j) (by omega) hj
  exact this

/-- The descriptor of axis `k` is the one the loop body hands out in the state
that the first `k` axes leave, for a loop that starts at axis 0. -/
theorem tensorTypeToONNXType_dims_at (dynamic_axes : DynamicAxes) (n : Value)
    (name : String) (sizes : List ShapeSymbol) (m : SymbolDimMap) (k : Nat)
    (size : ShapeSymbol) (hk : sizes[k]? = some size) :
    (tensorTypeToONNXType_dims dynamic_axes n name 0 sizes m).1[k]? =
      some (tensorTypeToONNXType_dim dynamic_axes n name k size
        (tensorTypeToONNXType_dims dynamic_axes n name 0 (sizes.take k) m).2).1 := by
  have h := tensorTypeToONNXType_dims_getElem? dynamic_axes n name sizes 0 m k size hk
  simpa using h

/-- C15 (as amended): for a tensor type of known rank whose element type, when
known, has an ONNX code, `EncodeValueInfoType` on a new type descriptor returns
a tensor-typed descriptor whose shape has one descriptor per axis, in axis
order: the override name at an axis with an override, also when the extent is a
known constant, otherwise the literal extent at an axis of known extent,
otherwise a symbolic name. Afterwards the symbolic-dimension map binds the
symbolic dimension of an overridden axis to the override name, when no later
axis carries the same symbolic dimension under an override; a binding is kept
when no axis carrying the symbolic dimension is overridden; and a known
constant is never bound. -/
theorem C15_known_rank_shape (enc : GraphEncoder) (dynamic_axes : DynamicAxes) (n : Value)
    (sizes : List ShapeSymbol) (scalarType : Option ScalarType)
    (hsupported : ∀ st, scalarType = some st → threw (ATenTypeToOnnxType st) = false) :
    ∃ t enc1,
      EncodeValueInfoType enc .unset (.TensorType (some sizes) scalarType) n dynamic_axes =
        .ok (.tensor_type t, enc1) ∧
      ∃ shape, t.shape = some shape ∧ shape.dim.length = sizes.length ∧
        (∀ i o, i < sizes.length → dynamicAxis dynamic_axes n.debugName i = some o →
          shape.dim[i]? = some (.dim_param o)) ∧
        (∀ i v, sizes[i]? = some (.static v) → dynamicAxis dynamic_axes n.debugName i = none →
          shape.dim[i]? = some (.dim_value v)) ∧
        (∀ i s, sizes[i]? = some (.symbolic s) →
          dynamicAxis dynamic_axes n.debugName i = none →
          ∃ nm, shape.dim[i]? = some (.dim_param nm)) ∧
        (∀ i o s, sizes[i]? = some (.symbolic s) →
          dynamicAxis dynamic_axes n.debugName i = some o →
          (∀ j, i < j → sizes[j]? = some (.symbolic s) →
            dynamicAxis dynamic_axes n.debugName j = none) →
          enc1.symbol_dim_map_ (.symbolic s) = some o) ∧
        (∀ s x, (∀ i, sizes[i]? = some (.symbolic s) →
            dynamicAxis dynamic_axes n.debugName i = none) →
          enc.symbol_dim_map_ (.symbolic s) = some x →
          enc1.symbol_dim_map_ (.symbolic s) = some x) ∧
        (∀ v, enc1.symbol_dim_map_ (.static v) = enc.symbol_dim_map_ (.static v)) := by
  obtain ⟨elem_type, hcall⟩ :=
    EncodeValueInfoType_known_rank enc dynamic_axes n sizes scalarType hsupported
  refine ⟨_, _, hcall, _, rfl, ?_, ?_, ?_, ?_, ?_, ?_, ?_⟩
  · exact tensorTypeToONNXType_dims_length dynamic_axes n n.debugName sizes 0 _
  · intro i o hi ho
    have hsize : sizes[i]? = some (sizes[i]) := List.getElem?_eq_getElem hi
    simp only []
    rw [tensorTypeToONNXType_dims_at dynamic_axes n n.debugName sizes _ i _ hsize,
      tensorTypeToONNXType_dim_override dynamic_axes n n.debugName i _ _ o ho]
  · intro i v hi hnone
    simp only []
    rw [tensorTypeToONNXType_dims_at dynamic_axes n n.debugName sizes _ i _ hi,
      tensorTypeToONNXType_dim_literal dynamic_axes n n.debugName i v _ hnone]
  · intro i s hi _
    obtain ⟨y, hy, _⟩ := tensorTypeToONNXType_dim_binds dynamic_axes n n.debugName i s
      (tensorTypeToONNXType_dims dynamic_axes n n.debugName 0 (sizes.take i)
        enc.symbol_dim_map_).2
    refine ⟨y, ?_⟩
    simp only []
    rw [tensorTypeToONNXType_dims_at dynamic_axes n n.debugName sizes _ i _ hi, hy]
  · intro i o s hi ho hlater
    exact tensorTypeToONNXType_dims_last dynamic_axes n n.debugName sizes _ i s o hi
      (tensorTypeToONNXType_dim_override_binds dynamic_axes n n.debugName i s _ o ho) hlater
  · intro s x hfree hx
    exact tensorTypeToONNXType_dims_keeps dynamic_axes n n.debugName s x sizes 0 _ hx
      (fun k hk => by simpa using hfree k hk)
  · intro v
    exact tensorTypeToONNXType_dims_static dynamic_axes n n.debugName v sizes 0 _

/-- C15, witness: the float tensor value `x` of rank 3 whose axis 1 is
overridden as `batch`. -/
theorem C15_known_rank_shape_witness :
    ∃ t enc1,
      EncodeValueInfoType {} .unset
          (.TensorType (some [.static 2, .symbolic 0, .symbolic 1]) (some .Float))
          exampleTensorValue exampleDynamicAxes = .ok (.tensor_type t, enc1) ∧
      ∃ shape, t.shape = some shape ∧ shape.dim.length = 3 ∧
        shape.dim[0]? = some (.dim_value 2) ∧
        shape.dim[1]? = some (.dim_param "batch") ∧
        enc1.symbol_dim_map_ (.symbolic 0) = some "batch" := by
  obtain ⟨t, enc1, hcall, shape, hshape, hlen, hover, hlit, _, hbind, _, _⟩ :=
    C15_known_rank_shape {} exampleDynamicAxes exampleTensorValue
      [.static 2, .symbolic 0, .symbolic 1] (some .Float)
      (by intro st h; cases h; rfl)
  refine ⟨t, enc1, hcall, shape, hshape, hlen, hlit 0 2 rfl rfl,
    hover 1 "batch" (by decide) rfl, hbind 1 "batch" 0 rfl rfl ?_⟩
  intro j hj _
  have hne : j ≠ 1 := by omega
  simp [dynamicAxis, exampleDynamicAxes, exampleTensorValue, Value.debugName, hne]

/-- C15, counterexample: a tensor type of known rank 1 whose element type is
complex; the call throws and returns no descriptor. -/
theorem C15_counterexample :
    exampleComplexValue.type = .TensorType (some [.static 4]) (some .ComplexFloat) ∧
    EncodeValueInfoType {} .unset exampleComplexValue.type exampleComplexValue noDynamicAxes =
      .error (.torch_check "unexpected tensor scalar type") :=
  ⟨rfl, rfl⟩

/-! ## Name stability of symbolic dimensions -/

/-- On a new shape record the loop over the axes leaves the descriptors it
handed out, in order. -/
theorem tensorTypeToONNXType_axes_fresh (dynamic_axes : DynamicAxes) (n : Value)
    (name : String) (sizes : List ShapeSymbol) (m : SymbolDimMap) :
    tensorTypeToONNXType_axes dynamic_axes n name 0 sizes {} m =
      ({ dim := (tensorTypeToONNXType_dims dynamic_axes n name 0 sizes m).1 },
        (tensorTypeToONNXType_dims dynamic_axes n name 0 sizes m).2) := by
  rw [tensorTypeToONNXType_axes_eq dynamic_axes n name sizes 0 {} m rfl]
  simp

/-- A value none of whose axes carrying the symbolic dimension `s` is
overridden emits the name `x` that `s` is bound to at every such axis. -/
theorem tensorTypeToONNXType_dims_reuse (dynamic_axes : DynamicAxes) (n : Value)
    (name : String) (sizes : List ShapeSymbol) (m : SymbolDimMap) (s : Nat) (x : String)
    (hm : m (.symbolic s) = some x)
    (hfree : ∀ k, sizes[k]? = some (.symbolic s) → dynamicAxis dynamic_axes name k = none)
    (j : Nat) (hj : sizes[j]? = some (.symbolic s)) :
    (tensorTypeToONNXType_dims dynamic_axes n name 0 sizes m).1[j]? = some (.dim_param x) := by
  have hstate : (tensorTypeToONNXType_dims dynamic_axes n name 0 (sizes.take j) m).2
      (.symbolic s) = some x := by
    apply tensorTypeToONNXType_dims_keeps dynamic_axes n name s x _ 0 m hm
    intro k hk
    rw [List.getElem?_take] at hk
    split at hk
    · simpa using hfree k hk
    · simp at hk
  rw [tensorTypeToONNXType_dims_at dynamic_axes n name sizes m j _ hj,
    tensorTypeToONNXType_dim_bound dynamic_axes n name j s _ x (hfree j hj) hstate]

/-- C16 (as amended): within one session a symbolic dimension keeps its name
as long as no override intervenes. When the value `n` carries the symbolic
dimension `s` at axis `i` and no later axis of `n` carries `s` under an
override, axis `i` is emitted under a name `y`, every later axis of `n` carrying
`s` is emitted under `y`, and the map binds `s` to `y` afterwards; and every
value encoded in a state that binds `s` to `y`, none of whose axes carrying `s`
is overridden, emits `y` at each such axis and leaves `s` bound to `y`. -/
theorem C16_name_stability_without_override (dynamic_axes : DynamicAxes) (n : Value)
    (sizes : List ShapeSymbol) (m : SymbolDimMap) (s i : Nat)
    (hi : sizes[i]? = some (.symbolic s))
    (hlater : ∀ j, i < j → sizes[j]? = some (.symbolic s) →
      dynamicAxis dynamic_axes n.debugName j = none) :
    ∃ y,
      (tensorTypeToONNXType_axes dynamic_axes n n.debugName 0 sizes {} m).1.dim[i]? =
        some (.dim_param y) ∧
      (∀ j, i < j → sizes[j]? = some (.symbolic s) →
        (tensorTypeToONNXType_axes dynamic_axes n n.debugName 0 sizes {} m).1.dim[j]? =
          some (.dim_param y)) ∧
      (tensorTypeToONNXType_axes dynamic_axes n n.debugName 0 sizes {} m).2 (.symbolic s) =
        some y ∧
      ∀ (n2 : Value) (sizes2 : List ShapeSymbol) (m2 : SymbolDimMap),
        m2 (.symbolic s) = some y →
        (∀ j : Nat, sizes2[j]? = some (.symbolic s) →
          dynamicAxis dynamic_axes n2.debugName j = none) →
        (∀ j : Nat, sizes2[j]? = some (.symbolic s) →
          (tensorTypeToONNXType_axes dynamic_axes n2 n2.debugName 0 sizes2 {} m2).1.dim[j]? =
            some (.dim_param y)) ∧
        (tensorTypeToONNXType_axes dynamic_axes n2 n2.debugName 0 sizes2 {} m2).2
          (.symbolic s) = some y := by
  obtain ⟨y, hdesc, hbound⟩ := tensorTypeToONNXType_dim_binds dynamic_axes n n.debugName i s
    (tensorTypeToONNXType_dims dynamic_axes n n.debugName 0 (sizes.take i) m).2
  refine ⟨y, ?_, ?_, ?_, ?_⟩
  · rw [tensorTypeToONNXType_axes_fresh]
    simp only []
    rw [tensorTypeToONNXType_dims_at dynamic_axes n n.debugName sizes m i _ hi, hdesc]
  · intro j hij hj
    rw [tensorTypeToONNXType_axes_fresh]
    simp only []
    have hprefix : (tensorTypeToONNXType_dims dynamic_axes n n.debugName 0 (sizes.take j)
        m).2 (.symbolic s) = some y := by
      apply tensorTypeToONNXType_dims_last dynamic_axes n n.debugName (sizes.take j) m i s y
      · rw [List.getElem?_take, if_pos hij]
        exact hi
      · rw [List.take_take, Nat.min_eq_left (Nat.le_of_lt hij)]
        exact hbound
      · intro k hik hk
        rw [List.getElem?_take] at hk
        split at hk
        · exact hlater k hik hk
        · simp at hk
    rw [tensorTypeToONNXType_dims_at dynamic_axes n n.debugName sizes m j _ hj,
      tensorTypeToONNXType_dim_bound dynamic_axes n n.debugName j s _ y
        (hlater j hij hj) hprefix]
  · rw [tensorTypeToONNXType_axes_fresh]
    exact tensorTypeToONNXType_dims_last dynamic_axes n n.debugName sizes m i s y hi hbound
      hlater
  · intro n2 sizes2 m2 hm2 hfree
    rw [tensorTypeToONNXType_axes_fresh]
    refine ⟨fun j hj => ?_, ?_⟩
    · exact tensorTypeToONNXType_dims_reuse dynamic_axes n2 n2.debugName sizes2 m2 s y hm2
        hfree j hj
    · exact tensorTypeToONNXType_dims_keeps dynamic_axes n2 n2.debugName s y sizes2 0 m2 hm2
        (fun k hk => by simpa using hfree k hk)

/-- C16, counterexample: the block inputs `a` and `b` share the symbolic
dimension 0, and the override map names axis 0 of `b` `batch`; encoded one after
the other in one session, `a` carries the name `a_dim_0` and `b` the name
`batch`. -/
theorem C16_counterexample :
    exampleInputA.type = .TensorType (some [.symbolic 0]) none ∧
    exampleInputB.type = .TensorType (some [.symbolic 0]) none ∧
    encodeTwoValueTypes {} exampleInputA exampleInputB exampleDynamicAxesB =
      .ok (.tensor_type { shape := some { dim := [.dim_param "a_dim_0"] } },
        .tensor_type { shape := some { dim := [.dim_param "batch"] } }) :=
  ⟨rfl, rfl, rfl⟩

/-! ## Fresh symbolic names, scalar types, list types and the None type -/

/-- C17: at a symbolic axis `i` without override, on a shape that holds the
descriptors of the axes before `i`: when the symbolic dimension is not in the
map, the loop body emits and binds the name `value-name + "_dim_" + i` for a
value produced by a `prim::Param` node (a block input), and the name
`operator-name + value-name + "_dim_" + i` otherwise; when the symbolic
dimension is bound, the loop body emits the bound name and leaves the map as it
was. -/
theorem C17_fresh_symbolic_name (dynamic_axes : DynamicAxes) (n : Value) (i s : Nat)
    (shape : TensorShapeProto) (m : SymbolDimMap)
    (hnone : dynamicAxis dynamic_axes n.debugName i = none)
    (hlen : shape.dim.length = i) :
    (m (.symbolic s) = none → n.node.kind = prim_Param →
      tensorTypeToONNXType_axis dynamic_axes n n.debugName i (.symbolic s) shape m =
        ({ dim := shape.dim ++ [.dim_param (n.debugName ++ "_dim_" ++ toString i)] },
          setSymbolDim m (.symbolic s) (n.debugName ++ "_dim_" ++ toString i))) ∧
    (m (.symbolic s) = none → n.node.kind ≠ prim_Param →
      tensorTypeToONNXType_axis dynamic_axes n n.debugName i (.symbolic s) shape m =
        ({ dim := shape.dim ++
            [.dim_param (n.node.kind.toUnqualString ++ n.debugName ++ "_dim_" ++ toString i)] },
          setSymbolDim m (.symbolic s)
            (n.node.kind.toUnqualString ++ n.debugName ++ "_dim_" ++ toString i))) ∧
    (∀ x, m (.symbolic s) = some x →
      tensorTypeToONNXType_axis dynamic_axes n n.debugName i (.symbolic s) shape m =
        ({ dim := shape.dim ++ [.dim_param x] }, m)) := by
  subst hlen
  refine ⟨fun hm hk => ?_, fun hm hk => ?_, fun x hm => ?_⟩
  · simp [tensorTypeToONNXType_axis, tensorTypeToONNXType_dim, hnone, ShapeSymbol.is_static,
      hm, hk, setSymbolDim, set_length_append_singleton]
  · simp [tensorTypeToONNXType_axis, tensorTypeToONNXType_dim, hnone, ShapeSymbol.is_static,
      hm, hk, setSymbolDim, set_length_append_singleton]
  · simp [tensorTypeToONNXType_axis, tensorTypeToONNXType_dim, hnone, ShapeSymbol.is_static,
      hm, set_length_append_singleton]

/-- C17, witness: axis 1 of the value `x` produced by an `onnx::Add` node, with
no override and an empty map, is named `Addx_dim_1`. -/
theorem C17_fresh_symbolic_name_witness :
    tensorTypeToONNXType_axis noDynamicAxes exampleTensorValue exampleTensorValue.debugName 1
        (.symbolic 0) { dim := [.dim_value 2] } (fun _ => none) =
      ({ dim := [.dim_value 2, .dim_param "Addx_dim_1"] },
        setSymbolDim (fun _ => none) (.symbolic 0) "Addx_dim_1") :=
  (C17_fresh_symbolic_name noDynamicAxes exampleTensorValue 1 0 { dim := [.dim_value 2] }
    (fun _ => none) rfl rfl).2.1 rfl (by decide)

/-- C18 (as amended): for the scalar types bool, int and float,
`EncodeValueInfoType` on a new type descriptor returns a tensor-typed descriptor
whose element type is the BOOL code, the INT64 code and the FLOAT code, and
whose shape field is not set; the encoder is left as it was. -/
theorem C18_scalar_types_descriptor (enc : GraphEncoder) (n : Value)
    (dynamic_axes : DynamicAxes) :
    EncodeValueInfoType enc .unset .BoolType n dynamic_axes =
      .ok (.tensor_type { elem_type := some .BOOL, shape := none }, enc) ∧
    EncodeValueInfoType enc .unset .IntType n dynamic_axes =
      .ok (.tensor_type { elem_type := some .INT64, shape := none }, enc) ∧
    EncodeValueInfoType enc .unset .FloatType n dynamic_axes =
      .ok (.tensor_type { elem_type := some .FLOAT, shape := none }, enc) :=
  ⟨rfl, rfl, rfl⟩

/-- C18, counterexample: the descriptor of an int value has no shape, which is
not a shape with zero dimensions. -/
theorem C18_counterexample :
    ∃ t, typeOf (EncodeValueInfoType {} .unset .IntType exampleNoneValue noDynamicAxes) =
        some (.tensor_type t) ∧
      t.shape = none ∧ t.shape ≠ some { dim := [] } :=
  ⟨{ elem_type := some .INT64, shape := none }, rfl, rfl, by decide⟩

/-- The descriptor of a type that is not a list type, on a new type descriptor,
is not a sequence type. -/
theorem EncodeValueInfoType_not_sequence (enc : GraphEncoder) (n : Value)
    (dynamic_axes : DynamicAxes) (T : JitType) (hT : ∀ L, T ≠ .ListType L)
    (r : TypeProto × GraphEncoder)
    (h : EncodeValueInfoType enc .unset T n dynamic_axes = .ok r) :
    ∀ e, r.1 ≠ .sequence_type e := by
  intro e he
  cases T with
  | ListType L => exact hT L rfl
  | TensorType sizes scalarType =>
    simp only [EncodeValueInfoType] at h
    split at h
    · cases hr : tensorTypeToONNXType enc dynamic_axes n sizes scalarType
        TypeProto.unset.mutable_tensor_type with
      | error f => simp [hr, bind, Except.bind] at h
      | ok q =>
        simp [hr, bind, Except.bind, pure, Except.pure] at h
        rw [← h] at he
        simp at he
    · simp [pure, Except.pure] at h
      rw [← h] at he
      simp at he
  | BoolType =>
    simp [EncodeValueInfoType, ATenTypeToOnnxType, bind, Except.bind, pure, Except.pure] at h
    rw [← h] at he
    simp at he
  | IntType =>
    simp [EncodeValueInfoType, ATenTypeToOnnxType, bind, Except.bind, pure, Except.pure] at h
    rw [← h] at he
    simp at he
  | FloatType =>
    simp [EncodeValueInfoType, ATenTypeToOnnxType, bind, Except.bind, pure, Except.pure] at h
    rw [← h] at he
    simp at he
  | NoneType =>
    simp [EncodeValueInfoType, pure, Except.pure] at h
    rw [← h] at he
    simp at he
  | other name =>
    simp [EncodeValueInfoType, pure, Except.pure] at h
    rw [← h] at he
    simp at he

/-- The descriptor of a list type is a sequence type around the descriptor of
its element type. -/
theorem EncodeValueInfoType_list (enc : GraphEncoder) (n : Value)
    (dynamic_axes : DynamicAxes) (T : JitType) :
    EncodeValueInfoType enc .unset (.ListType T) n dynamic_axes =
      (EncodeValueInfoType enc .unset T n dynamic_axes).map
        (fun r => (TypeProto.sequence_type (some r.1), r.2)) := by
  rw [EncodeValueInfoType]
  have hnew : TypeProto.unset.mutable_sequence_elem_type = .unset := rfl
  rw [hnew]
  cases hr : EncodeValueInfoType enc .unset T n dynamic_axes <;> rfl

/-- C19: for a list type nested `k` levels around a type `T`,
`EncodeValueInfoType` on a new type descriptor returns what it returns for `T`
with `k` sequence-type descriptors around the descriptor of `T` (and throws
when it throws for `T`); when `T` is not a list type, the descriptor of `T` is
not a sequence type, so that the nesting is exactly `k` deep. -/
theorem C19_nested_list_types (enc : GraphEncoder) (n : Value) (dynamic_axes : DynamicAxes)
    (T : JitType) (k : Nat) (hT : ∀ L, T ≠ .ListType L) :
    EncodeValueInfoType enc .unset (JitType.ListType^[k] T) n dynamic_axes =
      (EncodeValueInfoType enc .unset T n dynamic_axes).map
        (fun r => ((fun e => TypeProto.sequence_type (some e))^[k] r.1, r.2)) ∧
    ∀ r, EncodeValueInfoType enc .unset T n dynamic_axes = .ok r →
      ∀ e, r.1 ≠ .sequence_type e := by
  refine ⟨?_, fun r h => EncodeValueInfoType_not_sequence enc n dynamic_axes T hT r h⟩
  induction k with
  | zero =>
    rw [Function.iterate_zero_apply]
    cases hr : EncodeValueInfoType enc .unset T n dynamic_axes <;> rfl
  | succ k ih =>
    rw [Function.iterate_succ_apply', EncodeValueInfoType_list, ih]
    cases hr : EncodeValueInfoType enc .unset T n dynamic_axes with
    | error f => rfl
    | ok r =>
      simp only [Except.map]
      rw [Function.iterate_succ_apply']

/-- C19, witness: a list of lists of floats. -/
theorem C19_nested_list_types_witness :
    EncodeValueInfoType {} .unset (.ListType (.ListType .FloatType)) exampleNoneValue
        noDynamicAxes =
      (EncodeValueInfoType {} .unset .FloatType exampleNoneValue noDynamicAxes).map
        (fun r => (TypeProto.sequence_type (some (TypeProto.sequence_type (some r.1))), r.2)) :=
  (C19_nested_list_types {} exampleNoneValue noDynamicAxes .FloatType 2
    (by intro L h; cases h)).1

/-- C20 (as amended): for a value whose type is the None type,
`EncodeValueInfo` on a new value-info record sets the name to the value's name
and sets the type field to a new type descriptor that holds neither a tensor
type nor a sequence type; the encoder is left as it was. -/
theorem C20_none_type_value_info (enc : GraphEncoder) (n : Value)
    (dynamic_axes : DynamicAxes) (hnone : n.type = .NoneType) :
    EncodeValueInfo enc {} n dynamic_axes =
      .ok ({ name := some n.debugName, type := some .unset }, enc) := by
  simp [EncodeValueInfo, hnone, EncodeValueInfoType, bind, Except.bind, pure, Except.pure]

/-- C20, witness: the value `opt` of the None type. -/
theorem C20_none_type_value_info_witness :
    EncodeValueInfo {} {} exampleNoneValue noDynamicAxes =
      .ok ({ name := some "opt", type := some .unset }, {}) :=
  C20_none_type_value_info {} exampleNoneValue noDynamicAxes rfl

/-- C20, counterexample: the value-info record of the value `opt` of the None
type has its type field set. -/
theorem C20_counterexample :
    exampleNoneValue.type = .NoneType ∧
    ∃ v t, valueInfoOf (EncodeValueInfo {} {} exampleNoneValue noDynamicAxes) = some v ∧
      v.name = some "opt" ∧ v.type = some t :=
  ⟨rfl, _, _, rfl, rfl, rfl⟩

/-! ## The node encoder: what the first part of `EncodeNode` leaves -/

theorem tensorTypeToONNXType_encoder (enc : GraphEncoder) (dynamic_axes : DynamicAxes)
    (n : Value) (sizes : Option (List ShapeSymbol)) (scalarType : Option ScalarType)
    (t : TypeProto_Tensor) (r : TypeProto_Tensor × GraphEncoder)
    (h : tensorTypeToONNXType enc dynamic_axes n sizes scalarType t = .ok r) :
    r.2 = { enc with symbol_dim_map_ := r.2.symbol_dim_map_ } := by
  cases sizes <;> cases scalarType with
  | none =>
    simp [tensorTypeToONNXType, pure, Except.pure] at h
    rw [← h]
  | some st =>
    cases hst : ATenTypeToOnnxType st with
    | error e => simp [tensorTypeToONNXType, hst, bind, Except.bind] at h
    | ok c =>
      simp [tensorTypeToONNXType, hst, bind, Except.bind, pure, Except.pure] at h
      rw [← h]

theorem EncodeValueInfoType_encoder (enc : GraphEncoder) (n : Value)
    (dynamic_axes : DynamicAxes) :
    ∀ (T : JitType) (onnx_type : TypeProto) (r : TypeProto × GraphEncoder),
      EncodeValueInfoType enc onnx_type T n dynamic_axes = .ok r →
      r.2 = { enc with symbol_dim_map_ := r.2.symbol_dim_map_ }
  | .TensorType sizes scalarType, onnx_type, r, h => by
    simp only [EncodeValueInfoType] at h
    split at h
    · cases hr : tensorTypeToONNXType enc dynamic_axes n sizes scalarType
        onnx_type.mutable_tensor_type with
      | error f => simp [hr, bind, Except.bind] at h
      | ok q =>
        simp [hr, bind, Except.bind, pure, Except.pure] at h
        rw [← h]
        exact tensorTypeToONNXType_encoder enc dynamic_axes n sizes scalarType _ q hr
    · simp [pure, Except.pure] at h
      rw [← h]
  | .BoolType, onnx_type, r, h => by
    simp [EncodeValueInfoType, ATenTypeToOnnxType, bind, Except.bind, pure, Except.pure] at h
    rw [← h]
  | .IntType, onnx_type, r, h => by
    simp [EncodeValueInfoType, ATenTypeToOnnxType, bind, Except.bind, pure, Except.pure] at h
    rw [← h]
  | .FloatType, onnx_type, r, h => by
    simp [EncodeValueInfoType, ATenTypeToOnnxType, bind, Except.bind, pure, Except.pure] at h
    rw [← h]
  | .ListType T, onnx_type, r, h => by
    rw [EncodeValueInfoType] at h
    cases hr : EncodeValueInfoType enc onnx_type.mutable_sequence_elem_type T n dynamic_axes with
    | error f => simp [hr, bind, Except.bind] at h
    | ok q =>
      simp [hr, bind, Except.bind, pure, Except.pure] at h
      rw [← h]
      exact EncodeValueInfoType_encoder enc n dynamic_axes T _ q hr
  | .NoneType, onnx_type, r, h => by
    simp [EncodeValueInfoType, pure, Except.pure] at h
    rw [← h]
  | .other name, onnx_type, r, h => by
    simp [EncodeValueInfoType, pure, Except.pure] at h
    rw [← h]

/-- A call of `EncodeValueInfo` that returns has set the name of the record to
the name of the value, and has changed no member of the encoder but the
symbolic-dimension map. -/
theorem EncodeValueInfo_ok (enc : GraphEncoder) (v : ValueInfoProto) (n : Value)
    (dynamic_axes : DynamicAxes) (r : ValueInfoProto × GraphEncoder)
    (h : EncodeValueInfo enc v n dynamic_axes = .ok r) :
    r.1.name = some n.debugName ∧
    r.2 = { enc with symbol_dim_map_ := r.2.symbol_dim_map_ } := by
  unfold EncodeValueInfo at h
  cases hr : EncodeValueInfoType enc (v.type.getD .unset) n.type n dynamic_axes with
  | error f => simp [hr, bind, Except.bind] at h
  | ok q =>
    simp [hr, bind, Except.bind, pure, Except.pure] at h
    rw [← h]
    exact ⟨rfl, EncodeValueInfoType_encoder enc n dynamic_axes n.type _ q hr⟩

theorem add_value_infos_nil (gp : GraphProto) : gp.add_value_infos [] = gp := by
  cases gp
  simp [GraphProto.add_value_infos, GraphProto.name, GraphProto.input, GraphProto.output,
    GraphProto.value_info, GraphProto.node, GraphProto.initializer]

theorem add_value_infos_append (gp : GraphProto) (xs ys : List ValueInfoProto) :
    (gp.add_value_infos xs).add_value_infos ys = gp.add_value_infos (xs ++ ys) := by
  cases gp
  simp [GraphProto.add_value_infos, GraphProto.name, GraphProto.input, GraphProto.output,
    GraphProto.value_info, GraphProto.node, GraphProto.initializer]

theorem add_value_info_eq (gp : GraphProto) (x : ValueInfoProto) :
    gp.add_value_info x = gp.add_value_infos [x] := by
  cases gp
  simp [GraphProto.add_value_infos, GraphProto.add_value_info, GraphProto.name,
    GraphProto.input, GraphProto.output, GraphProto.value_info, GraphProto.node,
    GraphProto.initializer]

/-- A call of `EncodeIntermediateValueInfo` that returns has added one
value-info record, named after the value, when the value needs one, and none
otherwise; of the encoder, only the symbolic-dimension map may have changed. -/
theorem EncodeIntermediateValueInfo_ok (enc : GraphEncoder) (in_graph_ : Bool)
    (graph_proto : GraphProto) (v : Value) (r : GraphProto × GraphEncoder)
    (h : EncodeIntermediateValueInfo enc in_graph_ graph_proto v = .ok r) :
    ∃ added,
      added.map (fun p => p.name) =
        ([v].filter (needsIntermediateValueInfo enc in_graph_)).map
          (fun o => some o.debugName) ∧
      r.1 = graph_proto.add_value_infos added ∧
      r.2 = { enc with symbol_dim_map_ := r.2.symbol_dim_map_ } := by
  unfold EncodeIntermediateValueInfo at h
  by_cases h1 : v.node.kind.is_onnx = true
  · simp [h1] at h
    refine ⟨[], ?_, ?_, ?_⟩
    · simp [needsIntermediateValueInfo, h1]
    · rw [← h, add_value_infos_nil]
    · rw [← h]
  · by_cases h2 : in_graph_ = true
    · by_cases h3 : enc.graph_.block.outputs.any (fun o => o = v) = true
      · simp only [h1, h2, h3] at h
        simp at h
        refine ⟨[], ?_, ?_, ?_⟩
        · simp [needsIntermediateValueInfo, h3]
        · rw [← h, add_value_infos_nil]
        · rw [← h]
      · simp only [h1, h2, h3] at h
        cases hr : EncodeValueInfo enc {} v (fun _ => none) with
        | error f => simp [hr, bind, Except.bind] at h
        | ok q =>
          simp [hr, bind, Except.bind, pure, Except.pure] at h
          obtain ⟨hname, henc⟩ := EncodeValueInfo_ok enc {} v _ q hr
          refine ⟨[q.1], ?_, ?_, ?_⟩
          · simp [needsIntermediateValueInfo, h1, h2, h3, hname]
          · rw [← h, add_value_info_eq]
          · rw [← h]
            exact henc
    · simp [h1, h2] at h
      refine ⟨[], ?_, ?_, ?_⟩
      · simp [needsIntermediateValueInfo, h2]
      · rw [← h, add_value_infos_nil]
      · rw [← h]

theorem EncodeNode_outputs_ok (in_graph_ : Bool) :
    ∀ (outputs : List Value) (enc : GraphEncoder) (graph_proto : GraphProto)
      (node_proto : NodeProto) (r : EncodedHeader),
      EncodeNode_outputs in_graph_ outputs enc graph_proto node_proto = .ok r →
      ∃ added m,
        added.map (fun p => p.name) =
          (outputs.filter (needsIntermediateValueInfo enc in_graph_)).map
            (fun o => some o.debugName) ∧
        r = { node_proto :=
                { node_proto with output := node_proto.output ++ outputs.map Value.debugName }
              graph_proto := graph_proto.add_value_infos added
              encoder := { enc with symbol_dim_map_ := m } }
  | [], enc, graph_proto, node_proto, r, h => by
    simp [EncodeNode_outputs] at h
    refine ⟨[], enc.symbol_dim_map_, by simp, ?_⟩
    rw [← h, add_value_infos_nil]
    simp
  | output :: rest, enc, graph_proto, node_proto, r, h => by
    simp only [EncodeNode_outputs] at h
    cases hi : EncodeIntermediateValueInfo enc in_graph_ graph_proto output with
    | error f => simp [hi, bind, Except.bind] at h
    | ok q =>
      simp only [hi, bind, Except.bind] at h
      obtain ⟨a1, hn1, hg1, he1⟩ := EncodeIntermediateValueInfo_ok enc in_graph_ graph_proto
        output q hi
      obtain ⟨a2, m, hn2, hr⟩ := EncodeNode_outputs_ok in_graph_ rest q.2 q.1 _ r h
      refine ⟨a1 ++ a2, m, ?_, ?_⟩
      · have hq : needsIntermediateValueInfo q.2 in_graph_ =
            needsIntermediateValueInfo enc in_graph_ := by
          funext v
          rw [he1]
          rfl
        rw [hq] at hn2
        rw [List.map_append, hn1, hn2, ← List.map_append, ← List.filter_append]
        rfl
      · rw [hr, hg1, add_value_infos_append, he1]
        simp

/-- What the first part of `EncodeNode` leaves when it returns. -/
theorem EncodeNode_header_ok (in_graph_ add_node_names : Bool) (node : Node)
    (enc : GraphEncoder) (graph_proto : GraphProto) (node_proto : NodeProto)
    (r : EncodedHeader)
    (h : EncodeNode_header in_graph_ add_node_names node enc graph_proto node_proto = .ok r) :
    ∃ added m,
      added.map (fun p => p.name) =
        (node.outputs.filter (needsIntermediateValueInfo enc in_graph_)).map
          (fun o => some o.debugName) ∧
      r = { node_proto :=
              { node_proto with
                doc_string :=
                  if enc.strip_doc_ then node_proto.doc_string else some node.sourceRange
                input := node_proto.input ++ node.inputs.map (EncodeNode_input enc)
                output := node_proto.output ++ node.outputs.map Value.debugName
                domain :=
                  if node.kind.is_onnx then node_proto.domain
                  else some (EncodeNode_domain node.kind)
                op_type := some node.kind.toUnqualString
                name :=
                  if add_node_names then
                    some (node.kind.toUnqualString ++ "_" ++ toString enc.num_op_nodes_)
                  else node_proto.name }
            graph_proto := graph_proto.add_value_infos added
            encoder :=
              { enc with
                symbol_dim_map_ := m
                domains_ :=
                  if node.kind.is_onnx then enc.domains_
                  else insertDomain (EncodeNode_domain node.kind) enc.domains_
                num_op_nodes_ :=
                  if add_node_names then enc.num_op_nodes_ + 1 else enc.num_op_nodes_ } } := by
  unfold EncodeNode_header at h
  simp only [bind, Except.bind] at h
  split at h
  · contradiction
  · rename_i q hq
    obtain ⟨added, m, hnames, hq2⟩ := EncodeNode_outputs_ok in_graph_ node.outputs enc
      graph_proto _ q hq
    refine ⟨added, m, hnames, ?_⟩
    subst hq2
    cases hd : enc.strip_doc_ <;> cases ho : node.kind.is_onnx <;> cases ha : add_node_names <;>
      cases hp : decide (enc.operator_export_type_ = .ONNX) <;>
      cases hc : (!node.kind.is_aten && !node.kind.is_prim && !node.kind.is_attr) <;>
      simp_all [pure, Except.pure, throw, throwThe, MonadExceptOf.throw]

theorem EncodeNode_eq (use_external_data_format : Bool) (onnx_file_path : String)
    (in_graph_ add_node_names : Bool) (node : Node) (enc : GraphEncoder) (fs : FileSystem)
    (graph_proto : GraphProto) (node_proto : NodeProto) :
    EncodeNode use_external_data_format onnx_file_path in_graph_ add_node_names node enc fs
        graph_proto node_proto =
      (do
        let h ← EncodeNode_header in_graph_ add_node_names node enc graph_proto node_proto
        let a ← EncodeNode_attributes use_external_data_format onnx_file_path
          (h.encoder.node_attr_to_name_ node) node.attributes h.encoder fs h.node_proto
        let l ←
          if node.kind = onnx_Loop then
            EncodeNode_Loop use_external_data_format onnx_file_path in_graph_ node.blocks
              a.encoder a.fs a.value
          else pure a
        let i ←
          if node.kind = onnx_If then
            EncodeNode_If use_external_data_format onnx_file_path in_graph_ node.blocks
              l.encoder l.fs l.value
          else pure l
        return { node_proto := i.value, graph_proto := h.graph_proto, encoder := i.encoder,
                 fs := i.fs }) := by
  cases node
  rw [EncodeNode]
  rfl

theorem AddAttribute_new_ok (name : Symbol) (attr : AttributeProto)
    (h : AddAttribute_new name = .ok attr) :
    name.is_attr = true ∧ attr = { name := some name.toUnqualString } := by
  unfold AddAttribute_new at h
  cases hn : name.is_attr <;> simp [hn] at h
  exact ⟨rfl, h.symm⟩

/-- A call of `AddAttribute` that returns has added one attribute record, with
the name of the attribute, the type tag of its kind and no reference. -/
theorem AddAttribute_ok (use_external_data_format : Bool) (onnx_file_path : String)
    (name : Symbol) (value : AttributeValue) (enc : GraphEncoder) (fs : FileSystem)
    (node_proto : NodeProto) (r : Encoded NodeProto)
    (h : AddAttribute use_external_data_format onnx_file_path name value enc fs node_proto =
      .ok r) :
    ∃ attr, r.value = node_proto.add_attribute attr ∧
      attr.name = some name.toUnqualString ∧ attr.type = value.attributeType ∧
      attr.ref_attr_name = none := by
  cases hnew : AddAttribute_new name with
  | error f => cases value <;> simp [AddAttribute, hnew, bind, Except.bind] at h
  | ok attr =>
    obtain ⟨_, hattr⟩ := AddAttribute_new_ok name attr hnew
    subst hattr
    cases value with
    | f v =>
      simp [AddAttribute, hnew, bind, Except.bind, pure, Except.pure] at h
      exact ⟨_, by rw [← h], rfl, rfl, rfl⟩
    | fs vs =>
      simp [AddAttribute, hnew, bind, Except.bind, pure, Except.pure] at h
      exact ⟨_, by rw [← h], rfl, rfl, rfl⟩
    | i v =>
      simp [AddAttribute, hnew, bind, Except.bind, pure, Except.pure] at h
      exact ⟨_, by rw [← h], rfl, rfl, rfl⟩
    | is vs =>
      simp [AddAttribute, hnew, bind, Except.bind, pure, Except.pure] at h
      exact ⟨_, by rw [← h], rfl, rfl, rfl⟩
    | s v =>
      simp [AddAttribute, hnew, bind, Except.bind, pure, Except.pure] at h
      exact ⟨_, by rw [← h], rfl, rfl, rfl⟩
    | ss vs =>
      simp [AddAttribute, hnew, bind, Except.bind, pure, Except.pure] at h
      exact ⟨_, by rw [← h], rfl, rfl, rfl⟩
    | t v =>
      simp only [AddAttribute, hnew, bind, Except.bind] at h
      split at h
      · contradiction
      · simp [pure, Except.pure] at h
        exact ⟨_, by rw [← h], rfl, rfl, rfl⟩
    | ts vs =>
      simp only [AddAttribute, hnew, bind, Except.bind] at h
      split at h
      · contradiction
      · simp [pure, Except.pure] at h
        exact ⟨_, by rw [← h], rfl, rfl, rfl⟩
    | g v =>
      simp only [AddAttribute, hnew, bind, Except.bind] at h
      split at h
      · contradiction
      · simp [pure, Except.pure] at h
        exact ⟨_, by rw [← h], rfl, rfl, rfl⟩
    | gs vs =>
      simp only [AddAttribute, hnew, bind, Except.bind] at h
      split at h
      · contradiction
      · simp [pure, Except.pure] at h
        exact ⟨_, by rw [← h], rfl, rfl, rfl⟩
    | other kindName =>
      simp [AddAttribute, hnew, bind, Except.bind, throw, throwThe, MonadExceptOf.throw] at h

theorem AddAttribute_ref_ok (node_proto : NodeProto) (name : Symbol) (ref_attr_name : String)
    (r : NodeProto) (h : AddAttribute_ref node_proto name ref_attr_name = .ok r) :
    r = node_proto.add_attribute
      { name := some name.toUnqualString, ref_attr_name := some ref_attr_name } := by
  unfold AddAttribute_ref at h
  cases hn : name.is_attr <;> simp [hn] at h
  rw [← h]
  rfl

theorem add_attribute_eq (node_proto : NodeProto) (attr : AttributeProto) :
    node_proto.add_attribute attr =
      { node_proto with attribute_ := node_proto.attribute_ ++ [attr] } := rfl

/-- The loop over the declared attributes adds one record per attribute, in
declaration order, and changes nothing else of the operator record. -/
theorem EncodeNode_attributes_ok (use_external_data_format : Bool) (onnx_file_path : String)
    (attrs_it : Option (String → Option String)) :
    ∀ (attributes : List (Symbol × AttributeValue)) (enc : GraphEncoder) (fs : FileSystem)
      (node_proto : NodeProto) (r : Encoded NodeProto),
      EncodeNode_attributes use_external_data_format onnx_file_path attrs_it attributes enc fs
        node_proto = .ok r →
      ∃ attrs, List.Forall₂ (encodesAttribute attrs_it) attributes attrs ∧
        r.value = { node_proto with attribute_ := node_proto.attribute_ ++ attrs }
  | [], enc, fs, node_proto, r, h => by
    simp [EncodeNode_attributes] at h
    exact ⟨[], List.Forall₂.nil, by rw [← h]; simp⟩
  | (attr_name, value) :: rest, enc, fs, node_proto, r, h => by
    simp only [EncodeNode_attributes] at h
    cases ho : attrs_it.bind (fun names => names attr_name.toUnqualString) with
    | some ref_attr_name =>
      simp only [ho] at h
      cases ha : AddAttribute_ref node_proto attr_name ref_attr_name with
      | error f => simp [ha, bind, Except.bind] at h
      | ok np1 =>
        simp only [ha, bind, Except.bind] at h
        obtain ⟨attrs, hall, hr⟩ := EncodeNode_attributes_ok use_external_data_format
          onnx_file_path attrs_it rest enc fs np1 r h
        have hnp := AddAttribute_ref_ok node_proto attr_name ref_attr_name np1 ha
        refine ⟨{ name := some attr_name.toUnqualString,
                  ref_attr_name := some ref_attr_name } :: attrs,
          List.Forall₂.cons ?_ hall, ?_⟩
        · simp only [encodesAttribute, attributeOverride, ho]
        · rw [hr, hnp, add_attribute_eq]
          simp
    | none =>
      simp only [ho] at h
      cases ha : AddAttribute use_external_data_format onnx_file_path attr_name value enc fs
          node_proto with
      | error f => simp [ha, bind, Except.bind] at h
      | ok q =>
        simp only [ha, bind, Except.bind] at h
        obtain ⟨attrs, hall, hr⟩ := EncodeNode_attributes_ok use_external_data_format
          onnx_file_path attrs_it rest q.encoder q.fs q.value r h
        obtain ⟨attr, hq, hname, htype, href⟩ := AddAttribute_ok use_external_data_format
          onnx_file_path attr_name value enc fs node_proto q ha
        refine ⟨attr :: attrs, List.Forall₂.cons ?_ hall, ?_⟩
        · simp only [encodesAttribute, attributeOverride, ho]
          exact ⟨hname, htype, href⟩
        · rw [hr, hq, add_attribute_eq]
          simp

/-- The part of `EncodeNode` for a Loop node returns only when the node has
exactly one nested block, and then adds the attribute `body` that holds the
encoding of that block. -/
theorem EncodeNode_Loop_ok (use_external_data_format : Bool) (onnx_file_path : String)
    (in_graph_ : Bool) (blocks : List Block) (enc : GraphEncoder) (fs : FileSystem)
    (node_proto : NodeProto) (r : Encoded NodeProto)
    (h : EncodeNode_Loop use_external_data_format onnx_file_path in_graph_ blocks enc fs
      node_proto = .ok r) :
    ∃ body_block e, blocks = [body_block] ∧
      EncodeBlock use_external_data_format onnx_file_path in_graph_ [] (fun _ => none) true
        true body_block enc fs GraphProto.empty = .ok e ∧
      r = { value := node_proto.add_attribute
              { name := some "body", type := some .GRAPH, g := some e.value }
            encoder := e.encoder, fs := e.fs } := by
  match blocks, h with
  | [body_block], h =>
    simp only [EncodeNode_Loop] at h
    cases he : EncodeBlock use_external_data_format onnx_file_path in_graph_ []
        (fun _ => none) true true body_block enc fs GraphProto.empty with
    | error f => simp [he, bind, Except.bind] at h
    | ok e =>
      simp [he, bind, Except.bind, pure, Except.pure] at h
      exact ⟨body_block, e, rfl, he, h.symm⟩
  | [], h => simp [EncodeNode_Loop] at h
  | _ :: _ :: _, h => simp [EncodeNode_Loop] at h

/-- The part of `EncodeNode` for an If node returns only when the node has
exactly two nested blocks, and then adds the attributes `then_branch` and
`else_branch` that hold the encodings of the two blocks, in this order. -/
theorem EncodeNode_If_ok (use_external_data_format : Bool) (onnx_file_path : String)
    (in_graph_ : Bool) (blocks : List Block) (enc : GraphEncoder) (fs : FileSystem)
    (node_proto : NodeProto) (r : Encoded NodeProto)
    (h : EncodeNode_If use_external_data_format onnx_file_path in_graph_ blocks enc fs
      node_proto = .ok r) :
    ∃ then_block else_block t e, blocks = [then_block, else_block] ∧
      EncodeBlock use_external_data_format onnx_file_path in_graph_ [] (fun _ => none) true
        true then_block enc fs GraphProto.empty = .ok t ∧
      EncodeBlock use_external_data_format onnx_file_path in_graph_ [] (fun _ => none) true
        true else_block t.encoder t.fs GraphProto.empty = .ok e ∧
      r = { value :=
              (node_proto.add_attribute
                { name := some "then_branch", type := some .GRAPH, g := some t.value }
                ).add_attribute
                { name := some "else_branch", type := some .GRAPH, g := some e.value }
            encoder := e.encoder, fs := e.fs } := by
  match blocks, h with
  | [then_block, else_block], h =>
    simp only [EncodeNode_If] at h
    cases ht : EncodeBlock use_external_data_format onnx_file_path in_graph_ []
        (fun _ => none) true true then_block enc fs GraphProto.empty with
    | error f => simp [ht, bind, Except.bind] at h
    | ok t =>
      simp only [ht, bind, Except.bind] at h
      cases he : EncodeBlock use_external_data_format onnx_file_path in_graph_ []
          (fun _ => none) true true else_block t.encoder t.fs GraphProto.empty with
      | error f => simp [he] at h
      | ok e =>
        simp [he, pure, Except.pure] at h
        exact ⟨then_block, else_block, t, e, rfl, ht, he, h.symm⟩
  | [], h => simp [EncodeNode_If] at h
  | [_], h => simp [EncodeNode_If] at h
  | _ :: _ :: _ :: _, h => simp [EncodeNode_If] at h

/-- The steps of a call of `EncodeNode` that returns. -/
theorem EncodeNode_ok (use_external_data_format : Bool) (onnx_file_path : String)
    (in_graph_ add_node_names : Bool) (node : Node) (enc : GraphEncoder) (fs : FileSystem)
    (graph_proto : GraphProto) (node_proto : NodeProto) (r : EncodedNode)
    (h : EncodeNode use_external_data_format onnx_file_path in_graph_ add_node_names node enc
      fs graph_proto node_proto = .ok r) :
    ∃ hd a l i,
      EncodeNode_header in_graph_ add_node_names node enc graph_proto node_proto = .ok hd ∧
      EncodeNode_attributes use_external_data_format onnx_file_path
        (hd.encoder.node_attr_to_name_ node) node.attributes hd.encoder fs hd.node_proto =
          .ok a ∧
      (if node.kind = onnx_Loop then
          EncodeNode_Loop use_external_data_format onnx_file_path in_graph_ node.blocks
            a.encoder a.fs a.value = .ok l
        else l = a) ∧
      (if node.kind = onnx_If then
          EncodeNode_If use_external_data_format onnx_file_path in_graph_ node.blocks
            l.encoder l.fs l.value = .ok i
        else i = l) ∧
      r = { node_proto := i.value, graph_proto := hd.graph_proto, encoder := i.encoder,
            fs := i.fs } := by
  rw [EncodeNode_eq] at h
  cases hhd : EncodeNode_header in_graph_ add_node_names node enc graph_proto node_proto with
  | error f => simp [hhd, bind, Except.bind] at h
  | ok hd =>
    simp only [hhd, bind, Except.bind] at h
    cases ha : EncodeNode_attributes use_external_data_format onnx_file_path
        (hd.encoder.node_attr_to_name_ node) node.attributes hd.encoder fs hd.node_proto with
    | error f => simp [ha] at h
    | ok a =>
      simp only [ha] at h
      by_cases hL : node.kind = onnx_Loop
      · have hI : node.kind ≠ onnx_If := by rw [hL]; decide
        simp only [hL, if_true] at h
        cases hl : EncodeNode_Loop use_external_data_format onnx_file_path in_graph_ node.blocks
            a.encoder a.fs a.value with
        | error f => simp [hl] at h
        | ok l =>
          have hI2 : ¬ onnx_Loop = onnx_If := by decide
          simp [hl, hI2, pure, Except.pure] at h
          exact ⟨hd, a, l, l, rfl, ha, by simp [hL, hl], by simp [hI], h.symm⟩
      · simp only [hL, if_false, pure, Except.pure] at h
        by_cases hI : node.kind = onnx_If
        · simp only [hI, if_true] at h
          cases hi : EncodeNode_If use_external_data_format onnx_file_path in_graph_ node.blocks
              a.encoder a.fs a.value with
          | error f => simp [hi] at h
          | ok i =>
            simp [hi] at h
            exact ⟨hd, a, a, i, rfl, ha, by simp [hL], by simp [hI, hi], h.symm⟩
        · simp [hI] at h
          exact ⟨hd, a, a, a, rfl, ha, by simp [hL], by simp [hI], h.symm⟩

/-- The operator record of a call of `EncodeNode` that returns: what the first
part left, then one record per declared attribute, then the records of the
nested blocks of a Loop or an If node. -/
theorem EncodeNode_record (use_external_data_format : Bool) (onnx_file_path : String)
    (in_graph_ add_node_names : Bool) (node : Node) (enc : GraphEncoder) (fs : FileSystem)
    (graph_proto : GraphProto) (node_proto : NodeProto) (r : EncodedNode)
    (h : EncodeNode use_external_data_format onnx_file_path in_graph_ add_node_names node enc
      fs graph_proto node_proto = .ok r) :
    ∃ hd attrs extra,
      EncodeNode_header in_graph_ add_node_names node enc graph_proto node_proto = .ok hd ∧
      List.Forall₂ (encodesAttribute (enc.node_attr_to_name_ node)) node.attributes attrs ∧
      r.node_proto =
        { hd.node_proto with attribute_ := hd.node_proto.attribute_ ++ attrs ++ extra } ∧
      r.graph_proto = hd.graph_proto ∧
      (node.kind ≠ onnx_Loop → node.kind ≠ onnx_If → extra = []) ∧
      (node.kind = onnx_Loop → ∃ body_block enc1 fs1 e, node.blocks = [body_block] ∧
        EncodeBlock use_external_data_format onnx_file_path in_graph_ [] (fun _ => none) true
          true body_block enc1 fs1 GraphProto.empty = .ok e ∧
        extra = [{ name := some "body", type := some .GRAPH, g := some e.value }]) ∧
      (node.kind = onnx_If → ∃ then_block else_block enc1 fs1 t e,
        node.blocks = [then_block, else_block] ∧
        EncodeBlock use_external_data_format onnx_file_path in_graph_ [] (fun _ => none) true
          true then_block enc1 fs1 GraphProto.empty = .ok t ∧
        EncodeBlock use_external_data_format onnx_file_path in_graph_ [] (fun _ => none) true
          true else_block t.encoder t.fs GraphProto.empty = .ok e ∧
        extra = [{ name := some "then_branch", type := some .GRAPH, g := some t.value },
                 { name := some "else_branch", type := some .GRAPH, g := some e.value }]) := by
  obtain ⟨hd, a, l, i, hhd, ha, hl, hi, hr⟩ := EncodeNode_ok use_external_data_format
    onnx_file_path in_graph_ add_node_names node enc fs graph_proto node_proto r h
  obtain ⟨added, m, _, hhd2⟩ := EncodeNode_header_ok in_graph_ add_node_names node enc
    graph_proto node_proto hd hhd
  have hmap : hd.encoder.node_attr_to_name_ = enc.node_attr_to_name_ := by rw [hhd2]
  rw [hmap] at ha
  obtain ⟨attrs, hall, hav⟩ := EncodeNode_attributes_ok use_external_data_format onnx_file_path
    _ node.attributes hd.encoder fs hd.node_proto a ha
  by_cases hL : node.kind = onnx_Loop
  · have hI : node.kind ≠ onnx_If := by rw [hL]; decide
    simp only [hL, if_true] at hl
    simp only [hI, if_false] at hi
    obtain ⟨body_block, e, hb, he, hlv⟩ := EncodeNode_Loop_ok use_external_data_format
      onnx_file_path in_graph_ node.blocks a.encoder a.fs a.value l hl
    refine ⟨hd, attrs, [{ name := some "body", type := some .GRAPH, g := some e.value }], hhd,
      hall, ?_, by rw [hr], fun h1 _ => absurd hL h1, fun _ => ⟨body_block, _, _, e, hb, he, rfl⟩,
      fun h2 => absurd h2 hI⟩
    rw [hr, hi, hlv, add_attribute_eq, hav]
  · simp only [hL, if_false] at hl
    by_cases hI : node.kind = onnx_If
    · simp only [hI, if_true] at hi
      obtain ⟨then_block, else_block, t, e, hb, ht, he, hiv⟩ := EncodeNode_If_ok
        use_external_data_format onnx_file_path in_graph_ node.blocks l.encoder l.fs l.value i hi
      refine ⟨hd, attrs,
        [{ name := some "then_branch", type := some .GRAPH, g := some t.value },
         { name := some "else_branch", type := some .GRAPH, g := some e.value }], hhd, hall, ?_,
        by rw [hr], fun _ h2 => absurd hI h2, fun h1 => absurd h1 hL,
        fun _ => ⟨then_block, else_block, _, _, t, e, hb, ht, he, rfl⟩⟩
      rw [hr, hiv, add_attribute_eq, add_attribute_eq, hl, hav]
      simp
    · simp only [hI, if_false] at hi
      refine ⟨hd, attrs, [], hhd, hall, ?_, by rw [hr], fun _ _ => rfl,
        fun h1 => absurd h1 hL, fun h2 => absurd h2 hI⟩
      rw [hr, hi, hl, hav]
      simp

theorem exists_ok_of_threw_eq_false {α : Type} (x : Except Failure α)
    (h : threw x = false) : ∃ r, x = .ok r := by
  cases x with
  | error e => simp [threw] at h
  | ok r => exact ⟨r, rfl⟩

/-- C21: the operator record of an encoded node has as many inputs as the
node, and its `i`-th input is the empty string when the node's `i`-th input is
produced by a `None` node, otherwise the name that `val_attr_to_name_` holds
for that value when it holds one, otherwise the value's own name. -/
theorem C21_node_inputs (use_external_data_format : Bool) (onnx_file_path : String)
    (in_graph_ add_node_names : Bool) (node : Node) (enc : GraphEncoder) (fs : FileSystem)
    (graph_proto : GraphProto) (r : EncodedNode)
    (h : EncodeNode use_external_data_format onnx_file_path in_graph_ add_node_names node enc
      fs graph_proto {} = .ok r) :
    r.node_proto.input.length = node.inputs.length ∧
    ∀ (i : Nat) (v : Value), node.inputs[i]? = some v →
      r.node_proto.input[i]? =
        some (if v.node.mustBeNone then ""
          else
            match enc.val_attr_to_name_ v with
            | some name => name
            | none => v.debugName) := by
  obtain ⟨hd, attrs, extra, hhd, _, hrec, _⟩ := EncodeNode_record use_external_data_format
    onnx_file_path in_graph_ add_node_names node enc fs graph_proto {} r h
  obtain ⟨added, m, _, hhd2⟩ := EncodeNode_header_ok in_graph_ add_node_names node enc
    graph_proto {} hd hhd
  have hin : r.node_proto.input = node.inputs.map (EncodeNode_input enc) := by
    rw [hrec, hhd2]
    simp
  rw [hin]
  refine ⟨by simp, fun i v hv => ?_⟩
  rw [List.getElem?_map, hv]
  rfl

/-- C21, witness: the node `my::Gather`, whose second input is absent and
whose third input the caller renames. -/
theorem C21_node_inputs_witness :
    ∃ r, EncodeNode false "" true true exampleGatherNode exampleGatherEncoder {}
        GraphProto.empty {} = .ok r ∧
      r.node_proto.input.length = 3 ∧
      r.node_proto.input[0]? = some "x" ∧
      r.node_proto.input[1]? = some "" ∧
      r.node_proto.input[2]? = some "weight_ref" := by
  obtain ⟨r, hr⟩ := exists_ok_of_threw_eq_false
    (EncodeNode false "" true true exampleGatherNode exampleGatherEncoder {} GraphProto.empty {})
    (by decide!)
  have h := C21_node_inputs false "" true true exampleGatherNode exampleGatherEncoder {}
    GraphProto.empty r hr
  exact ⟨r, hr, h.1, h.2 0 exampleValueX rfl, h.2 1 exampleAbsentValue rfl,
    h.2 2 exampleValueW rfl⟩

/-- C22: the operator record of an encoded node lists the names of the node's
outputs in order, and the graph record receives, in order, one value-info
record named after each output whose producing operator is outside the `onnx`
namespace, whose node belongs to the session's graph and which is not an
output of that graph; it receives none for the other outputs, and nothing else
of the graph record changes. -/
theorem C22_node_outputs (use_external_data_format : Bool) (onnx_file_path : String)
    (in_graph_ add_node_names : Bool) (node : Node) (enc : GraphEncoder) (fs : FileSystem)
    (graph_proto : GraphProto) (r : EncodedNode)
    (h : EncodeNode use_external_data_format onnx_file_path in_graph_ add_node_names node enc
      fs graph_proto {} = .ok r) :
    r.node_proto.output = node.outputs.map Value.debugName ∧
    ∃ added, r.graph_proto = graph_proto.add_value_infos added ∧
      added.map (fun p => p.name) =
        (node.outputs.filter (fun v =>
          !v.node.kind.is_onnx && in_graph_ &&
            !enc.graph_.block.outputs.any (fun o => o = v))).map
          (fun v => some v.debugName) := by
  obtain ⟨hd, attrs, extra, hhd, _, hrec, hgp, _⟩ := EncodeNode_record use_external_data_format
    onnx_file_path in_graph_ add_node_names node enc fs graph_proto {} r h
  obtain ⟨added, m, hnames, hhd2⟩ := EncodeNode_header_ok in_graph_ add_node_names node enc
    graph_proto {} hd hhd
  refine ⟨?_, added, ?_, hnames⟩
  · rw [hrec, hhd2]
    simp
  · rw [hgp, hhd2]

/-- C22, witness: of the outputs `y` and `z` of the node `my::Gather`, `y` is
an output of the graph and `z` is not. -/
theorem C22_node_outputs_witness :
    ∃ r, EncodeNode false "" true true exampleGatherNode exampleGatherEncoder {}
        GraphProto.empty {} = .ok r ∧
      r.node_proto.output = ["y", "z"] ∧
      ∃ added, r.graph_proto = GraphProto.empty.add_value_infos added ∧
        added.map (fun p => p.name) = [some "z"] := by
  obtain ⟨r, hr⟩ := exists_ok_of_threw_eq_false
    (EncodeNode false "" true true exampleGatherNode exampleGatherEncoder {} GraphProto.empty {})
    (by decide!)
  exact ⟨r, hr, C22_node_outputs false "" true true exampleGatherNode exampleGatherEncoder {}
    GraphProto.empty r hr⟩

/-- A call of `EncodeTensor` with no name supplied that returns has kept the
name of the tensor record and has left the encoder as it was. -/
theorem EncodeTensor_unnamed_ok (enc : GraphEncoder) (fs : FileSystem)
    (tensor_proto : TensorProto) (tensor : Tensor) (use_external_data_format : Bool)
    (onnx_file_path : String) (r : EncodedTensor)
    (h : EncodeTensor enc fs tensor_proto tensor none use_external_data_format onnx_file_path =
      .ok r) :
    r.tensor_proto.name = tensor_proto.name ∧ r.encoder = enc := by
  unfold EncodeTensor at h
  cases htype : ATenTypeToOnnxType tensor.scalar_type with
  | error e => simp [htype, bind, Except.bind] at h
  | ok data_type =>
    simp only [htype, bind, Except.bind, Option.isSome_none, Bool.and_false, Bool.false_and,
      Bool.false_eq_true, if_false, pure, Except.pure] at h
    repeat' split at h
    all_goals first
      | contradiction
      | (simp [throw, throwThe, MonadExceptOf.throw] at h; done)
      | (simp only [Except.ok.injEq] at h; rw [← h]; exact ⟨rfl, rfl⟩)

/-- A call of `AddAttribute_tensor` that returns: the name of the tensor record
and the counter `num_external_data_`. -/
theorem AddAttribute_tensor_ok (enc : GraphEncoder) (fs : FileSystem) (node_proto : NodeProto)
    (name : Symbol) (tensor : Tensor) (use_external_data_format : Bool)
    (onnx_file_path : String) (r : EncodedTensor)
    (h : AddAttribute_tensor enc fs node_proto name tensor use_external_data_format
      onnx_file_path = .ok r) :
    r.tensor_proto.name =
      (if use_external_data_format then
        some (createAttributeTensorName node_proto {} name enc.num_external_data_).1
      else none) ∧
    r.encoder =
      (if use_external_data_format then
        { enc with
          num_external_data_ :=
            (createAttributeTensorName node_proto {} name enc.num_external_data_).2 }
      else enc) := by
  unfold AddAttribute_tensor at h
  cases hu : use_external_data_format with
  | false =>
    simp only [hu, Bool.false_and, Bool.false_eq_true, if_false] at h
    obtain ⟨h1, h2⟩ := EncodeTensor_unnamed_ok enc fs {} tensor false onnx_file_path r h
    exact ⟨by simpa using h1, by simpa using h2⟩
  | true =>
    simp only [hu] at h
    have hn : (({} : TensorProto).name.isNone) = true := rfl
    simp only [hn, Bool.and_self, if_true] at h
    obtain ⟨h1, h2⟩ := EncodeTensor_unnamed_ok _ fs _ tensor true onnx_file_path r h
    exact ⟨by simpa using h1, by simpa using h2⟩

/-- The name that `AddAttribute_tensor` gives the tensor record it encodes,
and the counter `num_external_data_` afterwards, by the mode and by whether the
operator record has a name. -/
theorem AddAttribute_tensor_name (enc : GraphEncoder) (fs : FileSystem)
    (node_proto : NodeProto) (name : Symbol) (tensor : Tensor)
    (use_external_data_format : Bool) (onnx_file_path : String) (r : EncodedTensor)
    (h : AddAttribute_tensor enc fs node_proto name tensor use_external_data_format
      onnx_file_path = .ok r) :
    (use_external_data_format = true → ∀ node_name, node_proto.name = some node_name →
      r.tensor_proto.name = some (node_name ++ "_" ++ name.toDisplayString) ∧
      r.encoder.num_external_data_ = enc.num_external_data_) ∧
    (use_external_data_format = true → node_proto.name = none →
      r.tensor_proto.name =
        some (node_proto.op_type.getD "" ++ "_" ++ name.toDisplayString ++ "_" ++
          toString enc.num_external_data_) ∧
      r.encoder.num_external_data_ = enc.num_external_data_ + 1) ∧
    (use_external_data_format = false →
      r.tensor_proto.name = none ∧
      r.encoder.num_external_data_ = enc.num_external_data_) := by
  obtain ⟨h1, h2⟩ := AddAttribute_tensor_ok enc fs node_proto name tensor
    use_external_data_format onnx_file_path r h
  refine ⟨fun hu node_name hn => ?_, fun hu hn => ?_, fun hu => ?_⟩
  · rw [h1, h2]
    simp [hu, createAttributeTensorName, hn]
  · rw [h1, h2]
    simp [hu, createAttributeTensorName, hn]
  · rw [h1, h2]
    simp [hu]

/-- C29, counterexample: outside external-storage mode the tensor record of
the attribute `value` of the node `Constant_0` has no name; and in
external-storage mode its name is `Constant_0_attr::value`, with no counter. -/
theorem C29_counterexample :
    recordOf (AddAttribute_tensor {} {} { op_type := some "Constant", name := some "Constant_0" }
        ⟨.attr, "value"⟩ exampleScalarTensor false "") =
      some { name := none, dims := [1], data_type := some .FLOAT,
             raw_data := some [0, 0, 0, 0] } ∧
    recordOf (AddAttribute_tensor {} {} { op_type := some "Constant", name := some "Constant_0" }
        ⟨.attr, "value"⟩ exampleScalarTensor true "/tmp/model/m.onnx") =
      some { name := some "Constant_0_attr::value", dims := [1], data_type := some .FLOAT,
             raw_data := some [0, 0, 0, 0] } :=
  ⟨by decide, by decide⟩

theorem forall₂_getElem? {α β : Type} (R : α → β → Prop) :
    ∀ (l1 : List α) (l2 : List β), List.Forall₂ R l1 l2 →
      ∀ (i : Nat) (a : α), l1[i]? = some a → ∃ b, l2[i]? = some b ∧ R a b
  | _, _, .nil, i, a, h => by simp at h
  | _, _, .cons hr hrest, 0, a, h => by
    simp at h
    subst h
    exact ⟨_, by simp, hr⟩
  | _, _, .cons hr hrest, i + 1, a, h => by
    simp only [List.getElem?_cons_succ] at h ⊢
    exact forall₂_getElem? R _ _ hrest i a h

/-- C25: the operator record of an encoded node that starts from a new record
holds, in declaration order, one attribute record per declared attribute,
followed only by the records of the nested blocks of a Loop or an If node. The
record of an attribute for which `node_attr_to_name_` holds a reference name
has the name of the attribute and that reference name and nothing else; the
record of every other attribute has the name of the attribute and the type tag
of its kind, and no reference name. -/
theorem C25_declared_attributes (use_external_data_format : Bool) (onnx_file_path : String)
    (in_graph_ add_node_names : Bool) (node : Node) (enc : GraphEncoder) (fs : FileSystem)
    (graph_proto : GraphProto) (r : EncodedNode)
    (h : EncodeNode use_external_data_format onnx_file_path in_graph_ add_node_names node enc
      fs graph_proto {} = .ok r) :
    r.node_proto.attribute_.length =
      node.attributes.length +
        (if node.kind = onnx_Loop then 1 else if node.kind = onnx_If then 2 else 0) ∧
    ∀ (i : Nat) (name : Symbol) (value : AttributeValue),
      node.attributes[i]? = some (name, value) →
      ∃ attr, r.node_proto.attribute_[i]? = some attr ∧
        (∀ ref_attr_name,
          (enc.node_attr_to_name_ node).bind (fun names => names name.toUnqualString) =
            some ref_attr_name →
          attr = { name := some name.toUnqualString, ref_attr_name := some ref_attr_name }) ∧
        ((enc.node_attr_to_name_ node).bind (fun names => names name.toUnqualString) = none →
          attr.name = some name.toUnqualString ∧ attr.type = value.attributeType ∧
            attr.ref_attr_name = none) := by
  obtain ⟨hd, attrs, extra, hhd, hall, hrec, _, hnone, hloop, hif⟩ := EncodeNode_record
    use_external_data_format onnx_file_path in_graph_ add_node_names node enc fs graph_proto {}
    r h
  obtain ⟨added, m, _, hhd2⟩ := EncodeNode_header_ok in_graph_ add_node_names node enc
    graph_proto {} hd hhd
  have hattrs : r.node_proto.attribute_ = attrs ++ extra := by
    rw [hrec, hhd2]
    simp
  have hlen := hall.length_eq
  refine ⟨?_, fun i name value hi => ?_⟩
  · rw [hattrs, List.length_append, ← hlen]
    by_cases hL : node.kind = onnx_Loop
    · obtain ⟨_, _, _, _, _, _, hx⟩ := hloop hL
      simp [hL, hx]
    · by_cases hI : node.kind = onnx_If
      · obtain ⟨_, _, _, _, _, _, _, _, _, hx⟩ := hif hI
        have hne : ¬ onnx_If = onnx_Loop := by decide
        simp [hI, hx, hne]
      · simp [hL, hI, hnone hL hI]
  · obtain ⟨attr, hattr, hR⟩ := forall₂_getElem? _ _ _ hall i (name, value) hi
    refine ⟨attr, ?_, ?_, ?_⟩
    · rw [hattrs, List.getElem?_append_left, hattr]
      rw [← hlen]
      exact (List.getElem?_eq_some.mp hi).1
    · intro ref_attr_name ho
      simp only [encodesAttribute, attributeOverride, ho] at hR
      exact hR
    · intro ho
      simp only [encodesAttribute, attributeOverride, ho] at hR
      exact hR

/-- C25, witness: the attributes `axis` and `mode` of the node `my::Gather`,
of which the caller renames `mode` to `mode_ref`. -/
theorem C25_declared_attributes_witness :
    ∃ r, EncodeNode false "" true true exampleGatherNode exampleGatherEncoder {}
        GraphProto.empty {} = .ok r ∧
      r.node_proto.attribute_.length = 2 ∧
      (∃ attr, r.node_proto.attribute_[0]? = some attr ∧ attr.name = some "axis" ∧
        attr.type = some .INT ∧ attr.ref_attr_name = none) ∧
      r.node_proto.attribute_[1]? =
        some { name := some "mode", ref_attr_name := some "mode_ref" } := by
  obtain ⟨r, hr⟩ := exists_ok_of_threw_eq_false
    (EncodeNode false "" true true exampleGatherNode exampleGatherEncoder {} GraphProto.empty {})
    (by decide!)
  have h := C25_declared_attributes false "" true true exampleGatherNode exampleGatherEncoder {}
    GraphProto.empty r hr
  obtain ⟨a0, h0, _, h0n⟩ := h.2 0 ⟨.attr, "axis"⟩ (.i 1) rfl
  obtain ⟨a1, h1, h1r, _⟩ := h.2 1 ⟨.attr, "mode"⟩ (.s "clip") rfl
  refine ⟨r, hr, h.1, ⟨a0, h0, h0n rfl⟩, ?_⟩
  rw [h1, h1r "mode_ref" rfl]
  rfl

/-- C28 (as amended): `EncodeNode` does not look at the nested blocks of a node
that is neither a Loop nor an If: the node is encoded exactly as the same node
without nested blocks is, given that `node_attr_to_name_` holds the same entry
for both, and no assertion is raised on account of the nested blocks. -/
theorem C28_nested_blocks_ignored (use_external_data_format : Bool) (onnx_file_path : String)
    (in_graph_ add_node_names : Bool) (kind : Symbol) (inputs outputs : List Value)
    (blocks : List Block) (attributes : List (Symbol × AttributeValue)) (isNone : Bool)
    (sr py : String) (enc : GraphEncoder) (fs : FileSystem) (graph_proto : GraphProto)
    (node_proto : NodeProto) (hLoop : kind ≠ onnx_Loop) (hIf : kind ≠ onnx_If)
    (hentry : enc.node_attr_to_name_ (.mk kind inputs outputs blocks attributes isNone sr py) =
      enc.node_attr_to_name_ (.mk kind inputs outputs [] attributes isNone sr py)) :
    EncodeNode use_external_data_format onnx_file_path in_graph_ add_node_names
        (.mk kind inputs outputs blocks attributes isNone sr py) enc fs graph_proto node_proto =
      EncodeNode use_external_data_format onnx_file_path in_graph_ add_node_names
        (.mk kind inputs outputs [] attributes isNone sr py) enc fs graph_proto node_proto := by
  rw [EncodeNode_eq, EncodeNode_eq]
  have hh : EncodeNode_header in_graph_ add_node_names
      (.mk kind inputs outputs blocks attributes isNone sr py) enc graph_proto node_proto =
      EncodeNode_header in_graph_ add_node_names
        (.mk kind inputs outputs [] attributes isNone sr py) enc graph_proto node_proto := rfl
  rw [hh]
  cases hhd : EncodeNode_header in_graph_ add_node_names
      (.mk kind inputs outputs [] attributes isNone sr py) enc graph_proto node_proto with
  | error f => rfl
  | ok hd =>
    obtain ⟨added, m, _, hhd2⟩ := EncodeNode_header_ok in_graph_ add_node_names _ enc
      graph_proto node_proto hd hhd
    have hmap : hd.encoder.node_attr_to_name_ = enc.node_attr_to_name_ := by rw [hhd2]
    simp only [bind, Except.bind, Node.kind, Node.attributes, hLoop, hIf, if_false, hmap, hentry]

/-- C28, witness: the node `onnx::Scan` with one nested block. -/
theorem C28_nested_blocks_ignored_witness :
    EncodeNode false "" true true exampleScanNode {} {} GraphProto.empty {} =
      EncodeNode false "" true true
        (.mk ⟨.onnx, "Scan"⟩ [exampleValueX]
          [{ unique := 6, unique_name_ := "s", node := { kind := ⟨.onnx, "Scan"⟩ } }] [] []
          false "" "")
        {} {} GraphProto.empty {} :=
  C28_nested_blocks_ignored false "" true true ⟨.onnx, "Scan"⟩ [exampleValueX]
    [{ unique := 6, unique_name_ := "s", node := { kind := ⟨.onnx, "Scan"⟩ } }]
    [.mk [{ unique := 0 }] [producedBy ⟨.onnx, "Relu"⟩ 4] [exampleReluNode]] [] false "" ""
    {} {} GraphProto.empty {} (by decide) (by decide) rfl

/-- C28, counterexample: the node `onnx::Scan`, neither a Loop nor an If, has
one nested block, and `EncodeNode` returns its operator record, which has no
attribute. -/
theorem C28_counterexample :
    exampleScanNode.kind ≠ onnx_Loop ∧ exampleScanNode.kind ≠ onnx_If ∧
    exampleScanNode.blocks.length = 1 ∧
    (nodeRecordOf (EncodeNode false "" true true exampleScanNode {} {} GraphProto.empty {})).map
        (fun n => (n.op_type, n.input, n.output, n.name, n.attribute_.length)) =
      some (some "Scan", ["x"], ["s"], some "Scan_0", 0) :=
  ⟨by decide, by decide, rfl, by decide!⟩

theorem add_value_infos_node (gp : GraphProto) (added : List ValueInfoProto) :
    (gp.add_value_infos added).node = gp.node := rfl

theorem add_node_node (gp : GraphProto) (p : NodeProto) :
    (gp.add_node p).node = gp.node ++ [p] := by
  cases gp
  rfl

theorem add_input_node (gp : GraphProto) (p : ValueInfoProto) :
    (gp.add_input p).node = gp.node := by
  cases gp
  rfl

theorem add_output_node (gp : GraphProto) (p : ValueInfoProto) :
    (gp.add_output p).node = gp.node := by
  cases gp
  rfl

theorem set_name_node (gp : GraphProto) (name : String) : (gp.set_name name).node = gp.node := by
  cases gp
  rfl

theorem add_initializer_node (gp : GraphProto) (p : TensorProto) :
    (gp.add_initializer p).node = gp.node := by
  cases gp
  rfl

theorem EncodeBlock_values_ok (add : GraphProto → ValueInfoProto → GraphProto)
    (hadd : ∀ g p, (add g p).node = g.node) (dynamic_axes : DynamicAxes) :
    ∀ (values : List Value) (enc : GraphEncoder) (graph_proto : GraphProto)
      (r : GraphProto × GraphEncoder),
      EncodeBlock_values add dynamic_axes values enc graph_proto = .ok r →
      r.1.node = graph_proto.node ∧ r.2 = { enc with symbol_dim_map_ := r.2.symbol_dim_map_ }
  | [], enc, graph_proto, r, h => by
    simp [EncodeBlock_values] at h
    rw [← h]
    exact ⟨rfl, rfl⟩
  | value :: rest, enc, graph_proto, r, h => by
    simp only [EncodeBlock_values] at h
    cases hq : EncodeValueInfo enc {} value dynamic_axes with
    | error f => simp [hq, bind, Except.bind] at h
    | ok q =>
      simp only [hq, bind, Except.bind] at h
      obtain ⟨h1, h2⟩ := EncodeBlock_values_ok add hadd dynamic_axes rest q.2 _ r h
      obtain ⟨_, hq2⟩ := EncodeValueInfo_ok enc {} value dynamic_axes q hq
      refine ⟨by rw [h1, hadd], ?_⟩
      rw [h2, hq2]

theorem EncodeBlock_inputs_ok (initializers : Initializers) (dynamic_axes : DynamicAxes) :
    ∀ (inputs : List Value) (enc : GraphEncoder) (graph_proto : GraphProto)
      (r : GraphProto × GraphEncoder),
      EncodeBlock_inputs initializers dynamic_axes inputs enc graph_proto = .ok r →
      r.1.node = graph_proto.node ∧ r.2 = { enc with symbol_dim_map_ := r.2.symbol_dim_map_ }
  | [], enc, graph_proto, r, h => by
    simp [EncodeBlock_inputs] at h
    rw [← h]
    exact ⟨rfl, rfl⟩
  | input :: rest, enc, graph_proto, r, h => by
    simp only [EncodeBlock_inputs] at h
    cases hf : findInitializer initializers input.debugName with
    | some pair =>
      simp only [hf] at h
      exact EncodeBlock_inputs_ok initializers dynamic_axes rest enc graph_proto r h
    | none =>
      simp only [hf] at h
      cases hq : EncodeValueInfo enc {} input dynamic_axes with
      | error f => simp [hq, bind, Except.bind] at h
      | ok q =>
        simp only [hq, bind, Except.bind] at h
        obtain ⟨h1, h2⟩ := EncodeBlock_inputs_ok initializers dynamic_axes rest q.2 _ r h
        obtain ⟨_, hq2⟩ := EncodeValueInfo_ok enc {} input dynamic_axes q hq
        refine ⟨by rw [h1, add_input_node], ?_⟩
        rw [h2, hq2]

/-- The first part of `EncodeBlock` leaves the operator records of the graph
record as they were, and changes of the encoder only the symbolic-dimension
map and the count of blocks, which increases by one. -/
theorem EncodeBlock_header_ok (initializers : Initializers) (dynamic_axes : DynamicAxes)
    (keep_initializers_as_inputs : Bool) (inputs outputs : List Value) (enc : GraphEncoder)
    (graph_proto : GraphProto) (r : GraphProto × GraphEncoder)
    (h : EncodeBlock_header initializers dynamic_axes keep_initializers_as_inputs inputs
      outputs enc graph_proto = .ok r) :
    r.1.node = graph_proto.node ∧
    r.2 = { enc with symbol_dim_map_ := r.2.symbol_dim_map_,
                     num_blocks_ := enc.num_blocks_ + 1 } := by
  unfold EncodeBlock_header at h
  cases hk : keep_initializers_as_inputs with
  | true =>
    simp only [bind, Except.bind, hk, if_true] at h
    split at h
    · contradiction
    · rename_i q hq
      obtain ⟨h1, h2⟩ := EncodeBlock_values_ok GraphProto.add_output add_output_node
        dynamic_axes outputs q.2 q.1 r h
      obtain ⟨h3, h4⟩ := EncodeBlock_values_ok GraphProto.add_input add_input_node
        dynamic_axes inputs _ _ q hq
      refine ⟨by rw [h1, h3, set_name_node], ?_⟩
      rw [h2, h4]
  | false =>
    simp only [bind, Except.bind, hk, Bool.false_eq_true, if_false] at h
    split at h
    · contradiction
    · rename_i q hq
      obtain ⟨h1, h2⟩ := EncodeBlock_values_ok GraphProto.add_output add_output_node
        dynamic_axes outputs q.2 q.1 r h
      obtain ⟨h3, h4⟩ := EncodeBlock_inputs_ok initializers dynamic_axes inputs _ _ q hq
      refine ⟨by rw [h1, h3, set_name_node], ?_⟩
      rw [h2, h4]

/-- A call of `EncodeTensor` that returns has changed no member of the encoder
but the export map. -/
theorem EncodeTensor_encoder (enc : GraphEncoder) (fs : FileSystem)
    (tensor_proto : TensorProto) (tensor : Tensor) (external_ref : Option String)
    (use_external_data_format : Bool) (onnx_file_path : String) (r : EncodedTensor)
    (h : EncodeTensor enc fs tensor_proto tensor external_ref use_external_data_format
      onnx_file_path = .ok r) :
    r.encoder = { enc with raw_data_export_map_ := r.encoder.raw_data_export_map_ } := by
  unfold EncodeTensor at h
  cases htype : ATenTypeToOnnxType tensor.scalar_type with
  | error e => simp [htype, bind, Except.bind] at h
  | ok data_type =>
    simp only [htype, bind, Except.bind, pure, Except.pure] at h
    repeat' split at h
    all_goals first
      | contradiction
      | (simp [throw, throwThe, MonadExceptOf.throw] at h; done)
      | (simp only [Except.ok.injEq] at h; rw [← h])

theorem AddInitializersIntoGraphProto_loop_ok (initializers : Initializers)
    (use_external_data_format : Bool) (onnx_file_path : String) :
    ∀ (inputs : List Value) (enc : GraphEncoder) (fs : FileSystem) (graph_proto : GraphProto)
      (r : Encoded GraphProto),
      AddInitializersIntoGraphProto_loop initializers use_external_data_format onnx_file_path
        inputs enc fs graph_proto = .ok r →
      r.value.node = graph_proto.node ∧
      r.encoder = { enc with raw_data_export_map_ := r.encoder.raw_data_export_map_ }
  | [], enc, fs, graph_proto, r, h => by
    simp [AddInitializersIntoGraphProto_loop] at h
    rw [← h]
    exact ⟨rfl, rfl⟩
  | input :: rest, enc, fs, graph_proto, r, h => by
    simp only [AddInitializersIntoGraphProto_loop] at h
    cases hf : findInitializer initializers input.debugName with
    | none =>
      simp only [hf] at h
      exact AddInitializersIntoGraphProto_loop_ok initializers use_external_data_format
        onnx_file_path rest enc fs graph_proto r h
    | some pair =>
      simp only [hf] at h
      cases hq : EncodeTensor enc fs { name := some pair.1 } pair.2 (some pair.1)
          use_external_data_format onnx_file_path with
      | error f => simp [hq, bind, Except.bind] at h
      | ok q =>
        simp only [hq, bind, Except.bind] at h
        obtain ⟨h1, h2⟩ := AddInitializersIntoGraphProto_loop_ok initializers
          use_external_data_format onnx_file_path rest q.encoder q.fs _ r h
        have hq2 := EncodeTensor_encoder enc fs _ pair.2 _ use_external_data_format
          onnx_file_path q hq
        refine ⟨by rw [h1, add_initializer_node], ?_⟩
        rw [h2, hq2]

/-- A call of `AddInitializersIntoGraphProto` that returns has left the
operator records of the graph record as they were, and has changed no member
of the encoder but the export map. -/
theorem AddInitializersIntoGraphProto_ok (enc : GraphEncoder) (fs : FileSystem)
    (graph_proto : GraphProto) (block : Block) (initializers : Initializers)
    (use_external_data_format : Bool) (onnx_file_path : String) (r : Encoded GraphProto)
    (h : AddInitializersIntoGraphProto enc fs graph_proto block initializers
      use_external_data_format onnx_file_path = .ok r) :
    r.value.node = graph_proto.node ∧
    r.encoder = { enc with raw_data_export_map_ := r.encoder.raw_data_export_map_ } := by
  unfold AddInitializersIntoGraphProto at h
  split at h
  · contradiction
  · exact AddInitializersIntoGraphProto_loop_ok initializers use_external_data_format
      onnx_file_path block.inputs enc fs graph_proto r h

/-- A call of `EncodeNode` that returns has left the operator records of the
graph record as they were. -/
theorem EncodeNode_graph_node (use_external_data_format : Bool) (onnx_file_path : String)
    (in_graph_ add_node_names : Bool) (node : Node) (enc : GraphEncoder) (fs : FileSystem)
    (graph_proto : GraphProto) (node_proto : NodeProto) (r : EncodedNode)
    (h : EncodeNode use_external_data_format onnx_file_path in_graph_ add_node_names node enc
      fs graph_proto node_proto = .ok r) :
    r.graph_proto.node = graph_proto.node := by
  obtain ⟨hd, attrs, extra, hhd, _, _, hgp, _⟩ := EncodeNode_record use_external_data_format
    onnx_file_path in_graph_ add_node_names node enc fs graph_proto node_proto r h
  obtain ⟨added, m, _, hhd2⟩ := EncodeNode_header_ok in_graph_ add_node_names node enc
    graph_proto node_proto hd hhd
  rw [hgp, hhd2]
  rfl

theorem EncodeLocalFunction_nodes_graph_node (use_external_data_format : Bool)
    (onnx_file_path : String) (add_node_names : Bool) :
    ∀ (nodes : List Node) (enc : GraphEncoder) (fs : FileSystem) (graph_proto : GraphProto)
      (func_proto : FunctionProto) (custom_domains : List String) (r : EncodedFunction),
      EncodeLocalFunction_nodes use_external_data_format onnx_file_path add_node_names nodes
        enc fs graph_proto func_proto custom_domains = .ok r →
      r.graph_proto.node = graph_proto.node
  | [], enc, fs, graph_proto, func_proto, custom_domains, r, h => by
    simp [EncodeLocalFunction_nodes] at h
    rw [← h]
  | .mk kind inputs outputs blocks attributes isNone sr py :: rest, enc, fs, graph_proto,
      func_proto, custom_domains, r, h => by
    simp only [EncodeLocalFunction_nodes] at h
    cases hn : isNone with
    | true =>
      simp only [hn, if_true] at h
      exact EncodeLocalFunction_nodes_graph_node use_external_data_format onnx_file_path
        add_node_names rest enc fs graph_proto func_proto custom_domains r h
    | false =>
      simp only [hn, Bool.false_eq_true, if_false] at h
      cases hq : EncodeNode use_external_data_format onnx_file_path false add_node_names
          (.mk kind inputs outputs blocks attributes false sr py) enc fs graph_proto {} with
      | error f => simp [hq, bind, Except.bind] at h
      | ok q =>
        simp only [hq, bind, Except.bind] at h
        have h1 := EncodeLocalFunction_nodes_graph_node use_external_data_format onnx_file_path
          add_node_names rest _ _ _ _ _ r h
        rw [h1]
        exact EncodeNode_graph_node use_external_data_format onnx_file_path false
          add_node_names _ enc fs graph_proto {} q hq

theorem EncodeLocalFunction_graph_node (use_external_data_format : Bool)
    (onnx_file_path : String) (add_node_names : Bool)
    (attributes : List (Symbol × AttributeValue)) :
    ∀ (search : List (Symbol × AttributeValue)) (enc : GraphEncoder) (fs : FileSystem)
      (graph_proto : GraphProto) (func_proto : FunctionProto) (r : EncodedFunction),
      EncodeLocalFunction use_external_data_format onnx_file_path add_node_names attributes
        search enc fs graph_proto func_proto = .ok r →
      r.graph_proto.node = graph_proto.node
  | [], enc, fs, graph_proto, func_proto, r, h => by
    simp [EncodeLocalFunction] at h
  | (key, value) :: rest, enc, fs, graph_proto, func_proto, r, h => by
    by_cases hk : key = attr_graph
    · cases value with
      | g v =>
        obtain ⟨block, nu⟩ := v
        obtain ⟨inputs, outputs, nodes⟩ := block
        simp only [EncodeLocalFunction, hk, if_true] at h
        cases hh : EncodeLocalFunction_header attributes inputs outputs enc func_proto with
        | error f => simp [hh, bind, Except.bind] at h
        | ok q =>
          simp only [hh, bind, Except.bind] at h
          exact EncodeLocalFunction_nodes_graph_node use_external_data_format onnx_file_path
            add_node_names nodes _ _ _ _ _ r h
      | _ => simp [EncodeLocalFunction, hk] at h
    · have hrest : EncodeLocalFunction use_external_data_format onnx_file_path add_node_names
          attributes rest enc fs graph_proto func_proto = .ok r := by
        cases value with
        | g v =>
          obtain ⟨block, nu⟩ := v
          obtain ⟨inputs, outputs, nodes⟩ := block
          simpa only [EncodeLocalFunction, hk, if_false] using h
        | _ => simpa only [EncodeLocalFunction, hk, if_false] using h
      exact EncodeLocalFunction_graph_node use_external_data_format onnx_file_path
        add_node_names attributes rest enc fs graph_proto func_proto r hrest

theorem EncodeBlock_eq (use_external_data_format : Bool) (onnx_file_path : String)
    (in_graph_ : Bool) (initializers : Initializers) (dynamic_axes : DynamicAxes)
    (keep_initializers_as_inputs add_node_names : Bool) (block : Block) (enc : GraphEncoder)
    (fs : FileSystem) (graph_proto : GraphProto) :
    EncodeBlock use_external_data_format onnx_file_path in_graph_ initializers dynamic_axes
        keep_initializers_as_inputs add_node_names block enc fs graph_proto =
      (do
        let h ← EncodeBlock_header initializers dynamic_axes keep_initializers_as_inputs
          block.inputs block.outputs enc graph_proto
        let r ← EncodeBlock_nodes use_external_data_format onnx_file_path in_graph_
          add_node_names block.nodes h.2 fs h.1
        AddInitializersIntoGraphProto r.encoder r.fs r.value block initializers
          use_external_data_format onnx_file_path) := by
  cases block
  rw [EncodeBlock]
  rfl

/-- The loop of `EncodeBlock` over the nodes adds to the graph record, in
order, the operator records that `EncodeNode` returns for the nodes it is
handed. -/
theorem EncodeBlock_nodes_records (use_external_data_format : Bool) (onnx_file_path : String)
    (in_graph_ add_node_names : Bool) :
    ∀ (nodes : List Node) (enc : GraphEncoder) (fs : FileSystem) (graph_proto : GraphProto)
      (r : Encoded GraphProto),
      EncodeBlock_nodes use_external_data_format onnx_file_path in_graph_ add_node_names nodes
        enc fs graph_proto = .ok r →
      ∃ records, r.value.node = graph_proto.node ++ records ∧
        List.Forall₂
          (encodedByEncodeNode use_external_data_format onnx_file_path in_graph_ add_node_names)
          (nodes.filter reachesEncodeNode) records
  | [], enc, fs, graph_proto, r, h => by
    simp [EncodeBlock_nodes] at h
    exact ⟨[], by rw [← h]; simp, by simp⟩
  | .mk kind inputs outputs blocks attributes isNone sr py :: rest, enc, fs, graph_proto, r,
      h => by
    simp only [EncodeBlock_nodes] at h
    cases hn : isNone with
    | true =>
      simp only [hn, if_true] at h
      obtain ⟨records, h1, h2⟩ := EncodeBlock_nodes_records use_external_data_format
        onnx_file_path in_graph_ add_node_names rest enc fs graph_proto r h
      refine ⟨records, h1, ?_⟩
      simpa [List.filter, reachesEncodeNode, Node.mustBeNone] using h2
    | false =>
      simp only [hn, Bool.false_eq_true, if_false] at h
      by_cases hk : kind = onnx_LocalFunctionDef
      · simp only [hk, if_true] at h
        simp only [bind, Except.bind] at h
        split at h
        · contradiction
        · rename_i q hq
          obtain ⟨records, h1, h2⟩ := EncodeBlock_nodes_records use_external_data_format
            onnx_file_path in_graph_ add_node_names rest _ _ _ r h
          have hq2 := EncodeLocalFunction_graph_node use_external_data_format onnx_file_path
            add_node_names attributes attributes _ fs graph_proto {} q hq
          refine ⟨records, by rw [h1, hq2], ?_⟩
          simpa [List.filter, reachesEncodeNode, Node.mustBeNone, Node.kind, hk] using h2
      · simp only [hk, if_false] at h
        simp only [bind, Except.bind] at h
        split at h
        · contradiction
        · rename_i q hq
          obtain ⟨records, h1, h2⟩ := EncodeBlock_nodes_records use_external_data_format
            onnx_file_path in_graph_ add_node_names rest _ _ _ r h
          have hq2 := EncodeNode_graph_node use_external_data_format onnx_file_path in_graph_
            add_node_names _ enc fs graph_proto {} q hq
          refine ⟨q.node_proto :: records, by rw [h1, add_node_node, hq2]; simp, ?_⟩
          have hreach : reachesEncodeNode
              (.mk kind inputs outputs blocks attributes false sr py) = true := by
            simp [reachesEncodeNode, Node.mustBeNone, Node.kind, hk]
          rw [List.filter_cons_of_pos hreach]
          exact List.Forall₂.cons ⟨enc, fs, graph_proto, q, hq, rfl⟩ h2

/-- The operator records of the graph record that `EncodeBlock` returns: those
it had, then, in order, the encodings of the nodes of the block that are
neither `None` nodes nor definitions of local functions. -/
theorem EncodeBlock_records (use_external_data_format : Bool) (onnx_file_path : String)
    (in_graph_ : Bool) (initializers : Initializers) (dynamic_axes : DynamicAxes)
    (keep_initializers_as_inputs add_node_names : Bool) (block : Block) (enc : GraphEncoder)
    (fs : FileSystem) (graph_proto : GraphProto) (r : Encoded GraphProto)
    (h : EncodeBlock use_external_data_format onnx_file_path in_graph_ initializers
      dynamic_axes keep_initializers_as_inputs add_node_names block enc fs graph_proto =
        .ok r) :
    ∃ records, r.value.node = graph_proto.node ++ records ∧
      List.Forall₂
        (encodedByEncodeNode use_external_data_format onnx_file_path in_graph_ add_node_names)
        (block.nodes.filter reachesEncodeNode) records := by
  rw [EncodeBlock_eq] at h
  simp only [bind, Except.bind] at h
  split at h
  · contradiction
  · rename_i hd hhd
    split at h
    · contradiction
    · rename_i q hq
      obtain ⟨h1, _⟩ := EncodeBlock_header_ok initializers dynamic_axes
        keep_initializers_as_inputs block.inputs block.outputs enc graph_proto hd hhd
      obtain ⟨records, h2, h3⟩ := EncodeBlock_nodes_records use_external_data_format
        onnx_file_path in_graph_ add_node_names block.nodes hd.2 fs hd.1 q hq
      obtain ⟨h4, _⟩ := AddInitializersIntoGraphProto_ok q.encoder q.fs q.value block
        initializers use_external_data_format onnx_file_path r h
      exact ⟨records, by rw [h4, h2, h1], h3⟩

theorem encodesAttribute_names (attrs_it : Option (String → Option String)) :
    ∀ (declared : List (Symbol × AttributeValue)) (attrs : List AttributeProto),
      List.Forall₂ (encodesAttribute attrs_it) declared attrs →
      attrs.map (fun a => a.name) = declared.map (fun d => some d.1.toUnqualString)
  | _, _, .nil => rfl
  | _, _, .cons hr hrest => by
    simp only [List.map_cons]
    rw [encodesAttribute_names attrs_it _ _ hrest]
    congr 1
    unfold encodesAttribute at hr
    split at hr
    · rw [hr]
    · exact hr.1

theorem filter_name_eq_nil (attrs : List AttributeProto) (name : String)
    (h : ∀ n ∈ attrs.map (fun a => a.name), n ≠ some name) :
    attrs.filter (fun a => decide (a.name = some name)) = [] := by
  rw [List.filter_eq_nil_iff]
  intro a ha
  have := h a.name (List.mem_map_of_mem _ ha)
  simpa using this

/-- C26: the operator record of an encoded Loop node with exactly one nested
block ends, after the records of its declared attributes, with one attribute
`body` of type GRAPH whose graph record holds, in order, the encodings of the
nodes of that block that are neither `None` nodes nor definitions of local
functions; it is the only attribute named `body` when no declared attribute
has that name. Encoding a Loop node with no or with several nested blocks
throws. -/
theorem C26_loop_body (use_external_data_format : Bool) (onnx_file_path : String)
    (in_graph_ add_node_names : Bool) (node : Node) (enc : GraphEncoder) (fs : FileSystem)
    (graph_proto : GraphProto) (hkind : node.kind = onnx_Loop) :
    (∀ body_block r, node.blocks = [body_block] →
      EncodeNode use_external_data_format onnx_file_path in_graph_ add_node_names node enc fs
        graph_proto {} = .ok r →
      ∃ declared body g,
        r.node_proto.attribute_ = declared ++ [body] ∧
        declared.length = node.attributes.length ∧
        body.name = some "body" ∧ body.type = some .GRAPH ∧ body.g = some g ∧
        List.Forall₂
          (encodedByEncodeNode use_external_data_format onnx_file_path in_graph_ true)
          (body_block.nodes.filter reachesEncodeNode) g.node ∧
        ((∀ a ∈ node.attributes, a.1.toUnqualString ≠ "body") →
          (r.node_proto.attribute_.filter (fun a => decide (a.name = some "body"))).length =
            1)) ∧
    (node.blocks.length ≠ 1 →
      threw (EncodeNode use_external_data_format onnx_file_path in_graph_ add_node_names node
        enc fs graph_proto {}) = true) := by
  constructor
  · intro body_block r hblocks h
    obtain ⟨hd, attrs, extra, hhd, hall, hrec, _, _, hloop, _⟩ := EncodeNode_record
      use_external_data_format onnx_file_path in_graph_ add_node_names node enc fs graph_proto
      {} r h
    obtain ⟨added, m, _, hhd2⟩ := EncodeNode_header_ok in_graph_ add_node_names node enc
      graph_proto {} hd hhd
    obtain ⟨b, enc1, fs1, e, hb, he, hx⟩ := hloop hkind
    have hbb : b = body_block := by
      rw [hblocks] at hb
      simpa using hb.symm
    subst hbb
    obtain ⟨records, hnodes, hforall⟩ := EncodeBlock_records use_external_data_format
      onnx_file_path in_graph_ [] (fun _ => none) true true b enc1 fs1 GraphProto.empty e he
    have hattrs : r.node_proto.attribute_ =
        attrs ++ [{ name := some "body", type := some .GRAPH, g := some e.value }] := by
      rw [hrec, hhd2, hx]
      simp
    refine ⟨attrs, _, e.value, hattrs, hall.length_eq.symm, rfl, rfl, rfl, ?_, ?_⟩
    · have hrecs : e.value.node = records := by
        rw [hnodes]
        rfl
      rw [hrecs]
      exact hforall
    · intro hnames
      have hnil : attrs.filter (fun a => decide (a.name = some "body")) = [] := by
        apply filter_name_eq_nil
        rw [encodesAttribute_names _ _ _ hall]
        intro n hn
        obtain ⟨d, hd1, hd2⟩ := List.mem_map.mp hn
        rw [← hd2]
        intro heq
        exact hnames d hd1 (Option.some.inj heq)
      rw [hattrs, List.filter_append, hnil]
      simp
  · intro hlen
    cases h : EncodeNode use_external_data_format onnx_file_path in_graph_ add_node_names node
        enc fs graph_proto {} with
    | error f => rfl
    | ok r =>
      obtain ⟨_, _, _, _, _, _, _, _, hloop, _⟩ := EncodeNode_record use_external_data_format
        onnx_file_path in_graph_ add_node_names node enc fs graph_proto {} r h
      obtain ⟨b, _, _, _, hb, _⟩ := hloop hkind
      rw [hb] at hlen
      simp at hlen

/-- C26, witness: the Loop node whose body holds a `None` node and an
`onnx::Relu` node; and the same node without its nested block. -/
theorem C26_loop_body_witness :
    (∃ r declared body g,
      EncodeNode false "" true true exampleReluLoopNode {} {} GraphProto.empty {} = .ok r ∧
      r.node_proto.attribute_ = declared ++ [body] ∧ declared.length = 1 ∧
      body.name = some "body" ∧ body.type = some .GRAPH ∧ body.g = some g ∧
      List.Forall₂ (encodedByEncodeNode false "" true true) [exampleReluNode] g.node) ∧
    threw (EncodeNode false "" true true
      (.mk onnx_Loop [exampleValueX] [producedBy onnx_Loop 7] [] [] false "" "")
      {} {} GraphProto.empty {}) = true := by
  constructor
  · obtain ⟨r, hr⟩ := exists_ok_of_threw_eq_false
      (EncodeNode false "" true true exampleReluLoopNode {} {} GraphProto.empty {}) (by decide!)
    obtain ⟨declared, body, g, h1, h2, h3, h4, h5, h6, _⟩ :=
      (C26_loop_body false "" true true exampleReluLoopNode {} {} GraphProto.empty rfl).1
        _ r rfl hr
    exact ⟨r, declared, body, g, hr, h1, h2, h3, h4, h5, h6⟩
  · exact (C26_loop_body false "" true true
      (.mk onnx_Loop [exampleValueX] [producedBy onnx_Loop 7] [] [] false "" "")
      {} {} GraphProto.empty rfl).2 (by decide)

/-- C27: the operator record of an encoded If node with exactly two nested
blocks ends, after the records of its declared attributes, with the attribute
`then_branch` of type GRAPH that holds the encoding of the first block,
followed by the attribute `else_branch` of type GRAPH that holds the encoding
of the second block, made in the state the first encoding left. Encoding an If
node with another number of nested blocks throws. -/
theorem C27_if_branches (use_external_data_format : Bool) (onnx_file_path : String)
    (in_graph_ add_node_names : Bool) (node : Node) (enc : GraphEncoder) (fs : FileSystem)
    (graph_proto : GraphProto) (hkind : node.kind = onnx_If) :
    (∀ then_block else_block r, node.blocks = [then_block, else_block] →
      EncodeNode use_external_data_format onnx_file_path in_graph_ add_node_names node enc fs
        graph_proto {} = .ok r →
      ∃ declared enc1 fs1 t e,
        r.node_proto.attribute_ =
          declared ++
            [{ name := some "then_branch", type := some .GRAPH, g := some t.value },
             { name := some "else_branch", type := some .GRAPH, g := some e.value }] ∧
        declared.length = node.attributes.length ∧
        EncodeBlock use_external_data_format onnx_file_path in_graph_ [] (fun _ => none) true
          true then_block enc1 fs1 GraphProto.empty = .ok t ∧
        EncodeBlock use_external_data_format onnx_file_path in_graph_ [] (fun _ => none) true
          true else_block t.encoder t.fs GraphProto.empty = .ok e) ∧
    (node.blocks.length ≠ 2 →
      threw (EncodeNode use_external_data_format onnx_file_path in_graph_ add_node_names node
        enc fs graph_proto {}) = true) := by
  constructor
  · intro then_block else_block r hblocks h
    obtain ⟨hd, attrs, extra, hhd, hall, hrec, _, _, _, hif⟩ := EncodeNode_record
      use_external_data_format onnx_file_path in_graph_ add_node_names node enc fs graph_proto
      {} r h
    obtain ⟨added, m, _, hhd2⟩ := EncodeNode_header_ok in_graph_ add_node_names node enc
      graph_proto {} hd hhd
    obtain ⟨tb, eb, enc1, fs1, t, e, hb, ht, he, hx⟩ := hif hkind
    rw [hblocks] at hb
    simp only [List.cons.injEq, and_true] at hb
    obtain ⟨hb1, hb2⟩ := hb
    subst hb1
    subst hb2
    refine ⟨attrs, enc1, fs1, t, e, ?_, hall.length_eq.symm, ht, he⟩
    rw [hrec, hhd2, hx]
    simp
  · intro hlen
    cases h : EncodeNode use_external_data_format onnx_file_path in_graph_ add_node_names node
        enc fs graph_proto {} with
    | error f => rfl
    | ok r =>
      obtain ⟨_, _, _, _, _, _, _, _, _, hif⟩ := EncodeNode_record use_external_data_format
        onnx_file_path in_graph_ add_node_names node enc fs graph_proto {} r h
      obtain ⟨tb, eb, _, _, _, _, hb, _⟩ := hif hkind
      rw [hb] at hlen
      simp at hlen

/-- C27, witness: the If node with two branches; and an If node with one
nested block. -/
theorem C27_if_branches_witness :
    (∃ r declared enc1 fs1 t e,
      EncodeNode false "" true true exampleIfNode {} {} GraphProto.empty {} = .ok r ∧
      r.node_proto.attribute_ =
        declared ++
          [{ name := some "then_branch", type := some .GRAPH, g := some t.value },
           { name := some "else_branch", type := some .GRAPH, g := some e.value }] ∧
      declared.length = 0 ∧
      EncodeBlock false "" true [] (fun _ => none) true true
        (.mk [] [producedBy ⟨.onnx, "Relu"⟩ 4] [exampleReluNode]) enc1 fs1 GraphProto.empty =
          .ok t ∧
      EncodeBlock false "" true [] (fun _ => none) true true
        (.mk [] [exampleAbsentValue] [exampleNoneNode]) t.encoder t.fs GraphProto.empty =
          .ok e) ∧
    threw (EncodeNode false "" true true
      (.mk onnx_If [exampleValueX] [producedBy onnx_If 8]
        [.mk [] [producedBy ⟨.onnx, "Relu"⟩ 4] [exampleReluNode]] [] false "" "")
      {} {} GraphProto.empty {}) = true := by
  constructor
  · obtain ⟨r, hr⟩ := exists_ok_of_threw_eq_false
      (EncodeNode false "" true true exampleIfNode {} {} GraphProto.empty {}) (by decide!)
    obtain ⟨declared, enc1, fs1, t, e, h1, h2, h3, h4⟩ :=
      (C27_if_branches false "" true true exampleIfNode {} {} GraphProto.empty rfl).1
        _ _ r rfl hr
    exact ⟨r, declared, enc1, fs1, t, e, hr, h1, h2, h3, h4⟩
  · exact (C27_if_branches false "" true true
      (.mk onnx_If [exampleValueX] [producedBy onnx_If 8]
        [.mk [] [producedBy ⟨.onnx, "Relu"⟩ 4] [exampleReluNode]] [] false "" "")
      {} {} GraphProto.empty rfl).2 (by decide)

/-- C23 (as amended): scenario A. The graph with the single node `onnx::Add`
with the inputs `a` and `b` and the output `c`, all float tensors of shape
`[2, 3]`, `c` being the output of the graph, encodes to one operator record of
type `Add` with the inputs `a`, `b` and the output `c`; the field `value_info`
of the graph record stays empty, and the type of `c`, a tensor of element type
FLOAT and shape `[2, 3]`, stands in the field `output`. When the operator is
outside the `onnx` namespace and `c` is not an output of the graph, the field
`value_info` holds one record, for `c`, with that type. -/
theorem C23_scenario_A (add_node_names : Bool) :
    ((encodedGraphOf (scenarioGraph ⟨.onnx, "Add"⟩ [scenarioC ⟨.onnx, "Add"⟩])
        add_node_names).map operatorView = some [(some "Add", ["a", "b"], ["c"])] ∧
      (encodedGraphOf (scenarioGraph ⟨.onnx, "Add"⟩ [scenarioC ⟨.onnx, "Add"⟩])
        add_node_names).map (fun g => valueInfoView g.value_info) = some [] ∧
      (encodedGraphOf (scenarioGraph ⟨.onnx, "Add"⟩ [scenarioC ⟨.onnx, "Add"⟩])
        add_node_names).map (fun g => valueInfoView g.output) =
        some [(some "c", some { elem_type := some .FLOAT
                                shape := some { dim := [.dim_value 2, .dim_value 3] } })]) ∧
    ((encodedGraphOf (scenarioGraph ⟨.custom "my", "Add"⟩ []) add_node_names).map
        operatorView = some [(some "Add", ["a", "b"], ["c"])] ∧
      (encodedGraphOf (scenarioGraph ⟨.custom "my", "Add"⟩ []) add_node_names).map
        (fun g => valueInfoView g.value_info) =
        some [(some "c", some { elem_type := some .FLOAT
                                shape := some { dim := [.dim_value 2, .dim_value 3] } })]) := by
  cases add_node_names <;> exact ⟨⟨by decide!, by decide!, by decide!⟩, by decide!, by decide!⟩

/-- C23, counterexample: for the node `onnx::Add` the graph record has no
record in `value_info`, whether `c` is an output of the graph or not; when it
is not, no value-info record of the graph record describes `c`. -/
theorem C23_counterexample :
    (encodedGraphOf (scenarioGraph ⟨.onnx, "Add"⟩ [scenarioC ⟨.onnx, "Add"⟩]) true).map
        (fun g => valueInfoView g.value_info) = some [] ∧
    (encodedGraphOf (scenarioGraph ⟨.onnx, "Add"⟩ []) true).map operatorView =
      some [(some "Add", ["a", "b"], ["c"])] ∧
    (encodedGraphOf (scenarioGraph ⟨.onnx, "Add"⟩ []) true).map
        (fun g => valueInfoView g.value_info) = some [] ∧
    (encodedGraphOf (scenarioGraph ⟨.onnx, "Add"⟩ []) true).map
        (fun g => valueInfoView g.output) = some [] :=
  ⟨by decide!, by decide!, by decide!, by decide!⟩

theorem named_refl (enc : GraphEncoder) : enc.named enc 0 :=
  ⟨⟨rfl, rfl, rfl, rfl, rfl, rfl, rfl, rfl, rfl⟩, rfl⟩

theorem named_trans {a b c : GraphEncoder} {k1 k2 : Nat} (h1 : a.named b k1)
    (h2 : b.named c k2) : a.named c (k1 + k2) := by
  obtain ⟨⟨a1, a2, a3, a4, a5, a6, a7, a8, a9⟩, an⟩ := h1
  obtain ⟨⟨b1, b2, b3, b4, b5, b6, b7, b8, b9⟩, bn⟩ := h2
  exact ⟨⟨b1.trans a1, b2.trans a2, b3.trans a3, b4.trans a4, b5.trans a5, b6.trans a6,
    b7.trans a7, b8.trans a8, b9.trans a9⟩, by rw [bn, an]; omega⟩

theorem named_names {a b : GraphEncoder} {k : Nat} (h : a.named b k) :
    b.node_attr_to_name_ = a.node_attr_to_name_ := h.1.2.2.2.2.2.2.2.2

theorem named_cast {a b : GraphEncoder} {k1 k2 : Nat} (h : a.named b k1) (hk : k1 = k2) :
    a.named b k2 := hk ▸ h

theorem EncodeBlock_header_named (initializers : Initializers) (dynamic_axes : DynamicAxes)
    (keep_initializers_as_inputs : Bool) (inputs outputs : List Value) (enc : GraphEncoder)
    (graph_proto : GraphProto) (r : GraphProto × GraphEncoder)
    (h : EncodeBlock_header initializers dynamic_axes keep_initializers_as_inputs inputs
      outputs enc graph_proto = .ok r) : enc.named r.2 0 := by
  obtain ⟨_, h2⟩ := EncodeBlock_header_ok initializers dynamic_axes
    keep_initializers_as_inputs inputs outputs enc graph_proto r h
  rw [h2]
  exact ⟨⟨rfl, rfl, rfl, rfl, rfl, rfl, rfl, rfl, rfl⟩, rfl⟩

theorem AddInitializersIntoGraphProto_named (enc : GraphEncoder) (fs : FileSystem)
    (graph_proto : GraphProto) (block : Block) (initializers : Initializers)
    (use_external_data_format : Bool) (onnx_file_path : String) (r : Encoded GraphProto)
    (h : AddInitializersIntoGraphProto enc fs graph_proto block initializers
      use_external_data_format onnx_file_path = .ok r) : enc.named r.encoder 0 := by
  obtain ⟨_, h2⟩ := AddInitializersIntoGraphProto_ok enc fs graph_proto block initializers
    use_external_data_format onnx_file_path r h
  rw [h2]
  exact ⟨⟨rfl, rfl, rfl, rfl, rfl, rfl, rfl, rfl, rfl⟩, rfl⟩

theorem EncodeNode_header_named (in_graph_ add_node_names : Bool) (node : Node)
    (enc : GraphEncoder) (graph_proto : GraphProto) (node_proto : NodeProto)
    (r : EncodedHeader)
    (h : EncodeNode_header in_graph_ add_node_names node enc graph_proto node_proto = .ok r) :
    enc.named r.encoder (if add_node_names then 1 else 0) := by
  obtain ⟨added, m, _, h2⟩ := EncodeNode_header_ok in_graph_ add_node_names node enc
    graph_proto node_proto r h
  rw [h2]
  refine ⟨⟨rfl, rfl, rfl, rfl, rfl, rfl, rfl, rfl, rfl⟩, ?_⟩
  cases add_node_names <;> rfl

theorem AddAttribute_tensor_named (enc : GraphEncoder) (fs : FileSystem)
    (node_proto : NodeProto) (name : Symbol) (tensor : Tensor)
    (use_external_data_format : Bool) (onnx_file_path : String) (r : EncodedTensor)
    (h : AddAttribute_tensor enc fs node_proto name tensor use_external_data_format
      onnx_file_path = .ok r) : enc.named r.encoder 0 := by
  obtain ⟨_, h2⟩ := AddAttribute_tensor_ok enc fs node_proto name tensor
    use_external_data_format onnx_file_path r h
  rw [h2]
  cases use_external_data_format
  · exact named_refl enc
  · exact ⟨⟨rfl, rfl, rfl, rfl, rfl, rfl, rfl, rfl, rfl⟩, rfl⟩

theorem AddAttribute_tensors_named (node_proto : NodeProto) (name : Symbol)
    (use_external_data_format : Bool) (onnx_file_path : String) :
    ∀ (vs : List Tensor) (enc : GraphEncoder) (fs : FileSystem) (tensors : List TensorProto)
      (r : EncodedTensors),
      AddAttribute_tensors node_proto name use_external_data_format onnx_file_path vs enc fs
        tensors = .ok r → enc.named r.encoder 0
  | [], enc, fs, tensors, r, h => by
    simp [AddAttribute_tensors] at h
    rw [← h]
    exact named_refl enc
  | v :: rest, enc, fs, tensors, r, h => by
    simp only [AddAttribute_tensors] at h
    cases hq : AddAttribute_tensor enc fs node_proto name v use_external_data_format
        onnx_file_path with
    | error f => simp [hq, bind, Except.bind] at h
    | ok q =>
      simp only [hq, bind, Except.bind] at h
      exact named_trans (AddAttribute_tensor_named enc fs node_proto name v
        use_external_data_format onnx_file_path q hq)
        (AddAttribute_tensors_named node_proto name use_external_data_format onnx_file_path
          rest q.encoder q.fs _ r h)

theorem EncodeLocalFunction_header_named (attributes : List (Symbol × AttributeValue))
    (inputs outputs : List Value) (enc : GraphEncoder) (func_proto : FunctionProto)
    (r : FunctionProto × GraphEncoder)
    (h : EncodeLocalFunction_header attributes inputs outputs enc func_proto = .ok r) :
    enc.named r.2 0 := by
  unfold EncodeLocalFunction_header at h
  simp only [bind, Except.bind, pure, Except.pure] at h
  repeat' split at h
  all_goals first
    | contradiction
    | (simp only [Except.ok.injEq] at h
       rw [← h]
       exact ⟨⟨rfl, rfl, rfl, rfl, rfl, rfl, rfl, rfl, rfl⟩, rfl⟩)

theorem EncodeLocalFunctionOpsetImport_node_named (kind : Symbol) (st : OpsetImports) :
    st.encoder.named (EncodeLocalFunctionOpsetImport_node kind st).encoder 0 := by
  unfold EncodeLocalFunctionOpsetImport_node
  dsimp only
  split
  · split <;> exact ⟨⟨rfl, rfl, rfl, rfl, rfl, rfl, rfl, rfl, rfl⟩, rfl⟩
  · exact named_refl _

mutual
theorem EncodeLocalFunctionOpsetImport_named :
    ∀ (n : Node) (st : OpsetImports),
      st.encoder.named (EncodeLocalFunctionOpsetImport n st).encoder 0
  | .mk kind inputs outputs blocks attributes isNone sr py, st => by
    simp only [EncodeLocalFunctionOpsetImport]
    exact named_trans (EncodeLocalFunctionOpsetImport_node_named kind st)
      (EncodeLocalFunctionOpsetImport_blocks_named blocks _)
theorem EncodeLocalFunctionOpsetImport_blocks_named :
    ∀ (blocks : List Block) (st : OpsetImports),
      st.encoder.named (EncodeLocalFunctionOpsetImport_blocks blocks st).encoder 0
  | [], st => by
    simp only [EncodeLocalFunctionOpsetImport_blocks]
    exact named_refl _
  | .mk inputs outputs nodes :: rest, st => by
    simp only [EncodeLocalFunctionOpsetImport_blocks]
    exact named_trans (EncodeLocalFunctionOpsetImport_nodes_named nodes st)
      (EncodeLocalFunctionOpsetImport_blocks_named rest _)
theorem EncodeLocalFunctionOpsetImport_nodes_named :
    ∀ (nodes : List Node) (st : OpsetImports),
      st.encoder.named (EncodeLocalFunctionOpsetImport_nodes nodes st).encoder 0
  | [], st => by
    simp only [EncodeLocalFunctionOpsetImport_nodes]
    exact named_refl _
  | n :: rest, st => by
    simp only [EncodeLocalFunctionOpsetImport_nodes]
    exact named_trans (EncodeLocalFunctionOpsetImport_named n st)
      (EncodeLocalFunctionOpsetImport_nodes_named rest _)
end

theorem named_model_proto (enc : GraphEncoder) (m : ModelProto) :
    enc.named { enc with model_proto_ := m } 0 :=
  ⟨⟨rfl, rfl, rfl, rfl, rfl, rfl, rfl, rfl, rfl⟩, rfl⟩

theorem named_step (f : (Node → Option (String → Option String)) → Nat)
    {a b c : GraphEncoder} {k : Nat} (h1 : a.named b k)
    (h2 : b.named c (f b.node_attr_to_name_)) : a.named c (k + f a.node_attr_to_name_) := by
  rw [named_names h1] at h2
  exact named_trans h1 h2

mutual
/-- A call of `EncodeBlock` that returns has kept the settings of the encoder
and has added to the counter `num_op_nodes_` the number of nodes that it names;
the theorems that follow say the same of the other functions of the encoder. -/
theorem EncodeBlock_counter (use_external_data_format : Bool) (onnx_file_path : String)
    (in_graph_ : Bool) (initializers : Initializers)
    (dynamic_axes : DynamicAxes) (keep_initializers_as_inputs add_node_names : Bool)
    (enc : GraphEncoder) (fs : FileSystem) (graph_proto : GraphProto)
    (r : Encoded GraphProto) : ∀ (block : Block),
    EncodeBlock use_external_data_format onnx_file_path in_graph_ initializers dynamic_axes
      keep_initializers_as_inputs
      add_node_names block enc fs graph_proto = .ok r →
    enc.named r.encoder (EncodeBlock_named enc.node_attr_to_name_ add_node_names block)
  | .mk inputs outputs nodes, h => by
    simp only [EncodeBlock, bind, Except.bind] at h
    simp only [EncodeBlock_named]
    split at h
    · contradiction
    · rename_i hd hhd
      split at h
      · contradiction
      · rename_i q hq
        have h1 := EncodeBlock_header_named initializers dynamic_axes
          keep_initializers_as_inputs inputs outputs enc graph_proto hd hhd
        have h2 := EncodeBlock_nodes_counter use_external_data_format onnx_file_path in_graph_
          add_node_names hd.2 fs hd.1 q nodes hq
        have h3 := AddInitializersIntoGraphProto_named q.encoder q.fs q.value _ initializers
          use_external_data_format onnx_file_path r h
        rw [named_names h1] at h2
        exact named_cast (named_trans (named_trans h1 h2) h3) (by omega)
theorem EncodeBlock_nodes_counter (use_external_data_format : Bool) (onnx_file_path : String)
    (in_graph_ add_node_names : Bool) (enc : GraphEncoder)
    (fs : FileSystem) (graph_proto : GraphProto) (r : Encoded GraphProto) :
    ∀ (nodes : List Node),
    EncodeBlock_nodes use_external_data_format onnx_file_path in_graph_ add_node_names nodes enc fs
      graph_proto = .ok r →
    enc.named r.encoder (EncodeBlock_nodes_named enc.node_attr_to_name_ add_node_names nodes)
  | [], h => by
    simp only [EncodeBlock_nodes, Except.ok.injEq] at h
    rw [← h]
    exact named_refl enc
  | .mk kind inputs outputs blocks attributes isNone sr py :: rest, h => by
    simp only [EncodeBlock_nodes] at h
    simp only [EncodeBlock_nodes_named]
    by_cases hn : isNone = true
    · rw [if_pos hn] at h
      rw [if_pos hn]
      exact named_cast (EncodeBlock_nodes_counter use_external_data_format onnx_file_path in_graph_
        add_node_names enc fs graph_proto
        r rest h) (by omega)
    · rw [if_neg hn] at h
      rw [if_neg hn]
      by_cases hk : kind = onnx_LocalFunctionDef
      · rw [if_pos hk] at h
        rw [if_pos hk]
        simp only [bind, Except.bind] at h
        split at h
        · contradiction
        · rename_i q hq
          have h1 : GraphEncoder.named
              { enc with model_proto_ := { enc.model_proto_ with
                  functions := enc.model_proto_.functions ++ [{}] } } q.encoder
              (EncodeLocalFunction_named enc.node_attr_to_name_ add_node_names attributes) :=
            EncodeLocalFunction_counter use_external_data_format onnx_file_path add_node_names
              attributes _ fs graph_proto {} q
              attributes hq
          have h2 := EncodeBlock_nodes_counter use_external_data_format onnx_file_path in_graph_
            add_node_names _ _ _ r rest h
          have h0 := named_model_proto enc { enc.model_proto_ with
            functions := enc.model_proto_.functions ++ [{}] }
          have h3 := named_model_proto q.encoder { q.encoder.model_proto_ with
            functions := q.encoder.model_proto_.functions.set
              enc.model_proto_.functions.length q.func_proto }
          have h4 := named_trans (named_trans h0 h1) h3
          exact named_cast
            (named_step (fun names => EncodeBlock_nodes_named names add_node_names rest) h4 h2)
            (by dsimp only; omega)
      · rw [if_neg hk] at h
        rw [if_neg hk]
        simp only [bind, Except.bind] at h
        split at h
        · contradiction
        · rename_i q hq
          have h1 := EncodeNode_counter use_external_data_format onnx_file_path in_graph_
            add_node_names enc fs graph_proto {} q _ hq
          have h2 := EncodeBlock_nodes_counter use_external_data_format onnx_file_path in_graph_
            add_node_names _ _ _ r rest h
          rw [named_names h1] at h2
          exact named_trans h1 h2
theorem EncodeNode_counter (use_external_data_format : Bool) (onnx_file_path : String)
    (in_graph_ add_node_names : Bool) (enc : GraphEncoder)
    (fs : FileSystem) (graph_proto : GraphProto) (node_proto : NodeProto) (r : EncodedNode) :
    ∀ (node : Node),
    EncodeNode use_external_data_format onnx_file_path in_graph_ add_node_names node enc fs
      graph_proto node_proto = .ok r →
    enc.named r.encoder (EncodeNode_named enc.node_attr_to_name_ add_node_names node)
  | .mk kind inputs outputs blocks attributes isNone sr py, h => by
    obtain ⟨hd, a, l, i, hhd, ha, hl, hi, hr⟩ := EncodeNode_ok use_external_data_format
      onnx_file_path in_graph_ add_node_names _ enc fs graph_proto node_proto r h
    simp only [Node.kind, Node.blocks, Node.attributes] at ha hl hi
    simp only [EncodeNode_named]
    have h1 := EncodeNode_header_named in_graph_ add_node_names _ enc graph_proto node_proto
      hd hhd
    have h2 := EncodeNode_attributes_counter use_external_data_format onnx_file_path _ hd.encoder
      fs hd.node_proto a attributes ha
    rw [named_names h1] at h2
    have h12 := named_trans h1 h2
    rw [hr]
    by_cases hL : kind = onnx_Loop
    · have hI : ¬ kind = onnx_If := by rw [hL]; decide
      rw [if_pos hL] at hl
      rw [if_neg hI] at hi
      rw [if_pos hL, if_neg hI, hi]
      have h3 := EncodeNode_Loop_counter use_external_data_format onnx_file_path in_graph_
        a.encoder a.fs a.value l blocks hl
      rw [named_names h12] at h3
      exact named_cast (named_trans h12 h3) (by omega)
    · rw [if_neg hL] at hl
      rw [if_neg hL]
      by_cases hI : kind = onnx_If
      · rw [if_pos hI] at hi
        rw [if_pos hI]
        have h3 := EncodeNode_If_counter use_external_data_format onnx_file_path in_graph_
          l.encoder l.fs l.value i blocks hi
        rw [hl] at h3
        rw [named_names h12] at h3
        exact named_cast (named_trans h12 h3) (by omega)
      · rw [if_neg hI] at hi
        rw [if_neg hI, hi, hl]
        exact named_cast h12 (by omega)
theorem EncodeNode_attributes_counter (use_external_data_format : Bool) (onnx_file_path : String)
    (attrs_it : Option (String → Option String))
    (enc : GraphEncoder) (fs : FileSystem) (node_proto : NodeProto)
    (r : Encoded NodeProto) : ∀ (attributes : List (Symbol × AttributeValue)),
    EncodeNode_attributes use_external_data_format onnx_file_path attrs_it attributes enc fs
      node_proto = .ok r →
    enc.named r.encoder
      (EncodeNode_attributes_named enc.node_attr_to_name_ attrs_it attributes)
  | [], h => by
    simp only [EncodeNode_attributes, Except.ok.injEq] at h
    rw [← h]
    exact named_refl enc
  | (attr_name, value) :: rest, h => by
    simp only [EncodeNode_attributes] at h
    simp only [EncodeNode_attributes_named]
    split at h
    · rename_i ref_attr_name ho
      simp only [bind, Except.bind] at h
      split at h
      · contradiction
      · exact named_cast (EncodeNode_attributes_counter use_external_data_format onnx_file_path
        attrs_it enc fs _ r rest h)
          (by omega)
    · rename_i ho
      simp only [bind, Except.bind] at h
      split at h
      · contradiction
      · rename_i q hq
        have h1 := AddAttribute_counter use_external_data_format onnx_file_path attr_name enc fs
          node_proto q value hq
        have h2 := EncodeNode_attributes_counter use_external_data_format onnx_file_path attrs_it
          q.encoder q.fs q.value r rest h
        rw [named_names h1] at h2
        exact named_trans h1 h2
theorem AddAttribute_counter (use_external_data_format : Bool) (onnx_file_path : String)
    (name : Symbol) (enc : GraphEncoder) (fs : FileSystem)
    (node_proto : NodeProto) (r : Encoded NodeProto) : ∀ (value : AttributeValue),
    AddAttribute use_external_data_format onnx_file_path name value enc fs node_proto = .ok r →
    enc.named r.encoder (AddAttribute_named enc.node_attr_to_name_ value)
  | .g (.mk block nu), h => by
    simp only [AddAttribute, EncodeGraph, bind, Except.bind, pure, Except.pure] at h
    simp only [AddAttribute_named]
    split at h
    · contradiction
    · split at h
      · contradiction
      · rename_i q hq
        simp only [Except.ok.injEq] at h
        rw [← h]
        exact EncodeBlock_counter use_external_data_format onnx_file_path false [] (fun _ => none)
          true true enc fs GraphProto.empty q
          block hq
  | .gs graphs, h => by
    simp only [AddAttribute, bind, Except.bind, pure, Except.pure] at h
    simp only [AddAttribute_named]
    split at h
    · contradiction
    · split at h
      · contradiction
      · rename_i q hq
        simp only [Except.ok.injEq] at h
        rw [← h]
        exact AddAttribute_graphs_counter use_external_data_format onnx_file_path enc fs _ q graphs
          hq
  | .t v, h => by
    simp only [AddAttribute, bind, Except.bind, pure, Except.pure] at h
    simp only [AddAttribute_named]
    split at h
    · contradiction
    · split at h
      · contradiction
      · rename_i q hq
        simp only [Except.ok.injEq] at h
        rw [← h]
        exact AddAttribute_tensor_named enc fs _ name v use_external_data_format
          onnx_file_path q hq
  | .ts vs, h => by
    simp only [AddAttribute, bind, Except.bind, pure, Except.pure] at h
    simp only [AddAttribute_named]
    split at h
    · contradiction
    · split at h
      · contradiction
      · rename_i q hq
        simp only [Except.ok.injEq] at h
        rw [← h]
        exact AddAttribute_tensors_named _ name use_external_data_format onnx_file_path vs enc
          fs _ q hq
  | .f v, h => by
    simp only [AddAttribute, bind, Except.bind, pure, Except.pure] at h
    split at h
    · contradiction
    · simp only [Except.ok.injEq] at h
      rw [← h]
      simp only [AddAttribute_named]
      exact named_refl enc
  | .fs v, h => by
    simp only [AddAttribute, bind, Except.bind, pure, Except.pure] at h
    split at h
    · contradiction
    · simp only [Except.ok.injEq] at h
      rw [← h]
      simp only [AddAttribute_named]
      exact named_refl enc
  | .i v, h => by
    simp only [AddAttribute, bind, Except.bind, pure, Except.pure] at h
    split at h
    · contradiction
    · simp only [Except.ok.injEq] at h
      rw [← h]
      simp only [AddAttribute_named]
      exact named_refl enc
  | .is v, h => by
    simp only [AddAttribute, bind, Except.bind, pure, Except.pure] at h
    split at h
    · contradiction
    · simp only [Except.ok.injEq] at h
      rw [← h]
      simp only [AddAttribute_named]
      exact named_refl enc
  | .s v, h => by
    simp only [AddAttribute, bind, Except.bind, pure, Except.pure] at h
    split at h
    · contradiction
    · simp only [Except.ok.injEq] at h
      rw [← h]
      simp only [AddAttribute_named]
      exact named_refl enc
  | .ss v, h => by
    simp only [AddAttribute, bind, Except.bind, pure, Except.pure] at h
    split at h
    · contradiction
    · simp only [Except.ok.injEq] at h
      rw [← h]
      simp only [AddAttribute_named]
      exact named_refl enc
  | .other kindName, h => by
    simp only [AddAttribute, bind, Except.bind] at h
    split at h <;> contradiction
theorem AddAttribute_graphs_counter (use_external_data_format : Bool) (onnx_file_path : String)
    (enc : GraphEncoder) (fs : FileSystem)
    (graphs : List GraphProto) (r : Encoded (List GraphProto)) : ∀ (vs : List Graph),
    AddAttribute_graphs use_external_data_format onnx_file_path vs enc fs graphs = .ok r →
    enc.named r.encoder (AddAttribute_graphs_named enc.node_attr_to_name_ vs)
  | [], h => by
    simp only [AddAttribute_graphs, Except.ok.injEq] at h
    rw [← h]
    exact named_refl enc
  | .mk block nu :: rest, h => by
    simp only [AddAttribute_graphs, EncodeGraph, bind, Except.bind] at h
    simp only [AddAttribute_graphs_named]
    split at h
    · contradiction
    · rename_i q hq
      have h1 := EncodeBlock_counter use_external_data_format onnx_file_path false [] (fun _ =>
        none) true true enc fs
        GraphProto.empty q block hq
      have h2 := AddAttribute_graphs_counter use_external_data_format onnx_file_path q.encoder q.fs
        _ r rest h
      rw [named_names h1] at h2
      exact named_trans h1 h2
theorem EncodeNode_Loop_counter (use_external_data_format : Bool) (onnx_file_path : String)
    (in_graph_ : Bool) (enc : GraphEncoder) (fs : FileSystem)
    (node_proto : NodeProto) (r : Encoded NodeProto) : ∀ (blocks : List Block),
    EncodeNode_Loop use_external_data_format onnx_file_path in_graph_ blocks enc fs node_proto =
      .ok r →
    enc.named r.encoder (EncodeNode_Loop_named enc.node_attr_to_name_ blocks)
  | [], h => by simp [EncodeNode_Loop] at h
  | [body_block], h => by
    simp only [EncodeNode_Loop, bind, Except.bind, pure, Except.pure] at h
    simp only [EncodeNode_Loop_named]
    split at h
    · contradiction
    · rename_i q hq
      simp only [Except.ok.injEq] at h
      rw [← h]
      exact EncodeBlock_counter use_external_data_format onnx_file_path in_graph_ [] (fun _ =>
        none) true true enc fs
        GraphProto.empty q body_block hq
  | _ :: _ :: _, h => by simp [EncodeNode_Loop] at h
theorem EncodeNode_If_counter (use_external_data_format : Bool) (onnx_file_path : String)
    (in_graph_ : Bool) (enc : GraphEncoder) (fs : FileSystem)
    (node_proto : NodeProto) (r : Encoded NodeProto) : ∀ (blocks : List Block),
    EncodeNode_If use_external_data_format onnx_file_path in_graph_ blocks enc fs node_proto = .ok
      r →
    enc.named r.encoder (EncodeNode_If_named enc.node_attr_to_name_ blocks)
  | [], h => by simp [EncodeNode_If] at h
  | [_], h => by simp [EncodeNode_If] at h
  | [then_block, else_block], h => by
    simp only [EncodeNode_If, bind, Except.bind, pure, Except.pure] at h
    simp only [EncodeNode_If_named]
    split at h
    · contradiction
    · rename_i t ht
      split at h
      · contradiction
      · rename_i e he
        simp only [Except.ok.injEq] at h
        rw [← h]
        have h1 := EncodeBlock_counter use_external_data_format onnx_file_path in_graph_ [] (fun _
          => none) true true enc fs
          GraphProto.empty t then_block ht
        have h2 := EncodeBlock_counter use_external_data_format onnx_file_path in_graph_ [] (fun _
          => none) true true t.encoder t.fs
          GraphProto.empty e else_block he
        rw [named_names h1] at h2
        exact named_trans h1 h2
  | _ :: _ :: _ :: _, h => by simp [EncodeNode_If] at h
theorem EncodeLocalFunction_counter (use_external_data_format : Bool) (onnx_file_path : String)
    (add_node_names : Bool)
    (attributes : List (Symbol × AttributeValue)) (enc : GraphEncoder) (fs : FileSystem)
    (graph_proto : GraphProto) (func_proto : FunctionProto) (r : EncodedFunction) :
    ∀ (search : List (Symbol × AttributeValue)),
    EncodeLocalFunction use_external_data_format onnx_file_path add_node_names attributes search
      enc fs graph_proto func_proto =
      .ok r →
    enc.named r.encoder
      (EncodeLocalFunction_named enc.node_attr_to_name_ add_node_names search)
  | [], h => by simp [EncodeLocalFunction] at h
  | (key, .g (.mk (.mk inputs outputs nodes) nu)) :: rest, h => by
    simp only [EncodeLocalFunction] at h
    simp only [EncodeLocalFunction_named]
    split at h
    · rename_i hk
      rw [if_pos hk]
      simp only [bind, Except.bind] at h
      split at h
      · contradiction
      · rename_i hd hhd
        have h1 := EncodeLocalFunction_header_named attributes inputs outputs enc func_proto
          hd hhd
        have h2 := EncodeLocalFunction_nodes_counter use_external_data_format onnx_file_path
          add_node_names hd.2 fs graph_proto hd.1
          [] r nodes h
        rw [named_names h1] at h2
        exact named_cast (named_trans h1 h2) (by omega)
    · rename_i hk
      rw [if_neg hk]
      exact EncodeLocalFunction_counter use_external_data_format onnx_file_path add_node_names
        attributes enc fs graph_proto func_proto
        r rest h
  | (key, .gs v) :: rest, h => by
    simp only [EncodeLocalFunction] at h
    simp only [EncodeLocalFunction_named]
    split at h
    · contradiction
    · rename_i hk
      rw [if_neg hk]
      exact EncodeLocalFunction_counter use_external_data_format onnx_file_path add_node_names
        attributes enc fs graph_proto func_proto
        r rest h
  | (key, .f v) :: rest, h => by
    simp only [EncodeLocalFunction] at h
    simp only [EncodeLocalFunction_named]
    split at h
    · contradiction
    · rename_i hk
      rw [if_neg hk]
      exact EncodeLocalFunction_counter use_external_data_format onnx_file_path add_node_names
        attributes enc fs graph_proto func_proto
        r rest h
  | (key, .fs v) :: rest, h => by
    simp only [EncodeLocalFunction] at h
    simp only [EncodeLocalFunction_named]
    split at h
    · contradiction
    · rename_i hk
      rw [if_neg hk]
      exact EncodeLocalFunction_counter use_external_data_format onnx_file_path add_node_names
        attributes enc fs graph_proto func_proto
        r rest h
  | (key, .i v) :: rest, h => by
    simp only [EncodeLocalFunction] at h
    simp only [EncodeLocalFunction_named]
    split at h
    · contradiction
    · rename_i hk
      rw [if_neg hk]
      exact EncodeLocalFunction_counter use_external_data_format onnx_file_path add_node_names
        attributes enc fs graph_proto func_proto
        r rest h
  | (key, .is v) :: rest, h => by
    simp only [EncodeLocalFunction] at h
    simp only [EncodeLocalFunction_named]
    split at h
    · contradiction
    · rename_i hk
      rw [if_neg hk]
      exact EncodeLocalFunction_counter use_external_data_format onnx_file_path add_node_names
        attributes enc fs graph_proto func_proto
        r rest h
  | (key, .s v) :: rest, h => by
    simp only [EncodeLocalFunction] at h
    simp only [EncodeLocalFunction_named]
    split at h
    · contradiction
    · rename_i hk
      rw [if_neg hk]
      exact EncodeLocalFunction_counter use_external_data_format onnx_file_path add_node_names
        attributes enc fs graph_proto func_proto
        r rest h
  | (key, .ss v) :: rest, h => by
    simp only [EncodeLocalFunction] at h
    simp only [EncodeLocalFunction_named]
    split at h
    · contradiction
    · rename_i hk
      rw [if_neg hk]
      exact EncodeLocalFunction_counter use_external_data_format onnx_file_path add_node_names
        attributes enc fs graph_proto func_proto
        r rest h
  | (key, .t v) :: rest, h => by
    simp only [EncodeLocalFunction] at h
    simp only [EncodeLocalFunction_named]
    split at h
    · contradiction
    · rename_i hk
      rw [if_neg hk]
      exact EncodeLocalFunction_counter use_external_data_format onnx_file_path add_node_names
        attributes enc fs graph_proto func_proto
        r rest h
  | (key, .ts v) :: rest, h => by
    simp only [EncodeLocalFunction] at h
    simp only [EncodeLocalFunction_named]
    split at h
    · contradiction
    · rename_i hk
      rw [if_neg hk]
      exact EncodeLocalFunction_counter use_external_data_format onnx_file_path add_node_names
        attributes enc fs graph_proto func_proto
        r rest h
  | (key, .other v) :: rest, h => by
    simp only [EncodeLocalFunction] at h
    simp only [EncodeLocalFunction_named]
    split at h
    · contradiction
    · rename_i hk
      rw [if_neg hk]
      exact EncodeLocalFunction_counter use_external_data_format onnx_file_path add_node_names
        attributes enc fs graph_proto func_proto
        r rest h
theorem EncodeLocalFunction_nodes_counter (use_external_data_format : Bool) (onnx_file_path :
  String)
    (add_node_names : Bool) (enc : GraphEncoder)
    (fs : FileSystem) (graph_proto : GraphProto) (func_proto : FunctionProto)
    (custom_domains : List String) (r : EncodedFunction) : ∀ (nodes : List Node),
    EncodeLocalFunction_nodes use_external_data_format onnx_file_path add_node_names nodes enc fs
      graph_proto func_proto
      custom_domains = .ok r →
    enc.named r.encoder
      (EncodeLocalFunction_nodes_named enc.node_attr_to_name_ add_node_names nodes)
  | [], h => by
    simp only [EncodeLocalFunction_nodes, Except.ok.injEq] at h
    rw [← h]
    exact named_refl enc
  | .mk kind inputs outputs blocks attributes isNone sr py :: rest, h => by
    simp only [EncodeLocalFunction_nodes] at h
    simp only [EncodeLocalFunction_nodes_named]
    by_cases hn : isNone = true
    · rw [if_pos hn] at h
      rw [if_pos hn]
      exact named_cast (EncodeLocalFunction_nodes_counter use_external_data_format onnx_file_path
        add_node_names enc fs graph_proto
        func_proto custom_domains r rest h) (by omega)
    · rw [if_neg hn] at h
      rw [if_neg hn]
      simp only [bind, Except.bind] at h
      split at h
      · contradiction
      · rename_i q hq
        have h1 := EncodeNode_counter use_external_data_format onnx_file_path false add_node_names
          enc fs graph_proto {} q _ hq
        have h2 := EncodeLocalFunction_nodes_counter use_external_data_format onnx_file_path
          add_node_names _ _ _ _ _ r rest h
        have h3 := EncodeLocalFunctionOpsetImport_named
          (.mk kind inputs outputs blocks attributes isNone sr py)
          { func_proto := { func_proto with node := func_proto.node ++ [q.node_proto] }
            custom_domains := custom_domains, encoder := q.encoder }
        have h13 := named_trans h1 h3
        rw [named_names h13] at h2
        exact named_cast (named_trans h13 h2) (by omega)
end

/-- The loop of `EncodeBlock` over a list of nodes is the loop over a first
part of the list followed by the loop over the rest, started in the state the
first part left. -/
theorem EncodeBlock_nodes_append (use_external_data_format : Bool) (onnx_file_path : String)
    (in_graph_ add_node_names : Bool) (post : List Node) :
    ∀ (pre : List Node) (enc : GraphEncoder) (fs : FileSystem) (graph_proto : GraphProto),
      EncodeBlock_nodes use_external_data_format onnx_file_path in_graph_ add_node_names
          (pre ++ post) enc fs graph_proto =
        (do
          let q ← EncodeBlock_nodes use_external_data_format onnx_file_path in_graph_
            add_node_names pre enc fs graph_proto
          EncodeBlock_nodes use_external_data_format onnx_file_path in_graph_ add_node_names
            post q.encoder q.fs q.value)
  | [], enc, fs, graph_proto => by
    simp only [List.nil_append, EncodeBlock_nodes]
    rfl
  | .mk kind inputs outputs blocks attributes isNone sr py :: rest, enc, fs, graph_proto => by
    simp only [List.cons_append, EncodeBlock_nodes]
    by_cases hn : isNone = true
    · rw [if_pos hn, if_pos hn]
      exact EncodeBlock_nodes_append use_external_data_format onnx_file_path in_graph_
        add_node_names post rest enc fs graph_proto
    · rw [if_neg hn, if_neg hn]
      by_cases hk : kind = onnx_LocalFunctionDef
      · rw [if_pos hk, if_pos hk]
        simp only [bind, Except.bind]
        split
        · rfl
        · exact EncodeBlock_nodes_append use_external_data_format onnx_file_path in_graph_
            add_node_names post rest _ _ _
      · rw [if_neg hk, if_neg hk]
        simp only [bind, Except.bind]
        split
        · rfl
        · exact EncodeBlock_nodes_append use_external_data_format onnx_file_path in_graph_
            add_node_names post rest _ _ _

/-- The step of the loop of `EncodeBlock` at a node that is neither a `None`
node nor the definition of a local function. -/
theorem EncodeBlock_nodes_cons (use_external_data_format : Bool) (onnx_file_path : String)
    (in_graph_ add_node_names : Bool) (node : Node) (rest : List Node) (enc : GraphEncoder)
    (fs : FileSystem) (graph_proto : GraphProto) (hreach : reachesEncodeNode node = true) :
    EncodeBlock_nodes use_external_data_format onnx_file_path in_graph_ add_node_names
        (node :: rest) enc fs graph_proto =
      (do
        let r ← EncodeNode use_external_data_format onnx_file_path in_graph_ add_node_names
          node enc fs graph_proto {}
        EncodeBlock_nodes use_external_data_format onnx_file_path in_graph_ add_node_names rest
          r.encoder r.fs (r.graph_proto.add_node r.node_proto)) := by
  obtain ⟨kind, inputs, outputs, blocks, attributes, isNone, sr, py⟩ := node
  simp only [reachesEncodeNode, Node.mustBeNone, Node.kind, Bool.and_eq_true,
    Bool.not_eq_true', decide_eq_true_eq] at hreach
  simp only [EncodeBlock_nodes]
  rw [if_neg (by simp [hreach.1]), if_neg hreach.2]

/-- The constructor starts the counter of the named nodes at zero and keeps the
caller's map of attribute references. -/
theorem prepare_counter (ext : Externals) (graph : Graph) (onnx_opset_version : Int)
    (operator_export_type : OperatorExportTypes) (initializers : Initializers)
    (defer_weight_export strip_doc : Bool) (custom_opsets : List (String × Int))
    (use_external_data_format : Bool) (onnx_file_path : String)
    (val_attr_to_name : Value → Option String)
    (node_attr_to_name : Node → Option (String → Option String)) (p : Prepared)
    (h : (GraphEncoder.prepare ext graph onnx_opset_version operator_export_type initializers
      defer_weight_export strip_doc custom_opsets use_external_data_format onnx_file_path
      val_attr_to_name node_attr_to_name).result = .ok p) :
    p.encoder.num_op_nodes_ = 0 ∧ p.encoder.node_attr_to_name_ = node_attr_to_name := by
  unfold GraphEncoder.prepare at h
  simp only [bind, Except.bind, pure, Except.pure] at h
  repeat' split at h
  all_goals first
    | contradiction
    | (simp [throw, throwThe, MonadExceptOf.throw] at h; done)
    | (simp only [Except.ok.injEq] at h
       rw [← h]
       exact ⟨rfl, rfl⟩)

/-- C30: in a call of `EncodeBlock` with node naming that returns, a node of
the block that is handed to `EncodeNode` is encoded in a state whose counter
`num_op_nodes_` is the counter at the start of the block plus the number of
nodes named while the nodes before it were encoded, those of nested blocks, of
graph attributes and of local-function bodies included. The first part of
`EncodeNode` gives the operator record the display name
`<operator type>_<counter>` and adds one to the counter; the attributes and the
nested blocks of the node are encoded from the state it leaves. The record,
with this name, is among the operator records of the block, and over the call
of `EncodeNode`, as over the call of `EncodeBlock`, the counter grows by the
number of nodes named. -/
theorem C30_node_display_names (use_external_data_format : Bool) (onnx_file_path : String)
    (in_graph_ : Bool) (initializers : Initializers) (dynamic_axes : DynamicAxes)
    (keep_initializers_as_inputs : Bool) (block : Block) (pre post : List Node) (node : Node)
    (enc : GraphEncoder) (fs : FileSystem) (graph_proto : GraphProto)
    (r : Encoded GraphProto)
    (hnodes : block.nodes = pre ++ node :: post) (hreach : reachesEncodeNode node = true)
    (h : EncodeBlock use_external_data_format onnx_file_path in_graph_ initializers
      dynamic_axes keep_initializers_as_inputs true block enc fs graph_proto = .ok r) :
    ∃ (enc1 : GraphEncoder) (fs1 : FileSystem) (graph_proto1 : GraphProto)
      (hd : EncodedHeader) (a l i : Encoded NodeProto) (q : EncodedNode),
      enc1.num_op_nodes_ =
        enc.num_op_nodes_ + EncodeBlock_nodes_named enc.node_attr_to_name_ true pre ∧
      EncodeNode use_external_data_format onnx_file_path in_graph_ true node enc1 fs1
        graph_proto1 {} = .ok q ∧
      q.node_proto.name =
        some (node.kind.toUnqualString ++ "_" ++ toString enc1.num_op_nodes_) ∧
      q.node_proto ∈ r.value.node ∧
      EncodeNode_header in_graph_ true node enc1 graph_proto1 {} = .ok hd ∧
      hd.node_proto.name = q.node_proto.name ∧
      hd.encoder.num_op_nodes_ = enc1.num_op_nodes_ + 1 ∧
      EncodeNode_attributes use_external_data_format onnx_file_path
        (enc.node_attr_to_name_ node) node.attributes hd.encoder fs1 hd.node_proto = .ok a ∧
      (if node.kind = onnx_Loop then
          EncodeNode_Loop use_external_data_format onnx_file_path in_graph_ node.blocks
            a.encoder a.fs a.value = .ok l
        else l = a) ∧
      (if node.kind = onnx_If then
          EncodeNode_If use_external_data_format onnx_file_path in_graph_ node.blocks
            l.encoder l.fs l.value = .ok i
        else i = l) ∧
      q.encoder = i.encoder ∧
      q.encoder.num_op_nodes_ =
        enc1.num_op_nodes_ + EncodeNode_named enc.node_attr_to_name_ true node ∧
      r.encoder.num_op_nodes_ =
        enc.num_op_nodes_ + EncodeBlock_named enc.node_attr_to_name_ true block := by
  have htotal := EncodeBlock_counter use_external_data_format onnx_file_path in_graph_
    initializers dynamic_axes keep_initializers_as_inputs true enc fs graph_proto r block h
  rw [EncodeBlock_eq] at h
  simp only [bind, Except.bind] at h
  split at h
  · contradiction
  · rename_i hd0 hhd0
    split at h
    · contradiction
    · rename_i ql hql
      rw [hnodes, EncodeBlock_nodes_append] at hql
      simp only [bind, Except.bind] at hql
      split at hql
      · contradiction
      · rename_i before hbefore
        rw [EncodeBlock_nodes_cons _ _ _ _ _ _ _ _ _ hreach] at hql
        simp only [bind, Except.bind] at hql
        split at hql
        · contradiction
        · rename_i q hq
          have c0 := EncodeBlock_header_named initializers dynamic_axes
            keep_initializers_as_inputs block.inputs block.outputs enc graph_proto hd0 hhd0
          have c1 := EncodeBlock_nodes_counter use_external_data_format onnx_file_path
            in_graph_ true hd0.2 fs hd0.1 before pre hbefore
          have c01 := named_step (fun names => EncodeBlock_nodes_named names true pre) c0 c1
          have hmap := named_names c01
          have c2 := EncodeNode_counter use_external_data_format onnx_file_path in_graph_ true
            before.encoder before.fs before.value {} q node hq
          rw [hmap] at c2
          obtain ⟨hd, a, l, i, hhd, ha, hl, hi, hr⟩ := EncodeNode_ok use_external_data_format
            onnx_file_path in_graph_ true node before.encoder before.fs before.value {} q hq
          obtain ⟨added, m, _, hhd2⟩ := EncodeNode_header_ok in_graph_ true node
            before.encoder before.value {} hd hhd
          obtain ⟨_, attrs, extra, hhd3, _, hrec, _⟩ := EncodeNode_record
            use_external_data_format onnx_file_path in_graph_ true node before.encoder
            before.fs before.value {} q hq
          have hhdeq : hd = _ := Except.ok.inj (hhd.symm.trans hhd3)
          have hname : hd.node_proto.name =
              some (node.kind.toUnqualString ++ "_" ++ toString before.encoder.num_op_nodes_) := by
            rw [hhd2]
            rfl
          have hqname : q.node_proto.name = hd.node_proto.name := by
            rw [hrec, hhdeq]
          have hmap2 : hd.encoder.node_attr_to_name_ = enc.node_attr_to_name_ := by
            rw [hhd2]
            exact hmap
          rw [hmap2] at ha
          obtain ⟨records, hrecords, _⟩ := EncodeBlock_nodes_records use_external_data_format
            onnx_file_path in_graph_ true post q.encoder q.fs
            (q.graph_proto.add_node q.node_proto) ql hql
          obtain ⟨hinit, _⟩ := AddInitializersIntoGraphProto_ok ql.encoder ql.fs ql.value block
            initializers use_external_data_format onnx_file_path r h
          refine ⟨before.encoder, before.fs, before.value, hd, a, l, i, q, ?_, hq, ?_, ?_, hhd,
            hqname.symm, ?_, ha, hl, hi, ?_, c2.2, htotal.2⟩
          · rw [c01.2]
            dsimp only
            omega
          · rw [hqname, hname]
          · rw [hinit, hrecords, add_node_node]
            simp
          · rw [hhd2]
            rfl
          · rw [hr]

/-- C30, witness: in the block `exampleNamedBlock`, encoded from the initial
state, the second `onnx::Relu` node of the block is named `Relu_3`, after
`Relu_0`, `Loop_1` and the node `Relu_2` of the body of the Loop, and the
counter ends at 4. -/
theorem C30_node_display_names_witness :
    ∃ (r : Encoded GraphProto) (q : EncodedNode),
      EncodeBlock false "" true [] (fun _ => none) true true exampleNamedBlock {} {}
        GraphProto.empty = .ok r ∧
      q.node_proto.name = some "Relu_3" ∧ q.node_proto ∈ r.value.node ∧
      r.encoder.num_op_nodes_ = 4 ∧
      displayNamesOf (.ok r) = [some "Relu_0", some "Loop_1", some "Relu_2", some "Relu_3"] := by
  obtain ⟨r, hr⟩ := exists_ok_of_threw_eq_false
    (EncodeBlock false "" true [] (fun _ => none) true true exampleNamedBlock {} {}
      GraphProto.empty) (by decide!)
  obtain ⟨enc1, fs1, graph_proto1, hd, a, l, i, q, h1, _, hname, hmem, _, _, _, _, _, _, _, _,
      htotal⟩ :=
    C30_node_display_names false "" true [] (fun _ => none) true exampleNamedBlock
      [exampleReluNode, exampleReluLoopNode] [] exampleReluNode {} {} GraphProto.empty r rfl
      (by decide) hr
  refine ⟨r, q, hr, ?_, hmem, ?_, ?_⟩
  · rw [hname, h1]
    decide!
  · rw [htotal]
    decide!
  · rw [← hr]
    decide!

/-- C40: the two copies of the mapping from internal element types to external
data-type codes agree: `ATenTypeToOnnxType` of `helper.cpp` is
`ATenTypeToOnnxType` of `export.cpp` followed by the numeric value of the code,
so one throws exactly when the other does and, when they return, the integer
that the former returns is the numeric value of the code that the latter
returns. -/
theorem C40_type_mappers_agree (t : ScalarType) :
    Helper.ATenTypeToOnnxType t = (ATenTypeToOnnxType t).map TensorProto_DataType.toInt ∧
    threw (Helper.ATenTypeToOnnxType t) = threw (ATenTypeToOnnxType t) ∧
    (∀ c, ATenTypeToOnnxType t = .ok c → Helper.ATenTypeToOnnxType t = .ok c.toInt) ∧
    (∀ k, Helper.ATenTypeToOnnxType t = .ok k →
      ∃ c, ATenTypeToOnnxType t = .ok c ∧ k = c.toInt) := by
  cases t <;>
    simp [Helper.ATenTypeToOnnxType, Helper.ATenTypeToOnnxType_aux, ATenTypeToOnnxType, threw,
      Except.map, eq_comm]

theorem map_backslash_eq (l : List Char) (h : '\\' ∉ l) :
    l.map (fun c => if c = '\\' then '/' else c) = l := by
  induction l with
  | nil => rfl
  | cons c rest ih =>
    simp only [List.mem_cons, not_or] at h
    simp only [List.map_cons, ih h.2]
    rw [if_neg (fun hc => h.1 hc.symm)]

theorem dropWhile_slash_reverse (l : List Char) (c : Char) (hc : c ≠ '/') :
    ((l ++ [c]).reverse.dropWhile (fun x => x = '/')).reverse = l ++ [c] := by
  simp [List.dropWhile, hc]

theorem find_last_of_not_mem (l : List Char) (c : Char) (h : c ∉ l) :
    find_last_of l c = none := by
  unfold find_last_of
  have : l.reverse.indexOf c = l.length := by
    rw [← List.length_reverse l]
    exact List.indexOf_eq_length.mpr (by simpa using h)
  simp [this]

theorem find_last_of_append (l r : List Char) (c : Char) (h : c ∉ r) :
    find_last_of (l ++ c :: r) c = some l.length := by
  unfold find_last_of
  have : (l ++ c :: r).reverse.indexOf c = r.length := by
    rw [List.reverse_append, List.reverse_cons, List.append_assoc,
      List.indexOf_append_of_not_mem (by simpa using h)]
    simp
  rw [this]
  simp only [List.length_append, List.length_cons]
  rw [if_pos (by omega)]
  congr 1
  omega

/-- C39: for a string `d` without a backslash and a non-empty string `f` with
neither a slash nor a backslash, `GetFileRootPath` returns `d` for the path
`d/f`, and returns `.` for the path `f`. -/
theorem C39_GetFileRootPath (d f : String) (hd : '\\' ∉ d.data) (hne : f ≠ "")
    (hslash : '/' ∉ f.data) (hback : '\\' ∉ f.data) :
    GetFileRootPath (d ++ "/" ++ f) = d ∧ GetFileRootPath f = "." := by
  have hfd : f.data ≠ [] := fun h => hne (String.ext h)
  obtain ⟨init, c, hic⟩ : ∃ init c, f.data = init ++ [c] := by
    rcases List.eq_nil_or_concat f.data with h | ⟨init, c, h⟩
    · exact absurd h hfd
    · exact ⟨init, c, by simpa using h⟩
  have hc : c ≠ '/' := fun h => hslash (by rw [hic, h]; simp)
  constructor
  · unfold GetFileRootPath
    have hdata : (d ++ "/" ++ f).data = d.data ++ '/' :: f.data := by
      simp [String.data_append]
    have hmap : (d ++ "/" ++ f).data.map (fun c => if c = '\\' then '/' else c) =
        d.data ++ '/' :: f.data := by
      rw [hdata]
      exact map_backslash_eq _ (by simp [hd, hback])
    have hroot : ((d.data ++ '/' :: f.data).reverse.dropWhile (fun x => x = '/')).reverse =
        d.data ++ '/' :: f.data := by
      have : d.data ++ '/' :: f.data = (d.data ++ '/' :: init) ++ [c] := by
        rw [hic]; simp
      rw [this]
      exact dropWhile_slash_reverse _ c hc
    simp only [hmap, hroot, find_last_of_append d.data f.data '/' hslash,
      List.take_left']
    rw [if_neg]
    intro h
    have := congrArg List.length h
    simp at this
  · unfold GetFileRootPath
    have hmap : f.data.map (fun c => if c = '\\' then '/' else c) = f.data :=
      map_backslash_eq _ hback
    have hroot : (f.data.reverse.dropWhile (fun x => x = '/')).reverse = f.data := by
      rw [hic]
      exact dropWhile_slash_reverse _ c hc
    simp only [hmap, hroot, find_last_of_not_mem f.data '/' hslash, if_true]

/-- C39, witness: the paths `/tmp/model/m.onnx` and `m.onnx`. -/
theorem C39_GetFileRootPath_witness :
    GetFileRootPath "/tmp/model/m.onnx" = "/tmp/model" ∧ GetFileRootPath "m.onnx" = "." :=
  C39_GetFileRootPath "/tmp/model" "m.onnx" (by decide) (by decide) (by decide) (by decide)

theorem validateGraph_inputs (toString : Graph → String) (graph : Graph)
    (operator_export_type : OperatorExportTypes) :
    (validateGraph toString graph operator_export_type).graph.block.inputs =
      graph.block.inputs := by
  obtain ⟨⟨inputs, outputs, nodes⟩, nu⟩ := graph
  simp only [validateGraph, Graph.block, validateBlock, Block.inputs]

theorem GetGraphProtoSize_validated (ext : Externals) (graph : Graph)
    (operator_export_type : OperatorExportTypes) (initializers : Initializers) :
    GetGraphProtoSize ext.ByteSizeLong
        (validateGraph ext.toString graph operator_export_type).graph initializers =
      GetGraphProtoSize ext.ByteSizeLong graph initializers := by
  unfold GetGraphProtoSize
  rw [validateGraph_inputs]

/-- The external-storage flag of the encoder when the constructor is about to
call `EncodeGraph`: the caller's flag, or the outcome of the size probe. -/
theorem prepare_flag (ext : Externals) (graph : Graph) (onnx_opset_version : Int)
    (operator_export_type : OperatorExportTypes) (initializers : Initializers)
    (defer_weight_export strip_doc : Bool) (custom_opsets : List (String × Int))
    (use_external_data_format : Bool) (onnx_file_path : String)
    (val_attr_to_name : Value → Option String)
    (node_attr_to_name : Node → Option (String → Option String)) (p : Prepared)
    (h : (GraphEncoder.prepare ext graph onnx_opset_version operator_export_type initializers
      defer_weight_export strip_doc custom_opsets use_external_data_format onnx_file_path
      val_attr_to_name node_attr_to_name).result = .ok p) :
    p.encoder.use_external_data_format_ = p.use_external_data_format ∧
    p.use_external_data_format =
      (use_external_data_format ||
        (decide (onnx_file_path ≠ "") &&
          match GetGraphProtoSize ext.ByteSizeLong graph initializers with
          | .ok size => decide (size > 2 ^ 31 - 1)
          | .error _ => false)) := by
  unfold GraphEncoder.prepare at h
  dsimp only at h
  rw [GetGraphProtoSize_validated] at h
  cases hv : (validateGraph ext.toString graph operator_export_type).result with
  | error e => simp [hv, bind, Except.bind] at h
  | ok u =>
    cases hu : use_external_data_format <;> by_cases hp : onnx_file_path = "" <;>
      cases hs : GetGraphProtoSize ext.ByteSizeLong graph initializers <;>
      simp [hv, hu, hp, hs, bind, Except.bind, pure, Except.pure, INT_MAX, throw, throwThe,
        MonadExceptOf.throw] at h ⊢
    all_goals first
      | (subst h; simp; done)
      | (rename_i a
         by_cases hlt : 2147483647 < a <;> simp [hlt] at h ⊢ <;> subst h <;> simp)

theorem EncodeGraph_eq (use_external_data_format : Bool) (onnx_file_path : String)
    (in_graph_ : Bool) (initializers : Initializers) (dynamic_axes : DynamicAxes)
    (keep_initializers_as_inputs add_node_names : Bool) (graph : Graph) (enc : GraphEncoder)
    (fs : FileSystem) (graph_proto : GraphProto) :
    EncodeGraph use_external_data_format onnx_file_path in_graph_ initializers dynamic_axes
        keep_initializers_as_inputs add_node_names graph enc fs graph_proto =
      EncodeBlock use_external_data_format onnx_file_path in_graph_ initializers dynamic_axes
        keep_initializers_as_inputs add_node_names graph.block enc fs graph_proto := by
  cases graph
  rw [EncodeGraph]
  rfl

/-- What a call of the constructor that returns has done: the first part
returned, `EncodeGraph` returned on the graph as validation left it, and the
model record received the graph record and the imports of the domains. -/
theorem construct_ok (ext : Externals) (graph : Graph) (onnx_opset_version : Int)
    (operator_export_type : OperatorExportTypes) (initializers : Initializers)
    (dynamic_axes : DynamicAxes) (defer_weight_export strip_doc : Bool)
    (keep_initializers_as_inputs : Bool) (custom_opsets : List (String × Int))
    (add_node_names use_external_data_format : Bool) (onnx_file_path : String)
    (val_attr_to_name : Value → Option String)
    (node_attr_to_name : Node → Option (String → Option String)) (fs : FileSystem)
    (session : Session)
    (h : (GraphEncoder.construct ext graph onnx_opset_version operator_export_type
      initializers dynamic_axes defer_weight_export strip_doc keep_initializers_as_inputs
      custom_opsets add_node_names use_external_data_format onnx_file_path val_attr_to_name
      node_attr_to_name fs).result = .ok session) :
    ∃ p r,
      (GraphEncoder.prepare ext graph onnx_opset_version operator_export_type initializers
        defer_weight_export strip_doc custom_opsets use_external_data_format onnx_file_path
        val_attr_to_name node_attr_to_name).result = .ok p ∧
      EncodeBlock p.use_external_data_format onnx_file_path true initializers dynamic_axes
        keep_initializers_as_inputs add_node_names
        (validateGraph ext.toString graph operator_export_type).graph.block p.encoder fs
        (p.encoder.model_proto_.graph.getD GraphProto.empty) = .ok r ∧
      session =
        { encoder := { r.encoder with
            model_proto_ := addDomainImports custom_opsets r.encoder.domains_
              { r.encoder.model_proto_ with graph := some r.value } }
          fs := r.fs } := by
  unfold GraphEncoder.construct at h
  simp only [bind, Except.bind, pure, Except.pure, EncodeGraph_eq] at h
  split at h
  · contradiction
  · rename_i p hp
    split at h
    · contradiction
    · rename_i r hr
      simp only [Except.ok.injEq] at h
      exact ⟨p, r, hp, hr, h.symm⟩

theorem grows_refl (gp : GraphProto) : gp.grows gp [] [] [] [] [] := by
  simp [GraphProto.grows]

theorem grows_trans {a b c : GraphProto} {i1 o1 v1 i2 o2 v2 : List ValueInfoProto}
    {n1 n2 : List NodeProto} {t1 t2 : List TensorProto} (h1 : a.grows b i1 o1 v1 n1 t1)
    (h2 : b.grows c i2 o2 v2 n2 t2) :
    a.grows c (i1 ++ i2) (o1 ++ o2) (v1 ++ v2) (n1 ++ n2) (t1 ++ t2) := by
  obtain ⟨a1, a2, a3, a4, a5⟩ := h1
  obtain ⟨b1, b2, b3, b4, b5⟩ := h2
  refine ⟨?_, ?_, ?_, ?_, ?_⟩
  · rw [b1, a1, List.append_assoc]
  · rw [b2, a2, List.append_assoc]
  · rw [b3, a3, List.append_assoc]
  · rw [b4, a4, List.append_assoc]
  · rw [b5, a5, List.append_assoc]

theorem grows_add_input (gp : GraphProto) (p : ValueInfoProto) :
    gp.grows (gp.add_input p) [p] [] [] [] [] := by
  cases gp
  simp [GraphProto.grows, GraphProto.add_input, GraphProto.input, GraphProto.output,
    GraphProto.value_info, GraphProto.node, GraphProto.initializer]

theorem grows_add_output (gp : GraphProto) (p : ValueInfoProto) :
    gp.grows (gp.add_output p) [] [p] [] [] [] := by
  cases gp
  simp [GraphProto.grows, GraphProto.add_output, GraphProto.input, GraphProto.output,
    GraphProto.value_info, GraphProto.node, GraphProto.initializer]

theorem grows_add_value_infos (gp : GraphProto) (added : List ValueInfoProto) :
    gp.grows (gp.add_value_infos added) [] [] added [] [] := by
  cases gp
  simp [GraphProto.grows, GraphProto.add_value_infos, GraphProto.input, GraphProto.output,
    GraphProto.value_info, GraphProto.node, GraphProto.initializer]

theorem grows_add_node (gp : GraphProto) (p : NodeProto) :
    gp.grows (gp.add_node p) [] [] [] [p] [] := by
  cases gp
  simp [GraphProto.grows, GraphProto.add_node, GraphProto.input, GraphProto.output,
    GraphProto.value_info, GraphProto.node, GraphProto.initializer]

theorem grows_add_initializer (gp : GraphProto) (p : TensorProto) :
    gp.grows (gp.add_initializer p) [] [] [] [] [p] := by
  cases gp
  simp [GraphProto.grows, GraphProto.add_initializer, GraphProto.input, GraphProto.output,
    GraphProto.value_info, GraphProto.node, GraphProto.initializer]

theorem grows_set_name (gp : GraphProto) (name : String) :
    gp.grows (gp.set_name name) [] [] [] [] [] := by
  cases gp
  simp [GraphProto.grows, GraphProto.set_name, GraphProto.input, GraphProto.output,
    GraphProto.value_info, GraphProto.node, GraphProto.initializer]

theorem grows_cast {a b : GraphProto} {i1 o1 v1 i2 o2 v2 : List ValueInfoProto}
    {n1 n2 : List NodeProto} {t1 t2 : List TensorProto} (h : a.grows b i1 o1 v1 n1 t1)
    (hi : i1 = i2) (ho : o1 = o2) (hv : v1 = v2) (hn : n1 = n2) (ht : t1 = t2) :
    a.grows b i2 o2 v2 n2 t2 := by
  subst hi ho hv hn ht
  exact h

/-- The loop of `EncodeBlock` over the inputs that are all encoded adds one
value-info record per input, in order, to the field `input`. -/
theorem EncodeBlock_values_input (dynamic_axes : DynamicAxes) :
    ∀ (values : List Value) (enc : GraphEncoder) (graph_proto : GraphProto)
      (r : GraphProto × GraphEncoder),
      EncodeBlock_values GraphProto.add_input dynamic_axes values enc graph_proto = .ok r →
      ∃ ins, graph_proto.grows r.1 ins [] [] [] [] ∧
        List.Forall₂ (encodedByEncodeValueInfo dynamic_axes) values ins
  | [], enc, graph_proto, r, h => by
    simp [EncodeBlock_values] at h
    rw [← h]
    exact ⟨[], grows_refl _, .nil⟩
  | value :: rest, enc, graph_proto, r, h => by
    simp only [EncodeBlock_values, bind, Except.bind] at h
    split at h
    · contradiction
    · rename_i q hq
      obtain ⟨ins, h1, h2⟩ := EncodeBlock_values_input dynamic_axes rest q.2 _ r h
      exact ⟨q.1 :: ins,
        grows_cast (grows_trans (grows_add_input graph_proto q.1) h1) rfl rfl rfl rfl rfl,
        .cons ⟨enc, q, hq, rfl⟩ h2⟩

/-- The loop of `EncodeBlock` over the outputs adds one value-info record per
output, in order, to the field `output`. -/
theorem EncodeBlock_values_output (dynamic_axes : DynamicAxes) :
    ∀ (values : List Value) (enc : GraphEncoder) (graph_proto : GraphProto)
      (r : GraphProto × GraphEncoder),
      EncodeBlock_values GraphProto.add_output dynamic_axes values enc graph_proto = .ok r →
      ∃ outs, graph_proto.grows r.1 [] outs [] [] [] ∧
        List.Forall₂ (encodedByEncodeValueInfo dynamic_axes) values outs
  | [], enc, graph_proto, r, h => by
    simp [EncodeBlock_values] at h
    rw [← h]
    exact ⟨[], grows_refl _, .nil⟩
  | value :: rest, enc, graph_proto, r, h => by
    simp only [EncodeBlock_values, bind, Except.bind] at h
    split at h
    · contradiction
    · rename_i q hq
      obtain ⟨outs, h1, h2⟩ := EncodeBlock_values_output dynamic_axes rest q.2 _ r h
      exact ⟨q.1 :: outs,
        grows_cast (grows_trans (grows_add_output graph_proto q.1) h1) rfl rfl rfl rfl rfl,
        .cons ⟨enc, q, hq, rfl⟩ h2⟩

/-- The loop of `EncodeBlock` over the inputs when initializers are not kept
as inputs adds one value-info record, in order, per input whose name is not a
key of the initializers. -/
theorem EncodeBlock_inputs_input (initializers : Initializers) (dynamic_axes : DynamicAxes) :
    ∀ (inputs : List Value) (enc : GraphEncoder) (graph_proto : GraphProto)
      (r : GraphProto × GraphEncoder),
      EncodeBlock_inputs initializers dynamic_axes inputs enc graph_proto = .ok r →
      ∃ ins, graph_proto.grows r.1 ins [] [] [] [] ∧
        List.Forall₂ (encodedByEncodeValueInfo dynamic_axes)
          (inputs.filter (fun v => (findInitializer initializers v.debugName).isNone)) ins
  | [], enc, graph_proto, r, h => by
    simp [EncodeBlock_inputs] at h
    rw [← h]
    exact ⟨[], grows_refl _, .nil⟩
  | input :: rest, enc, graph_proto, r, h => by
    simp only [EncodeBlock_inputs] at h
    cases hf : findInitializer initializers input.debugName with
    | some pair =>
      simp only [hf] at h
      obtain ⟨ins, h1, h2⟩ := EncodeBlock_inputs_input initializers dynamic_axes rest enc
        graph_proto r h
      refine ⟨ins, h1, ?_⟩
      rw [List.filter_cons_of_neg (by simp [hf])]
      exact h2
    | none =>
      simp only [hf, bind, Except.bind] at h
      split at h
      · contradiction
      · rename_i q hq
        obtain ⟨ins, h1, h2⟩ := EncodeBlock_inputs_input initializers dynamic_axes rest q.2 _
          r h
        refine ⟨q.1 :: ins,
          grows_cast (grows_trans (grows_add_input graph_proto q.1) h1) rfl rfl rfl rfl rfl, ?_⟩
        rw [List.filter_cons_of_pos (by simp [hf])]
        exact .cons ⟨enc, q, hq, rfl⟩ h2

/-- The first part of `EncodeBlock` adds the records of the inputs and of the
outputs, and nothing else, to the lists of the graph record. -/
theorem EncodeBlock_header_grows (initializers : Initializers) (dynamic_axes : DynamicAxes)
    (keep_initializers_as_inputs : Bool) (inputs outputs : List Value) (enc : GraphEncoder)
    (graph_proto : GraphProto) (r : GraphProto × GraphEncoder)
    (h : EncodeBlock_header initializers dynamic_axes keep_initializers_as_inputs inputs
      outputs enc graph_proto = .ok r) :
    ∃ ins outs, graph_proto.grows r.1 ins outs [] [] [] ∧
      List.Forall₂ (encodedByEncodeValueInfo dynamic_axes)
        (EncodeBlock_graphInputs initializers keep_initializers_as_inputs inputs) ins ∧
      List.Forall₂ (encodedByEncodeValueInfo dynamic_axes) outputs outs := by
  unfold EncodeBlock_header at h
  cases hk : keep_initializers_as_inputs with
  | true =>
    simp only [bind, Except.bind, hk, if_true] at h
    split at h
    · contradiction
    · rename_i q hq
      obtain ⟨outs, h1, h2⟩ := EncodeBlock_values_output dynamic_axes outputs q.2 q.1 r h
      obtain ⟨ins, h3, h4⟩ := EncodeBlock_values_input dynamic_axes inputs _ _ q hq
      exact ⟨ins, outs,
        grows_cast (grows_trans (grows_trans (grows_set_name _ _) h3) h1) (by simp) rfl rfl
          rfl rfl,
        by simpa [EncodeBlock_graphInputs] using h4, h2⟩
  | false =>
    simp only [bind, Except.bind, hk, Bool.false_eq_true, if_false] at h
    split at h
    · contradiction
    · rename_i q hq
      obtain ⟨outs, h1, h2⟩ := EncodeBlock_values_output dynamic_axes outputs q.2 q.1 r h
      obtain ⟨ins, h3, h4⟩ := EncodeBlock_inputs_input initializers dynamic_axes inputs _ _ q
        hq
      exact ⟨ins, outs,
        grows_cast (grows_trans (grows_trans (grows_set_name _ _) h3) h1) (by simp) rfl rfl
          rfl rfl,
        by simpa [EncodeBlock_graphInputs] using h4, h2⟩

/-- A call of `EncodeNode` that returns has added value-info records to the
field `value_info` of the graph record and nothing else. -/
theorem EncodeNode_grows (use_external_data_format : Bool) (onnx_file_path : String)
    (in_graph_ add_node_names : Bool) (node : Node) (enc : GraphEncoder) (fs : FileSystem)
    (graph_proto : GraphProto) (node_proto : NodeProto) (r : EncodedNode)
    (h : EncodeNode use_external_data_format onnx_file_path in_graph_ add_node_names node enc
      fs graph_proto node_proto = .ok r) :
    ∃ added, graph_proto.grows r.graph_proto [] [] added [] [] := by
  obtain ⟨hd, attrs, extra, hhd, _, _, hgp, _⟩ := EncodeNode_record use_external_data_format
    onnx_file_path in_graph_ add_node_names node enc fs graph_proto node_proto r h
  obtain ⟨added, m, _, hhd2⟩ := EncodeNode_header_ok in_graph_ add_node_names node enc
    graph_proto node_proto hd hhd
  refine ⟨added, ?_⟩
  rw [hgp, hhd2]
  exact grows_add_value_infos graph_proto added

theorem EncodeLocalFunction_nodes_grows (use_external_data_format : Bool)
    (onnx_file_path : String) (add_node_names : Bool) :
    ∀ (nodes : List Node) (enc : GraphEncoder) (fs : FileSystem) (graph_proto : GraphProto)
      (func_proto : FunctionProto) (custom_domains : List String) (r : EncodedFunction),
      EncodeLocalFunction_nodes use_external_data_format onnx_file_path add_node_names nodes
        enc fs graph_proto func_proto custom_domains = .ok r →
      ∃ added, graph_proto.grows r.graph_proto [] [] added [] []
  | [], enc, fs, graph_proto, func_proto, custom_domains, r, h => by
    simp [EncodeLocalFunction_nodes] at h
    rw [← h]
    exact ⟨[], grows_refl _⟩
  | .mk kind inputs outputs blocks attributes isNone sr py :: rest, enc, fs, graph_proto,
      func_proto, custom_domains, r, h => by
    simp only [EncodeLocalFunction_nodes] at h
    by_cases hn : isNone = true
    · rw [if_pos hn] at h
      exact EncodeLocalFunction_nodes_grows use_external_data_format onnx_file_path
        add_node_names rest enc fs graph_proto func_proto custom_domains r h
    · rw [if_neg hn] at h
      simp only [bind, Except.bind] at h
      split at h
      · contradiction
      · rename_i q hq
        obtain ⟨a1, h1⟩ := EncodeNode_grows use_external_data_format onnx_file_path false
          add_node_names _ enc fs graph_proto {} q hq
        obtain ⟨a2, h2⟩ := EncodeLocalFunction_nodes_grows use_external_data_format
          onnx_file_path add_node_names rest _ _ _ _ _ r h
        exact ⟨a1 ++ a2, grows_cast (grows_trans h1 h2) rfl rfl rfl rfl rfl⟩

theorem EncodeLocalFunction_grows (use_external_data_format : Bool)
    (onnx_file_path : String) (add_node_names : Bool)
    (attributes : List (Symbol × AttributeValue)) :
    ∀ (search : List (Symbol × AttributeValue)) (enc : GraphEncoder) (fs : FileSystem)
      (graph_proto : GraphProto) (func_proto : FunctionProto) (r : EncodedFunction),
      EncodeLocalFunction use_external_data_format onnx_file_path add_node_names attributes
        search enc fs graph_proto func_proto = .ok r →
      ∃ added, graph_proto.grows r.graph_proto [] [] added [] []
  | [], enc, fs, graph_proto, func_proto, r, h => by
    simp [EncodeLocalFunction] at h
  | (key, value) :: rest, enc, fs, graph_proto, func_proto, r, h => by
    by_cases hk : key = attr_graph
    · cases value with
      | g v =>
        obtain ⟨block, nu⟩ := v
        obtain ⟨inputs, outputs, nodes⟩ := block
        simp only [EncodeLocalFunction, hk, if_true] at h
        cases hh : EncodeLocalFunction_header attributes inputs outputs enc func_proto with
        | error f => simp [hh, bind, Except.bind] at h
        | ok q =>
          simp only [hh, bind, Except.bind] at h
          exact EncodeLocalFunction_nodes_grows use_external_data_format onnx_file_path
            add_node_names nodes _ _ _ _ _ r h
      | _ => simp [EncodeLocalFunction, hk] at h
    · have hrest : EncodeLocalFunction use_external_data_format onnx_file_path add_node_names
          attributes rest enc fs graph_proto func_proto = .ok r := by
        cases value with
        | g v =>
          obtain ⟨block, nu⟩ := v
          obtain ⟨inputs, outputs, nodes⟩ := block
          simpa only [EncodeLocalFunction, hk, if_false] using h
        | _ => simpa only [EncodeLocalFunction, hk, if_false] using h
      exact EncodeLocalFunction_grows use_external_data_format onnx_file_path
        add_node_names attributes rest enc fs graph_proto func_proto r hrest

/-- The loop of `EncodeBlock` over the nodes adds operator records and
value-info records to the graph record and nothing else. -/
theorem EncodeBlock_nodes_grows (use_external_data_format : Bool) (onnx_file_path : String)
    (in_graph_ add_node_names : Bool) :
    ∀ (nodes : List Node) (enc : GraphEncoder) (fs : FileSystem) (graph_proto : GraphProto)
      (r : Encoded GraphProto),
      EncodeBlock_nodes use_external_data_format onnx_file_path in_graph_ add_node_names nodes
        enc fs graph_proto = .ok r →
      ∃ vis records, graph_proto.grows r.value [] [] vis records []
  | [], enc, fs, graph_proto, r, h => by
    simp [EncodeBlock_nodes] at h
    rw [← h]
    exact ⟨[], [], grows_refl _⟩
  | .mk kind inputs outputs blocks attributes isNone sr py :: rest, enc, fs, graph_proto, r,
      h => by
    simp only [EncodeBlock_nodes] at h
    by_cases hn : isNone = true
    · rw [if_pos hn] at h
      exact EncodeBlock_nodes_grows use_external_data_format onnx_file_path in_graph_
        add_node_names rest enc fs graph_proto r h
    · rw [if_neg hn] at h
      by_cases hk : kind = onnx_LocalFunctionDef
      · rw [if_pos hk] at h
        simp only [bind, Except.bind] at h
        split at h
        · contradiction
        · rename_i q hq
          obtain ⟨a1, h1⟩ := EncodeLocalFunction_grows use_external_data_format
            onnx_file_path add_node_names attributes attributes _ fs graph_proto {} q hq
          obtain ⟨vis, records, h2⟩ := EncodeBlock_nodes_grows use_external_data_format
            onnx_file_path in_graph_ add_node_names rest _ _ _ r h
          exact ⟨a1 ++ vis, records, grows_cast (grows_trans h1 h2) rfl rfl rfl (by simp) rfl⟩
      · rw [if_neg hk] at h
        simp only [bind, Except.bind] at h
        split at h
        · contradiction
        · rename_i q hq
          obtain ⟨a1, h1⟩ := EncodeNode_grows use_external_data_format onnx_file_path
            in_graph_ add_node_names _ enc fs graph_proto {} q hq
          obtain ⟨vis, records, h2⟩ := EncodeBlock_nodes_grows use_external_data_format
            onnx_file_path in_graph_ add_node_names rest _ _ _ r h
          exact ⟨a1 ++ vis, q.node_proto :: records,
            grows_cast (grows_trans (grows_trans h1 (grows_add_node _ _)) h2) rfl rfl (by simp)
              (by simp) rfl⟩

/-- The loop of `AddInitializersIntoGraphProto` adds to the field `initializer`
of the graph record, in the order of the inputs, one tensor record per input
whose name is a key of the initializers: the encoding of the tensor of that
entry, on a record named by the key. -/
theorem AddInitializersIntoGraphProto_loop_grows (initializers : Initializers)
    (use_external_data_format : Bool) (onnx_file_path : String) :
    ∀ (inputs : List Value) (enc : GraphEncoder) (fs : FileSystem) (graph_proto : GraphProto)
      (r : Encoded GraphProto),
      AddInitializersIntoGraphProto_loop initializers use_external_data_format onnx_file_path
        inputs enc fs graph_proto = .ok r →
      ∃ inits, graph_proto.grows r.value [] [] [] [] inits ∧
        List.Forall₂ (encodedInitializer use_external_data_format onnx_file_path)
          (inputs.filterMap (fun v => findInitializer initializers v.debugName)) inits
  | [], enc, fs, graph_proto, r, h => by
    simp [AddInitializersIntoGraphProto_loop] at h
    rw [← h]
    exact ⟨[], grows_refl _, .nil⟩
  | input :: rest, enc, fs, graph_proto, r, h => by
    simp only [AddInitializersIntoGraphProto_loop] at h
    cases hf : findInitializer initializers input.debugName with
    | none =>
      simp only [hf] at h
      obtain ⟨inits, h1, h2⟩ := AddInitializersIntoGraphProto_loop_grows initializers
        use_external_data_format onnx_file_path rest enc fs graph_proto r h
      refine ⟨inits, h1, ?_⟩
      simp only [List.filterMap_cons, hf]
      exact h2
    | some pair =>
      simp only [hf, bind, Except.bind] at h
      split at h
      · contradiction
      · rename_i q hq
        obtain ⟨inits, h1, h2⟩ := AddInitializersIntoGraphProto_loop_grows initializers
          use_external_data_format onnx_file_path rest _ _ _ r h
        refine ⟨q.tensor_proto :: inits,
          grows_cast (grows_trans (grows_add_initializer _ _) h1) rfl rfl rfl rfl rfl, ?_⟩
        simp only [List.filterMap_cons, hf]
        exact .cons ⟨enc, fs, q, hq, rfl⟩ h2

/-- The graph record that `EncodeBlock` returns: the records of the inputs that
it encodes and of the outputs in the fields `input` and `output`, value-info
records and operator records from the loop over the nodes, and the tensor
records of the initializers that back an input, in the order of the inputs. -/
theorem EncodeBlock_grows (use_external_data_format : Bool) (onnx_file_path : String)
    (in_graph_ : Bool) (initializers : Initializers) (dynamic_axes : DynamicAxes)
    (keep_initializers_as_inputs add_node_names : Bool) (block : Block) (enc : GraphEncoder)
    (fs : FileSystem) (graph_proto : GraphProto) (r : Encoded GraphProto)
    (h : EncodeBlock use_external_data_format onnx_file_path in_graph_ initializers
      dynamic_axes keep_initializers_as_inputs add_node_names block enc fs graph_proto =
        .ok r) :
    ∃ ins outs vis records inits, graph_proto.grows r.value ins outs vis records inits ∧
      List.Forall₂ (encodedByEncodeValueInfo dynamic_axes)
        (EncodeBlock_graphInputs initializers keep_initializers_as_inputs block.inputs) ins ∧
      List.Forall₂ (encodedByEncodeValueInfo dynamic_axes) block.outputs outs ∧
      List.Forall₂ (encodedInitializer use_external_data_format onnx_file_path)
        (block.inputs.filterMap (fun v => findInitializer initializers v.debugName)) inits := by
  rw [EncodeBlock_eq] at h
  simp only [bind, Except.bind] at h
  split at h
  · contradiction
  · rename_i hd hhd
    split at h
    · contradiction
    · rename_i q hq
      obtain ⟨ins, outs, h1, hins, houts⟩ := EncodeBlock_header_grows initializers
        dynamic_axes keep_initializers_as_inputs block.inputs block.outputs enc graph_proto hd
        hhd
      obtain ⟨vis, records, h2⟩ := EncodeBlock_nodes_grows use_external_data_format
        onnx_file_path in_graph_ add_node_names block.nodes hd.2 fs hd.1 q hq
      unfold AddInitializersIntoGraphProto at h
      split at h
      · contradiction
      · obtain ⟨inits, h3, hinits⟩ := AddInitializersIntoGraphProto_loop_grows initializers
          use_external_data_format onnx_file_path block.inputs q.encoder q.fs q.value r h
        exact ⟨ins, outs, vis, records, inits,
          grows_cast (grows_trans (grows_trans h1 h2) h3) (by simp) (by simp) (by simp)
            (by simp) (by simp),
          hins, houts, hinits⟩

theorem findInitializer_isNone (initializers : Initializers) (name : String) :
    (findInitializer initializers name).isNone = decide (name ∉ initializers.map Prod.fst) := by
  induction initializers with
  | nil => simp [findInitializer]
  | cons e rest ih =>
    obtain ⟨key, tensor⟩ := e
    simp only [findInitializer, List.map_cons, List.mem_cons, not_or]
    by_cases hk : key = name
    · simp [hk]
    · rw [if_neg hk, ih]
      have : ¬ name = key := fun h => hk h.symm
      simp [this]

theorem findInitializer_some (initializers : Initializers) (name : String) (e : String × Tensor)
    (h : findInitializer initializers name = some e) : e ∈ initializers ∧ e.1 = name := by
  induction initializers with
  | nil => simp [findInitializer] at h
  | cons d rest ih =>
    obtain ⟨key, tensor⟩ := d
    simp only [findInitializer] at h
    by_cases hk : key = name
    · rw [if_pos hk] at h
      simp only [Option.some.injEq] at h
      rw [← h]
      exact ⟨List.mem_cons_self _ _, hk⟩
    · rw [if_neg hk] at h
      exact ⟨List.mem_cons_of_mem _ (ih h).1, (ih h).2⟩

theorem findInitializer_mem (initializers : Initializers)
    (hkeys : (initializers.map Prod.fst).Nodup) (e : String × Tensor) (h : e ∈ initializers) :
    findInitializer initializers e.1 = some e := by
  induction initializers with
  | nil => simp at h
  | cons d rest ih =>
    obtain ⟨key, tensor⟩ := d
    simp only [List.map_cons, List.nodup_cons] at hkeys
    simp only [findInitializer]
    rcases List.mem_cons.mp h with h | h
    · rw [h]
      simp
    · have hne : ¬ key = e.1 := fun hk => hkeys.1 (by rw [hk]; exact List.mem_map_of_mem _ h)
      rw [if_neg hne]
      exact ih hkeys.2 h

theorem encodedByEncodeValueInfo_names (dynamic_axes : DynamicAxes) :
    ∀ (values : List Value) (records : List ValueInfoProto),
      List.Forall₂ (encodedByEncodeValueInfo dynamic_axes) values records →
      records.map (fun p => p.name) = values.map (fun v => some v.debugName)
  | _, _, .nil => rfl
  | _, _, .cons hr hrest => by
    obtain ⟨enc, q, hq, hp⟩ := hr
    simp only [List.map_cons]
    rw [encodedByEncodeValueInfo_names dynamic_axes _ _ hrest, ← hp,
      (EncodeValueInfo_ok enc {} _ dynamic_axes q hq).1]

/-- C31: the graph record that `EncodeBlock` returns for a block has received
in its field `input`, in the order of the block, one value-info record per
input of the block when initializers are kept as inputs, and otherwise one per
input whose name is not a key of the initializers; and in its field `output`
one value-info record per output of the block, in order. Each record is what
`EncodeValueInfo` returned for the value: its name and its type descriptor. -/
theorem C31_block_inputs_outputs (use_external_data_format : Bool) (onnx_file_path : String)
    (in_graph_ : Bool) (initializers : Initializers) (dynamic_axes : DynamicAxes)
    (keep_initializers_as_inputs add_node_names : Bool) (block : Block) (enc : GraphEncoder)
    (fs : FileSystem) (graph_proto : GraphProto) (r : Encoded GraphProto)
    (h : EncodeBlock use_external_data_format onnx_file_path in_graph_ initializers
      dynamic_axes keep_initializers_as_inputs add_node_names block enc fs graph_proto =
        .ok r) :
    ∃ ins outs,
      r.value.input = graph_proto.input ++ ins ∧
      r.value.output = graph_proto.output ++ outs ∧
      List.Forall₂ (encodedByEncodeValueInfo dynamic_axes)
        (if keep_initializers_as_inputs then block.inputs
          else block.inputs.filter
            (fun v => decide (v.debugName ∉ initializers.map Prod.fst))) ins ∧
      List.Forall₂ (encodedByEncodeValueInfo dynamic_axes) block.outputs outs ∧
      ins.map (fun p => p.name) =
        (if keep_initializers_as_inputs then block.inputs
          else block.inputs.filter
            (fun v => decide (v.debugName ∉ initializers.map Prod.fst))).map
          (fun v => some v.debugName) ∧
      outs.map (fun p => p.name) = block.outputs.map (fun v => some v.debugName) := by
  obtain ⟨ins, outs, vis, records, inits, hg, hins, houts, _⟩ := EncodeBlock_grows
    use_external_data_format onnx_file_path in_graph_ initializers dynamic_axes
    keep_initializers_as_inputs add_node_names block enc fs graph_proto r h
  have hsame : EncodeBlock_graphInputs initializers keep_initializers_as_inputs block.inputs =
      (if keep_initializers_as_inputs then block.inputs
        else block.inputs.filter
          (fun v => decide (v.debugName ∉ initializers.map Prod.fst))) := by
    unfold EncodeBlock_graphInputs
    congr 1
    exact List.filter_congr (fun v _ => findInitializer_isNone initializers v.debugName)
  rw [hsame] at hins
  exact ⟨ins, outs, hg.1, hg.2.1, hins, houts,
    encodedByEncodeValueInfo_names dynamic_axes _ _ hins,
    encodedByEncodeValueInfo_names dynamic_axes _ _ houts⟩

/-- C31, witness: the block with the inputs `x` and `w` and the initializer
`w`, with and without the initializers kept as inputs. -/
theorem C31_block_inputs_outputs_witness :
    (∃ r, EncodeBlock false "" true [("w", exampleScalarTensor)] (fun _ => none) true false
        exampleInitializerBlock {} {} GraphProto.empty = .ok r ∧
      r.value.input.map (fun p => p.name) = [some "x", some "w"] ∧ r.value.output = []) ∧
    (∃ r, EncodeBlock false "" true [("w", exampleScalarTensor)] (fun _ => none) false false
        exampleInitializerBlock {} {} GraphProto.empty = .ok r ∧
      r.value.input.map (fun p => p.name) = [some "x"] ∧ r.value.output = []) := by
  constructor
  · obtain ⟨r, hr⟩ := exists_ok_of_threw_eq_false
      (EncodeBlock false "" true [("w", exampleScalarTensor)] (fun _ => none) true false
        exampleInitializerBlock {} {} GraphProto.empty) (by decide!)
    obtain ⟨ins, outs, h1, h2, _, houts, h3, _⟩ := C31_block_inputs_outputs false "" true
      [("w", exampleScalarTensor)] (fun _ => none) true false exampleInitializerBlock {} {}
      GraphProto.empty r hr
    cases houts
    refine ⟨r, hr, ?_, by rw [h2]; rfl⟩
    rw [h1]
    simp only [GraphProto.empty, GraphProto.input, List.nil_append, h3]
    decide
  · obtain ⟨r, hr⟩ := exists_ok_of_threw_eq_false
      (EncodeBlock false "" true [("w", exampleScalarTensor)] (fun _ => none) false false
        exampleInitializerBlock {} {} GraphProto.empty) (by decide!)
    obtain ⟨ins, outs, h1, h2, _, houts, h3, _⟩ := C31_block_inputs_outputs false "" true
      [("w", exampleScalarTensor)] (fun _ => none) false false exampleInitializerBlock {} {}
      GraphProto.empty r hr
    cases houts
    refine ⟨r, hr, ?_, by rw [h2]; rfl⟩
    rw [h1]
    simp only [GraphProto.empty, GraphProto.input, List.nil_append, h3]
    decide

/-- The encoder that the first part of the constructor leaves when it returns:
the members as the initializer list of the constructor sets them, the
external-storage flag as the size probe leaves it, and a model record with the
producer, the versions and the import of the default operator set. -/
theorem prepare_ok (ext : Externals) (graph : Graph) (onnx_opset_version : Int)
    (operator_export_type : OperatorExportTypes) (initializers : Initializers)
    (defer_weight_export strip_doc : Bool) (custom_opsets : List (String × Int))
    (use_external_data_format : Bool) (onnx_file_path : String)
    (val_attr_to_name : Value → Option String)
    (node_attr_to_name : Node → Option (String → Option String)) (p : Prepared)
    (h : (GraphEncoder.prepare ext graph onnx_opset_version operator_export_type initializers
      defer_weight_export strip_doc custom_opsets use_external_data_format onnx_file_path
      val_attr_to_name node_attr_to_name).result = .ok p) :
    p.encoder =
      { num_blocks_ := 0
        num_op_nodes_ := 0
        num_external_data_ := 0
        operator_export_type_ := operator_export_type
        strip_doc_ := strip_doc
        defer_weight_export_ := defer_weight_export
        use_external_data_format_ := p.use_external_data_format
        onnx_opset_version_ := onnx_opset_version
        custom_opsets_ := custom_opsets
        graph_ := (validateGraph ext.toString graph operator_export_type).graph
        val_attr_to_name_ := val_attr_to_name
        node_attr_to_name_ := node_attr_to_name
        model_proto_ :=
          { producer_name := some "pytorch"
            ir_version := some ext.IR_VERSION
            producer_version := some ext.PRODUCER_VERSION
            opset_import := [{ version := some onnx_opset_version }] } } := by
  unfold GraphEncoder.prepare at h
  dsimp only at h
  cases hv : (validateGraph ext.toString graph operator_export_type).result with
  | error e => simp [hv, bind, Except.bind] at h
  | ok u =>
    cases hu : use_external_data_format <;> by_cases hp : onnx_file_path = "" <;>
      cases hs : GetGraphProtoSize ext.ByteSizeLong
        (validateGraph ext.toString graph operator_export_type).graph initializers <;>
      simp [hv, hu, hp, hs, bind, Except.bind, pure, Except.pure, INT_MAX, throw, throwThe,
        MonadExceptOf.throw] at h ⊢
    all_goals first
      | (subst h; simp; done)
      | (rename_i a
         by_cases hlt : 2147483647 < a <;> simp [hlt] at h ⊢ <;> subst h <;> simp)

/-- The loop of the constructor over the domains adds, in order, one import per
domain and changes nothing else of the model record. -/
theorem addDomainImports_eq (custom_opsets : List (String × Int)) :
    ∀ (domains : List String) (model_proto : ModelProto),
      addDomainImports custom_opsets domains model_proto =
        { model_proto with
          opset_import := model_proto.opset_import ++
            domains.map (fun domain =>
              { domain := some domain
                version := some ((custom_opsets.lookup domain).getD 1) }) }
  | [], model_proto => by simp [addDomainImports]
  | domain :: rest, model_proto => by
    simp only [addDomainImports]
    rw [addDomainImports_eq custom_opsets rest]
    cases hl : custom_opsets.lookup domain <;> simp [hl]

theorem EncodeTensor_name (enc : GraphEncoder) (fs : FileSystem)
    (tensor_proto : TensorProto) (tensor : Tensor) (external_ref : Option String)
    (use_external_data_format : Bool) (onnx_file_path : String) (r : EncodedTensor)
    (h : EncodeTensor enc fs tensor_proto tensor external_ref use_external_data_format
      onnx_file_path = .ok r) :
    r.tensor_proto.name = tensor_proto.name := by
  unfold EncodeTensor at h
  cases htype : ATenTypeToOnnxType tensor.scalar_type with
  | error e => simp [htype, bind, Except.bind] at h
  | ok data_type =>
    simp only [htype, bind, Except.bind, pure, Except.pure] at h
    repeat' split at h
    all_goals first
      | contradiction
      | (simp [throw, throwThe, MonadExceptOf.throw] at h; done)
      | (simp only [Except.ok.injEq] at h; rw [← h])

theorem filterMap_findInitializer_keys (initializers : Initializers) :
    ∀ (inputs : List Value),
      (inputs.filterMap (fun v => findInitializer initializers v.debugName)).map Prod.fst =
        (inputs.map Value.debugName).filter
          (fun n => decide (n ∈ initializers.map Prod.fst))
  | [] => rfl
  | v :: rest => by
    have ih := filterMap_findInitializer_keys initializers rest
    have hnone := findInitializer_isNone initializers v.debugName
    cases hf : findInitializer initializers v.debugName with
    | none =>
      rw [hf] at hnone
      simp only [Option.isNone_none, true_eq_decide_iff] at hnone
      simp only [List.filterMap_cons, hf, List.map_cons]
      rw [List.filter_cons_of_neg (by simpa using hnone)]
      exact ih
    | some e =>
      rw [hf] at hnone
      simp only [Option.isNone_some, false_eq_decide_iff, not_not] at hnone
      simp only [List.filterMap_cons, hf, List.map_cons]
      rw [List.filter_cons_of_pos (by simpa using hnone), ih,
        (findInitializer_some initializers _ e hf).2]

/-- With distinct keys, distinct input names and every key the name of an
input, the entries of the initializers that back an input, in the order of the
inputs, are the entries of the initializers, each once. -/
theorem filterMap_findInitializer_perm (initializers : Initializers) (inputs : List Value)
    (hkeys : (initializers.map Prod.fst).Nodup)
    (hnames : (inputs.map Value.debugName).Nodup)
    (hsub : ∀ e ∈ initializers, e.1 ∈ inputs.map Value.debugName) :
    (inputs.filterMap (fun v => findInitializer initializers v.debugName)).Perm
      initializers := by
  apply (List.perm_ext_iff_of_nodup ?_ (List.Nodup.of_map _ hkeys)).mpr
  · intro e
    simp only [List.mem_filterMap]
    constructor
    · rintro ⟨v, _, hv⟩
      exact (findInitializer_some initializers _ e hv).1
    · intro he
      obtain ⟨v, hv, hname⟩ := List.mem_map.mp (hsub e he)
      exact ⟨v, hv, by rw [hname]; exact findInitializer_mem initializers hkeys e he⟩
  · apply List.Nodup.of_map Prod.fst
    rw [filterMap_findInitializer_keys]
    exact hnames.filter _

theorem encodedInitializer_name (use_external_data_format : Bool) (onnx_file_path : String) :
    ∀ (entries : List (String × Tensor)) (records : List TensorProto),
      List.Forall₂ (encodedInitializer use_external_data_format onnx_file_path) entries
        records →
      List.Forall₂ (fun e p => p.name = some e.1 ∧
        encodedInitializer use_external_data_format onnx_file_path e p) entries records
  | _, _, .nil => .nil
  | _, _, .cons hr hrest => by
    refine .cons ⟨?_, hr⟩ (encodedInitializer_name use_external_data_format onnx_file_path _ _
      hrest)
    obtain ⟨enc, fs, q, hq, hp⟩ := hr
    rw [← hp]
    exact EncodeTensor_name enc fs _ _ _ _ _ q hq

/-- C32: after a session that succeeded with initializers whose keys are names
of inputs of the root block, the field `initializer` of the root graph record
holds exactly one tensor record per entry of the initializers, named by the key
of the entry and holding the encoding of its tensor, and the records stand in
the order of the inputs that they back. The keys of the initializers are
distinct, as the keys of a `std::map` are, and so are the names of the inputs,
as the names of the values of a graph are. -/
theorem C32_initializer_records (ext : Externals) (graph : Graph) (onnx_opset_version : Int)
    (operator_export_type : OperatorExportTypes) (initializers : Initializers)
    (dynamic_axes : DynamicAxes) (defer_weight_export strip_doc : Bool)
    (keep_initializers_as_inputs : Bool) (custom_opsets : List (String × Int))
    (add_node_names use_external_data_format : Bool) (onnx_file_path : String)
    (val_attr_to_name : Value → Option String)
    (node_attr_to_name : Node → Option (String → Option String)) (fs : FileSystem)
    (session : Session)
    (hkeys : (initializers.map Prod.fst).Nodup)
    (hnames : (graph.block.inputs.map Value.debugName).Nodup)
    (hsub : ∀ e ∈ initializers, e.1 ∈ graph.block.inputs.map Value.debugName)
    (h : (GraphEncoder.construct ext graph onnx_opset_version operator_export_type
      initializers dynamic_axes defer_weight_export strip_doc keep_initializers_as_inputs
      custom_opsets add_node_names use_external_data_format onnx_file_path val_attr_to_name
      node_attr_to_name fs).result = .ok session) :
    ∃ g backed,
      session.encoder.model_proto_.graph = some g ∧
      backed =
        graph.block.inputs.filterMap (fun v => findInitializer initializers v.debugName) ∧
      backed.Perm initializers ∧
      backed.map Prod.fst =
        (graph.block.inputs.map Value.debugName).filter
          (fun n => decide (n ∈ initializers.map Prod.fst)) ∧
      List.Forall₂ (fun e p => p.name = some e.1 ∧
        encodedInitializer session.encoder.use_external_data_format_ onnx_file_path e p)
        backed g.initializer := by
  obtain ⟨p, r, hp, hr, hs⟩ := construct_ok ext graph onnx_opset_version operator_export_type
    initializers dynamic_axes defer_weight_export strip_doc keep_initializers_as_inputs
    custom_opsets add_node_names use_external_data_format onnx_file_path val_attr_to_name
    node_attr_to_name fs session h
  have hpe := prepare_ok ext graph onnx_opset_version operator_export_type initializers
    defer_weight_export strip_doc custom_opsets use_external_data_format onnx_file_path
    val_attr_to_name node_attr_to_name p hp
  have hgraph : p.encoder.model_proto_.graph.getD GraphProto.empty = GraphProto.empty := by
    rw [hpe]
    rfl
  rw [hgraph] at hr
  obtain ⟨ins, outs, vis, records, inits, hg, _, _, hinits⟩ := EncodeBlock_grows
    p.use_external_data_format onnx_file_path true initializers dynamic_axes
    keep_initializers_as_inputs add_node_names _ p.encoder fs GraphProto.empty r hr
  rw [validateGraph_inputs] at hinits
  have hkeep := (EncodeBlock_counter p.use_external_data_format onnx_file_path true
    initializers dynamic_axes keep_initializers_as_inputs add_node_names p.encoder fs _ r _
    hr).1.2.2.2.1
  have hflag : session.encoder.use_external_data_format_ = p.use_external_data_format := by
    rw [hs]
    refine hkeep.trans ?_
    rw [hpe]
  have hinit : r.value.initializer = inits := by
    rw [hg.2.2.2.2]
    rfl
  refine ⟨r.value, _, ?_, rfl, filterMap_findInitializer_perm initializers graph.block.inputs
    hkeys hnames hsub, filterMap_findInitializer_keys initializers graph.block.inputs, ?_⟩
  · rw [hs, addDomainImports_eq]
  · rw [hflag, hinit]
    exact encodedInitializer_name p.use_external_data_format onnx_file_path _ _ hinits

/-- C32, witness: the graph with the inputs `x` and `w` and the initializer
`w`. -/
theorem C32_initializer_records_witness :
    ∃ session g,
      (GraphEncoder.construct exampleExternals exampleInitializerGraph 13 .ONNX
        [("w", exampleScalarTensor)] (fun _ => none) false false true [] false false ""
        (fun _ => none) (fun _ => none) {}).result = .ok session ∧
      session.encoder.model_proto_.graph = some g ∧
      g.initializer.map (fun p => p.name) = [some "w"] := by
  obtain ⟨session, hsession⟩ := exists_ok_of_threw_eq_false
    (GraphEncoder.construct exampleExternals exampleInitializerGraph 13 .ONNX
      [("w", exampleScalarTensor)] (fun _ => none) false false true [] false false ""
      (fun _ => none) (fun _ => none) {}).result (by decide!)
  obtain ⟨g, backed, hg, hbacked, _, _, hall⟩ := C32_initializer_records exampleExternals
    exampleInitializerGraph 13 .ONNX [("w", exampleScalarTensor)] (fun _ => none) false false
    true [] false false "" (fun _ => none) (fun _ => none) {} session (by decide) (by decide)
    (by decide) hsession
  refine ⟨session, g, hsession, hg, ?_⟩
  have hb : backed = [("w", exampleScalarTensor)] := by
    rw [hbacked]
    rfl
  rw [hb] at hall
  generalize g.initializer = inits at hall
  cases hall with
  | cons h1 h2 =>
    cases h2
    simp [h1.1]

theorem EncodeBlock_header_steps (R : GraphEncoder → GraphEncoder → Prop)
    (hR : GraphEncoder.StepClosed R) (initializers : Initializers)
    (dynamic_axes : DynamicAxes) (keep_initializers_as_inputs : Bool)
    (inputs outputs : List Value) (enc : GraphEncoder) (graph_proto : GraphProto)
    (r : GraphProto × GraphEncoder)
    (h : EncodeBlock_header initializers dynamic_axes keep_initializers_as_inputs inputs
      outputs enc graph_proto = .ok r) : R enc r.2 := by
  obtain ⟨_, h2⟩ := EncodeBlock_header_ok initializers dynamic_axes
    keep_initializers_as_inputs inputs outputs enc graph_proto r h
  rw [h2]
  exact hR.trans _ _ _ (hR.blocks enc (enc.num_blocks_ + 1)) (hR.dims _ r.2.symbol_dim_map_)

theorem AddInitializersIntoGraphProto_steps (R : GraphEncoder → GraphEncoder → Prop)
    (hR : GraphEncoder.StepClosed R) (enc : GraphEncoder) (fs : FileSystem)
    (graph_proto : GraphProto) (block : Block) (initializers : Initializers)
    (use_external_data_format : Bool) (onnx_file_path : String) (r : Encoded GraphProto)
    (h : AddInitializersIntoGraphProto enc fs graph_proto block initializers
      use_external_data_format onnx_file_path = .ok r) : R enc r.encoder := by
  obtain ⟨_, h2⟩ := AddInitializersIntoGraphProto_ok enc fs graph_proto block initializers
    use_external_data_format onnx_file_path r h
  rw [h2]
  exact hR.raw enc _

theorem EncodeNode_header_steps (R : GraphEncoder → GraphEncoder → Prop)
    (hR : GraphEncoder.StepClosed R) (in_graph_ add_node_names : Bool) (node : Node)
    (enc : GraphEncoder) (graph_proto : GraphProto) (node_proto : NodeProto)
    (r : EncodedHeader)
    (h : EncodeNode_header in_graph_ add_node_names node enc graph_proto node_proto = .ok r) :
    R enc r.encoder := by
  obtain ⟨added, m, _, h2⟩ := EncodeNode_header_ok in_graph_ add_node_names node enc
    graph_proto node_proto r h
  rw [h2]
  have h1 := hR.dims enc m
  cases node.kind.is_onnx
  · have h3 := hR.trans _ _ _ h1 (hR.domain _ (EncodeNode_domain node.kind))
    exact hR.trans _ _ _ h3 (hR.nodes _ (if add_node_names then enc.num_op_nodes_ + 1
      else enc.num_op_nodes_))
  · exact hR.trans _ _ _ h1 (hR.nodes _ (if add_node_names then enc.num_op_nodes_ + 1
      else enc.num_op_nodes_))

theorem AddAttribute_tensor_steps (R : GraphEncoder → GraphEncoder → Prop)
    (hR : GraphEncoder.StepClosed R) (enc : GraphEncoder) (fs : FileSystem)
    (node_proto : NodeProto) (name : Symbol) (tensor : Tensor)
    (use_external_data_format : Bool) (onnx_file_path : String) (r : EncodedTensor)
    (h : AddAttribute_tensor enc fs node_proto name tensor use_external_data_format
      onnx_file_path = .ok r) : R enc r.encoder := by
  obtain ⟨_, h2⟩ := AddAttribute_tensor_ok enc fs node_proto name tensor
    use_external_data_format onnx_file_path r h
  rw [h2]
  cases use_external_data_format
  · exact hR.refl enc
  · exact hR.external enc _

theorem AddAttribute_tensors_steps (R : GraphEncoder → GraphEncoder → Prop)
    (hR : GraphEncoder.StepClosed R) (node_proto : NodeProto) (name : Symbol)
    (use_external_data_format : Bool) (onnx_file_path : String) :
    ∀ (vs : List Tensor) (enc : GraphEncoder) (fs : FileSystem) (tensors : List TensorProto)
      (r : EncodedTensors),
      AddAttribute_tensors node_proto name use_external_data_format onnx_file_path vs enc fs
        tensors = .ok r → R enc r.encoder
  | [], enc, fs, tensors, r, h => by
    simp [AddAttribute_tensors] at h
    rw [← h]
    exact hR.refl enc
  | v :: rest, enc, fs, tensors, r, h => by
    simp only [AddAttribute_tensors, bind, Except.bind] at h
    split at h
    · contradiction
    · rename_i q hq
      exact hR.trans _ _ _ (AddAttribute_tensor_steps R hR enc fs node_proto name v
        use_external_data_format onnx_file_path q hq)
        (AddAttribute_tensors_steps R hR node_proto name use_external_data_format
          onnx_file_path rest q.encoder q.fs _ r h)

theorem EncodeLocalFunction_header_steps (R : GraphEncoder → GraphEncoder → Prop)
    (hR : GraphEncoder.StepClosed R) (attributes : List (Symbol × AttributeValue))
    (inputs outputs : List Value)
    (enc : GraphEncoder) (func_proto : FunctionProto) (r : FunctionProto × GraphEncoder)
    (h : EncodeLocalFunction_header attributes inputs outputs enc func_proto = .ok r) :
    R enc r.2 := by
  unfold EncodeLocalFunction_header at h
  simp only [bind, Except.bind, pure, Except.pure] at h
  repeat' split at h
  all_goals first
    | contradiction
    | (simp only [Except.ok.injEq] at h
       rw [← h]
       exact hR.domain enc _)

theorem EncodeLocalFunctionOpsetImport_node_steps (R : GraphEncoder → GraphEncoder → Prop)
    (hR : GraphEncoder.StepClosed R) (kind : Symbol) (st : OpsetImports) :
    R st.encoder (EncodeLocalFunctionOpsetImport_node kind st).encoder := by
  unfold EncodeLocalFunctionOpsetImport_node
  dsimp only
  split
  · split <;> exact hR.domain st.encoder _
  · exact hR.refl _

mutual
theorem EncodeLocalFunctionOpsetImport_steps (R : GraphEncoder → GraphEncoder → Prop)
    (hR : GraphEncoder.StepClosed R) :
    ∀ (n : Node) (st : OpsetImports),
      R st.encoder (EncodeLocalFunctionOpsetImport n st).encoder
  | .mk kind inputs outputs blocks attributes isNone sr py, st => by
    simp only [EncodeLocalFunctionOpsetImport]
    exact hR.trans _ _ _ (EncodeLocalFunctionOpsetImport_node_steps R hR kind st)
      (EncodeLocalFunctionOpsetImport_blocks_steps R hR blocks _)
theorem EncodeLocalFunctionOpsetImport_blocks_steps (R : GraphEncoder → GraphEncoder → Prop)
    (hR : GraphEncoder.StepClosed R) :
    ∀ (blocks : List Block) (st : OpsetImports),
      R st.encoder (EncodeLocalFunctionOpsetImport_blocks blocks st).encoder
  | [], st => by
    simp only [EncodeLocalFunctionOpsetImport_blocks]
    exact hR.refl _
  | .mk inputs outputs nodes :: rest, st => by
    simp only [EncodeLocalFunctionOpsetImport_blocks]
    exact hR.trans _ _ _ (EncodeLocalFunctionOpsetImport_nodes_steps R hR nodes st)
      (EncodeLocalFunctionOpsetImport_blocks_steps R hR rest _)
theorem EncodeLocalFunctionOpsetImport_nodes_steps (R : GraphEncoder → GraphEncoder → Prop)
    (hR : GraphEncoder.StepClosed R) :
    ∀ (nodes : List Node) (st : OpsetImports),
      R st.encoder (EncodeLocalFunctionOpsetImport_nodes nodes st).encoder
  | [], st => by
    simp only [EncodeLocalFunctionOpsetImport_nodes]
    exact hR.refl _
  | n :: rest, st => by
    simp only [EncodeLocalFunctionOpsetImport_nodes]
    exact hR.trans _ _ _ (EncodeLocalFunctionOpsetImport_steps R hR n st)
      (EncodeLocalFunctionOpsetImport_nodes_steps R hR rest _)
end

mutual
/-- A relation that holds across every single write to the encoder holds from
the state in which `EncodeBlock` is called to the state it leaves when it
returns; the theorems that follow say the same of the other methods of the
encoder. -/
theorem EncodeBlock_steps (R : GraphEncoder → GraphEncoder → Prop)
    (hR : GraphEncoder.StepClosed R) (use_external_data_format : Bool) (onnx_file_path : String)
    (in_graph_ : Bool) (initializers : Initializers) (dynamic_axes : DynamicAxes)
    (keep_initializers_as_inputs add_node_names : Bool) (enc : GraphEncoder)
    (fs : FileSystem) (graph_proto : GraphProto) (r : Encoded GraphProto) :
    ∀ (block : Block),
    EncodeBlock use_external_data_format onnx_file_path in_graph_ initializers dynamic_axes
        keep_initializers_as_inputs
      add_node_names block enc fs graph_proto = .ok r →
    R enc r.encoder
  | .mk inputs outputs nodes, h => by
    simp only [EncodeBlock, bind, Except.bind] at h
    split at h
    · contradiction
    · rename_i hd hhd
      split at h
      · contradiction
      · rename_i q hq
        have h1 := EncodeBlock_header_steps R hR initializers dynamic_axes
          keep_initializers_as_inputs inputs outputs enc graph_proto hd hhd
        have h2 := EncodeBlock_nodes_steps R hR use_external_data_format onnx_file_path in_graph_
            add_node_names hd.2 fs hd.1 q
          nodes hq
        have h3 := AddInitializersIntoGraphProto_steps R hR q.encoder q.fs q.value _
          initializers use_external_data_format onnx_file_path r h
        exact hR.trans _ _ _ (hR.trans _ _ _ h1 h2) h3
theorem EncodeBlock_nodes_steps (R : GraphEncoder → GraphEncoder → Prop)
    (hR : GraphEncoder.StepClosed R) (use_external_data_format : Bool) (onnx_file_path : String)
    (in_graph_ add_node_names : Bool) (enc : GraphEncoder) (fs : FileSystem)
    (graph_proto : GraphProto) (r : Encoded GraphProto) : ∀ (nodes : List Node),
    EncodeBlock_nodes use_external_data_format onnx_file_path in_graph_ add_node_names nodes enc fs
        graph_proto = .ok r →
    R enc r.encoder
  | [], h => by
    simp only [EncodeBlock_nodes, Except.ok.injEq] at h
    rw [← h]
    exact hR.refl enc
  | .mk kind inputs outputs blocks attributes isNone sr py :: rest, h => by
    simp only [EncodeBlock_nodes] at h
    by_cases hn : isNone = true
    · rw [if_pos hn] at h
      exact EncodeBlock_nodes_steps R hR use_external_data_format onnx_file_path in_graph_
          add_node_names enc fs graph_proto r rest h
    · rw [if_neg hn] at h
      by_cases hk : kind = onnx_LocalFunctionDef
      · rw [if_pos hk] at h
        simp only [bind, Except.bind] at h
        split at h
        · contradiction
        · rename_i q hq
          have h0 := hR.functions enc (enc.model_proto_.functions ++ [({} : FunctionProto)])
          have h1 := EncodeLocalFunction_steps R hR use_external_data_format onnx_file_path
              add_node_names attributes _ fs
            graph_proto {} q attributes hq
          have h3 := hR.functions q.encoder
            (q.encoder.model_proto_.functions.set enc.model_proto_.functions.length
              q.func_proto)
          have h2 := EncodeBlock_nodes_steps R hR use_external_data_format onnx_file_path in_graph_
              add_node_names _ _ _ r rest h
          exact hR.trans _ _ _ (hR.trans _ _ _ (hR.trans _ _ _ h0 h1) h3) h2
      · rw [if_neg hk] at h
        simp only [bind, Except.bind] at h
        split at h
        · contradiction
        · rename_i q hq
          have h1 := EncodeNode_steps R hR use_external_data_format onnx_file_path in_graph_
              add_node_names enc fs graph_proto {} q
            _ hq
          have h2 := EncodeBlock_nodes_steps R hR use_external_data_format onnx_file_path in_graph_
              add_node_names _ _ _ r rest h
          exact hR.trans _ _ _ h1 h2
theorem EncodeNode_steps (R : GraphEncoder → GraphEncoder → Prop)
    (hR : GraphEncoder.StepClosed R) (use_external_data_format : Bool) (onnx_file_path : String)
    (in_graph_ add_node_names : Bool) (enc : GraphEncoder) (fs : FileSystem)
    (graph_proto : GraphProto) (node_proto : NodeProto) (r : EncodedNode) :
    ∀ (node : Node),
    EncodeNode use_external_data_format onnx_file_path in_graph_ add_node_names node enc fs
        graph_proto node_proto = .ok r →
    R enc r.encoder
  | .mk kind inputs outputs blocks attributes isNone sr py, h => by
    obtain ⟨hd, a, l, i, hhd, ha, hl, hi, hr⟩ := EncodeNode_ok use_external_data_format
      onnx_file_path in_graph_ add_node_names _ enc fs graph_proto node_proto r h
    simp only [Node.kind, Node.blocks, Node.attributes] at ha hl hi
    have h1 := EncodeNode_header_steps R hR in_graph_ add_node_names _ enc graph_proto
      node_proto hd hhd
    have h2 := EncodeNode_attributes_steps R hR use_external_data_format onnx_file_path _
        hd.encoder fs hd.node_proto a attributes
      ha
    have h12 := hR.trans _ _ _ h1 h2
    rw [hr]
    by_cases hL : kind = onnx_Loop
    · have hI : ¬ kind = onnx_If := by rw [hL]; decide
      rw [if_pos hL] at hl
      rw [if_neg hI] at hi
      rw [hi]
      exact hR.trans _ _ _ h12 (EncodeNode_Loop_steps R hR use_external_data_format onnx_file_path
          in_graph_ a.encoder a.fs a.value
        l blocks hl)
    · rw [if_neg hL] at hl
      by_cases hI : kind = onnx_If
      · rw [if_pos hI] at hi
        have h3 := EncodeNode_If_steps R hR use_external_data_format onnx_file_path in_graph_
            l.encoder l.fs l.value i blocks hi
        rw [hl] at h3
        exact hR.trans _ _ _ h12 h3
      · rw [if_neg hI] at hi
        rw [hi, hl]
        exact h12
theorem EncodeNode_attributes_steps (R : GraphEncoder → GraphEncoder → Prop)
    (hR : GraphEncoder.StepClosed R) (use_external_data_format : Bool) (onnx_file_path : String)
    (attrs_it : Option (String → Option String)) (enc : GraphEncoder) (fs : FileSystem)
    (node_proto : NodeProto) (r : Encoded NodeProto) :
    ∀ (attributes : List (Symbol × AttributeValue)),
    EncodeNode_attributes use_external_data_format onnx_file_path attrs_it attributes enc fs
        node_proto = .ok r →
    R enc r.encoder
  | [], h => by
    simp only [EncodeNode_attributes, Except.ok.injEq] at h
    rw [← h]
    exact hR.refl enc
  | (attr_name, value) :: rest, h => by
    simp only [EncodeNode_attributes] at h
    split at h
    · simp only [bind, Except.bind] at h
      split at h
      · contradiction
      · exact EncodeNode_attributes_steps R hR use_external_data_format onnx_file_path attrs_it enc
          fs _ r rest h
    · simp only [bind, Except.bind] at h
      split at h
      · contradiction
      · rename_i q hq
        have h1 := AddAttribute_steps R hR use_external_data_format onnx_file_path attr_name enc fs
            node_proto q value hq
        have h2 := EncodeNode_attributes_steps R hR use_external_data_format onnx_file_path
            attrs_it q.encoder q.fs q.value r rest h
        exact hR.trans _ _ _ h1 h2
theorem AddAttribute_steps (R : GraphEncoder → GraphEncoder → Prop)
    (hR : GraphEncoder.StepClosed R) (use_external_data_format : Bool) (onnx_file_path : String)
    (name : Symbol) (enc : GraphEncoder) (fs : FileSystem) (node_proto : NodeProto)
    (r : Encoded NodeProto) : ∀ (value : AttributeValue),
    AddAttribute use_external_data_format onnx_file_path name value enc fs node_proto = .ok r →
    R enc r.encoder
  | .g (.mk block nu), h => by
    simp only [AddAttribute, EncodeGraph, bind, Except.bind, pure, Except.pure] at h
    split at h
    · contradiction
    · split at h
      · contradiction
      · rename_i q hq
        simp only [Except.ok.injEq] at h
        rw [← h]
        exact EncodeBlock_steps R hR use_external_data_format onnx_file_path false [] (fun _ =>
            none) true true enc fs
          GraphProto.empty q block hq
  | .gs graphs, h => by
    simp only [AddAttribute, bind, Except.bind, pure, Except.pure] at h
    split at h
    · contradiction
    · split at h
      · contradiction
      · rename_i q hq
        simp only [Except.ok.injEq] at h
        rw [← h]
        exact AddAttribute_graphs_steps R hR use_external_data_format onnx_file_path enc fs _ q
            graphs hq
  | .t v, h => by
    simp only [AddAttribute, bind, Except.bind, pure, Except.pure] at h
    split at h
    · contradiction
    · split at h
      · contradiction
      · rename_i q hq
        simp only [Except.ok.injEq] at h
        rw [← h]
        exact AddAttribute_tensor_steps R hR enc fs _ name v use_external_data_format
          onnx_file_path q hq
  | .ts vs, h => by
    simp only [AddAttribute, bind, Except.bind, pure, Except.pure] at h
    split at h
    · contradiction
    · split at h
      · contradiction
      · rename_i q hq
        simp only [Except.ok.injEq] at h
        rw [← h]
        exact AddAttribute_tensors_steps R hR _ name use_external_data_format onnx_file_path
          vs enc fs _ q hq
  | .f v, h => by
    simp only [AddAttribute, bind, Except.bind, pure, Except.pure] at h
    split at h
    · contradiction
    · simp only [Except.ok.injEq] at h
      rw [← h]
      exact hR.refl enc
  | .fs v, h => by
    simp only [AddAttribute, bind, Except.bind, pure, Except.pure] at h
    split at h
    · contradiction
    · simp only [Except.ok.injEq] at h
      rw [← h]
      exact hR.refl enc
  | .i v, h => by
    simp only [AddAttribute, bind, Except.bind, pure, Except.pure] at h
    split at h
    · contradiction
    · simp only [Except.ok.injEq] at h
      rw [← h]
      exact hR.refl enc
  | .is v, h => by
    simp only [AddAttribute, bind, Except.bind, pure, Except.pure] at h
    split at h
    · contradiction
    · simp only [Except.ok.injEq] at h
      rw [← h]
      exact hR.refl enc
  | .s v, h => by
    simp only [AddAttribute, bind, Except.bind, pure, Except.pure] at h
    split at h
    · contradiction
    · simp only [Except.ok.injEq] at h
      rw [← h]
      exact hR.refl enc
  | .ss v, h => by
    simp only [AddAttribute, bind, Except.bind, pure, Except.pure] at h
    split at h
    · contradiction
    · simp only [Except.ok.injEq] at h
      rw [← h]
      exact hR.refl enc
  | .other kindName, h => by
    simp only [AddAttribute, bind, Except.bind] at h
    split at h <;> contradiction
theorem AddAttribute_graphs_steps (R : GraphEncoder → GraphEncoder → Prop)
    (hR : GraphEncoder.StepClosed R) (use_external_data_format : Bool) (onnx_file_path : String)
    (enc : GraphEncoder) (fs : FileSystem) (graphs : List GraphProto)
    (r : Encoded (List GraphProto)) : ∀ (vs : List Graph),
    AddAttribute_graphs use_external_data_format onnx_file_path vs enc fs graphs = .ok r →
    R enc r.encoder
  | [], h => by
    simp only [AddAttribute_graphs, Except.ok.injEq] at h
    rw [← h]
    exact hR.refl enc
  | .mk block nu :: rest, h => by
    simp only [AddAttribute_graphs, EncodeGraph, bind, Except.bind] at h
    split at h
    · contradiction
    · rename_i q hq
      have h1 := EncodeBlock_steps R hR use_external_data_format onnx_file_path false [] (fun _ =>
          none) true true enc fs
        GraphProto.empty q block hq
      have h2 := AddAttribute_graphs_steps R hR use_external_data_format onnx_file_path q.encoder
          q.fs _ r rest h
      exact hR.trans _ _ _ h1 h2
theorem EncodeNode_Loop_steps (R : GraphEncoder → GraphEncoder → Prop)
    (hR : GraphEncoder.StepClosed R) (use_external_data_format : Bool) (onnx_file_path : String)
    (in_graph_ : Bool) (enc : GraphEncoder) (fs : FileSystem) (node_proto : NodeProto)
    (r : Encoded NodeProto) : ∀ (blocks : List Block),
    EncodeNode_Loop use_external_data_format onnx_file_path in_graph_ blocks enc fs node_proto =
        .ok r →
    R enc r.encoder
  | [], h => by simp [EncodeNode_Loop] at h
  | [body_block], h => by
    simp only [EncodeNode_Loop, bind, Except.bind, pure, Except.pure] at h
    split at h
    · contradiction
    · rename_i q hq
      simp only [Except.ok.injEq] at h
      rw [← h]
      exact EncodeBlock_steps R hR use_external_data_format onnx_file_path in_graph_ [] (fun _ =>
          none) true true enc fs
        GraphProto.empty q body_block hq
  | _ :: _ :: _, h => by simp [EncodeNode_Loop] at h
theorem EncodeNode_If_steps (R : GraphEncoder → GraphEncoder → Prop)
    (hR : GraphEncoder.StepClosed R) (use_external_data_format : Bool) (onnx_file_path : String)
    (in_graph_ : Bool) (enc : GraphEncoder) (fs : FileSystem) (node_proto : NodeProto)
    (r : Encoded NodeProto) : ∀ (blocks : List Block),
    EncodeNode_If use_external_data_format onnx_file_path in_graph_ blocks enc fs node_proto = .ok
        r →
    R enc r.encoder
  | [], h => by simp [EncodeNode_If] at h
  | [_], h => by simp [EncodeNode_If] at h
  | [then_block, else_block], h => by
    simp only [EncodeNode_If, bind, Except.bind, pure, Except.pure] at h
    split at h
    · contradiction
    · rename_i t ht
      split at h
      · contradiction
      · rename_i e he
        simp only [Except.ok.injEq] at h
        rw [← h]
        have h1 := EncodeBlock_steps R hR use_external_data_format onnx_file_path in_graph_ [] (fun
            _ => none) true true enc fs
          GraphProto.empty t then_block ht
        have h2 := EncodeBlock_steps R hR use_external_data_format onnx_file_path in_graph_ [] (fun
            _ => none) true true t.encoder
          t.fs GraphProto.empty e else_block he
        exact hR.trans _ _ _ h1 h2
  | _ :: _ :: _ :: _, h => by simp [EncodeNode_If] at h
theorem EncodeLocalFunction_steps (R : GraphEncoder → GraphEncoder → Prop)
    (hR : GraphEncoder.StepClosed R) (use_external_data_format : Bool) (onnx_file_path : String)
    (add_node_names : Bool) (attributes : List (Symbol × AttributeValue))
    (enc : GraphEncoder) (fs : FileSystem) (graph_proto : GraphProto)
    (func_proto : FunctionProto) (r : EncodedFunction) :
    ∀ (search : List (Symbol × AttributeValue)),
    EncodeLocalFunction use_external_data_format onnx_file_path add_node_names attributes search
        enc fs graph_proto func_proto =
      .ok r →
    R enc r.encoder
  | [], h => by simp [EncodeLocalFunction] at h
  | (key, .g (.mk (.mk inputs outputs nodes) nu)) :: rest, h => by
    simp only [EncodeLocalFunction] at h
    split at h
    · simp only [bind, Except.bind] at h
      split at h
      · contradiction
      · rename_i hd hhd
        have h1 := EncodeLocalFunction_header_steps R hR attributes inputs outputs enc
          func_proto hd hhd
        have h2 := EncodeLocalFunction_nodes_steps R hR use_external_data_format onnx_file_path
            add_node_names hd.2 fs graph_proto
          hd.1 [] r nodes h
        exact hR.trans _ _ _ h1 h2
    · exact EncodeLocalFunction_steps R hR use_external_data_format onnx_file_path add_node_names
        attributes enc fs graph_proto
        func_proto r rest h
  | (key, .gs v) :: rest, h => by
    simp only [EncodeLocalFunction] at h
    split at h
    · contradiction
    · exact EncodeLocalFunction_steps R hR use_external_data_format onnx_file_path add_node_names
        attributes enc fs graph_proto
        func_proto r rest h
  | (key, .f v) :: rest, h => by
    simp only [EncodeLocalFunction] at h
    split at h
    · contradiction
    · exact EncodeLocalFunction_steps R hR use_external_data_format onnx_file_path add_node_names
        attributes enc fs graph_proto
        func_proto r rest h
  | (key, .fs v) :: rest, h => by
    simp only [EncodeLocalFunction] at h
    split at h
    · contradiction
    · exact EncodeLocalFunction_steps R hR use_external_data_format onnx_file_path add_node_names
        attributes enc fs graph_proto
        func_proto r rest h
  | (key, .i v) :: rest, h => by
    simp only [EncodeLocalFunction] at h
    split at h
    · contradiction
    · exact EncodeLocalFunction_steps R hR use_external_data_format onnx_file_path add_node_names
        attributes enc fs graph_proto
        func_proto r rest h
  | (key, .is v) :: rest, h => by
    simp only [EncodeLocalFunction] at h
    split at h
    · contradiction
    · exact EncodeLocalFunction_steps R hR use_external_data_format onnx_file_path add_node_names
        attributes enc fs graph_proto
        func_proto r rest h
  | (key, .s v) :: rest, h => by
    simp only [EncodeLocalFunction] at h
    split at h
    · contradiction
    · exact EncodeLocalFunction_steps R hR use_external_data_format onnx_file_path add_node_names
        attributes enc fs graph_proto
        func_proto r rest h
  | (key, .ss v) :: rest, h => by
    simp only [EncodeLocalFunction] at h
    split at h
    · contradiction
    · exact EncodeLocalFunction_steps R hR use_external_data_format onnx_file_path add_node_names
        attributes enc fs graph_proto
        func_proto r rest h
  | (key, .t v) :: rest, h => by
    simp only [EncodeLocalFunction] at h
    split at h
    · contradiction
    · exact EncodeLocalFunction_steps R hR use_external_data_format onnx_file_path add_node_names
        attributes enc fs graph_proto
        func_proto r rest h
  | (key, .ts v) :: rest, h => by
    simp only [EncodeLocalFunction] at h
    split at h
    · contradiction
    · exact EncodeLocalFunction_steps R hR use_external_data_format onnx_file_path add_node_names
        attributes enc fs graph_proto
        func_proto r rest h
  | (key, .other v) :: rest, h => by
    simp only [EncodeLocalFunction] at h
    split at h
    · contradiction
    · exact EncodeLocalFunction_steps R hR use_external_data_format onnx_file_path add_node_names
        attributes enc fs graph_proto
        func_proto r rest h
theorem EncodeLocalFunction_nodes_steps (R : GraphEncoder → GraphEncoder → Prop)
    (hR : GraphEncoder.StepClosed R) (use_external_data_format : Bool) (onnx_file_path : String)
    (add_node_names : Bool) (enc : GraphEncoder) (fs : FileSystem) (graph_proto : GraphProto)
    (func_proto : FunctionProto) (custom_domains : List String) (r : EncodedFunction) :
    ∀ (nodes : List Node),
    EncodeLocalFunction_nodes use_external_data_format onnx_file_path add_node_names nodes enc fs
        graph_proto func_proto
      custom_domains = .ok r →
    R enc r.encoder
  | [], h => by
    simp only [EncodeLocalFunction_nodes, Except.ok.injEq] at h
    rw [← h]
    exact hR.refl enc
  | .mk kind inputs outputs blocks attributes isNone sr py :: rest, h => by
    simp only [EncodeLocalFunction_nodes] at h
    by_cases hn : isNone = true
    · rw [if_pos hn] at h
      exact EncodeLocalFunction_nodes_steps R hR use_external_data_format onnx_file_path
          add_node_names enc fs graph_proto
        func_proto custom_domains r rest h
    · rw [if_neg hn] at h
      simp only [bind, Except.bind] at h
      split at h
      · contradiction
      · rename_i q hq
        have h1 := EncodeNode_steps R hR use_external_data_format onnx_file_path false
            add_node_names enc fs graph_proto {} q _ hq
        have h3 := EncodeLocalFunctionOpsetImport_steps R hR
          (.mk kind inputs outputs blocks attributes isNone sr py)
          { func_proto := { func_proto with node := func_proto.node ++ [q.node_proto] }
            custom_domains := custom_domains, encoder := q.encoder }
        have h2 := EncodeLocalFunction_nodes_steps R hR use_external_data_format onnx_file_path
            add_node_names _ _ _ _ _ r rest h
        exact hR.trans _ _ _ (hR.trans _ _ _ h1 h3) h2
end

theorem mem_insertDomain (d x : String) (l : List String) :
    x ∈ insertDomain d l ↔ x = d ∨ x ∈ l := by
  induction l with
  | nil => simp [insertDomain]
  | cons c rest ih =>
    simp only [insertDomain]
    split
    · simp
    · split
      · rename_i heq
        simp only [List.mem_cons]
        constructor
        · exact fun h => Or.inr h
        · rintro (h | h)
          · exact Or.inl (h.trans heq)
          · exact h
      · simp only [List.mem_cons, ih]
        tauto

theorem insertDomain_sorted (d : String) (l : List String) (h : l.Pairwise (· < ·)) :
    (insertDomain d l).Pairwise (· < ·) := by
  induction l with
  | nil => simp [insertDomain]
  | cons c rest ih =>
    rw [List.pairwise_cons] at h
    simp only [insertDomain]
    split
    · rename_i hlt
      refine List.Pairwise.cons ?_ (List.Pairwise.cons h.1 h.2)
      intro x hx
      rcases List.mem_cons.mp hx with hx | hx
      · rw [hx]
        exact hlt
      · exact lt_trans hlt (h.1 x hx)
    · split
      · exact List.Pairwise.cons h.1 h.2
      · rename_i hnlt hne
        refine List.Pairwise.cons ?_ (ih h.2)
        intro x hx
        rcases (mem_insertDomain d x rest).mp hx with hx | hx
        · rw [hx]
          exact lt_of_le_of_ne (not_lt.mp hnlt) (fun hcd => hne hcd.symm)
        · exact h.1 x hx

theorem registryGrows_stepClosed : GraphEncoder.StepClosed GraphEncoder.registryGrows where
  refl := fun _ => ⟨rfl, rfl, id, fun _ hd => hd⟩
  trans := fun _ _ _ h1 h2 =>
    ⟨h2.1.trans h1.1, h2.2.1.trans h1.2.1, fun hs => h2.2.2.1 (h1.2.2.1 hs),
      fun d hd => h2.2.2.2 d (h1.2.2.2 d hd)⟩
  dims := fun _ _ => ⟨rfl, rfl, id, fun _ hd => hd⟩
  blocks := fun _ _ => ⟨rfl, rfl, id, fun _ hd => hd⟩
  nodes := fun _ _ => ⟨rfl, rfl, id, fun _ hd => hd⟩
  external := fun _ _ => ⟨rfl, rfl, id, fun _ hd => hd⟩
  domain := fun a d =>
    ⟨rfl, rfl, fun hs => insertDomain_sorted d a.domains_ hs,
      fun x hx => (mem_insertDomain d x a.domains_).mpr (Or.inr hx)⟩
  raw := fun _ _ => ⟨rfl, rfl, id, fun _ hd => hd⟩
  functions := fun _ _ => ⟨rfl, rfl, id, fun _ hd => hd⟩

/-- A list of strings in ascending order is determined by its elements. -/
theorem sorted_unique (l₁ l₂ : List String) (h₁ : l₁.Pairwise (· < ·))
    (h₂ : l₂.Pairwise (· < ·)) (h : ∀ d, d ∈ l₁ ↔ d ∈ l₂) : l₁ = l₂ := by
  have n₁ : l₁.Nodup := h₁.imp (fun hab => ne_of_lt hab)
  have n₂ : l₂.Nodup := h₂.imp (fun hab => ne_of_lt hab)
  exact List.eq_of_perm_of_sorted ((List.perm_ext_iff_of_nodup n₁ n₂).mpr h) h₁ h₂

/-- C33: after a session that succeeded, the operator-set imports of the model
are the import without a domain at the target version, followed by one import
per domain of the set `domains_`, in ascending order of the domains and each
domain once, at the version that the caller's custom operator sets hold for the
domain, or at version 1. The ascending list of the domains is determined by the
set of the domains, whatever the order in which they were met. An entry of the
custom operator sets whose domain is not in the set adds no import. -/
theorem C33_opset_imports (ext : Externals) (graph : Graph) (onnx_opset_version : Int)
    (operator_export_type : OperatorExportTypes) (initializers : Initializers)
    (dynamic_axes : DynamicAxes) (defer_weight_export strip_doc : Bool)
    (keep_initializers_as_inputs : Bool) (custom_opsets : List (String × Int))
    (add_node_names use_external_data_format : Bool) (onnx_file_path : String)
    (val_attr_to_name : Value → Option String)
    (node_attr_to_name : Node → Option (String → Option String)) (fs : FileSystem)
    (session : Session)
    (h : (GraphEncoder.construct ext graph onnx_opset_version operator_export_type
      initializers dynamic_axes defer_weight_export strip_doc keep_initializers_as_inputs
      custom_opsets add_node_names use_external_data_format onnx_file_path val_attr_to_name
      node_attr_to_name fs).result = .ok session) :
    session.encoder.model_proto_.opset_import =
      { version := some onnx_opset_version } ::
        session.encoder.domains_.map (fun domain =>
          { domain := some domain
            version := some ((custom_opsets.lookup domain).getD 1) }) ∧
    session.encoder.domains_.Pairwise (· < ·) ∧
    (∀ other : List String, other.Pairwise (· < ·) →
      (∀ d, d ∈ other ↔ d ∈ session.encoder.domains_) → other = session.encoder.domains_) ∧
    (∀ imp ∈ session.encoder.model_proto_.opset_import, ∀ d, imp.domain = some d →
      d ∈ session.encoder.domains_) := by
  obtain ⟨p, r, hp, hr, hs⟩ := construct_ok ext graph onnx_opset_version operator_export_type
    initializers dynamic_axes defer_weight_export strip_doc keep_initializers_as_inputs
    custom_opsets add_node_names use_external_data_format onnx_file_path val_attr_to_name
    node_attr_to_name fs session h
  have hpe := prepare_ok ext graph onnx_opset_version operator_export_type initializers
    defer_weight_export strip_doc custom_opsets use_external_data_format onnx_file_path
    val_attr_to_name node_attr_to_name p hp
  obtain ⟨h1, _, h3, _⟩ := EncodeBlock_steps GraphEncoder.registryGrows
    registryGrows_stepClosed p.use_external_data_format onnx_file_path true initializers
    dynamic_axes keep_initializers_as_inputs add_node_names p.encoder fs _ r _ hr
  have himports : r.encoder.model_proto_.opset_import =
      [{ version := some onnx_opset_version }] := by
    rw [h1, hpe]
  have hsorted : r.encoder.domains_.Pairwise (· < ·) := by
    apply h3
    rw [hpe]
    exact List.Pairwise.nil
  have hdomains : session.encoder.domains_ = r.encoder.domains_ := by rw [hs]
  have hlist : session.encoder.model_proto_.opset_import =
      { version := some onnx_opset_version } ::
        session.encoder.domains_.map (fun domain =>
          { domain := some domain
            version := some ((custom_opsets.lookup domain).getD 1) }) := by
    rw [hdomains, hs, addDomainImports_eq]
    simp only [himports, List.singleton_append]
  refine ⟨hlist, hdomains ▸ hsorted,
    fun other ho hmem => sorted_unique other _ ho (hdomains ▸ hsorted) hmem, ?_⟩
  intro imp himp d hd
  rw [hlist] at himp
  rcases List.mem_cons.mp himp with himp | himp
  · rw [himp] at hd
    simp at hd
  · obtain ⟨x, hx, hxi⟩ := List.mem_map.mp himp
    rw [← hxi] at hd
    simp only [Option.some.injEq] at hd
    rw [← hd]
    exact hx

/-- C33, witness: the graph whose nodes are in the domains `zeta` and `alpha`,
met in this order, with custom operator sets for `zeta` and for a domain
`unused` that no node is in: the session returns, and the imports are those of
the default operator set, of `alpha` at version 1 and of `zeta` at version 2. -/
theorem C33_opset_imports_witness :
    (∃ session,
      (GraphEncoder.construct exampleExternals exampleTwoDomainsGraph 13 .ONNX_FALLTHROUGH []
        (fun _ => none) false false true [("unused", 5), ("zeta", 2)] false false ""
        (fun _ => none) (fun _ => none) {}).result = .ok session ∧
      session.encoder.domains_.Pairwise (· < ·) ∧
      ∀ imp ∈ session.encoder.model_proto_.opset_import, imp.domain ≠ some "unused") ∧
    (importsOf exampleTwoDomainsGraph [("unused", 5), ("zeta", 2)] =
      some [{ version := some 13 }, { domain := some "alpha", version := some 1 },
            { domain := some "zeta", version := some 2 }]) := by
  constructor
  · obtain ⟨session, hsession⟩ := exists_ok_of_threw_eq_false
      (GraphEncoder.construct exampleExternals exampleTwoDomainsGraph 13 .ONNX_FALLTHROUGH []
        (fun _ => none) false false true [("unused", 5), ("zeta", 2)] false false ""
        (fun _ => none) (fun _ => none) {}).result (by decide!)
    obtain ⟨_, h2, _, h4⟩ := C33_opset_imports exampleExternals exampleTwoDomainsGraph 13
      .ONNX_FALLTHROUGH [] (fun _ => none) false false true [("unused", 5), ("zeta", 2)] false
      false "" (fun _ => none) (fun _ => none) {} session hsession
    refine ⟨session, hsession, h2, fun imp himp hd => ?_⟩
    have hmem := h4 imp himp "unused" hd
    have hdom : (importsOf exampleTwoDomainsGraph [("unused", 5), ("zeta", 2)]).map
        (fun l => l.filterMap (fun i => i.domain)) = some session.encoder.domains_ := by
      unfold importsOf
      rw [hsession]
      simp only [Option.map_some']
      rw [(C33_opset_imports exampleExternals exampleTwoDomainsGraph 13
        .ONNX_FALLTHROUGH [] (fun _ => none) false false true [("unused", 5), ("zeta", 2)]
        false false "" (fun _ => none) (fun _ => none) {} session hsession).1]
      simp [List.filterMap_map, Function.comp_def]
    have hval : (importsOf exampleTwoDomainsGraph [("unused", 5), ("zeta", 2)]).map
        (fun l => l.filterMap (fun i => i.domain)) = some ["alpha", "zeta"] := by decide!
    rw [hval] at hdom
    simp only [Option.some.injEq] at hdom
    rw [← hdom] at hmem
    simp at hmem
  · decide!

/-- C34, counterexample: the domain `my` is used only by the node in the body
of the local function `f`; it is imported by the function record, after the
default import, and it is also among the imports of the model. -/
theorem C34_counterexample :
    functionImportsOf exampleFunctionGraph [] =
      some [[{ version := some 13 }, { domain := some "my", version := some 1 }]] ∧
    (importsOf exampleFunctionGraph [] =
      some [{ version := some 13 }, { domain := some "fdom", version := some 1 },
            { domain := some "my", version := some 1 }]) := by
  constructor <;> decide!

theorem visited_refl (st : OpsetImports) : st.visited st [] :=
  ⟨rfl, rfl, rfl, fun _ hd => by simp at hd, fun _ hd => hd⟩

theorem visited_trans {a b c : OpsetImports} {ds1 ds2 : List String} (h1 : a.visited b ds1)
    (h2 : b.visited c ds2) : a.visited c (ds1 ++ ds2) := by
  obtain ⟨a1, a2, a3, a4, a5⟩ := h1
  obtain ⟨b1, b2, b3, b4, b5⟩ := h2
  refine ⟨?_, b2.trans a2, b3.trans a3, ?_, fun d hd => b5 d (a5 d hd)⟩
  · rw [b1, a1, a2, List.foldl_append]
  · intro d hd
    rcases List.mem_append.mp hd with hd | hd
    · exact b5 d (a4 d hd)
    · exact b4 d hd

theorem EncodeLocalFunctionOpsetImport_node_visited (kind : Symbol) (st : OpsetImports) :
    st.visited (EncodeLocalFunctionOpsetImport_node kind st)
      (if !kind.is_onnx then [EncodeNode_domain kind] else []) := by
  unfold EncodeLocalFunctionOpsetImport_node
  dsimp only
  cases hk : kind.is_onnx
  · simp only [Bool.not_false, if_true]
    cases hc : st.custom_domains.contains (EncodeNode_domain kind)
    · simp only [Bool.not_false, if_true]
      refine ⟨?_, rfl, rfl, ?_, ?_⟩
      · simp only [OpsetImports.view, List.foldl_cons, List.foldl_nil, addFunctionImport, hc,
          Bool.not_false, if_true]
        cases st.encoder.custom_opsets_.lookup (EncodeNode_domain kind) <;> rfl
      · intro d hd
        simp only [List.mem_singleton] at hd
        exact (mem_insertDomain _ _ _).mpr (Or.inl hd)
      · exact fun d hd => (mem_insertDomain _ _ _).mpr (Or.inr hd)
    · simp only [Bool.not_true, Bool.false_eq_true, if_false]
      refine ⟨?_, rfl, rfl, ?_, ?_⟩
      · simp only [OpsetImports.view, List.foldl_cons, List.foldl_nil, addFunctionImport, hc,
          Bool.not_true, Bool.false_eq_true, if_false]
      · intro d hd
        simp only [List.mem_singleton] at hd
        exact (mem_insertDomain _ _ _).mpr (Or.inl hd)
      · exact fun d hd => (mem_insertDomain _ _ _).mpr (Or.inr hd)
  · simp only [Bool.not_true, Bool.false_eq_true, if_false]
    exact visited_refl st

mutual
theorem EncodeLocalFunctionOpsetImport_visited :
    ∀ (n : Node) (st : OpsetImports),
      st.visited (EncodeLocalFunctionOpsetImport n st)
        (EncodeLocalFunctionOpsetImport_domains n)
  | .mk kind inputs outputs blocks attributes isNone sr py, st => by
    simp only [EncodeLocalFunctionOpsetImport, EncodeLocalFunctionOpsetImport_domains]
    exact visited_trans (EncodeLocalFunctionOpsetImport_node_visited kind st)
      (EncodeLocalFunctionOpsetImport_blocks_visited blocks _)
theorem EncodeLocalFunctionOpsetImport_blocks_visited :
    ∀ (blocks : List Block) (st : OpsetImports),
      st.visited (EncodeLocalFunctionOpsetImport_blocks blocks st)
        (EncodeLocalFunctionOpsetImport_blocks_domains blocks)
  | [], st => by
    simp only [EncodeLocalFunctionOpsetImport_blocks,
      EncodeLocalFunctionOpsetImport_blocks_domains]
    exact visited_refl st
  | .mk inputs outputs nodes :: rest, st => by
    simp only [EncodeLocalFunctionOpsetImport_blocks,
      EncodeLocalFunctionOpsetImport_blocks_domains]
    exact visited_trans (EncodeLocalFunctionOpsetImport_nodes_visited nodes st)
      (EncodeLocalFunctionOpsetImport_blocks_visited rest _)
theorem EncodeLocalFunctionOpsetImport_nodes_visited :
    ∀ (nodes : List Node) (st : OpsetImports),
      st.visited (EncodeLocalFunctionOpsetImport_nodes nodes st)
        (EncodeLocalFunctionOpsetImport_nodes_domains nodes)
  | [], st => by
    simp only [EncodeLocalFunctionOpsetImport_nodes,
      EncodeLocalFunctionOpsetImport_nodes_domains]
    exact visited_refl st
  | n :: rest, st => by
    simp only [EncodeLocalFunctionOpsetImport_nodes,
      EncodeLocalFunctionOpsetImport_nodes_domains]
    exact visited_trans (EncodeLocalFunctionOpsetImport_visited n st)
      (EncodeLocalFunctionOpsetImport_nodes_visited rest _)
end

/-- The loop of `EncodeLocalFunction` over the nodes of the body takes the
domains of the body into the imports of the function record, and every one of
them is afterwards in the set of domains of the encoder. -/
theorem EncodeLocalFunction_nodes_visited (use_external_data_format : Bool)
    (onnx_file_path : String) (add_node_names : Bool) :
    ∀ (nodes : List Node) (enc : GraphEncoder) (fs : FileSystem) (graph_proto : GraphProto)
      (func_proto : FunctionProto) (custom_domains : List String) (r : EncodedFunction),
      EncodeLocalFunction_nodes use_external_data_format onnx_file_path add_node_names nodes
        enc fs graph_proto func_proto custom_domains = .ok r →
      ∃ final, r.func_proto.opset_import = final.1 ∧
        final = (EncodeLocalFunction_domains nodes).foldl
          (addFunctionImport enc.custom_opsets_) (func_proto.opset_import, custom_domains) ∧
        r.encoder.custom_opsets_ = enc.custom_opsets_ ∧
        (∀ d ∈ EncodeLocalFunction_domains nodes, d ∈ r.encoder.domains_) ∧
        (∀ d ∈ enc.domains_, d ∈ r.encoder.domains_)
  | [], enc, fs, graph_proto, func_proto, custom_domains, r, h => by
    simp [EncodeLocalFunction_nodes] at h
    rw [← h]
    exact ⟨_, rfl, rfl, rfl, fun _ hd => by simp [EncodeLocalFunction_domains] at hd,
      fun _ hd => hd⟩
  | .mk kind inputs outputs blocks attributes isNone sr py :: rest, enc, fs, graph_proto,
      func_proto, custom_domains, r, h => by
    simp only [EncodeLocalFunction_nodes] at h
    simp only [EncodeLocalFunction_domains, Node.mustBeNone]
    by_cases hn : isNone = true
    · rw [if_pos hn] at h
      rw [if_pos hn, List.nil_append]
      exact EncodeLocalFunction_nodes_visited use_external_data_format onnx_file_path
        add_node_names rest enc fs graph_proto func_proto custom_domains r h
    · rw [if_neg hn] at h
      rw [if_neg hn]
      simp only [bind, Except.bind] at h
      split at h
      · contradiction
      · rename_i q hq
        have hnamed := EncodeNode_counter use_external_data_format onnx_file_path false
          add_node_names enc fs graph_proto {} q _ hq
        have hgrow := EncodeNode_steps GraphEncoder.registryGrows registryGrows_stepClosed
          use_external_data_format onnx_file_path false add_node_names enc fs graph_proto {} q
          _ hq
        have hcustom : q.encoder.custom_opsets_ = enc.custom_opsets_ := hnamed.1.2.2.2.2.2.1
        obtain ⟨v1, v2, _, v4, v5⟩ := EncodeLocalFunctionOpsetImport_visited
          (.mk kind inputs outputs blocks attributes isNone sr py)
          { func_proto := { func_proto with node := func_proto.node ++ [q.node_proto] }
            custom_domains := custom_domains, encoder := q.encoder }
        obtain ⟨final, f1, f2, f3, f4, f5⟩ := EncodeLocalFunction_nodes_visited
          use_external_data_format onnx_file_path add_node_names rest _ _ _ _ _ r h
        refine ⟨final, f1, ?_, ?_, ?_, ?_⟩
        · rw [f2, v2, List.foldl_append, hcustom]
          simp only [OpsetImports.view] at v1
          simp only [hcustom] at v1
          rw [v1]
        · exact f3.trans (v2.trans hcustom)
        · intro d hd
          rcases List.mem_append.mp hd with hd | hd
          · exact f5 d (v4 d hd)
          · exact f4 d hd
        · exact fun d hd => f5 d (v5 d (hgrow.2.2.2 d hd))

/-- The imports of a function record after the domains `ds` were handed to
`addFunctionImport`: those before, then one import for each domain not seen
before, once, in the order of first occurrence. -/
theorem foldl_addFunctionImport (custom_opsets : List (String × Int)) :
    ∀ (ds : List String) (imports : List OperatorSetIdProto) (seen : List String),
      ∃ doms, ds.foldl (addFunctionImport custom_opsets) (imports, seen) =
          (imports ++ doms.map (fun domain =>
            ({ domain := some domain
               version := some ((custom_opsets.lookup domain).getD 1) } : OperatorSetIdProto)),
            seen ++ doms) ∧
        doms.Nodup ∧ ∀ d, d ∈ doms ↔ d ∈ ds ∧ d ∉ seen
  | [], imports, seen => ⟨[], by simp, List.nodup_nil, by simp⟩
  | d :: rest, imports, seen => by
    by_cases hd : d ∈ seen
    · obtain ⟨doms, h1, h2, h3⟩ := foldl_addFunctionImport custom_opsets rest imports seen
      refine ⟨doms, ?_, h2, ?_⟩
      · rw [List.foldl_cons, ← h1]
        simp [addFunctionImport, hd]
      · intro x
        rw [h3 x, List.mem_cons]
        constructor
        · exact fun hx => ⟨Or.inr hx.1, hx.2⟩
        · rintro ⟨hx | hx, hs⟩
          · exact absurd (hx ▸ hd) hs
          · exact ⟨hx, hs⟩
    · obtain ⟨doms, h1, h2, h3⟩ := foldl_addFunctionImport custom_opsets rest
        (imports ++ [{ domain := some d, version := some ((custom_opsets.lookup d).getD 1) }])
        (seen ++ [d])
      refine ⟨d :: doms, ?_, ?_, ?_⟩
      · rw [List.foldl_cons]
        have hstep : addFunctionImport custom_opsets (imports, seen) d =
            (imports ++ [{ domain := some d
                           version := some ((custom_opsets.lookup d).getD 1) }],
              seen ++ [d]) := by
          simp [addFunctionImport, hd]
        rw [hstep, h1]
        simp
      · refine List.nodup_cons.mpr ⟨fun hmem => ?_, h2⟩
        have := ((h3 d).mp hmem).2
        simp at this
      · intro x
        rw [List.mem_cons, h3 x, List.mem_cons, List.mem_append, List.mem_singleton]
        constructor
        · rintro (hx | ⟨hx, hs⟩)
          · exact ⟨Or.inl hx, hx ▸ hd⟩
          · exact ⟨Or.inr hx, fun hh => hs (Or.inl hh)⟩
        · rintro ⟨hx | hx, hs⟩
          · exact Or.inl hx
          · by_cases hxd : x = d
            · exact Or.inl hxd
            · exact Or.inr ⟨hx, fun hh => hh.elim hs hxd⟩

/-- The function record and the encoder after `EncodeLocalFunction_header`:
the import of the default operator set at the version of the session was
appended, the custom operator sets of the encoder are those before, and its set
of domains kept its elements. -/
theorem EncodeLocalFunction_header_imports (attributes : List (Symbol × AttributeValue))
    (inputs outputs : List Value) (enc : GraphEncoder) (func_proto : FunctionProto)
    (hd : FunctionProto × GraphEncoder)
    (h : EncodeLocalFunction_header attributes inputs outputs enc func_proto = .ok hd) :
    hd.1.opset_import = func_proto.opset_import ++ [{ version := some enc.onnx_opset_version_ }] ∧
      hd.2.custom_opsets_ = enc.custom_opsets_ ∧
      ∀ d ∈ enc.domains_, d ∈ hd.2.domains_ := by
  unfold EncodeLocalFunction_header at h
  simp only [bind, Except.bind, pure, Except.pure] at h
  repeat' split at h
  all_goals first
    | contradiction
    | (cases h; exact ⟨rfl, rfl, fun d hd => (mem_insertDomain _ _ _).mpr (Or.inr hd)⟩)

/-- The imports of the function record when `EncodeLocalFunction` returns: those
before, the default import, then one import for each distinct domain of the
body, and each of these domains is in the set of domains of the encoder. -/
theorem EncodeLocalFunction_imports (use_external_data_format : Bool) (onnx_file_path : String)
    (add_node_names : Bool) (attributes : List (Symbol × AttributeValue)) :
    ∀ (search : List (Symbol × AttributeValue)) (enc : GraphEncoder) (fs : FileSystem)
      (graph_proto : GraphProto) (func_proto : FunctionProto) (r : EncodedFunction),
      EncodeLocalFunction use_external_data_format onnx_file_path add_node_names attributes
        search enc fs graph_proto func_proto = .ok r →
      ∃ doms : List String, r.func_proto.opset_import =
          func_proto.opset_import ++ { version := some enc.onnx_opset_version_ } ::
            doms.map (fun domain =>
              ({ domain := some domain
                 version := some ((enc.custom_opsets_.lookup domain).getD 1) } :
                OperatorSetIdProto)) ∧
        doms.Nodup ∧
        (∀ d, d ∈ doms ↔ d ∈ EncodeLocalFunction_domains (EncodeLocalFunction_body search)) ∧
        ∀ d ∈ doms, d ∈ r.encoder.domains_
  | [], enc, fs, graph_proto, func_proto, r, h => by
    simp [EncodeLocalFunction] at h
  | (key, value) :: rest, enc, fs, graph_proto, func_proto, r, h => by
    by_cases hk : key = attr_graph
    · cases value with
      | g v =>
        obtain ⟨block, nu⟩ := v
        obtain ⟨inputs, outputs, nodes⟩ := block
        simp only [EncodeLocalFunction, hk, if_true] at h
        cases hh : EncodeLocalFunction_header attributes inputs outputs enc func_proto with
        | error f => simp [hh, bind, Except.bind] at h
        | ok q =>
          simp only [hh, bind, Except.bind] at h
          obtain ⟨q1, q2, _⟩ := EncodeLocalFunction_header_imports _ _ _ _ _ _ hh
          obtain ⟨final, f1, f2, _, f4, _⟩ := EncodeLocalFunction_nodes_visited
            use_external_data_format onnx_file_path add_node_names nodes _ _ _ _ _ r h
          obtain ⟨doms, d1, d2, d3⟩ := foldl_addFunctionImport q.2.custom_opsets_
            (EncodeLocalFunction_domains nodes) q.1.opset_import []
          refine ⟨doms, ?_, d2, ?_, ?_⟩
          · rw [f1, f2, d1, q1, q2]
            simp
          · intro d
            rw [d3 d]
            simp [EncodeLocalFunction_body, hk]
          · exact fun d hd => f4 d ((d3 d).mp hd).1
      | _ => simp [EncodeLocalFunction, hk] at h
    · have hrest : EncodeLocalFunction use_external_data_format onnx_file_path add_node_names
          attributes rest enc fs graph_proto func_proto = .ok r := by
        cases value with
        | g v =>
          obtain ⟨block, nu⟩ := v
          obtain ⟨inputs, outputs, nodes⟩ := block
          simpa only [EncodeLocalFunction, hk, if_false] using h
        | _ => simpa only [EncodeLocalFunction, hk, if_false] using h
      have hbody : EncodeLocalFunction_body ((key, value) :: rest) =
          EncodeLocalFunction_body rest := by
        cases value with
        | g v =>
          obtain ⟨block, nu⟩ := v
          obtain ⟨inputs, outputs, nodes⟩ := block
          simp only [EncodeLocalFunction_body, hk, if_false]
        | _ => simp only [EncodeLocalFunction_body, hk, if_false]
      rw [hbody]
      exact EncodeLocalFunction_imports use_external_data_format onnx_file_path
        add_node_names attributes rest enc fs graph_proto func_proto r hrest

/-- C34 (as amended): when `EncodeLocalFunction` returns, the imports of the
function record are those it had before, then the default import at the
operator-set version of the session, then one import for each distinct domain
of the operators outside the `onnx` namespace in the body of the function, each
once, at the version of the custom operator sets or at version 1; and every
one of these domains is also in the set of domains of the encoder, from which
the imports of the model are written. -/
theorem C34_function_imports (use_external_data_format : Bool) (onnx_file_path : String)
    (add_node_names : Bool) (attributes : List (Symbol × AttributeValue)) :
    ∀ (search : List (Symbol × AttributeValue)) (enc : GraphEncoder) (fs : FileSystem)
      (graph_proto : GraphProto) (func_proto : FunctionProto) (r : EncodedFunction),
      EncodeLocalFunction use_external_data_format onnx_file_path add_node_names attributes
        search enc fs graph_proto func_proto = .ok r →
      ∃ doms : List String, r.func_proto.opset_import =
          func_proto.opset_import ++ { version := some enc.onnx_opset_version_ } ::
            doms.map (fun domain =>
              ({ domain := some domain
                 version := some ((enc.custom_opsets_.lookup domain).getD 1) } :
                OperatorSetIdProto)) ∧
        doms.Nodup ∧
        (∀ d, d ∈ doms ↔ d ∈ EncodeLocalFunction_domains (EncodeLocalFunction_body search)) ∧
        ∀ d ∈ doms, d ∈ r.encoder.domains_ := by
  intro search enc fs graph_proto func_proto r h
  exact EncodeLocalFunction_imports use_external_data_format onnx_file_path add_node_names
    attributes search enc fs graph_proto func_proto r h

/-- C34 (as amended), witness: `EncodeLocalFunction` returns on the definition
of the function `f`, whose body holds the node `my::Op`. -/
theorem C34_function_imports_witness :
    ∃ r, EncodeLocalFunction false "" false exampleFunctionAttributes
        exampleFunctionAttributes {} {} GraphProto.empty {} = .ok r ∧
      ∃ doms : List String, r.func_proto.opset_import =
          { version := some 0 } :: doms.map (fun domain =>
            ({ domain := some domain, version := some 1 } : OperatorSetIdProto)) ∧
        doms.Nodup ∧ (∀ d, d ∈ doms ↔ d = "my") ∧ ∀ d ∈ doms, d ∈ r.encoder.domains_ := by
  obtain ⟨r, hr⟩ := exists_ok_of_threw_eq_false
    (EncodeLocalFunction false "" false exampleFunctionAttributes exampleFunctionAttributes
      {} {} GraphProto.empty {}) (by decide!)
  obtain ⟨doms, h1, h2, h3, h4⟩ := C34_function_imports false "" false
    exampleFunctionAttributes exampleFunctionAttributes {} {} GraphProto.empty {} r hr
  refine ⟨r, hr, doms, ?_, h2, ?_, h4⟩
  · rw [h1]
    rfl
  · intro d
    rw [h3 d]
    have hdoms : EncodeLocalFunction_domains (EncodeLocalFunction_body
        exampleFunctionAttributes) = ["my"] := by decide
    rw [hdoms, List.mem_singleton]

/-- C38, the code at the failing input: with node names on, the two tensors of
the attribute `values` get the same name and the same external file, which
holds the bytes of the second tensor; with node names off, the counter of
external data tells them apart. -/
theorem C38_failing_input :
    attributeTensorsOf exampleTensorsGraph true "m/Foo_0_attr__values" =
      some ([[(some "Foo_0_attr::values",
                [{ key := some "location", value := some "Foo_0_attr__values" }]),
              (some "Foo_0_attr::values",
                [{ key := some "location", value := some "Foo_0_attr__values" }])]],
            some (some 1)) ∧
    attributeTensorsOf exampleTensorsGraph false "m/Foo_attr__values_0" =
      some ([[(some "Foo_attr::values_0",
                [{ key := some "location", value := some "Foo_attr__values_0" }]),
              (some "Foo_attr::values_1",
                [{ key := some "location", value := some "Foo_attr__values_1" }])]],
            some (some 0)) := by
  constructor <;> decide!

theorem digitChar_toNat (k : Nat) (hk : k < 10) : (Nat.digitChar k).toNat - 48 = k := by
  interval_cases k <;> rfl

theorem digitChar_ne_underscore (k : Nat) (hk : k < 10) : Nat.digitChar k ≠ '_' := by
  interval_cases k <;> decide

theorem readDigits_toDigitsCore :
    ∀ (fuel n : Nat) (ds : List Char), n < fuel →
      readDigits 0 (Nat.toDigitsCore 10 fuel n ds) = readDigits n ds
  | 0, n, ds, h => by omega
  | fuel + 1, n, ds, h => by
    simp only [Nat.toDigitsCore]
    split
    · rename_i h0
      simp only [readDigits, List.foldl_cons, Nat.zero_mul, Nat.zero_add]
      rw [digitChar_toNat _ (Nat.mod_lt _ (by decide))]
      have : n % 10 = n := Nat.mod_eq_of_lt (by omega)
      rw [this]
    · rename_i h0
      rw [readDigits_toDigitsCore fuel (n / 10) _ (by omega)]
      simp only [readDigits, List.foldl_cons]
      rw [digitChar_toNat _ (Nat.mod_lt _ (by decide))]
      have : n / 10 * 10 + n % 10 = n := by omega
      rw [this]

theorem underscore_not_mem_toDigitsCore :
    ∀ (fuel n : Nat) (ds : List Char), '_' ∉ ds → '_' ∉ Nat.toDigitsCore 10 fuel n ds
  | 0, n, ds, h => by simpa [Nat.toDigitsCore] using h
  | fuel + 1, n, ds, h => by
    have hd : '_' ∉ Nat.digitChar (n % 10) :: ds := by
      intro hmem
      rcases List.mem_cons.mp hmem with heq | hmem
      · exact digitChar_ne_underscore _ (Nat.mod_lt _ (by decide)) heq.symm
      · exact h hmem
    simp only [Nat.toDigitsCore]
    split
    · exact hd
    · exact underscore_not_mem_toDigitsCore fuel (n / 10) _ hd

/-- The decimal numeral of a natural number, as `std::to_string` writes it,
holds no underscore and determines the number. -/
theorem toString_nat (k : Nat) :
    '_' ∉ (toString k).data ∧ readDigits 0 (toString k).data = k := by
  have hdata : (toString k).data = Nat.toDigitsCore 10 (k + 1) k [] := rfl
  rw [hdata]
  exact ⟨underscore_not_mem_toDigitsCore _ _ _ (by simp),
    (readDigits_toDigitsCore (k + 1) k [] (by omega)).trans rfl⟩

theorem append_underscore_inj :
    ∀ (l1 l2 d1 d2 : List Char), '_' ∉ d1 → '_' ∉ d2 →
      l1 ++ '_' :: d1 = l2 ++ '_' :: d2 → d1 = d2
  | [], [], d1, d2, _, _, h => by simpa using h
  | [], c :: l2, d1, d2, h1, _, h => by
    simp only [List.nil_append, List.cons_append, List.cons.injEq] at h
    exact absurd (h.2 ▸ (by simp : '_' ∈ l2 ++ '_' :: d2)) h1
  | c :: l1, [], d1, d2, _, h2, h => by
    simp only [List.nil_append, List.cons_append, List.cons.injEq] at h
    exact absurd (h.2 ▸ (by simp : '_' ∈ l1 ++ '_' :: d1)) h2
  | c :: l1, e :: l2, d1, d2, h1, h2, h => by
    simp only [List.cons_append, List.cons.injEq] at h
    exact append_underscore_inj l1 l2 d1 d2 h1 h2 h.2

/-- Two display names `<operator type>_<counter>` that are equal have the same
counter, whatever the operator types are. -/
theorem displayName_counter (op1 op2 : String) (k1 k2 : Nat)
    (h : op1 ++ "_" ++ toString k1 = op2 ++ "_" ++ toString k2) : k1 = k2 := by
  have hdata := congrArg String.data h
  simp only [String.data_append] at hdata
  rw [List.append_assoc, List.append_assoc, List.singleton_append,
    List.singleton_append] at hdata
  have hd := append_underscore_inj _ _ _ _ (toString_nat k1).1 (toString_nat k2).1 hdata
  rw [← (toString_nat k1).2, ← (toString_nat k2).2, hd]

theorem namedWithin_append {a b c : Nat} {xs ys : List String} (h1 : namedWithin a b xs)
    (h2 : namedWithin b c ys) : namedWithin a c (xs ++ ys) := by
  obtain ⟨a1, a2, a3⟩ := h1
  obtain ⟨b1, b2, b3⟩ := h2
  refine ⟨a1.trans b1, List.nodup_append.mpr ⟨a2, b2, ?_⟩, ?_⟩
  · intro x hx hy
    obtain ⟨op1, k1, e1, _, u1⟩ := a3 x hx
    obtain ⟨op2, k2, e2, l2, _⟩ := b3 x hy
    have := displayName_counter op1 op2 k1 k2 (e1.symm.trans e2)
    omega
  · intro n hn
    rcases List.mem_append.mp hn with hn | hn
    · obtain ⟨op, k, e, l, u⟩ := a3 n hn
      exact ⟨op, k, e, l, by omega⟩
    · obtain ⟨op, k, e, l, u⟩ := b3 n hn
      exact ⟨op, k, e, by omega, u⟩

theorem namedWithin_perm {a b : Nat} {xs ys : List String} (hp : xs.Perm ys)
    (h : namedWithin a b xs) : namedWithin a b ys :=
  ⟨h.1, hp.nodup_iff.mp h.2.1, fun n hn => h.2.2 n (hp.mem_iff.mpr hn)⟩

theorem namedWithin_nil (a : Nat) : namedWithin a a [] :=
  ⟨le_refl a, List.nodup_nil, fun _ hn => by simp at hn⟩

theorem displayNames_functions_append (xs ys : List FunctionProto) :
    displayNames_functions (xs ++ ys) = displayNames_functions xs ++ displayNames_functions ys := by
  simp [displayNames_functions]

theorem displayNames_nodes_append :
    ∀ (xs ys : List NodeProto),
      displayNames_nodes (xs ++ ys) = displayNames_nodes xs ++ displayNames_nodes ys
  | [], ys => by simp [displayNames_nodes]
  | x :: xs, ys => by
    simp [displayNames_nodes, displayNames_nodes_append xs ys]

theorem displayNames_attributes_append :
    ∀ (xs ys : List AttributeProto),
      displayNames_attributes (xs ++ ys) =
        displayNames_attributes xs ++ displayNames_attributes ys
  | [], ys => by simp [displayNames_attributes]
  | x :: xs, ys => by
    simp [displayNames_attributes, displayNames_attributes_append xs ys]

theorem displayNames_graphs_append :
    ∀ (xs ys : List GraphProto),
      displayNames_graphs (xs ++ ys) = displayNames_graphs xs ++ displayNames_graphs ys
  | [], ys => by simp [displayNames_graphs]
  | x :: xs, ys => by
    simp [displayNames_graphs, displayNames_graphs_append xs ys]

theorem displayNames_eq (g : GraphProto) : g.displayNames = displayNames_nodes g.node := by
  cases g
  simp [GraphProto.displayNames, GraphProto.node]

theorem displayNames_add_node (g : GraphProto) (p : NodeProto) :
    (g.add_node p).displayNames = g.displayNames ++ displayNames_node p := by
  rw [displayNames_eq, displayNames_eq, add_node_node, displayNames_nodes_append]
  simp [displayNames_nodes]

theorem displayNames_add_attribute (p : NodeProto) (a : AttributeProto) :
    displayNames_node (p.add_attribute a) = displayNames_node p ++ displayNames_attribute a := by
  obtain ⟨input, output, name, op_type, domain, doc_string, attribute_⟩ := p
  simp [NodeProtoOf.add_attribute, displayNames_node, displayNames_attributes_append,
    displayNames_attributes]

theorem namesAdded_same {a b : GraphEncoder} (h : a.sameNames b) (old : List String) :
    a.namesAdded b old old := by
  refine ⟨[], [], by simp [h.1], by simp, ?_⟩
  rw [h.2]
  exact namedWithin_nil _

theorem namesAdded_refl (a : GraphEncoder) (old : List String) : a.namesAdded a old old :=
  namesAdded_same ⟨rfl, rfl⟩ old

theorem namesAdded_trans {a b c : GraphEncoder} {n1 n2 n3 : List String}
    (h1 : a.namesAdded b n1 n2) (h2 : b.namesAdded c n2 n3) : a.namesAdded c n1 n3 := by
  obtain ⟨ad1, f1, a1, a2, a3⟩ := h1
  obtain ⟨ad2, f2, b1, b2, b3⟩ := h2
  refine ⟨ad1 ++ ad2, f1 ++ f2, ?_, ?_, ?_⟩
  · rw [b1, a1, List.append_assoc]
  · rw [b2, a2, List.append_assoc]
  · refine namedWithin_perm ?_ (namedWithin_append a3 b3)
    rw [displayNames_functions_append]
    simp only [List.append_assoc]
    exact List.Perm.append_left _ (List.perm_append_comm_assoc _ _ _)

theorem namesAdded_frame {a b : GraphEncoder} {n1 n2 : List String} (x : List String)
    (h : a.namesAdded b n1 n2) : a.namesAdded b (x ++ n1) (x ++ n2) := by
  obtain ⟨ad, f, h1, h2, h3⟩ := h
  exact ⟨ad, f, h1, by rw [h2, List.append_assoc], h3⟩

theorem namesAdded_cast {a b : GraphEncoder} {n1 n2 m1 m2 : List String}
    (h : a.namesAdded b n1 n2) (h1 : n1 = m1) (h2 : n2 = m2) : a.namesAdded b m1 m2 :=
  h1 ▸ h2 ▸ h

theorem namesAdded_add_attribute {a b : GraphEncoder} (p : NodeProto) (attr : AttributeProto)
    (h : a.namesAdded b [] (displayNames_attribute attr)) :
    a.namesAdded b (displayNames_node p) (displayNames_node (p.add_attribute attr)) :=
  namesAdded_cast (namesAdded_frame (displayNames_node p) h) (List.append_nil _)
    (displayNames_add_attribute p attr).symm

theorem set_length_append {α : Type} (x y : α) (m : List α) :
    ∀ (l : List α), (l ++ x :: m).set l.length y = l ++ y :: m
  | [] => rfl
  | c :: l => by
    simp only [List.cons_append, List.length_cons, List.set_cons_succ, set_length_append x y m l]

/-- The function record that `EncodeLocalFunction` has filled is put at the
place of the new record that was added for it. -/
theorem namesAdded_function (enc : GraphEncoder) (q : EncodedFunction) (old : List String)
    (h : GraphEncoder.namesAdded
      { enc with model_proto_ := { enc.model_proto_ with
          functions := enc.model_proto_.functions ++ [{}] } }
      q.encoder [] (displayNames_nodes q.func_proto.node)) :
    enc.namesAdded
      { q.encoder with model_proto_ := { q.encoder.model_proto_ with
          functions := q.encoder.model_proto_.functions.set enc.model_proto_.functions.length
            q.func_proto } } old old := by
  obtain ⟨ad, f, h1, h2, h3⟩ := h
  refine ⟨q.func_proto :: ad, [], ?_, by simp, ?_⟩
  · dsimp only at h1 ⊢
    rw [h1, List.append_assoc, List.singleton_append, set_length_append]
  · dsimp only at h3 ⊢
    rw [List.nil_append] at h2
    rw [List.nil_append]
    simp only [displayNames_functions, List.flatMap_cons] at h3 ⊢
    rw [h2]
    exact h3

theorem sameNames_trans {a b c : GraphEncoder} (h1 : a.sameNames b) (h2 : b.sameNames c) :
    a.sameNames c :=
  ⟨h2.1.trans h1.1, h2.2.trans h1.2⟩

theorem EncodeBlock_header_sameNames (initializers : Initializers)
    (dynamic_axes : DynamicAxes) (keep_initializers_as_inputs : Bool)
    (inputs outputs : List Value) (enc : GraphEncoder) (graph_proto : GraphProto)
    (r : GraphProto × GraphEncoder)
    (h : EncodeBlock_header initializers dynamic_axes keep_initializers_as_inputs inputs
      outputs enc graph_proto = .ok r) : enc.sameNames r.2 := by
  obtain ⟨_, h2⟩ := EncodeBlock_header_ok initializers dynamic_axes
    keep_initializers_as_inputs inputs outputs enc graph_proto r h
  rw [h2]
  exact ⟨rfl, rfl⟩

theorem AddInitializersIntoGraphProto_sameNames (enc : GraphEncoder) (fs : FileSystem)
    (graph_proto : GraphProto) (block : Block) (initializers : Initializers)
    (use_external_data_format : Bool) (onnx_file_path : String) (r : Encoded GraphProto)
    (h : AddInitializersIntoGraphProto enc fs graph_proto block initializers
      use_external_data_format onnx_file_path = .ok r) : enc.sameNames r.encoder := by
  obtain ⟨_, h2⟩ := AddInitializersIntoGraphProto_ok enc fs graph_proto block initializers
    use_external_data_format onnx_file_path r h
  rw [h2]
  exact ⟨rfl, rfl⟩

theorem AddAttribute_tensor_sameNames (enc : GraphEncoder) (fs : FileSystem)
    (node_proto : NodeProto) (name : Symbol) (tensor : Tensor)
    (use_external_data_format : Bool) (onnx_file_path : String) (r : EncodedTensor)
    (h : AddAttribute_tensor enc fs node_proto name tensor use_external_data_format
      onnx_file_path = .ok r) : enc.sameNames r.encoder := by
  obtain ⟨_, h2⟩ := AddAttribute_tensor_ok enc fs node_proto name tensor
    use_external_data_format onnx_file_path r h
  rw [h2]
  cases use_external_data_format <;> exact ⟨rfl, rfl⟩

theorem AddAttribute_tensors_sameNames (node_proto : NodeProto) (name : Symbol)
    (use_external_data_format : Bool) (onnx_file_path : String) :
    ∀ (vs : List Tensor) (enc : GraphEncoder) (fs : FileSystem) (tensors : List TensorProto)
      (r : EncodedTensors),
      AddAttribute_tensors node_proto name use_external_data_format onnx_file_path vs enc fs
        tensors = .ok r → enc.sameNames r.encoder
  | [], enc, fs, tensors, r, h => by
    simp [AddAttribute_tensors] at h
    rw [← h]
    exact ⟨rfl, rfl⟩
  | v :: rest, enc, fs, tensors, r, h => by
    simp only [AddAttribute_tensors, bind, Except.bind] at h
    split at h
    · contradiction
    · rename_i q hq
      exact sameNames_trans (AddAttribute_tensor_sameNames enc fs node_proto name v
        use_external_data_format onnx_file_path q hq)
        (AddAttribute_tensors_sameNames node_proto name use_external_data_format
          onnx_file_path rest q.encoder q.fs _ r h)

theorem EncodeLocalFunction_header_sameNames (attributes : List (Symbol × AttributeValue))
    (inputs outputs : List Value) (enc : GraphEncoder) (func_proto : FunctionProto)
    (r : FunctionProto × GraphEncoder)
    (h : EncodeLocalFunction_header attributes inputs outputs enc func_proto = .ok r) :
    enc.sameNames r.2 ∧ r.1.node = func_proto.node := by
  unfold EncodeLocalFunction_header at h
  simp only [bind, Except.bind, pure, Except.pure] at h
  repeat' split at h
  all_goals first
    | contradiction
    | (simp only [Except.ok.injEq] at h
       rw [← h]
       exact ⟨⟨rfl, rfl⟩, rfl⟩)

theorem EncodeLocalFunctionOpsetImport_node_sameNames (kind : Symbol) (st : OpsetImports) :
    st.encoder.sameNames (EncodeLocalFunctionOpsetImport_node kind st).encoder := by
  unfold EncodeLocalFunctionOpsetImport_node
  dsimp only
  split
  · split <;> exact ⟨rfl, rfl⟩
  · exact ⟨rfl, rfl⟩

mutual
theorem EncodeLocalFunctionOpsetImport_sameNames :
    ∀ (n : Node) (st : OpsetImports),
      st.encoder.sameNames (EncodeLocalFunctionOpsetImport n st).encoder
  | .mk kind inputs outputs blocks attributes isNone sr py, st => by
    simp only [EncodeLocalFunctionOpsetImport]
    exact sameNames_trans (EncodeLocalFunctionOpsetImport_node_sameNames kind st)
      (EncodeLocalFunctionOpsetImport_blocks_sameNames blocks _)
theorem EncodeLocalFunctionOpsetImport_blocks_sameNames :
    ∀ (blocks : List Block) (st : OpsetImports),
      st.encoder.sameNames (EncodeLocalFunctionOpsetImport_blocks blocks st).encoder
  | [], st => by
    simp only [EncodeLocalFunctionOpsetImport_blocks]
    exact ⟨rfl, rfl⟩
  | .mk inputs outputs nodes :: rest, st => by
    simp only [EncodeLocalFunctionOpsetImport_blocks]
    exact sameNames_trans (EncodeLocalFunctionOpsetImport_nodes_sameNames nodes st)
      (EncodeLocalFunctionOpsetImport_blocks_sameNames rest _)
theorem EncodeLocalFunctionOpsetImport_nodes_sameNames :
    ∀ (nodes : List Node) (st : OpsetImports),
      st.encoder.sameNames (EncodeLocalFunctionOpsetImport_nodes nodes st).encoder
  | [], st => by
    simp only [EncodeLocalFunctionOpsetImport_nodes]
    exact ⟨rfl, rfl⟩
  | n :: rest, st => by
    simp only [EncodeLocalFunctionOpsetImport_nodes]
    exact sameNames_trans (EncodeLocalFunctionOpsetImport_sameNames n st)
      (EncodeLocalFunctionOpsetImport_nodes_sameNames rest _)
end

/-- The first part of `EncodeNode` on a new operator record: the record has no
attribute yet, and its display name, when it gets one, is numbered by the
counter, which goes up by one. -/
theorem EncodeNode_header_names (in_graph_ add_node_names : Bool) (node : Node)
    (enc : GraphEncoder) (graph_proto : GraphProto) (r : EncodedHeader)
    (h : EncodeNode_header in_graph_ add_node_names node enc graph_proto {} = .ok r) :
    enc.namesAdded r.encoder [] (displayNames_node r.node_proto) := by
  obtain ⟨added, m, _, h2⟩ := EncodeNode_header_ok in_graph_ add_node_names node enc
    graph_proto {} r h
  rw [h2]
  cases add_node_names
  · exact ⟨[], [], by simp, by simp [displayNames_node, displayNames_attributes],
      by simpa [displayNames_functions] using namedWithin_nil enc.num_op_nodes_⟩
  · refine ⟨[], [node.kind.toUnqualString ++ "_" ++ toString enc.num_op_nodes_], by simp,
      by simp [displayNames_node, displayNames_attributes], ?_⟩
    simp only [displayNames_functions, List.flatMap_nil, List.append_nil, if_true]
    refine ⟨Nat.le_succ _, List.nodup_singleton _, ?_⟩
    intro n hn
    rw [List.mem_singleton] at hn
    exact ⟨node.kind.toUnqualString, enc.num_op_nodes_, hn, le_refl _, Nat.lt_succ_self _⟩

theorem AddAttribute_ref_names (node_proto : NodeProto) (name : Symbol)
    (ref_attr_name : String) (r : NodeProto)
    (h : AddAttribute_ref node_proto name ref_attr_name = .ok r) :
    displayNames_node r = displayNames_node node_proto := by
  unfold AddAttribute_ref at h
  split at h
  · contradiction
  · rw [← Except.ok.inj h]
    have := displayNames_add_attribute node_proto
      { name := some name.toUnqualString, ref_attr_name := some ref_attr_name }
    simp only [NodeProtoOf.add_attribute] at this
    rw [this]
    simp [displayNames_attribute, displayNames_option, displayNames_graphs]

theorem namesAdded_leaf_attribute (enc : GraphEncoder) (p : NodeProto) (attr : AttributeProto)
    (hg : attr.g = none) (hgs : attr.graphs = []) :
    enc.namesAdded enc (displayNames_node p) (displayNames_node (p.add_attribute attr)) := by
  refine namesAdded_add_attribute p attr (namesAdded_cast (namesAdded_refl enc []) rfl ?_)
  obtain ⟨_, _, _, _, _, _, _, _, _, _, g, graphs, _⟩ := attr
  simp only at hg hgs
  subst hg hgs
  simp [displayNames_attribute, displayNames_option, displayNames_graphs]

theorem displayNames_empty : GraphProto.empty.displayNames = [] := by
  simp [GraphProto.empty, GraphProto.displayNames, displayNames_nodes]

mutual
/-- A call of `EncodeBlock` that returns has added display names that are
pairwise distinct and numbered by the values that the counter `num_op_nodes_`
took during the call, to the graph record and to the function records that it
added to the model; the theorems that follow say the same of the other methods
of the encoder. -/
theorem EncodeBlock_names (use_external_data_format : Bool) (onnx_file_path : String)
    (in_graph_ : Bool) (initializers : Initializers) (dynamic_axes : DynamicAxes)
    (keep_initializers_as_inputs add_node_names : Bool) (enc : GraphEncoder)
    (fs : FileSystem) (graph_proto : GraphProto) (r : Encoded GraphProto) :
    ∀ (block : Block),
    EncodeBlock use_external_data_format onnx_file_path in_graph_ initializers dynamic_axes
        keep_initializers_as_inputs add_node_names block enc fs graph_proto = .ok r →
    enc.namesAdded r.encoder graph_proto.displayNames r.value.displayNames
  | .mk inputs outputs nodes, h => by
    simp only [EncodeBlock, bind, Except.bind] at h
    split at h
    · contradiction
    · rename_i hd hhd
      split at h
      · contradiction
      · rename_i q hq
        have h1 := namesAdded_same (EncodeBlock_header_sameNames initializers dynamic_axes
          keep_initializers_as_inputs inputs outputs enc graph_proto hd hhd)
          graph_proto.displayNames
        have e1 : graph_proto.displayNames = hd.1.displayNames := by
          rw [displayNames_eq, displayNames_eq, (EncodeBlock_header_ok initializers
            dynamic_axes keep_initializers_as_inputs inputs outputs enc graph_proto hd hhd).1]
        have h2 := EncodeBlock_nodes_names use_external_data_format onnx_file_path in_graph_
          add_node_names hd.2 fs hd.1 q nodes hq
        have h3 := namesAdded_same (AddInitializersIntoGraphProto_sameNames q.encoder q.fs
          q.value _ initializers use_external_data_format onnx_file_path r h)
          q.value.displayNames
        have e3 : q.value.displayNames = r.value.displayNames := by
          rw [displayNames_eq, displayNames_eq, (AddInitializersIntoGraphProto_ok q.encoder
            q.fs q.value _ initializers use_external_data_format onnx_file_path r h).1]
        exact namesAdded_trans (namesAdded_trans (namesAdded_cast h1 rfl e1) h2)
          (namesAdded_cast h3 rfl e3)
theorem EncodeBlock_nodes_names (use_external_data_format : Bool) (onnx_file_path : String)
    (in_graph_ add_node_names : Bool) (enc : GraphEncoder) (fs : FileSystem)
    (graph_proto : GraphProto) (r : Encoded GraphProto) : ∀ (nodes : List Node),
    EncodeBlock_nodes use_external_data_format onnx_file_path in_graph_ add_node_names nodes
        enc fs graph_proto = .ok r →
    enc.namesAdded r.encoder graph_proto.displayNames r.value.displayNames
  | [], h => by
    simp only [EncodeBlock_nodes, Except.ok.injEq] at h
    rw [← h]
    exact namesAdded_refl enc _
  | .mk kind inputs outputs blocks attributes isNone sr py :: rest, h => by
    simp only [EncodeBlock_nodes] at h
    by_cases hn : isNone = true
    · rw [if_pos hn] at h
      exact EncodeBlock_nodes_names use_external_data_format onnx_file_path in_graph_
        add_node_names enc fs graph_proto r rest h
    · rw [if_neg hn] at h
      by_cases hk : kind = onnx_LocalFunctionDef
      · rw [if_pos hk] at h
        simp only [bind, Except.bind] at h
        split at h
        · contradiction
        · rename_i q hq
          have h1 := EncodeLocalFunction_names use_external_data_format onnx_file_path
            add_node_names attributes _ fs graph_proto {} q attributes hq
          have h3 := namesAdded_function enc q graph_proto.displayNames
            (namesAdded_cast h1 (by simp [displayNames_nodes]) rfl)
          obtain ⟨vis, hvis⟩ := EncodeLocalFunction_grows use_external_data_format
            onnx_file_path add_node_names attributes attributes _ fs graph_proto {} q hq
          have e1 : graph_proto.displayNames = q.graph_proto.displayNames := by
            rw [displayNames_eq, displayNames_eq, hvis.2.2.2.1, List.append_nil]
          have h2 := EncodeBlock_nodes_names use_external_data_format onnx_file_path in_graph_
            add_node_names _ _ _ r rest h
          exact namesAdded_trans (namesAdded_cast h3 rfl e1) h2
      · rw [if_neg hk] at h
        simp only [bind, Except.bind] at h
        split at h
        · contradiction
        · rename_i q hq
          have h1 := EncodeNode_names use_external_data_format onnx_file_path in_graph_
            add_node_names enc fs graph_proto q _ hq
          obtain ⟨vis, hvis⟩ := EncodeNode_grows use_external_data_format onnx_file_path
            in_graph_ add_node_names _ enc fs graph_proto {} q hq
          have e1 : graph_proto.displayNames ++ displayNames_node q.node_proto =
              (q.graph_proto.add_node q.node_proto).displayNames := by
            rw [displayNames_add_node, displayNames_eq, displayNames_eq, hvis.2.2.2.1,
              List.append_nil]
          have h2 := EncodeBlock_nodes_names use_external_data_format onnx_file_path in_graph_
            add_node_names _ _ _ r rest h
          exact namesAdded_trans (namesAdded_cast (namesAdded_frame graph_proto.displayNames h1)
            (List.append_nil _) e1) h2
theorem EncodeNode_names (use_external_data_format : Bool) (onnx_file_path : String)
    (in_graph_ add_node_names : Bool) (enc : GraphEncoder) (fs : FileSystem)
    (graph_proto : GraphProto) (r : EncodedNode) :
    ∀ (node : Node),
    EncodeNode use_external_data_format onnx_file_path in_graph_ add_node_names node enc fs
        graph_proto {} = .ok r →
    enc.namesAdded r.encoder [] (displayNames_node r.node_proto)
  | .mk kind inputs outputs blocks attributes isNone sr py, h => by
    obtain ⟨hd, a, l, i, hhd, ha, hl, hi, hr⟩ := EncodeNode_ok use_external_data_format
      onnx_file_path in_graph_ add_node_names _ enc fs graph_proto {} r h
    simp only [Node.kind, Node.blocks, Node.attributes] at ha hl hi
    have h1 := EncodeNode_header_names in_graph_ add_node_names _ enc graph_proto hd hhd
    have h2 := EncodeNode_attributes_names use_external_data_format onnx_file_path _
      hd.encoder fs hd.node_proto a attributes ha
    have h12 := namesAdded_trans h1 h2
    rw [hr]
    by_cases hL : kind = onnx_Loop
    · have hI : ¬ kind = onnx_If := by rw [hL]; decide
      rw [if_pos hL] at hl
      rw [if_neg hI] at hi
      rw [hi]
      exact namesAdded_trans h12 (EncodeNode_Loop_names use_external_data_format
        onnx_file_path in_graph_ a.encoder a.fs a.value l blocks hl)
    · rw [if_neg hL] at hl
      by_cases hI : kind = onnx_If
      · rw [if_pos hI] at hi
        have h3 := EncodeNode_If_names use_external_data_format onnx_file_path in_graph_
          l.encoder l.fs l.value i blocks hi
        rw [hl] at h3
        exact namesAdded_trans h12 h3
      · rw [if_neg hI] at hi
        rw [hi, hl]
        exact h12
theorem EncodeNode_attributes_names (use_external_data_format : Bool)
    (onnx_file_path : String) (attrs_it : Option (String → Option String))
    (enc : GraphEncoder) (fs : FileSystem) (node_proto : NodeProto) (r : Encoded NodeProto) :
    ∀ (attributes : List (Symbol × AttributeValue)),
    EncodeNode_attributes use_external_data_format onnx_file_path attrs_it attributes enc fs
        node_proto = .ok r →
    enc.namesAdded r.encoder (displayNames_node node_proto) (displayNames_node r.value)
  | [], h => by
    simp only [EncodeNode_attributes, Except.ok.injEq] at h
    rw [← h]
    exact namesAdded_refl enc _
  | (attr_name, value) :: rest, h => by
    simp only [EncodeNode_attributes] at h
    split at h
    · simp only [bind, Except.bind] at h
      split at h
      · contradiction
      · rename_i q hq
        have h2 := EncodeNode_attributes_names use_external_data_format onnx_file_path
          attrs_it enc fs _ r rest h
        exact namesAdded_cast h2 (AddAttribute_ref_names node_proto attr_name _ q hq) rfl
    · simp only [bind, Except.bind] at h
      split at h
      · contradiction
      · rename_i q hq
        have h1 := AddAttribute_names use_external_data_format onnx_file_path attr_name enc
          fs node_proto q value hq
        have h2 := EncodeNode_attributes_names use_external_data_format onnx_file_path
          attrs_it q.encoder q.fs q.value r rest h
        exact namesAdded_trans h1 h2
theorem AddAttribute_names (use_external_data_format : Bool) (onnx_file_path : String)
    (name : Symbol) (enc : GraphEncoder) (fs : FileSystem) (node_proto : NodeProto)
    (r : Encoded NodeProto) : ∀ (value : AttributeValue),
    AddAttribute use_external_data_format onnx_file_path name value enc fs node_proto = .ok r →
    enc.namesAdded r.encoder (displayNames_node node_proto) (displayNames_node r.value)
  | .g (.mk block nu), h => by
    simp only [AddAttribute, EncodeGraph, bind, Except.bind, pure, Except.pure] at h
    split at h
    · contradiction
    · rename_i attr hattr
      split at h
      · contradiction
      · rename_i q hq
        simp only [Except.ok.injEq] at h
        rw [← h]
        obtain ⟨_, hnew⟩ := AddAttribute_new_ok name attr hattr
        subst hnew
        have h1 := EncodeBlock_names use_external_data_format onnx_file_path false []
          (fun _ => none) true true enc fs GraphProto.empty q block hq
        refine namesAdded_add_attribute node_proto _ (namesAdded_cast h1 displayNames_empty ?_)
        simp [displayNames_attribute, displayNames_option, displayNames_graphs]
  | .gs graphs, h => by
    simp only [AddAttribute, bind, Except.bind, pure, Except.pure] at h
    split at h
    · contradiction
    · rename_i attr hattr
      split at h
      · contradiction
      · rename_i q hq
        simp only [Except.ok.injEq] at h
        rw [← h]
        obtain ⟨_, hnew⟩ := AddAttribute_new_ok name attr hattr
        subst hnew
        have h1 := AddAttribute_graphs_names use_external_data_format onnx_file_path enc fs _
          q graphs hq
        refine namesAdded_add_attribute node_proto _ (namesAdded_cast h1
          (by simp [displayNames_graphs]) ?_)
        simp [displayNames_attribute, displayNames_option]
  | .t v, h => by
    simp only [AddAttribute, bind, Except.bind, pure, Except.pure] at h
    split at h
    · contradiction
    · rename_i attr hattr
      split at h
      · contradiction
      · rename_i q hq
        simp only [Except.ok.injEq] at h
        rw [← h]
        obtain ⟨_, hnew⟩ := AddAttribute_new_ok name attr hattr
        subst hnew
        exact namesAdded_trans (namesAdded_same (AddAttribute_tensor_sameNames enc fs _ name v
          use_external_data_format onnx_file_path q hq) _)
          (namesAdded_leaf_attribute q.encoder node_proto _ rfl rfl)
  | .ts vs, h => by
    simp only [AddAttribute, bind, Except.bind, pure, Except.pure] at h
    split at h
    · contradiction
    · rename_i attr hattr
      split at h
      · contradiction
      · rename_i q hq
        simp only [Except.ok.injEq] at h
        rw [← h]
        obtain ⟨_, hnew⟩ := AddAttribute_new_ok name attr hattr
        subst hnew
        exact namesAdded_trans (namesAdded_same (AddAttribute_tensors_sameNames _ name
          use_external_data_format onnx_file_path vs enc fs _ q hq) _)
          (namesAdded_leaf_attribute q.encoder node_proto _ rfl rfl)
  | .f v, h => by
    simp only [AddAttribute, bind, Except.bind, pure, Except.pure] at h
    split at h
    · contradiction
    · rename_i attr hattr
      simp only [Except.ok.injEq] at h
      rw [← h]
      obtain ⟨_, hnew⟩ := AddAttribute_new_ok name attr hattr
      subst hnew
      exact namesAdded_leaf_attribute enc node_proto _ rfl rfl
  | .fs v, h => by
    simp only [AddAttribute, bind, Except.bind, pure, Except.pure] at h
    split at h
    · contradiction
    · rename_i attr hattr
      simp only [Except.ok.injEq] at h
      rw [← h]
      obtain ⟨_, hnew⟩ := AddAttribute_new_ok name attr hattr
      subst hnew
      exact namesAdded_leaf_attribute enc node_proto _ rfl rfl
  | .i v, h => by
    simp only [AddAttribute, bind, Except.bind, pure, Except.pure] at h
    split at h
    · contradiction
    · rename_i attr hattr
      simp only [Except.ok.injEq] at h
      rw [← h]
      obtain ⟨_, hnew⟩ := AddAttribute_new_ok name attr hattr
      subst hnew
      exact namesAdded_leaf_attribute enc node_proto _ rfl rfl
  | .is v, h => by
    simp only [AddAttribute, bind, Except.bind, pure, Except.pure] at h
    split at h
    · contradiction
    · rename_i attr hattr
      simp only [Except.ok.injEq] at h
      rw [← h]
      obtain ⟨_, hnew⟩ := AddAttribute_new_ok name attr hattr
      subst hnew
      exact namesAdded_leaf_attribute enc node_proto _ rfl rfl
  | .s v, h => by
    simp only [AddAttribute, bind, Except.bind, pure, Except.pure] at h
    split at h
    · contradiction
    · rename_i attr hattr
      simp only [Except.ok.injEq] at h
      rw [← h]
      obtain ⟨_, hnew⟩ := AddAttribute_new_ok name attr hattr
      subst hnew
      exact namesAdded_leaf_attribute enc node_proto _ rfl rfl
  | .ss v, h => by
    simp only [AddAttribute, bind, Except.bind, pure, Except.pure] at h
    split at h
    · contradiction
    · rename_i attr hattr
      simp only [Except.ok.injEq] at h
      rw [← h]
      obtain ⟨_, hnew⟩ := AddAttribute_new_ok name attr hattr
      subst hnew
      exact namesAdded_leaf_attribute enc node_proto _ rfl rfl
  | .other kindName, h => by
    simp only [AddAttribute, bind, Except.bind] at h
    split at h <;> contradiction
theorem AddAttribute_graphs_names (use_external_data_format : Bool) (onnx_file_path : String)
    (enc : GraphEncoder) (fs : FileSystem) (graphs : List GraphProto)
    (r : Encoded (List GraphProto)) : ∀ (vs : List Graph),
    AddAttribute_graphs use_external_data_format onnx_file_path vs enc fs graphs = .ok r →
    enc.namesAdded r.encoder (displayNames_graphs graphs) (displayNames_graphs r.value)
  | [], h => by
    simp only [AddAttribute_graphs, Except.ok.injEq] at h
    rw [← h]
    exact namesAdded_refl enc _
  | .mk block nu :: rest, h => by
    simp only [AddAttribute_graphs, EncodeGraph, bind, Except.bind] at h
    split at h
    · contradiction
    · rename_i q hq
      have h1 := EncodeBlock_names use_external_data_format onnx_file_path false []
        (fun _ => none) true true enc fs GraphProto.empty q block hq
      have h2 := AddAttribute_graphs_names use_external_data_format onnx_file_path q.encoder
        q.fs _ r rest h
      refine namesAdded_trans (namesAdded_cast (namesAdded_frame (displayNames_graphs graphs)
        (namesAdded_cast h1 displayNames_empty rfl)) (List.append_nil _) ?_) h2
      rw [displayNames_graphs_append]
      simp [displayNames_graphs]
theorem EncodeNode_Loop_names (use_external_data_format : Bool) (onnx_file_path : String)
    (in_graph_ : Bool) (enc : GraphEncoder) (fs : FileSystem) (node_proto : NodeProto)
    (r : Encoded NodeProto) : ∀ (blocks : List Block),
    EncodeNode_Loop use_external_data_format onnx_file_path in_graph_ blocks enc fs
        node_proto = .ok r →
    enc.namesAdded r.encoder (displayNames_node node_proto) (displayNames_node r.value)
  | [], h => by simp [EncodeNode_Loop] at h
  | [body_block], h => by
    simp only [EncodeNode_Loop, bind, Except.bind, pure, Except.pure] at h
    split at h
    · contradiction
    · rename_i q hq
      simp only [Except.ok.injEq] at h
      rw [← h]
      have h1 := EncodeBlock_names use_external_data_format onnx_file_path in_graph_ []
        (fun _ => none) true true enc fs GraphProto.empty q body_block hq
      refine namesAdded_add_attribute node_proto _ (namesAdded_cast h1 displayNames_empty ?_)
      simp [displayNames_attribute, displayNames_option, displayNames_graphs]
  | _ :: _ :: _, h => by simp [EncodeNode_Loop] at h
theorem EncodeNode_If_names (use_external_data_format : Bool) (onnx_file_path : String)
    (in_graph_ : Bool) (enc : GraphEncoder) (fs : FileSystem) (node_proto : NodeProto)
    (r : Encoded NodeProto) : ∀ (blocks : List Block),
    EncodeNode_If use_external_data_format onnx_file_path in_graph_ blocks enc fs node_proto =
        .ok r →
    enc.namesAdded r.encoder (displayNames_node node_proto) (displayNames_node r.value)
  | [], h => by simp [EncodeNode_If] at h
  | [_], h => by simp [EncodeNode_If] at h
  | [then_block, else_block], h => by
    simp only [EncodeNode_If, bind, Except.bind, pure, Except.pure] at h
    split at h
    · contradiction
    · rename_i t ht
      split at h
      · contradiction
      · rename_i e he
        simp only [Except.ok.injEq] at h
        rw [← h]
        have h1 := EncodeBlock_names use_external_data_format onnx_file_path in_graph_ []
          (fun _ => none) true true enc fs GraphProto.empty t then_block ht
        have h2 := EncodeBlock_names use_external_data_format onnx_file_path in_graph_ []
          (fun _ => none) true true t.encoder t.fs GraphProto.empty e else_block he
        exact namesAdded_trans
          (namesAdded_add_attribute node_proto _ (namesAdded_cast h1 displayNames_empty
            (by simp [displayNames_attribute, displayNames_option, displayNames_graphs])))
          (namesAdded_add_attribute _ _ (namesAdded_cast h2 displayNames_empty
            (by simp [displayNames_attribute, displayNames_option, displayNames_graphs])))
  | _ :: _ :: _ :: _, h => by simp [EncodeNode_If] at h
theorem EncodeLocalFunction_names (use_external_data_format : Bool) (onnx_file_path : String)
    (add_node_names : Bool) (attributes : List (Symbol × AttributeValue))
    (enc : GraphEncoder) (fs : FileSystem) (graph_proto : GraphProto)
    (func_proto : FunctionProto) (r : EncodedFunction) :
    ∀ (search : List (Symbol × AttributeValue)),
    EncodeLocalFunction use_external_data_format onnx_file_path add_node_names attributes
        search enc fs graph_proto func_proto = .ok r →
    enc.namesAdded r.encoder (displayNames_nodes func_proto.node)
      (displayNames_nodes r.func_proto.node)
  | [], h => by simp [EncodeLocalFunction] at h
  | (key, .g (.mk (.mk inputs outputs nodes) nu)) :: rest, h => by
    simp only [EncodeLocalFunction] at h
    split at h
    · simp only [bind, Except.bind] at h
      split at h
      · contradiction
      · rename_i hd hhd
        obtain ⟨h1, hnode⟩ := EncodeLocalFunction_header_sameNames attributes inputs outputs
          enc func_proto hd hhd
        have h2 := EncodeLocalFunction_nodes_names use_external_data_format onnx_file_path
          add_node_names hd.2 fs graph_proto hd.1 [] r nodes h
        rw [hnode] at h2
        exact namesAdded_trans (namesAdded_same h1 _) h2
    · exact EncodeLocalFunction_names use_external_data_format onnx_file_path add_node_names
        attributes enc fs graph_proto func_proto r rest h
  | (key, .gs v) :: rest, h => by
    simp only [EncodeLocalFunction] at h
    split at h
    · contradiction
    · exact EncodeLocalFunction_names use_external_data_format onnx_file_path add_node_names
        attributes enc fs graph_proto func_proto r rest h
  | (key, .f v) :: rest, h => by
    simp only [EncodeLocalFunction] at h
    split at h
    · contradiction
    · exact EncodeLocalFunction_names use_external_data_format onnx_file_path add_node_names
        attributes enc fs graph_proto func_proto r rest h
  | (key, .fs v) :: rest, h => by
    simp only [EncodeLocalFunction] at h
    split at h
    · contradiction
    · exact EncodeLocalFunction_names use_external_data_format onnx_file_path add_node_names
        attributes enc fs graph_proto func_proto r rest h
  | (key, .i v) :: rest, h => by
    simp only [EncodeLocalFunction] at h
    split at h
    · contradiction
    · exact EncodeLocalFunction_names use_external_data_format onnx_file_path add_node_names
        attributes enc fs graph_proto func_proto r rest h
  | (key, .is v) :: rest, h => by
    simp only [EncodeLocalFunction] at h
    split at h
    · contradiction
    · exact EncodeLocalFunction_names use_external_data_format onnx_file_path add_node_names
        attributes enc fs graph_proto func_proto r rest h
  | (key, .s v) :: rest, h => by
    simp only [EncodeLocalFunction] at h
    split at h
    · contradiction
    · exact EncodeLocalFunction_names use_external_data_format onnx_file_path add_node_names
        attributes enc fs graph_proto func_proto r rest h
  | (key, .ss v) :: rest, h => by
    simp only [EncodeLocalFunction] at h
    split at h
    · contradiction
    · exact EncodeLocalFunction_names use_external_data_format onnx_file_path add_node_names
        attributes enc fs graph_proto func_proto r rest h
  | (key, .t v) :: rest, h => by
    simp only [EncodeLocalFunction] at h
    split at h
    · contradiction
    · exact EncodeLocalFunction_names use_external_data_format onnx_file_path add_node_names
        attributes enc fs graph_proto func_proto r rest h
  | (key, .ts v) :: rest, h => by
    simp only [EncodeLocalFunction] at h
    split at h
    · contradiction
    · exact EncodeLocalFunction_names use_external_data_format onnx_file_path add_node_names
        attributes enc fs graph_proto func_proto r rest h
  | (key, .other v) :: rest, h => by
    simp only [EncodeLocalFunction] at h
    split at h
    · contradiction
    · exact EncodeLocalFunction_names use_external_data_format onnx_file_path add_node_names
        attributes enc fs graph_proto func_proto r rest h
theorem EncodeLocalFunction_nodes_names (use_external_data_format : Bool)
    (onnx_file_path : String) (add_node_names : Bool) (enc : GraphEncoder) (fs : FileSystem)
    (graph_proto : GraphProto) (func_proto : FunctionProto) (custom_domains : List String)
    (r : EncodedFunction) : ∀ (nodes : List Node),
    EncodeLocalFunction_nodes use_external_data_format onnx_file_path add_node_names nodes enc
        fs graph_proto func_proto custom_domains = .ok r →
    enc.namesAdded r.encoder (displayNames_nodes func_proto.node)
      (displayNames_nodes r.func_proto.node)
  | [], h => by
    simp only [EncodeLocalFunction_nodes, Except.ok.injEq] at h
    rw [← h]
    exact namesAdded_refl enc _
  | .mk kind inputs outputs blocks attributes isNone sr py :: rest, h => by
    simp only [EncodeLocalFunction_nodes] at h
    by_cases hn : isNone = true
    · rw [if_pos hn] at h
      exact EncodeLocalFunction_nodes_names use_external_data_format onnx_file_path
        add_node_names enc fs graph_proto func_proto custom_domains r rest h
    · rw [if_neg hn] at h
      simp only [bind, Except.bind] at h
      split at h
      · contradiction
      · rename_i q hq
        have h1 := EncodeNode_names use_external_data_format onnx_file_path false
          add_node_names enc fs graph_proto q _ hq
        have h3 := EncodeLocalFunctionOpsetImport_sameNames
          (.mk kind inputs outputs blocks attributes isNone sr py)
          { func_proto := { func_proto with node := func_proto.node ++ [q.node_proto] }
            custom_domains := custom_domains, encoder := q.encoder }
        have hnode := (EncodeLocalFunctionOpsetImport_visited
          (.mk kind inputs outputs blocks attributes isNone sr py)
          { func_proto := { func_proto with node := func_proto.node ++ [q.node_proto] }
            custom_domains := custom_domains, encoder := q.encoder }).2.2.1
        have h2 := EncodeLocalFunction_nodes_names use_external_data_format onnx_file_path
          add_node_names _ _ _ _ _ r rest h
        rw [hnode] at h2
        refine namesAdded_trans (namesAdded_trans (namesAdded_cast
          (namesAdded_frame (displayNames_nodes func_proto.node) h1) (List.append_nil _) ?_)
          (namesAdded_same h3 _)) h2
        rw [displayNames_nodes_append]
        simp [displayNames_nodes]
end

/-- C37: when the constructor of `GraphEncoder` returns, the display names of
the operator records of the model, those of the graph record, of the graphs
nested in attributes and control-flow bodies, and of the function records, are
pairwise distinct, whatever the operator types are and whether or not
`add_node_names` is set for the graph of the session. -/
theorem C37_display_names_distinct (ext : Externals) (graph : Graph)
    (onnx_opset_version : Int) (operator_export_type : OperatorExportTypes)
    (initializers : Initializers) (dynamic_axes : DynamicAxes)
    (defer_weight_export strip_doc : Bool) (keep_initializers_as_inputs : Bool)
    (custom_opsets : List (String × Int)) (add_node_names use_external_data_format : Bool)
    (onnx_file_path : String) (val_attr_to_name : Value → Option String)
    (node_attr_to_name : Node → Option (String → Option String)) (fs : FileSystem)
    (session : Session)
    (h : (GraphEncoder.construct ext graph onnx_opset_version operator_export_type
      initializers dynamic_axes defer_weight_export strip_doc keep_initializers_as_inputs
      custom_opsets add_node_names use_external_data_format onnx_file_path val_attr_to_name
      node_attr_to_name fs).result = .ok session) :
    session.encoder.model_proto_.displayNames.Nodup := by
  obtain ⟨p, r, hp, hr, hs⟩ := construct_ok ext graph onnx_opset_version operator_export_type
    initializers dynamic_axes defer_weight_export strip_doc keep_initializers_as_inputs
    custom_opsets add_node_names use_external_data_format onnx_file_path val_attr_to_name
    node_attr_to_name fs session h
  have hpe := prepare_ok ext graph onnx_opset_version operator_export_type initializers
    defer_weight_export strip_doc custom_opsets use_external_data_format onnx_file_path
    val_attr_to_name node_attr_to_name p hp
  obtain ⟨added, fresh, h1, h2, h3⟩ := EncodeBlock_names p.use_external_data_format
    onnx_file_path true initializers dynamic_axes keep_initializers_as_inputs add_node_names
    p.encoder fs _ r _ hr
  have hfun : p.encoder.model_proto_.functions = [] := by rw [hpe]
  have hgraph : p.encoder.model_proto_.graph.getD GraphProto.empty = GraphProto.empty := by
    rw [hpe]
    rfl
  rw [hgraph, displayNames_empty, List.nil_append] at h2
  rw [hfun, List.nil_append] at h1
  rw [hs, addDomainImports_eq]
  simp only [ModelProto.displayNames, displayNames_option]
  rw [h1, h2]
  exact h3.2.1

/-- C37, witness: with node names on, the nodes `onnx::Relu_1` and `onnx::Relu`
at the counters 0 and 1 are named `Relu_1_0` and `Relu_1`; with node names off
for the graph of the session, the node in the body of the Loop is still
named. -/
theorem C37_display_names_distinct_witness :
    (∃ names, sessionNamesOf exampleUnderscoreGraph true = some names ∧ names.Nodup ∧
      names = ["Relu_1_0", "Relu_1", "Loop_2", "Relu_3", "Relu_4"]) ∧
    (∃ names, sessionNamesOf exampleUnderscoreGraph false = some names ∧ names.Nodup ∧
      names = ["Relu_0"]) := by
  constructor
  · obtain ⟨session, hsession⟩ := exists_ok_of_threw_eq_false
      (GraphEncoder.construct exampleExternals exampleUnderscoreGraph 13 .ONNX []
        (fun _ => none) false false true [] true false "" (fun _ => none) (fun _ => none)
        {}).result (by decide!)
    have hnodup := C37_display_names_distinct exampleExternals exampleUnderscoreGraph 13 .ONNX
      [] (fun _ => none) false false true [] true false "" (fun _ => none) (fun _ => none) {}
      session hsession
    have hnames : sessionNamesOf exampleUnderscoreGraph true =
        some session.encoder.model_proto_.displayNames := by
      simp only [sessionNamesOf, hsession]
    refine ⟨_, hnames, hnodup, ?_⟩
    have hval : sessionNamesOf exampleUnderscoreGraph true =
        some ["Relu_1_0", "Relu_1", "Loop_2", "Relu_3", "Relu_4"] := by decide!
    exact Option.some.inj (hnames.symm.trans hval)
  · obtain ⟨session, hsession⟩ := exists_ok_of_threw_eq_false
      (GraphEncoder.construct exampleExternals exampleUnderscoreGraph 13 .ONNX []
        (fun _ => none) false false true [] false false "" (fun _ => none) (fun _ => none)
        {}).result (by decide!)
    have hnodup := C37_display_names_distinct exampleExternals exampleUnderscoreGraph 13 .ONNX
      [] (fun _ => none) false false true [] false false "" (fun _ => none) (fun _ => none) {}
      session hsession
    have hnames : sessionNamesOf exampleUnderscoreGraph false =
        some session.encoder.model_proto_.displayNames := by
      simp only [sessionNamesOf, hsession]
    refine ⟨_, hnames, hnodup, ?_⟩
    have hval : sessionNamesOf exampleUnderscoreGraph false = some ["Relu_0"] := by decide!
    exact Option.some.inj (hnames.symm.trans hval)

/-- The tensor record and the encoder that `EncodeTensor` leaves do not depend
on the file system in which it runs. -/
theorem EncodeTensor_fs (enc : GraphEncoder) (fs1 fs2 : FileSystem)
    (tensor_proto : TensorProto) (tensor : Tensor) (external_ref : Option String)
    (use_external_data_format : Bool) (onnx_file_path : String) (r1 r2 : EncodedTensor)
    (h1 : EncodeTensor enc fs1 tensor_proto tensor external_ref use_external_data_format
      onnx_file_path = .ok r1)
    (h2 : EncodeTensor enc fs2 tensor_proto tensor external_ref use_external_data_format
      onnx_file_path = .ok r2) :
    r1.tensor_proto = r2.tensor_proto ∧ r1.encoder = r2.encoder := by
  unfold EncodeTensor at h1 h2
  cases htype : ATenTypeToOnnxType tensor.scalar_type with
  | error e => simp [htype, bind, Except.bind] at h1
  | ok data_type =>
    simp only [htype, bind, Except.bind, pure, Except.pure] at h1 h2
    repeat' split at h1
    all_goals first
      | contradiction
      | (simp [throw, throwThe, MonadExceptOf.throw] at h1; done)
      | skip
    all_goals (repeat' split at h2)
    all_goals first
      | contradiction
      | (simp [throw, throwThe, MonadExceptOf.throw] at h2; done)
      | skip
    all_goals
      simp only [Except.ok.injEq] at h1 h2
      subst h1 h2
    all_goals first
      | exact ⟨rfl, rfl⟩
      | simp_all

theorem AddAttribute_tensor_fs (enc : GraphEncoder) (fs1 fs2 : FileSystem)
    (node_proto : NodeProto) (name : Symbol) (tensor : Tensor)
    (use_external_data_format : Bool) (onnx_file_path : String) (r1 r2 : EncodedTensor)
    (h1 : AddAttribute_tensor enc fs1 node_proto name tensor use_external_data_format
      onnx_file_path = .ok r1)
    (h2 : AddAttribute_tensor enc fs2 node_proto name tensor use_external_data_format
      onnx_file_path = .ok r2) :
    r1.tensor_proto = r2.tensor_proto ∧ r1.encoder = r2.encoder := by
  unfold AddAttribute_tensor at h1 h2
  dsimp only at h1 h2
  split at h1
  · rename_i hc
    rw [if_pos hc] at h2
    exact EncodeTensor_fs _ fs1 fs2 _ tensor none use_external_data_format onnx_file_path r1
      r2 h1 h2
  · rename_i hc
    rw [if_neg hc] at h2
    exact EncodeTensor_fs _ fs1 fs2 _ tensor none use_external_data_format onnx_file_path r1
      r2 h1 h2

theorem AddAttribute_tensors_fs (node_proto : NodeProto) (name : Symbol)
    (use_external_data_format : Bool) (onnx_file_path : String) :
    ∀ (vs : List Tensor) (enc : GraphEncoder) (fs1 fs2 : FileSystem)
      (tensors : List TensorProto) (r1 r2 : EncodedTensors),
      AddAttribute_tensors node_proto name use_external_data_format onnx_file_path vs enc fs1
        tensors = .ok r1 →
      AddAttribute_tensors node_proto name use_external_data_format onnx_file_path vs enc fs2
        tensors = .ok r2 →
      r1.tensors = r2.tensors ∧ r1.encoder = r2.encoder
  | [], enc, fs1, fs2, tensors, r1, r2, h1, h2 => by
    simp only [AddAttribute_tensors, Except.ok.injEq] at h1 h2
    rw [← h1, ← h2]
    exact ⟨rfl, rfl⟩
  | v :: rest, enc, fs1, fs2, tensors, r1, r2, h1, h2 => by
    simp only [AddAttribute_tensors, bind, Except.bind] at h1 h2
    cases hq1 : AddAttribute_tensor enc fs1 node_proto name v use_external_data_format
        onnx_file_path with
    | error e => simp [hq1] at h1
    | ok q1 =>
      cases hq2 : AddAttribute_tensor enc fs2 node_proto name v use_external_data_format
          onnx_file_path with
      | error e => simp [hq2] at h2
      | ok q2 =>
        simp only [hq1] at h1
        simp only [hq2] at h2
        obtain ⟨e1, e2⟩ := AddAttribute_tensor_fs enc fs1 fs2 node_proto name v
          use_external_data_format onnx_file_path q1 q2 hq1 hq2
        rw [e1, e2] at h1
        exact AddAttribute_tensors_fs node_proto name use_external_data_format onnx_file_path
          rest q2.encoder q1.fs q2.fs _ r1 r2 h1 h2

theorem AddInitializersIntoGraphProto_loop_fs (initializers : Initializers)
    (use_external_data_format : Bool) (onnx_file_path : String) :
    ∀ (inputs : List Value) (enc : GraphEncoder) (fs1 fs2 : FileSystem)
      (graph_proto : GraphProto) (r1 r2 : Encoded GraphProto),
      AddInitializersIntoGraphProto_loop initializers use_external_data_format onnx_file_path
        inputs enc fs1 graph_proto = .ok r1 →
      AddInitializersIntoGraphProto_loop initializers use_external_data_format onnx_file_path
        inputs enc fs2 graph_proto = .ok r2 →
      r1.value = r2.value ∧ r1.encoder = r2.encoder
  | [], enc, fs1, fs2, graph_proto, r1, r2, h1, h2 => by
    simp only [AddInitializersIntoGraphProto_loop, Except.ok.injEq] at h1 h2
    rw [← h1, ← h2]
    exact ⟨rfl, rfl⟩
  | input :: rest, enc, fs1, fs2, graph_proto, r1, r2, h1, h2 => by
    simp only [AddInitializersIntoGraphProto_loop] at h1 h2
    cases hf : findInitializer initializers input.debugName with
    | none =>
      simp only [hf] at h1 h2
      exact AddInitializersIntoGraphProto_loop_fs initializers use_external_data_format
        onnx_file_path rest enc fs1 fs2 graph_proto r1 r2 h1 h2
    | some e =>
      simp only [hf, bind, Except.bind] at h1 h2
      cases hq1 : EncodeTensor enc fs1 { name := some e.1 } e.2 (some e.1)
          use_external_data_format onnx_file_path with
      | error f => simp [hq1] at h1
      | ok q1 =>
        cases hq2 : EncodeTensor enc fs2 { name := some e.1 } e.2 (some e.1)
            use_external_data_format onnx_file_path with
        | error f => simp [hq2] at h2
        | ok q2 =>
          simp only [hq1] at h1
          simp only [hq2] at h2
          obtain ⟨e1, e2⟩ := EncodeTensor_fs enc fs1 fs2 _ e.2 (some e.1)
            use_external_data_format onnx_file_path q1 q2 hq1 hq2
          rw [e1, e2] at h1
          exact AddInitializersIntoGraphProto_loop_fs initializers use_external_data_format
            onnx_file_path rest q2.encoder q1.fs q2.fs _ r1 r2 h1 h2

theorem AddInitializersIntoGraphProto_fs (enc : GraphEncoder) (fs1 fs2 : FileSystem)
    (graph_proto : GraphProto) (block : Block) (initializers : Initializers)
    (use_external_data_format : Bool) (onnx_file_path : String) (r1 r2 : Encoded GraphProto)
    (h1 : AddInitializersIntoGraphProto enc fs1 graph_proto block initializers
      use_external_data_format onnx_file_path = .ok r1)
    (h2 : AddInitializersIntoGraphProto enc fs2 graph_proto block initializers
      use_external_data_format onnx_file_path = .ok r2) :
    r1.value = r2.value ∧ r1.encoder = r2.encoder := by
  unfold AddInitializersIntoGraphProto at h1 h2
  split at h1
  · contradiction
  · rename_i hc
    rw [if_neg hc] at h2
    exact AddInitializersIntoGraphProto_loop_fs initializers use_external_data_format
      onnx_file_path block.inputs enc fs1 fs2 graph_proto r1 r2 h1 h2

mutual
/-- Two calls of `EncodeBlock` from the same state of the encoder and the same
graph record, in two file systems, that both return leave the same graph record
and the same state of the encoder; the theorems that follow say the same of the
other methods of the encoder. -/
theorem EncodeBlock_fs (use_external_data_format : Bool) (onnx_file_path : String)
    (in_graph_ : Bool) (initializers : Initializers) (dynamic_axes : DynamicAxes)
    (keep_initializers_as_inputs add_node_names : Bool) (enc : GraphEncoder)
    (fs1 fs2 : FileSystem) (graph_proto : GraphProto) (r1 r2 : Encoded GraphProto) :
    ∀ (block : Block),
    EncodeBlock use_external_data_format onnx_file_path in_graph_ initializers dynamic_axes
        keep_initializers_as_inputs add_node_names block enc fs1 graph_proto = .ok r1 →
    EncodeBlock use_external_data_format onnx_file_path in_graph_ initializers dynamic_axes
        keep_initializers_as_inputs add_node_names block enc fs2 graph_proto = .ok r2 →
    r1.value = r2.value ∧ r1.encoder = r2.encoder
  | .mk inputs outputs nodes, h1, h2 => by
    simp only [EncodeBlock, bind, Except.bind] at h1 h2
    cases hhd : EncodeBlock_header initializers dynamic_axes keep_initializers_as_inputs
        inputs outputs enc graph_proto with
    | error e => simp [hhd] at h1
    | ok hd =>
      simp only [hhd] at h1 h2
      cases hq1 : EncodeBlock_nodes use_external_data_format onnx_file_path in_graph_
          add_node_names nodes hd.2 fs1 hd.1 with
      | error e => simp [hq1] at h1
      | ok q1 =>
        cases hq2 : EncodeBlock_nodes use_external_data_format onnx_file_path in_graph_
            add_node_names nodes hd.2 fs2 hd.1 with
        | error e => simp [hq2] at h2
        | ok q2 =>
          simp only [hq1] at h1
          simp only [hq2] at h2
          obtain ⟨e1, e2⟩ := EncodeBlock_nodes_fs use_external_data_format onnx_file_path
            in_graph_ add_node_names hd.2 fs1 fs2 hd.1 q1 q2 nodes hq1 hq2
          rw [e1, e2] at h1
          exact AddInitializersIntoGraphProto_fs q2.encoder q1.fs q2.fs q2.value _
            initializers use_external_data_format onnx_file_path r1 r2 h1 h2
theorem EncodeBlock_nodes_fs (use_external_data_format : Bool) (onnx_file_path : String)
    (in_graph_ add_node_names : Bool) (enc : GraphEncoder) (fs1 fs2 : FileSystem)
    (graph_proto : GraphProto) (r1 r2 : Encoded GraphProto) : ∀ (nodes : List Node),
    EncodeBlock_nodes use_external_data_format onnx_file_path in_graph_ add_node_names nodes
        enc fs1 graph_proto = .ok r1 →
    EncodeBlock_nodes use_external_data_format onnx_file_path in_graph_ add_node_names nodes
        enc fs2 graph_proto = .ok r2 →
    r1.value = r2.value ∧ r1.encoder = r2.encoder
  | [], h1, h2 => by
    simp only [EncodeBlock_nodes, Except.ok.injEq] at h1 h2
    rw [← h1, ← h2]
    exact ⟨rfl, rfl⟩
  | .mk kind inputs outputs blocks attributes isNone sr py :: rest, h1, h2 => by
    simp only [EncodeBlock_nodes] at h1 h2
    by_cases hn : isNone = true
    · rw [if_pos hn] at h1 h2
      exact EncodeBlock_nodes_fs use_external_data_format onnx_file_path in_graph_
        add_node_names enc fs1 fs2 graph_proto r1 r2 rest h1 h2
    · rw [if_neg hn] at h1 h2
      by_cases hk : kind = onnx_LocalFunctionDef
      · rw [if_pos hk] at h1 h2
        simp only [bind, Except.bind] at h1 h2
        cases hq1 : EncodeLocalFunction use_external_data_format onnx_file_path add_node_names
            attributes attributes
            { enc with model_proto_ := { enc.model_proto_ with
                functions := enc.model_proto_.functions ++ [{}] } } fs1 graph_proto {} with
        | error e => simp [hq1] at h1
        | ok q1 =>
          cases hq2 : EncodeLocalFunction use_external_data_format onnx_file_path
              add_node_names attributes attributes
              { enc with model_proto_ := { enc.model_proto_ with
                  functions := enc.model_proto_.functions ++ [{}] } } fs2 graph_proto {} with
          | error e => simp [hq2] at h2
          | ok q2 =>
            simp only [hq1] at h1
            simp only [hq2] at h2
            obtain ⟨e1, e2, e3⟩ := EncodeLocalFunction_fs use_external_data_format
              onnx_file_path add_node_names attributes _ fs1 fs2 graph_proto {} q1 q2
              attributes hq1 hq2
            rw [e1, e2, e3] at h1
            exact EncodeBlock_nodes_fs use_external_data_format onnx_file_path in_graph_
              add_node_names _ q1.fs q2.fs _ r1 r2 rest h1 h2
      · rw [if_neg hk] at h1 h2
        simp only [bind, Except.bind] at h1 h2
        cases hq1 : EncodeNode use_external_data_format onnx_file_path in_graph_
            add_node_names (.mk kind inputs outputs blocks attributes isNone sr py) enc fs1
            graph_proto {} with
        | error e => simp [hq1] at h1
        | ok q1 =>
          cases hq2 : EncodeNode use_external_data_format onnx_file_path in_graph_
              add_node_names (.mk kind inputs outputs blocks attributes isNone sr py) enc fs2
              graph_proto {} with
          | error e => simp [hq2] at h2
          | ok q2 =>
            simp only [hq1] at h1
            simp only [hq2] at h2
            obtain ⟨e1, e2, e3⟩ := EncodeNode_fs use_external_data_format onnx_file_path
              in_graph_ add_node_names enc fs1 fs2 graph_proto {} q1 q2 _ hq1 hq2
            rw [e1, e2, e3] at h1
            exact EncodeBlock_nodes_fs use_external_data_format onnx_file_path in_graph_
              add_node_names _ q1.fs q2.fs _ r1 r2 rest h1 h2
theorem EncodeNode_fs (use_external_data_format : Bool) (onnx_file_path : String)
    (in_graph_ add_node_names : Bool) (enc : GraphEncoder) (fs1 fs2 : FileSystem)
    (graph_proto : GraphProto) (node_proto : NodeProto) (r1 r2 : EncodedNode) :
    ∀ (node : Node),
    EncodeNode use_external_data_format onnx_file_path in_graph_ add_node_names node enc fs1
        graph_proto node_proto = .ok r1 →
    EncodeNode use_external_data_format onnx_file_path in_graph_ add_node_names node enc fs2
        graph_proto node_proto = .ok r2 →
    r1.node_proto = r2.node_proto ∧ r1.graph_proto = r2.graph_proto ∧ r1.encoder = r2.encoder
  | .mk kind inputs outputs blocks attributes isNone sr py, h1, h2 => by
    obtain ⟨hd1, a1, l1, i1, hhd1, ha1, hl1, hi1, hr1⟩ := EncodeNode_ok
      use_external_data_format onnx_file_path in_graph_ add_node_names _ enc fs1 graph_proto
      node_proto r1 h1
    obtain ⟨hd2, a2, l2, i2, hhd2, ha2, hl2, hi2, hr2⟩ := EncodeNode_ok
      use_external_data_format onnx_file_path in_graph_ add_node_names _ enc fs2 graph_proto
      node_proto r2 h2
    have hhd : hd1 = hd2 := Except.ok.inj (hhd1.symm.trans hhd2)
    subst hhd
    simp only [Node.kind, Node.blocks, Node.attributes] at ha1 hl1 hi1 ha2 hl2 hi2
    obtain ⟨ea1, ea2⟩ := EncodeNode_attributes_fs use_external_data_format onnx_file_path _
      hd1.encoder fs1 fs2 hd1.node_proto a1 a2 attributes ha1 ha2
    have el : l1.value = l2.value ∧ l1.encoder = l2.encoder := by
      by_cases hL : kind = onnx_Loop
      · rw [if_pos hL] at hl1 hl2
        rw [ea1, ea2] at hl1
        exact EncodeNode_Loop_fs use_external_data_format onnx_file_path in_graph_ a2.encoder
          a1.fs a2.fs a2.value l1 l2 blocks hl1 hl2
      · rw [if_neg hL] at hl1 hl2
        rw [hl1, hl2]
        exact ⟨ea1, ea2⟩
    have ei : i1.value = i2.value ∧ i1.encoder = i2.encoder := by
      by_cases hI : kind = onnx_If
      · rw [if_pos hI] at hi1 hi2
        rw [el.1, el.2] at hi1
        exact EncodeNode_If_fs use_external_data_format onnx_file_path in_graph_ l2.encoder
          l1.fs l2.fs l2.value i1 i2 blocks hi1 hi2
      · rw [if_neg hI] at hi1 hi2
        rw [hi1, hi2]
        exact el
    rw [hr1, hr2]
    exact ⟨ei.1, rfl, ei.2⟩
theorem EncodeNode_attributes_fs (use_external_data_format : Bool) (onnx_file_path : String)
    (attrs_it : Option (String → Option String)) (enc : GraphEncoder) (fs1 fs2 : FileSystem)
    (node_proto : NodeProto) (r1 r2 : Encoded NodeProto) :
    ∀ (attributes : List (Symbol × AttributeValue)),
    EncodeNode_attributes use_external_data_format onnx_file_path attrs_it attributes enc fs1
        node_proto = .ok r1 →
    EncodeNode_attributes use_external_data_format onnx_file_path attrs_it attributes enc fs2
        node_proto = .ok r2 →
    r1.value = r2.value ∧ r1.encoder = r2.encoder
  | [], h1, h2 => by
    simp only [EncodeNode_attributes, Except.ok.injEq] at h1 h2
    rw [← h1, ← h2]
    exact ⟨rfl, rfl⟩
  | (attr_name, value) :: rest, h1, h2 => by
    simp only [EncodeNode_attributes] at h1 h2
    cases ho : attrs_it.bind (fun names => names attr_name.toUnqualString) with
    | some ref_attr_name =>
      simp only [ho, bind, Except.bind] at h1 h2
      cases hq : AddAttribute_ref node_proto attr_name ref_attr_name with
      | error e => simp [hq] at h1
      | ok q =>
        simp only [hq] at h1 h2
        exact EncodeNode_attributes_fs use_external_data_format onnx_file_path attrs_it enc
          fs1 fs2 q r1 r2 rest h1 h2
    | none =>
      simp only [ho, bind, Except.bind] at h1 h2
      cases hq1 : AddAttribute use_external_data_format onnx_file_path attr_name value enc fs1
          node_proto with
      | error e => simp [hq1] at h1
      | ok q1 =>
        cases hq2 : AddAttribute use_external_data_format onnx_file_path attr_name value enc
            fs2 node_proto with
        | error e => simp [hq2] at h2
        | ok q2 =>
          simp only [hq1] at h1
          simp only [hq2] at h2
          obtain ⟨e1, e2⟩ := AddAttribute_fs use_external_data_format onnx_file_path
            attr_name enc fs1 fs2 node_proto q1 q2 value hq1 hq2
          rw [e1, e2] at h1
          exact EncodeNode_attributes_fs use_external_data_format onnx_file_path attrs_it
            q2.encoder q1.fs q2.fs q2.value r1 r2 rest h1 h2
theorem AddAttribute_fs (use_external_data_format : Bool) (onnx_file_path : String)
    (name : Symbol) (enc : GraphEncoder) (fs1 fs2 : FileSystem) (node_proto : NodeProto)
    (r1 r2 : Encoded NodeProto) : ∀ (value : AttributeValue),
    AddAttribute use_external_data_format onnx_file_path name value enc fs1 node_proto =
      .ok r1 →
    AddAttribute use_external_data_format onnx_file_path name value enc fs2 node_proto =
      .ok r2 →
    r1.value = r2.value ∧ r1.encoder = r2.encoder
  | .g (.mk block nu), h1, h2 => by
    simp only [AddAttribute, EncodeGraph, bind, Except.bind, pure, Except.pure] at h1 h2
    cases hnew : AddAttribute_new name with
    | error e => simp [hnew] at h1
    | ok attr =>
      simp only [hnew] at h1 h2
      cases hq1 : EncodeBlock use_external_data_format onnx_file_path false []
          (fun _ => none) true true block enc fs1 GraphProto.empty with
      | error e => simp [hq1] at h1
      | ok q1 =>
        cases hq2 : EncodeBlock use_external_data_format onnx_file_path false []
            (fun _ => none) true true block enc fs2 GraphProto.empty with
        | error e => simp [hq2] at h2
        | ok q2 =>
          simp only [hq1, Except.ok.injEq] at h1
          simp only [hq2, Except.ok.injEq] at h2
          obtain ⟨e1, e2⟩ := EncodeBlock_fs use_external_data_format onnx_file_path false []
            (fun _ => none) true true enc fs1 fs2 GraphProto.empty q1 q2 block hq1 hq2
          rw [← h1, ← h2]
          dsimp only
          rw [e1]
          exact ⟨rfl, e2⟩
  | .gs graphs, h1, h2 => by
    simp only [AddAttribute, bind, Except.bind, pure, Except.pure] at h1 h2
    cases hnew : AddAttribute_new name with
    | error e => simp [hnew] at h1
    | ok attr =>
      simp only [hnew] at h1 h2
      cases hq1 : AddAttribute_graphs use_external_data_format onnx_file_path graphs enc fs1
          attr.graphs with
      | error e => simp [hq1] at h1
      | ok q1 =>
        cases hq2 : AddAttribute_graphs use_external_data_format onnx_file_path graphs enc
            fs2 attr.graphs with
        | error e => simp [hq2] at h2
        | ok q2 =>
          simp only [hq1, Except.ok.injEq] at h1
          simp only [hq2, Except.ok.injEq] at h2
          obtain ⟨e1, e2⟩ := AddAttribute_graphs_fs use_external_data_format onnx_file_path
            enc fs1 fs2 attr.graphs q1 q2 graphs hq1 hq2
          rw [← h1, ← h2]
          dsimp only
          rw [e1]
          exact ⟨rfl, e2⟩
  | .t v, h1, h2 => by
    simp only [AddAttribute, bind, Except.bind, pure, Except.pure] at h1 h2
    cases hnew : AddAttribute_new name with
    | error e => simp [hnew] at h1
    | ok attr =>
      simp only [hnew] at h1 h2
      cases hq1 : AddAttribute_tensor enc fs1 (node_proto.add_attribute attr) name v
          use_external_data_format onnx_file_path with
      | error e => simp [hq1] at h1
      | ok q1 =>
        cases hq2 : AddAttribute_tensor enc fs2 (node_proto.add_attribute attr) name v
            use_external_data_format onnx_file_path with
        | error e => simp [hq2] at h2
        | ok q2 =>
          simp only [hq1, Except.ok.injEq] at h1
          simp only [hq2, Except.ok.injEq] at h2
          obtain ⟨e1, e2⟩ := AddAttribute_tensor_fs enc fs1 fs2 _ name v
            use_external_data_format onnx_file_path q1 q2 hq1 hq2
          rw [← h1, ← h2]
          dsimp only
          rw [e1]
          exact ⟨rfl, e2⟩
  | .ts vs, h1, h2 => by
    simp only [AddAttribute, bind, Except.bind, pure, Except.pure] at h1 h2
    cases hnew : AddAttribute_new name with
    | error e => simp [hnew] at h1
    | ok attr =>
      simp only [hnew] at h1 h2
      cases hq1 : AddAttribute_tensors (node_proto.add_attribute attr) name
          use_external_data_format onnx_file_path vs enc fs1 attr.tensors with
      | error e => simp [hq1] at h1
      | ok q1 =>
        cases hq2 : AddAttribute_tensors (node_proto.add_attribute attr) name
            use_external_data_format onnx_file_path vs enc fs2 attr.tensors with
        | error e => simp [hq2] at h2
        | ok q2 =>
          simp only [hq1, Except.ok.injEq] at h1
          simp only [hq2, Except.ok.injEq] at h2
          obtain ⟨e1, e2⟩ := AddAttribute_tensors_fs _ name use_external_data_format
            onnx_file_path vs enc fs1 fs2 _ q1 q2 hq1 hq2
          rw [← h1, ← h2]
          dsimp only
          rw [e1]
          exact ⟨rfl, e2⟩
  | .f v, h1, h2 => by
    simp only [AddAttribute, bind, Except.bind, pure, Except.pure] at h1 h2
    cases hnew : AddAttribute_new name with
    | error e => simp [hnew] at h1
    | ok attr =>
      simp only [hnew, Except.ok.injEq] at h1 h2
      rw [← h1, ← h2]
      exact ⟨rfl, rfl⟩
  | .fs v, h1, h2 => by
    simp only [AddAttribute, bind, Except.bind, pure, Except.pure] at h1 h2
    cases hnew : AddAttribute_new name with
    | error e => simp [hnew] at h1
    | ok attr =>
      simp only [hnew, Except.ok.injEq] at h1 h2
      rw [← h1, ← h2]
      exact ⟨rfl, rfl⟩
  | .i v, h1, h2 => by
    simp only [AddAttribute, bind, Except.bind, pure, Except.pure] at h1 h2
    cases hnew : AddAttribute_new name with
    | error e => simp [hnew] at h1
    | ok attr =>
      simp only [hnew, Except.ok.injEq] at h1 h2
      rw [← h1, ← h2]
      exact ⟨rfl, rfl⟩
  | .is v, h1, h2 => by
    simp only [AddAttribute, bind, Except.bind, pure, Except.pure] at h1 h2
    cases hnew : AddAttribute_new name with
    | error e => simp [hnew] at h1
    | ok attr =>
      simp only [hnew, Except.ok.injEq] at h1 h2
      rw [← h1, ← h2]
      exact ⟨rfl, rfl⟩
  | .s v, h1, h2 => by
    simp only [AddAttribute, bind, Except.bind, pure, Except.pure] at h1 h2
    cases hnew : AddAttribute_new name with
    | error e => simp [hnew] at h1
    | ok attr =>
      simp only [hnew, Except.ok.injEq] at h1 h2
      rw [← h1, ← h2]
      exact ⟨rfl, rfl⟩
  | .ss v, h1, h2 => by
    simp only [AddAttribute, bind, Except.bind, pure, Except.pure] at h1 h2
    cases hnew : AddAttribute_new name with
    | error e => simp [hnew] at h1
    | ok attr =>
      simp only [hnew, Except.ok.injEq] at h1 h2
      rw [← h1, ← h2]
      exact ⟨rfl, rfl⟩
  | .other kindName, h1, h2 => by
    simp only [AddAttribute, bind, Except.bind] at h1
    split at h1 <;> contradiction
theorem AddAttribute_graphs_fs (use_external_data_format : Bool) (onnx_file_path : String)
    (enc : GraphEncoder) (fs1 fs2 : FileSystem) (graphs : List GraphProto)
    (r1 r2 : Encoded (List GraphProto)) : ∀ (vs : List Graph),
    AddAttribute_graphs use_external_data_format onnx_file_path vs enc fs1 graphs = .ok r1 →
    AddAttribute_graphs use_external_data_format onnx_file_path vs enc fs2 graphs = .ok r2 →
    r1.value = r2.value ∧ r1.encoder = r2.encoder
  | [], h1, h2 => by
    simp only [AddAttribute_graphs, Except.ok.injEq] at h1 h2
    rw [← h1, ← h2]
    exact ⟨rfl, rfl⟩
  | .mk block nu :: rest, h1, h2 => by
    simp only [AddAttribute_graphs, EncodeGraph, bind, Except.bind] at h1 h2
    cases hq1 : EncodeBlock use_external_data_format onnx_file_path false [] (fun _ => none)
        true true block enc fs1 GraphProto.empty with
    | error e => simp [hq1] at h1
    | ok q1 =>
      cases hq2 : EncodeBlock use_external_data_format onnx_file_path false []
          (fun _ => none) true true block enc fs2 GraphProto.empty with
      | error e => simp [hq2] at h2
      | ok q2 =>
        simp only [hq1] at h1
        simp only [hq2] at h2
        obtain ⟨e1, e2⟩ := EncodeBlock_fs use_external_data_format onnx_file_path false []
          (fun _ => none) true true enc fs1 fs2 GraphProto.empty q1 q2 block hq1 hq2
        rw [e1, e2] at h1
        exact AddAttribute_graphs_fs use_external_data_format onnx_file_path q2.encoder q1.fs
          q2.fs _ r1 r2 rest h1 h2
theorem EncodeNode_Loop_fs (use_external_data_format : Bool) (onnx_file_path : String)
    (in_graph_ : Bool) (enc : GraphEncoder) (fs1 fs2 : FileSystem) (node_proto : NodeProto)
    (r1 r2 : Encoded NodeProto) : ∀ (blocks : List Block),
    EncodeNode_Loop use_external_data_format onnx_file_path in_graph_ blocks enc fs1
        node_proto = .ok r1 →
    EncodeNode_Loop use_external_data_format onnx_file_path in_graph_ blocks enc fs2
        node_proto = .ok r2 →
    r1.value = r2.value ∧ r1.encoder = r2.encoder
  | [], h1, _ => by simp [EncodeNode_Loop] at h1
  | [body_block], h1, h2 => by
    simp only [EncodeNode_Loop, bind, Except.bind, pure, Except.pure] at h1 h2
    cases hq1 : EncodeBlock use_external_data_format onnx_file_path in_graph_ []
        (fun _ => none) true true body_block enc fs1 GraphProto.empty with
    | error e => simp [hq1] at h1
    | ok q1 =>
      cases hq2 : EncodeBlock use_external_data_format onnx_file_path in_graph_ []
          (fun _ => none) true true body_block enc fs2 GraphProto.empty with
      | error e => simp [hq2] at h2
      | ok q2 =>
        simp only [hq1, Except.ok.injEq] at h1
        simp only [hq2, Except.ok.injEq] at h2
        obtain ⟨e1, e2⟩ := EncodeBlock_fs use_external_data_format onnx_file_path in_graph_
          [] (fun _ => none) true true enc fs1 fs2 GraphProto.empty q1 q2 body_block hq1 hq2
        rw [← h1, ← h2]
        dsimp only
        rw [e1]
        exact ⟨rfl, e2⟩
  | _ :: _ :: _, h1, _ => by simp [EncodeNode_Loop] at h1
theorem EncodeNode_If_fs (use_external_data_format : Bool) (onnx_file_path : String)
    (in_graph_ : Bool) (enc : GraphEncoder) (fs1 fs2 : FileSystem) (node_proto : NodeProto)
    (r1 r2 : Encoded NodeProto) : ∀ (blocks : List Block),
    EncodeNode_If use_external_data_format onnx_file_path in_graph_ blocks enc fs1
        node_proto = .ok r1 →
    EncodeNode_If use_external_data_format onnx_file_path in_graph_ blocks enc fs2
        node_proto = .ok r2 →
    r1.value = r2.value ∧ r1.encoder = r2.encoder
  | [], h1, _ => by simp [EncodeNode_If] at h1
  | [_], h1, _ => by simp [EncodeNode_If] at h1
  | [then_block, else_block], h1, h2 => by
    simp only [EncodeNode_If, bind, Except.bind, pure, Except.pure] at h1 h2
    cases ht1 : EncodeBlock use_external_data_format onnx_file_path in_graph_ []
        (fun _ => none) true true then_block enc fs1 GraphProto.empty with
    | error e => simp [ht1] at h1
    | ok t1 =>
      cases ht2 : EncodeBlock use_external_data_format onnx_file_path in_graph_ []
          (fun _ => none) true true then_block enc fs2 GraphProto.empty with
      | error e => simp [ht2] at h2
      | ok t2 =>
        simp only [ht1] at h1
        simp only [ht2] at h2
        obtain ⟨e1, e2⟩ := EncodeBlock_fs use_external_data_format onnx_file_path in_graph_
          [] (fun _ => none) true true enc fs1 fs2 GraphProto.empty t1 t2 then_block ht1 ht2
        rw [e1, e2] at h1
        cases he1 : EncodeBlock use_external_data_format onnx_file_path in_graph_ []
            (fun _ => none) true true else_block t2.encoder t1.fs GraphProto.empty with
        | error e => simp [he1] at h1
        | ok q1 =>
          cases he2 : EncodeBlock use_external_data_format onnx_file_path in_graph_ []
              (fun _ => none) true true else_block t2.encoder t2.fs GraphProto.empty with
          | error e => simp [he2] at h2
          | ok q2 =>
            simp only [he1, Except.ok.injEq] at h1
            simp only [he2, Except.ok.injEq] at h2
            obtain ⟨e3, e4⟩ := EncodeBlock_fs use_external_data_format onnx_file_path
              in_graph_ [] (fun _ => none) true true t2.encoder t1.fs t2.fs GraphProto.empty
              q1 q2 else_block he1 he2
            rw [← h1, ← h2]
            dsimp only
            rw [e3]
            exact ⟨rfl, e4⟩
  | _ :: _ :: _ :: _, h1, _ => by simp [EncodeNode_If] at h1
theorem EncodeLocalFunction_fs (use_external_data_format : Bool) (onnx_file_path : String)
    (add_node_names : Bool) (attributes : List (Symbol × AttributeValue))
    (enc : GraphEncoder) (fs1 fs2 : FileSystem) (graph_proto : GraphProto)
    (func_proto : FunctionProto) (r1 r2 : EncodedFunction) :
    ∀ (search : List (Symbol × AttributeValue)),
    EncodeLocalFunction use_external_data_format onnx_file_path add_node_names attributes
        search enc fs1 graph_proto func_proto = .ok r1 →
    EncodeLocalFunction use_external_data_format onnx_file_path add_node_names attributes
        search enc fs2 graph_proto func_proto = .ok r2 →
    r1.func_proto = r2.func_proto ∧ r1.graph_proto = r2.graph_proto ∧ r1.encoder = r2.encoder
  | [], h1, _ => by simp [EncodeLocalFunction] at h1
  | (key, .g (.mk (.mk inputs outputs nodes) nu)) :: rest, h1, h2 => by
    simp only [EncodeLocalFunction] at h1 h2
    by_cases hk : key = attr_graph
    · rw [if_pos hk] at h1 h2
      simp only [bind, Except.bind] at h1 h2
      cases hhd : EncodeLocalFunction_header attributes inputs outputs enc func_proto with
      | error e => simp [hhd] at h1
      | ok hd =>
        simp only [hhd] at h1 h2
        exact EncodeLocalFunction_nodes_fs use_external_data_format onnx_file_path
          add_node_names hd.2 fs1 fs2 graph_proto hd.1 [] r1 r2 nodes h1 h2
    · rw [if_neg hk] at h1 h2
      exact EncodeLocalFunction_fs use_external_data_format onnx_file_path add_node_names
        attributes enc fs1 fs2 graph_proto func_proto r1 r2 rest h1 h2
  | (key, .gs v) :: rest, h1, h2 => by
    simp only [EncodeLocalFunction] at h1 h2
    by_cases hk : key = attr_graph
    · rw [if_pos hk] at h1
      contradiction
    · rw [if_neg hk] at h1 h2
      exact EncodeLocalFunction_fs use_external_data_format onnx_file_path add_node_names
        attributes enc fs1 fs2 graph_proto func_proto r1 r2 rest h1 h2
  | (key, .f v) :: rest, h1, h2 => by
    simp only [EncodeLocalFunction] at h1 h2
    by_cases hk : key = attr_graph
    · rw [if_pos hk] at h1
      contradiction
    · rw [if_neg hk] at h1 h2
      exact EncodeLocalFunction_fs use_external_data_format onnx_file_path add_node_names
        attributes enc fs1 fs2 graph_proto func_proto r1 r2 rest h1 h2
  | (key, .fs v) :: rest, h1, h2 => by
    simp only [EncodeLocalFunction] at h1 h2
    by_cases hk : key = attr_graph
    · rw [if_pos hk] at h1
      contradiction
    · rw [if_neg hk] at h1 h2
      exact EncodeLocalFunction_fs use_external_data_format onnx_file_path add_node_names
        attributes enc fs1 fs2 graph_proto func_proto r1 r2 rest h1 h2
  | (key, .i v) :: rest, h1, h2 => by
    simp only [EncodeLocalFunction] at h1 h2
    by_cases hk : key = attr_graph
    · rw [if_pos hk] at h1
      contradiction
    · rw [if_neg hk] at h1 h2
      exact EncodeLocalFunction_fs use_external_data_format onnx_file_path add_node_names
        attributes enc fs1 fs2 graph_proto func_proto r1 r2 rest h1 h2
  | (key, .is v) :: rest, h1, h2 => by
    simp only [EncodeLocalFunction] at h1 h2
    by_cases hk : key = attr_graph
    · rw [if_pos hk] at h1
      contradiction
    · rw [if_neg hk] at h1 h2
      exact EncodeLocalFunction_fs use_external_data_format onnx_file_path add_node_names
        attributes enc fs1 fs2 graph_proto func_proto r1 r2 rest h1 h2
  | (key, .s v) :: rest, h1, h2 => by
    simp only [EncodeLocalFunction] at h1 h2
    by_cases hk : key = attr_graph
    · rw [if_pos hk] at h1
      contradiction
    · rw [if_neg hk] at h1 h2
      exact EncodeLocalFunction_fs use_external_data_format onnx_file_path add_node_names
        attributes enc fs1 fs2 graph_proto func_proto r1 r2 rest h1 h2
  | (key, .ss v) :: rest, h1, h2 => by
    simp only [EncodeLocalFunction] at h1 h2
    by_cases hk : key = attr_graph
    · rw [if_pos hk] at h1
      contradiction
    · rw [if_neg hk] at h1 h2
      exact EncodeLocalFunction_fs use_external_data_format onnx_file_path add_node_names
        attributes enc fs1 fs2 graph_proto func_proto r1 r2 rest h1 h2
  | (key, .t v) :: rest, h1, h2 => by
    simp only [EncodeLocalFunction] at h1 h2
    by_cases hk : key = attr_graph
    · rw [if_pos hk] at h1
      contradiction
    · rw [if_neg hk] at h1 h2
      exact EncodeLocalFunction_fs use_external_data_format onnx_file_path add_node_names
        attributes enc fs1 fs2 graph_proto func_proto r1 r2 rest h1 h2
  | (key, .ts v) :: rest, h1, h2 => by
    simp only [EncodeLocalFunction] at h1 h2
    by_cases hk : key = attr_graph
    · rw [if_pos hk] at h1
      contradiction
    · rw [if_neg hk] at h1 h2
      exact EncodeLocalFunction_fs use_external_data_format onnx_file_path add_node_names
        attributes enc fs1 fs2 graph_proto func_proto r1 r2 rest h1 h2
  | (key, .other v) :: rest, h1, h2 => by
    simp only [EncodeLocalFunction] at h1 h2
    by_cases hk : key = attr_graph
    · rw [if_pos hk] at h1
      contradiction
    · rw [if_neg hk] at h1 h2
      exact EncodeLocalFunction_fs use_external_data_format onnx_file_path add_node_names
        attributes enc fs1 fs2 graph_proto func_proto r1 r2 rest h1 h2
theorem EncodeLocalFunction_nodes_fs (use_external_data_format : Bool)
    (onnx_file_path : String) (add_node_names : Bool) (enc : GraphEncoder)
    (fs1 fs2 : FileSystem) (graph_proto : GraphProto) (func_proto : FunctionProto)
    (custom_domains : List String) (r1 r2 : EncodedFunction) : ∀ (nodes : List Node),
    EncodeLocalFunction_nodes use_external_data_format onnx_file_path add_node_names nodes enc
        fs1 graph_proto func_proto custom_domains = .ok r1 →
    EncodeLocalFunction_nodes use_external_data_format onnx_file_path add_node_names nodes enc
        fs2 graph_proto func_proto custom_domains = .ok r2 →
    r1.func_proto = r2.func_proto ∧ r1.graph_proto = r2.graph_proto ∧ r1.encoder = r2.encoder
  | [], h1, h2 => by
    simp only [EncodeLocalFunction_nodes, Except.ok.injEq] at h1 h2
    rw [← h1, ← h2]
    exact ⟨rfl, rfl, rfl⟩
  | .mk kind inputs outputs blocks attributes isNone sr py :: rest, h1, h2 => by
    simp only [EncodeLocalFunction_nodes] at h1 h2
    by_cases hn : isNone = true
    · rw [if_pos hn] at h1 h2
      exact EncodeLocalFunction_nodes_fs use_external_data_format onnx_file_path
        add_node_names enc fs1 fs2 graph_proto func_proto custom_domains r1 r2 rest h1 h2
    · rw [if_neg hn] at h1 h2
      simp only [bind, Except.bind] at h1 h2
      cases hq1 : EncodeNode use_external_data_format onnx_file_path false add_node_names
          (.mk kind inputs outputs blocks attributes isNone sr py) enc fs1 graph_proto {} with
      | error e => simp [hq1] at h1
      | ok q1 =>
        cases hq2 : EncodeNode use_external_data_format onnx_file_path false add_node_names
            (.mk kind inputs outputs blocks attributes isNone sr py) enc fs2 graph_proto
            {} with
        | error e => simp [hq2] at h2
        | ok q2 =>
          simp only [hq1] at h1
          simp only [hq2] at h2
          obtain ⟨e1, e2, e3⟩ := EncodeNode_fs use_external_data_format onnx_file_path false
            add_node_names enc fs1 fs2 graph_proto {} q1 q2 _ hq1 hq2
          rw [e1, e2, e3] at h1
          exact EncodeLocalFunction_nodes_fs use_external_data_format onnx_file_path
            add_node_names _ q1.fs q2.fs _ _ _ r1 r2 rest h1 h2
end

/-- C36: two calls of `export_onnx` with the same graph, initializers, dynamic
axes, operator-set versions, policy flags, target location and override maps,
each of which constructs its own encoder, in any two states of the file system,
that both return, return the same model record, the same export map, the same
map of the symbolic dimensions and the same external-storage flag. -/
theorem C36_determinism (ext : Externals) (graph : Graph)
    (initializers : Initializers) (onnx_opset_version : Int) (dynamic_axes : DynamicAxes)
    (defer_weight_export : Bool) (operator_export_type : OperatorExportTypes)
    (strip_doc_string keep_initializers_as_inputs : Bool) (custom_opsets : List (String × Int))
    (add_node_names use_external_data_format : Bool) (onnx_file_path : String)
    (val_attr_to_name : Value → Option String)
    (node_attr_to_name : Node → Option (String → Option String)) (fs1 fs2 : FileSystem)
    (out1 out2 : Exported × FileSystem)
    (h1 : (export_onnx ext graph initializers onnx_opset_version dynamic_axes
      defer_weight_export operator_export_type strip_doc_string keep_initializers_as_inputs
      custom_opsets add_node_names use_external_data_format onnx_file_path val_attr_to_name
      node_attr_to_name fs1).result = .ok out1)
    (h2 : (export_onnx ext graph initializers onnx_opset_version dynamic_axes
      defer_weight_export operator_export_type strip_doc_string keep_initializers_as_inputs
      custom_opsets add_node_names use_external_data_format onnx_file_path val_attr_to_name
      node_attr_to_name fs2).result = .ok out2) :
    out1.1.model_proto = out2.1.model_proto ∧
    out1.1.raw_data_export_map = out2.1.raw_data_export_map ∧
    out1.1.symbol_dim_param_map = out2.1.symbol_dim_param_map ∧
    out1.1.use_external_data_format = out2.1.use_external_data_format := by
  unfold export_onnx at h1 h2
  simp only [bind, Except.bind, pure, Except.pure] at h1 h2
  split at h1
  · contradiction
  · rename_i session1 hsession1
    split at h2
    · contradiction
    · rename_i session2 hsession2
      simp only [Except.ok.injEq] at h1 h2
      obtain ⟨p1, r1, hp1, hr1, hs1⟩ := construct_ok ext graph onnx_opset_version
        operator_export_type initializers dynamic_axes defer_weight_export strip_doc_string
        keep_initializers_as_inputs custom_opsets add_node_names use_external_data_format
        onnx_file_path val_attr_to_name node_attr_to_name fs1 session1 hsession1
      obtain ⟨p2, r2, hp2, hr2, hs2⟩ := construct_ok ext graph onnx_opset_version
        operator_export_type initializers dynamic_axes defer_weight_export strip_doc_string
        keep_initializers_as_inputs custom_opsets add_node_names use_external_data_format
        onnx_file_path val_attr_to_name node_attr_to_name fs2 session2 hsession2
      have hp : p1 = p2 := Except.ok.inj (hp1.symm.trans hp2)
      subst hp
      obtain ⟨e1, e2⟩ := EncodeBlock_fs p1.use_external_data_format onnx_file_path true
        initializers dynamic_axes keep_initializers_as_inputs add_node_names p1.encoder fs1
        fs2 _ r1 r2 _ hr1 hr2
      have hsession : session1.encoder = session2.encoder := by
        rw [hs1, hs2]
        dsimp only
        rw [e1, e2]
      rw [← h1, ← h2]
      dsimp only
      rw [hsession]
      exact ⟨rfl, rfl, rfl, rfl⟩

/-- C36, witness: two sessions in external-storage mode on the graph
`exampleTensorsGraph`, one in an empty file system and one in a file system
that holds a file already, both return. -/
theorem C36_determinism_witness :
    ∃ out1 out2,
      (export_onnx exampleExternals exampleTensorsGraph [] 13 (fun _ => none) false .ONNX
        false true [] false true "m/model.onnx" (fun _ => none) (fun _ => none) {}).result =
        .ok out1 ∧
      (export_onnx exampleExternals exampleTensorsGraph [] 13 (fun _ => none) false .ONNX
        false true [] false true "m/model.onnx" (fun _ => none) (fun _ => none)
        exampleFileSystem).result = .ok out2 ∧
      out1.1.model_proto = out2.1.model_proto ∧
      out1.1.raw_data_export_map = out2.1.raw_data_export_map ∧
      out1.1.symbol_dim_param_map = out2.1.symbol_dim_param_map ∧
      out1.1.use_external_data_format = out2.1.use_external_data_format := by
  obtain ⟨out1, h1⟩ := exists_ok_of_threw_eq_false
    (export_onnx exampleExternals exampleTensorsGraph [] 13 (fun _ => none) false .ONNX
      false true [] false true "m/model.onnx" (fun _ => none) (fun _ => none) {}).result
    (by decide!)
  obtain ⟨out2, h2⟩ := exists_ok_of_threw_eq_false
    (export_onnx exampleExternals exampleTensorsGraph [] 13 (fun _ => none) false .ONNX
      false true [] false true "m/model.onnx" (fun _ => none) (fun _ => none)
      exampleFileSystem).result (by decide!)
  exact ⟨out1, out2, h1, h2, C36_determinism exampleExternals exampleTensorsGraph [] 13
    (fun _ => none) false .ONNX false true [] false true "m/model.onnx" (fun _ => none)
    (fun _ => none) {} exampleFileSystem out1 out2 h1 h2⟩

/-- The tensor records that the loop of `AddAttribute` over the tensors of an
attribute of kind `ts` adds for an operator record without a name, or outside
external-storage mode: in external-storage mode the names are numbered by the
counter `num_external_data_`, which goes up by one per tensor. -/
theorem AddAttribute_tensors_names (node_proto : NodeProto) (name : Symbol)
    (use_external_data_format : Bool) (onnx_file_path : String)
    (hname : use_external_data_format = true → node_proto.name = none) :
    ∀ (vs : List Tensor) (enc : GraphEncoder) (fs : FileSystem) (tensors : List TensorProto)
      (r : EncodedTensors),
      AddAttribute_tensors node_proto name use_external_data_format onnx_file_path vs enc fs
        tensors = .ok r →
      ∃ ps, r.tensors = tensors ++ ps ∧
        ps.map (fun p => p.name) =
          (List.range vs.length).map (fun k =>
            if use_external_data_format then
              some (node_proto.op_type.getD "" ++ "_" ++ name.toDisplayString ++ "_" ++
                toString (enc.num_external_data_ + k))
            else none) ∧
        r.encoder.num_external_data_ =
          enc.num_external_data_ + (if use_external_data_format then vs.length else 0)
  | [], enc, fs, tensors, r, h => by
    simp only [AddAttribute_tensors, Except.ok.injEq] at h
    rw [← h]
    exact ⟨[], by simp, by simp, by simp⟩
  | v :: rest, enc, fs, tensors, r, h => by
    simp only [AddAttribute_tensors, bind, Except.bind] at h
    split at h
    · contradiction
    · rename_i q hq
      obtain ⟨h1, h2⟩ := AddAttribute_tensor_ok enc fs node_proto name v
        use_external_data_format onnx_file_path q hq
      obtain ⟨ps, e1, e2, e3⟩ := AddAttribute_tensors_names node_proto name
        use_external_data_format onnx_file_path hname rest q.encoder q.fs _ r h
      refine ⟨q.tensor_proto :: ps, by rw [e1]; simp, ?_, ?_⟩
      · rw [List.map_cons, e2, h1, List.length_cons, List.range_succ_eq_map, List.map_cons,
          List.map_map]
        cases hu : use_external_data_format with
        | false =>
          simp only [Bool.false_eq_true, if_false]
          rfl
        | true =>
          have hn := hname hu
          simp only [hu, if_true] at h2
          simp only [if_true, createAttributeTensorName, hn, Nat.add_zero, h2, List.cons.injEq,
            true_and]
          apply List.map_congr_left
          intro k _
          simp only [Function.comp_apply, Nat.succ_eq_add_one]
          rw [Nat.add_assoc, Nat.add_comm 1 k]
      · rw [e3, h2]
        cases hu : use_external_data_format with
        | false => simp
        | true =>
          have hn := hname hu
          simp only [if_true, createAttributeTensorName, hn, List.length_cons]
          omega

/-- C29 (as amended): the record of a tensor attribute that `AddAttribute`
returns holds one tensor record; in external-storage mode its name is
`<node name>_<attribute display name>` when the operator record has a name, and
`<operator type>_<attribute display name>_<counter>` when it has none, the
counter `num_external_data_` then going up by one; outside external-storage
mode it has no name. The record of a tensor-list attribute of an operator
record that has no name holds one tensor record per tensor; in external-storage
mode their names are `<operator type>_<attribute display name>_<counter>` with
the successive values of the counter, and outside it they have no name. -/
theorem C29_attribute_tensor_name (use_external_data_format : Bool)
    (onnx_file_path : String) (name : Symbol) (enc : GraphEncoder) (fs : FileSystem)
    (node_proto : NodeProto) (r : Encoded NodeProto) :
    (∀ v, AddAttribute use_external_data_format onnx_file_path name (.t v) enc fs node_proto =
        .ok r →
      ∃ p, r.value = node_proto.add_attribute
          { name := some name.toUnqualString, type := some .TENSOR, t := some p } ∧
        p.name =
          (if use_external_data_format then
            match node_proto.name with
            | some node_name => some (node_name ++ "_" ++ name.toDisplayString)
            | none =>
              some (node_proto.op_type.getD "" ++ "_" ++ name.toDisplayString ++ "_" ++
                toString enc.num_external_data_)
          else none) ∧
        r.encoder.num_external_data_ =
          enc.num_external_data_ +
            (if use_external_data_format && node_proto.name.isNone then 1 else 0)) ∧
    (∀ vs, (use_external_data_format = true → node_proto.name = none) →
      AddAttribute use_external_data_format onnx_file_path name (.ts vs) enc fs node_proto =
        .ok r →
      ∃ ps, r.value = node_proto.add_attribute
          { name := some name.toUnqualString, type := some .TENSORS, tensors := ps } ∧
        ps.map (fun p => p.name) =
          (List.range vs.length).map (fun k =>
            if use_external_data_format then
              some (node_proto.op_type.getD "" ++ "_" ++ name.toDisplayString ++ "_" ++
                toString (enc.num_external_data_ + k))
            else none) ∧
        r.encoder.num_external_data_ =
          enc.num_external_data_ + (if use_external_data_format then vs.length else 0)) := by
  constructor
  · intro v h
    simp only [AddAttribute, bind, Except.bind, pure, Except.pure] at h
    split at h
    · contradiction
    · rename_i attr hattr
      split at h
      · contradiction
      · rename_i q hq
        simp only [Except.ok.injEq] at h
        obtain ⟨_, hnew⟩ := AddAttribute_new_ok name attr hattr
        subst hnew
        obtain ⟨h1, h2⟩ := AddAttribute_tensor_ok enc fs _ name v use_external_data_format
          onnx_file_path q hq
        refine ⟨q.tensor_proto, by rw [← h], ?_, ?_⟩
        · rw [h1]
          cases use_external_data_format with
          | false => rfl
          | true =>
            cases hn : node_proto.name <;>
              simp [createAttributeTensorName, NodeProtoOf.add_attribute, hn]
        · rw [← h]
          simp only []
          rw [h2]
          cases use_external_data_format with
          | false => simp
          | true =>
            cases hn : node_proto.name <;>
              simp [createAttributeTensorName, NodeProtoOf.add_attribute, hn]
  · intro vs hname h
    simp only [AddAttribute, bind, Except.bind, pure, Except.pure] at h
    split at h
    · contradiction
    · rename_i attr hattr
      split at h
      · contradiction
      · rename_i q hq
        simp only [Except.ok.injEq] at h
        obtain ⟨_, hnew⟩ := AddAttribute_new_ok name attr hattr
        subst hnew
        obtain ⟨ps, e1, e2, e3⟩ := AddAttribute_tensors_names
          (node_proto.add_attribute { name := some name.toUnqualString }) name
          use_external_data_format onnx_file_path hname vs enc fs _ q hq
        refine ⟨ps, ?_, e2, ?_⟩
        · rw [← h]
          simp only []
          rw [e1]
          simp
        · rw [← h]
          exact e3

/-- C29 (as amended), witness: in external-storage mode, the two tensors of the
attribute `values` of an operator record `Foo` without a name are named
`Foo_attr::values_0` and `Foo_attr::values_1`, and the counter ends at 2; the
tensor of the attribute `value` of the operator record `Constant_0` is named
`Constant_0_attr::value`. -/
theorem C29_attribute_tensor_name_witness :
    (∃ r ps, AddAttribute true "m/model.onnx" ⟨.attr, "values"⟩
        (.ts [exampleLargeTensor, exampleLargeTensorB]) {} {} { op_type := some "Foo" } =
          .ok r ∧
      r.value = NodeProtoOf.add_attribute { op_type := some "Foo" }
        { name := some "values", type := some .TENSORS, tensors := ps } ∧
      ps.map (fun p => p.name) = [some "Foo_attr::values_0", some "Foo_attr::values_1"] ∧
      r.encoder.num_external_data_ = 2) ∧
    (∃ r p, AddAttribute true "m/model.onnx" ⟨.attr, "value"⟩ (.t exampleScalarTensor) {} {}
        { op_type := some "Constant", name := some "Constant_0" } = .ok r ∧
      r.value = NodeProtoOf.add_attribute
        { op_type := some "Constant", name := some "Constant_0" }
        { name := some "value", type := some .TENSOR, t := some p } ∧
      p.name = some "Constant_0_attr::value" ∧ r.encoder.num_external_data_ = 0) := by
  constructor
  · obtain ⟨r, hr⟩ := exists_ok_of_threw_eq_false
      (AddAttribute true "m/model.onnx" ⟨.attr, "values"⟩
        (.ts [exampleLargeTensor, exampleLargeTensorB]) {} {} { op_type := some "Foo" })
      (by decide!)
    obtain ⟨ps, e1, e2, e3⟩ := (C29_attribute_tensor_name true "m/model.onnx"
      ⟨.attr, "values"⟩ {} {} { op_type := some "Foo" } r).2
      [exampleLargeTensor, exampleLargeTensorB] (fun _ => rfl) hr
    exact ⟨r, ps, hr, e1, e2.trans (by decide), e3.trans (by decide)⟩
  · obtain ⟨r, hr⟩ := exists_ok_of_threw_eq_false
      (AddAttribute true "m/model.onnx" ⟨.attr, "value"⟩ (.t exampleScalarTensor) {} {}
        { op_type := some "Constant", name := some "Constant_0" }) (by decide!)
    obtain ⟨p, e1, e2, e3⟩ := (C29_attribute_tensor_name true "m/model.onnx"
      ⟨.attr, "value"⟩ {} {} { op_type := some "Constant", name := some "Constant_0" } r).1
      exampleScalarTensor hr
    exact ⟨r, p, hr, e1, e2.trans (by decide), e3.trans (by decide)⟩

/-- The loop of `GetGraphProtoSize` returns the sum, in an `unsigned long
long`, of what it started from and of the serialized sizes of the records of
the inputs that have an initializer. -/
theorem GetGraphProtoSize_loop_sum (ByteSizeLong : TensorProto → Nat)
    (initializers : Initializers) :
    ∀ (inputs : List Value) (sizes s : Nat), sizes < 2 ^ 64 →
      GetGraphProtoSize_loop ByteSizeLong initializers inputs sizes = .ok s →
      s = (sizes + ((inputs.filterMap (fun v => findInitializer initializers v.debugName)).map
        (fun e => ByteSizeLong (probedInitializerRecord e.2))).sum) % 2 ^ 64
  | [], sizes, s, hlt, h => by
    simp only [GetGraphProtoSize_loop, Except.ok.injEq] at h
    rw [← h]
    simp only [List.filterMap_nil, List.map_nil, List.sum_nil, Nat.add_zero]
    exact (Nat.mod_eq_of_lt hlt).symm
  | input :: rest, sizes, s, hlt, h => by
    simp only [GetGraphProtoSize_loop] at h
    cases hf : findInitializer initializers input.debugName with
    | none =>
      simp only [hf] at h
      simp only [List.filterMap_cons, hf]
      exact GetGraphProtoSize_loop_sum ByteSizeLong initializers rest sizes s hlt h
    | some e =>
      simp only [hf, bind, Except.bind] at h
      cases ht : ATenTypeToOnnxType e.2.scalar_type with
      | error f => simp [ht] at h
      | ok data_type =>
        simp only [ht] at h
        have hrec := GetGraphProtoSize_loop_sum ByteSizeLong initializers rest _ s
          (Nat.mod_lt _ (by norm_num)) h
        have hrecord : probedInitializerRecord e.2 =
            { dims := e.2.sizes, data_type := some data_type
              raw_data := some
                ((if e.2.is_quantized then e.2.contiguous else e.2.contiguous.cpu).data_ptr
                  ((if e.2.is_quantized then e.2.contiguous else e.2.contiguous.cpu).element_size *
                    (if e.2.is_quantized then e.2.contiguous
                      else e.2.contiguous.cpu).numel)) } := by
          simp only [probedInitializerRecord, ht, Except.toOption]
        rw [hrec]
        simp only [List.filterMap_cons, hf, List.map_cons, List.sum_cons, hrecord]
        rw [Nat.add_mod, Nat.mod_mod, ← Nat.add_mod, Nat.add_assoc]

/-- When the constructor gets past the size probe with the caller's flag off
and a target location, `GetGraphProtoSize` has returned. -/
theorem prepare_probed (ext : Externals) (graph : Graph) (onnx_opset_version : Int)
    (operator_export_type : OperatorExportTypes) (initializers : Initializers)
    (defer_weight_export strip_doc : Bool) (custom_opsets : List (String × Int))
    (onnx_file_path : String) (val_attr_to_name : Value → Option String)
    (node_attr_to_name : Node → Option (String → Option String)) (p : Prepared)
    (hpath : onnx_file_path ≠ "")
    (h : (GraphEncoder.prepare ext graph onnx_opset_version operator_export_type initializers
      defer_weight_export strip_doc custom_opsets false onnx_file_path
      val_attr_to_name node_attr_to_name).result = .ok p) :
    ∃ s, GetGraphProtoSize ext.ByteSizeLong graph initializers = .ok s := by
  unfold GraphEncoder.prepare at h
  dsimp only at h
  rw [GetGraphProtoSize_validated] at h
  cases hs : GetGraphProtoSize ext.ByteSizeLong graph initializers with
  | ok s => exact ⟨s, rfl⟩
  | error e =>
    cases hv : (validateGraph ext.toString graph operator_export_type).result <;>
      simp [hv, hpath, hs, bind, Except.bind] at h

/-- C35: the external-storage flag that `export_onnx` returns after a session
that succeeded is the caller's flag, or else whether the target location is not
empty and the sum of the serialized sizes of the initializer tensor records,
one for each graph input that has an initializer, taken in an `unsigned long
long`, exceeds `2^31 - 1`; the sum does not wrap below `2^64` bytes; the probe
does not switch the mode without a target location, nor when the sum is exactly
`2^31 - 1`. With distinct keys, distinct input names and every key the name of
an input, the sum is the sum over all entries of the initializers. -/
theorem C35_external_storage_flag (ext : Externals) (graph : Graph)
    (initializers : Initializers) (onnx_opset_version : Int) (dynamic_axes : DynamicAxes)
    (defer_weight_export : Bool) (operator_export_type : OperatorExportTypes)
    (strip_doc_string keep_initializers_as_inputs : Bool) (custom_opsets : List (String × Int))
    (add_node_names use_external_data_format : Bool) (onnx_file_path : String)
    (val_attr_to_name : Value → Option String)
    (node_attr_to_name : Node → Option (String → Option String)) (fs : FileSystem)
    (out : Exported × FileSystem)
    (h : (export_onnx ext graph initializers onnx_opset_version dynamic_axes
      defer_weight_export operator_export_type strip_doc_string keep_initializers_as_inputs
      custom_opsets add_node_names use_external_data_format onnx_file_path val_attr_to_name
      node_attr_to_name fs).result = .ok out) :
    out.1.use_external_data_format =
      (use_external_data_format ||
        (decide (onnx_file_path ≠ "") &&
          decide (summedInitializerSize ext.ByteSizeLong graph initializers % 2 ^ 64 >
            2 ^ 31 - 1))) ∧
    (summedInitializerSize ext.ByteSizeLong graph initializers < 2 ^ 64 →
      out.1.use_external_data_format =
        (use_external_data_format ||
          (decide (onnx_file_path ≠ "") &&
            decide (summedInitializerSize ext.ByteSizeLong graph initializers > 2 ^ 31 - 1)))) ∧
    (onnx_file_path = "" → out.1.use_external_data_format = use_external_data_format) ∧
    (summedInitializerSize ext.ByteSizeLong graph initializers = 2 ^ 31 - 1 →
      out.1.use_external_data_format = use_external_data_format) ∧
    ((initializers.map Prod.fst).Nodup → (graph.block.inputs.map Value.debugName).Nodup →
      (∀ e ∈ initializers, e.1 ∈ graph.block.inputs.map Value.debugName) →
      summedInitializerSize ext.ByteSizeLong graph initializers =
        (initializers.map (fun e => ext.ByteSizeLong (probedInitializerRecord e.2))).sum) := by
  unfold export_onnx at h
  simp only [bind, Except.bind, pure, Except.pure] at h
  split at h
  · contradiction
  · rename_i session hsession
    simp only [Except.ok.injEq] at h
    obtain ⟨p, r, hp, hr, hs⟩ := construct_ok ext graph onnx_opset_version
      operator_export_type initializers dynamic_axes defer_weight_export strip_doc_string
      keep_initializers_as_inputs custom_opsets add_node_names use_external_data_format
      onnx_file_path val_attr_to_name node_attr_to_name fs session hsession
    obtain ⟨hflag1, hflag2⟩ := prepare_flag ext graph onnx_opset_version operator_export_type
      initializers defer_weight_export strip_doc_string custom_opsets use_external_data_format
      onnx_file_path val_attr_to_name node_attr_to_name p hp
    have hkeep := (EncodeBlock_counter p.use_external_data_format onnx_file_path true
      initializers dynamic_axes keep_initializers_as_inputs add_node_names p.encoder fs _ r _
      hr).1.2.2.2.1
    have hout : out.1.use_external_data_format = p.use_external_data_format := by
      rw [← h, hs]
      exact hkeep.trans hflag1
    have hmain : p.use_external_data_format =
        (use_external_data_format ||
          (decide (onnx_file_path ≠ "") &&
            decide (summedInitializerSize ext.ByteSizeLong graph initializers % 2 ^ 64 >
              2 ^ 31 - 1))) := by
      cases hu : use_external_data_format with
      | true =>
        rw [hflag2, hu]
        rfl
      | false =>
        by_cases hpath : onnx_file_path = ""
        · rw [hflag2, hu]
          simp [hpath]
        · rw [hu] at hp
          obtain ⟨s, hsize⟩ := prepare_probed ext graph onnx_opset_version
            operator_export_type initializers defer_weight_export strip_doc_string
            custom_opsets onnx_file_path val_attr_to_name node_attr_to_name p hpath hp
          have hsum := GetGraphProtoSize_loop_sum ext.ByteSizeLong initializers
            graph.block.inputs 0 s (by norm_num) hsize
          rw [Nat.zero_add] at hsum
          rw [hflag2, hu, hsize]
          simp only [summedInitializerSize, hsum]
    refine ⟨hout.trans hmain, fun hlt => ?_, fun hpath => ?_, fun hsize => ?_,
      fun hkeys hnames hsub => ?_⟩
    · rw [hout, hmain, Nat.mod_eq_of_lt hlt]
    · rw [hout, hmain]
      simp [hpath]
    · rw [hout, hmain, hsize]
      simp
    · unfold summedInitializerSize
      exact ((filterMap_findInitializer_perm initializers graph.block.inputs hkeys hnames
        hsub).map _).sum_eq

/-- C35, witness: with a target location and the caller's flag off, two
initializers of `2^30 + 16` serialized bytes each, neither of which exceeds
`2^31 - 1` alone, switch the mode on; one of them alone does not. -/
theorem C35_external_storage_flag_witness :
    (∃ out, (export_onnx exampleSizedExternals exampleTwoInitializersGraph
        [("v", exampleGiBTensor), ("w", exampleGiBTensor)] 13 (fun _ => none) false .ONNX
        false true [] false false "/tmp/model/m.onnx" (fun _ => none) (fun _ => none)
        {}).result = .ok out ∧
      out.1.use_external_data_format = true) ∧
    (∃ out, (export_onnx exampleSizedExternals exampleTwoInitializersGraph
        [("w", exampleGiBTensor)] 13 (fun _ => none) false .ONNX false true [] false false
        "/tmp/model/m.onnx" (fun _ => none) (fun _ => none) {}).result = .ok out ∧
      out.1.use_external_data_format = false) ∧
    summedInitializerSize exampleSizedExternals.ByteSizeLong exampleTwoInitializersGraph
      [("v", exampleGiBTensor), ("w", exampleGiBTensor)] = 2 ^ 31 + 32 ∧
    summedInitializerSize exampleSizedExternals.ByteSizeLong exampleTwoInitializersGraph
      [("w", exampleGiBTensor)] = 2 ^ 30 + 16 := by
  refine ⟨?_, ?_, by decide!, by decide!⟩
  · obtain ⟨out, hout⟩ := exists_ok_of_threw_eq_false
      (export_onnx exampleSizedExternals exampleTwoInitializersGraph
        [("v", exampleGiBTensor), ("w", exampleGiBTensor)] 13 (fun _ => none) false .ONNX
        false true [] false false "/tmp/model/m.onnx" (fun _ => none) (fun _ => none)
        {}).result (by decide!)
    refine ⟨out, hout, ?_⟩
    rw [(C35_external_storage_flag _ _ _ _ _ _ _ _ _ _ _ _ _ _ _ _ out hout).1]
    decide!
  · obtain ⟨out, hout⟩ := exists_ok_of_threw_eq_false
      (export_onnx exampleSizedExternals exampleTwoInitializersGraph
        [("w", exampleGiBTensor)] 13 (fun _ => none) false .ONNX false true [] false false
        "/tmp/model/m.onnx" (fun _ => none) (fun _ => none) {}).result (by decide!)
    refine ⟨out, hout, ?_⟩
    rw [(C35_external_storage_flag _ _ _ _ _ _ _ _ _ _ _ _ _ _ _ _ out hout).1]
    decide!

/-- C16, witness: the value `s` carries the symbolic dimension 0 at the axes 0
and 2; with the override map that names axis 0 of `b` only, both axes are
emitted under the name `s_dim_0`, and so is axis 1 of the value `c`, encoded
afterwards in the same session. -/
theorem C16_name_stability_without_override_witness :
    (tensorTypeToONNXType_axes exampleDynamicAxesB exampleSharedValue
        exampleSharedValue.debugName 0 [.symbolic 0, .static 3, .symbolic 0] {}
        (fun _ => none)).1.dim =
      [.dim_param "s_dim_0", .dim_value 3, .dim_param "s_dim_0"] ∧
    ∃ y,
      (tensorTypeToONNXType_axes exampleDynamicAxesB exampleSharedValue
        exampleSharedValue.debugName 0 [.symbolic 0, .static 3, .symbolic 0] {}
        (fun _ => none)).1.dim[0]? = some (.dim_param y) ∧
      (tensorTypeToONNXType_axes exampleDynamicAxesB exampleSharedValue
        exampleSharedValue.debugName 0 [.symbolic 0, .static 3, .symbolic 0] {}
        (fun _ => none)).1.dim[2]? = some (.dim_param y) ∧
      (tensorTypeToONNXType_axes exampleDynamicAxesB exampleSharedValue
        exampleSharedValue.debugName 0 [.symbolic 0, .static 3, .symbolic 0] {}
        (fun _ => none)).2 (.symbolic 0) = some y ∧
      (tensorTypeToONNXType_axes exampleDynamicAxesB exampleLaterValue
        exampleLaterValue.debugName 0 [.static 5, .symbolic 0] {}
        (tensorTypeToONNXType_axes exampleDynamicAxesB exampleSharedValue
          exampleSharedValue.debugName 0 [.symbolic 0, .static 3, .symbolic 0] {}
          (fun _ => none)).2).1.dim[1]? = some (.dim_param y) := by
  refine ⟨by decide, ?_⟩
  obtain ⟨y, hdesc, hlater, hbound, hnext⟩ :=
    C16_name_stability_without_override exampleDynamicAxesB exampleSharedValue
      [.symbolic 0, .static 3, .symbolic 0] (fun _ => none) 0 0 rfl (fun _ _ _ => rfl)
  exact ⟨y, hdesc, hlater 2 (by decide) rfl, hbound,
    (hnext exampleLaterValue [.static 5, .symbolic 0] _ hbound (fun _ _ => rfl)).1 1 rfl⟩

end TorchJit
